import Mathlib

/-!
# beeorm event broker: the consumer-group engine

A shallow embedding of `event_broker.go`.  The stream store, the lock service, the
clock and the user callbacks are collaborators of the engine: every call the engine makes
on one of them is appended to a trace, and what a collaborator answers is read from an
environment `Env W` over an abstract world `W`.  Go panics are explicit results.

Conventions of the model:

* a call of a user callback is the list of the `Ack()` and `delete()` operations it
  performs on the events it was given, followed by a return or a panic; whatever else it
  does is a move of the world;
* the variables shared with the heartbeat goroutine (`canceled`, `hasLock`,
  `lockAcquired`) are read from the world;
* a Go map is a list of entries in insertion order, and no statement depends on the order
  in which a map is iterated;
* times and durations are integers in nanoseconds, without overflow;
* the loops `for { ... }` take a bound on their iterations (`fuel`); running out of it is
  the outcome `outOfFuel`, which is neither a return nor a panic.
-/

namespace Beeorm

/-! ## Go values -/

/-- Go `error` value, identified by the text its `Error()` method returns. -/
structure GoError where
  text : String
deriving DecidableEq, Repr

/-- The non-nil value carried by a Go panic: an `error`, or any other value, kept as the
text that the verb `%v` prints for it. -/
inductive PanicValue where
  | error (e : GoError)
  | value (text : String)
deriving DecidableEq, Repr

/-- The call `fmt.Errorf("%v", rec)` on a value whose `%v` text is `text`. -/
def fmtErrorf (text : String) : GoError := ⟨text⟩

/-- How a piece of Go code ends: it returns a value, it panics, or the model ran out of
the fuel that bounds the unbounded `for` loops. -/
inductive Outcome (α : Type) where
  | ok (a : α)
  | panicked (v : PanicValue)
  | outOfFuel
deriving DecidableEq, Repr

/-! ## Store records (`go-redis`) -/

/-- The record `redis.XMessage`. -/
structure XMessage where
  ID : String
  Values : List (String × String)
deriving DecidableEq, Repr

/-- The record `redis.XStream`: one row of a group read. -/
structure XStream where
  Stream : String
  Messages : List XMessage
deriving DecidableEq, Repr

/-- The record `redis.XPendingExt`: one pending entry (`Idle` in nanoseconds). -/
structure XPendingExt where
  ID : String
  Consumer : String
  Idle : Int
  RetryCount : Int
deriving DecidableEq, Repr

/-- The record `redis.XPendingExtArgs`. -/
structure XPendingExtArgs where
  Stream : String
  Group : String
  Start : String
  End : String
  Count : Int
deriving DecidableEq, Repr

/-- The record `redis.XClaimArgs`. -/
structure XClaimArgs where
  Stream : String
  Group : String
  Consumer : String
  MinIdle : Int
  Messages : List String
deriving DecidableEq, Repr

/-- The record `redis.XReadGroupArgs`. -/
structure XReadGroupArgs where
  Group : String
  Consumer : String
  Streams : List String
  Count : Int
  Block : Int
deriving DecidableEq, Repr

/-! ## Events -/

/-- The struct `event`.  The `consumer` back pointer is the consumer that runs the
dispatch; its group is passed to `Ack` and `delete`. -/
structure event where
  stream : String
  message : XMessage
  ack : Bool
  deleted : Bool
deriving DecidableEq, Repr

/-- The struct `garbageCollectorEvent`. -/
structure garbageCollectorEvent where
  Group : String
  Pool : String
deriving DecidableEq, Repr

/-- The struct `speedHandler`: the query counters of the speed logger. -/
structure speedHandler where
  DBQueries : Int
  DBMicroseconds : Int
  RedisQueries : Int
  RedisMicroseconds : Int
deriving DecidableEq, Repr

/-- One command queued on a store pipeline. -/
inductive PipelineCommand where
  | expire (key : String) (ttl : Int)
  | hIncrBy (key field : String) (incr : Int)
  | xAdd (stream : String) (values : List String)
deriving DecidableEq, Repr

/-- A call of the engine on one of its collaborators, in the order the calls are made. -/
inductive Call where
  | obtain (name : String) (ttl : Int)
  | release (name : String)
  | hSet (key field value : String)
  | hGetAll (key : String)
  | xGroupCreateMkStream (stream group start : String)
  | xPendingExt (a : XPendingExtArgs)
  | xClaimJustID (a : XClaimArgs)
  | xReadGroup (a : XReadGroupArgs)
  | xAck (stream group : String) (ids : List String)
  | xDel (stream id : String)
  | publish (stream : String) (body : garbageCollectorEvent)
  | pipelineExec (commands : List PipelineCommand)
  | speedLoggerClear
  | handler (events : List event)
  | handlerDone (panic : Option PanicValue)
  | errorHandler (err : GoError) (e : event)
  | errorHandlerDone (panic : Option PanicValue)
  | sleep (d : Int)
deriving DecidableEq, Repr

/-- An operation of a callback on one of the events it was given, by position in the
list it received: `Event.Ack()` or the package-private `delete()`. -/
inductive EventOp where
  | Ack (i : Nat)
  | delete (i : Nat)
deriving DecidableEq, Repr

/-- What one call of a user callback does: the operations it performs on its events, in
order, and then either a normal return (`none`) or a panic. -/
structure HandlerRun where
  ops : List EventOp
  panic : Option PanicValue
deriving DecidableEq, Repr

/-- The type `EventConsumerHandler`, as a function of the world it runs in. -/
abbrev EventConsumerHandler (W : Type) := W → List event → HandlerRun

/-- The type `ConsumerErrorHandler`; position 0 of its operations is the event it got. -/
abbrev ConsumerErrorHandler (W : Type) := W → GoError → event → HandlerRun

/-- The collaborators of the engine: what they answer in a given world, and how a call
moves the world on.  Times are nanoseconds (since the epoch for `now`). -/
structure Env (W : Type) where
  step : W → Call → W
  now : W → Int
  canceled : W → Bool
  hasLock : W → Bool
  refreshedAt : W → Option Int
  hGetAll : W → String → List (String × String)
  xPendingExt : W → XPendingExtArgs → List XPendingExt
  xReadGroup : W → XReadGroupArgs → List XStream
  speedLogger : W → speedHandler
  today : W → String
  garbageCollectorChannelName : String

/-- The structs `eventConsumerBase` and `eventsConsumer`; `poolCode` stands for
`r.redis.config.GetCode()`.  Durations are nanoseconds. -/
structure eventsConsumer (W : Type) where
  loop : Bool
  limit : Int
  errorHandler : Option (ConsumerErrorHandler W)
  blockTime : Int
  poolCode : String
  nr : Nat
  speedPrefixKey : String
  deadConsumers : Nat
  speedEvents : Int
  speedDBQueries : Int
  speedDBMicroseconds : Int
  speedRedisQueries : Int
  speedRedisMicroseconds : Int
  speedTimeMicroseconds : Int
  speedLimit : Int
  nrString : String
  streams : List String
  group : String
  lockTTL : Int
  lockTick : Int
  minIdle : Int
  claimDuration : Int

/-- The state a pass of the engine runs in: the consumer, the names the lock service
holds, the world of the collaborators and the calls made so far. -/
structure State (W : Type) where
  r : eventsConsumer W
  held : List String
  world : W
  trace : List Call

variable {W : Type}

/-- Make one call: the world moves on and the call is recorded. -/
def emit (env : Env W) (st : State W) (c : Call) : State W :=
  { st with world := env.step st.world c, trace := st.trace ++ [c] }

/-- Make a list of calls in order. -/
def emitAll (env : Env W) (st : State W) : List Call → State W
  | [] => st
  | c :: cs => emitAll env (emit env st c) cs

/-! ## `event.Ack`, `event.delete` -/

/-- The method `(*event).Ack`: issues `XAck` for the one ID and sets the ack flag. -/
def event.Ack (ev : event) (group : String) : event × List Call :=
  ({ ev with ack := true }, [Call.xAck ev.stream group [ev.message.ID]])

/-- The method `(*event).delete`: `Ack`, then `XDel`, then the deleted flag. -/
def event.delete (ev : event) (group : String) : event × List Call :=
  let p := ev.Ack group
  ({ p.1 with deleted := true }, p.2 ++ [Call.xDel ev.stream ev.message.ID])

/-- One operation of a callback on the events it holds. -/
def applyOp (group : String) (evs : List event) : EventOp → List event × List Call
  | .Ack i =>
    match evs[i]? with
    | some ev => ((evs.set i (ev.Ack group).1), (ev.Ack group).2)
    | none => (evs, [])
  | .delete i =>
    match evs[i]? with
    | some ev => ((evs.set i (ev.delete group).1), (ev.delete group).2)
    | none => (evs, [])

/-- The operations of a callback, in order: the events afterwards and the store calls. -/
def applyOps (group : String) : List event → List EventOp → List event × List Call
  | evs, [] => (evs, [])
  | evs, op :: ops =>
    ((applyOps group (applyOp group evs op).1 ops).1,
      (applyOp group evs op).2 ++ (applyOps group (applyOp group evs op).1 ops).2)

/-! ## The dispatch of one batch (`consume`, lines 437-504) -/

/-- One call `handler(events)`: the events afterwards, and the recovered panic if any. -/
def callHandler (env : Env W) (handler : EventConsumerHandler W) (st : State W)
    (events : List event) : (List event × Option PanicValue) × State W :=
  let run := handler st.world events
  let st1 := emit env st (Call.handler events)
  let p := applyOps st.r.group events run.ops
  ((p.1, run.panic), emit env (emitAll env st1 p.2) (Call.handlerDone run.panic))

/-- The conversion of a recovered value to the error passed to the error handler. -/
def asErr : PanicValue → GoError
  | .error e => e
  | .value text => fmtErrorf text

/-- The replay loop `for _, e := range finalEvents` (lines 459-472). -/
def replay (env : Env W) (handler : EventConsumerHandler W) (eh : ConsumerErrorHandler W) :
    State W → List event → Outcome Unit × State W
  | st, [] => (.ok (), st)
  | st, e :: rest =>
    let h := callHandler env handler st [e]
    match h.1.2 with
    | none => replay env handler eh h.2 rest
    | some rec =>
      let e1 := h.1.1.headD e
      let run := eh h.2.world (asErr rec) e1
      let st2 := emit env h.2 (Call.errorHandler (asErr rec) e1)
      let st3 := emit env (emitAll env st2 (applyOps st.r.group [e1] run.ops).2)
        (Call.errorHandlerDone run.panic)
      match run.panic with
      | some v => (.panicked v, st3)
      | none => replay env handler eh st3 rest

/-- The closure of lines 448-480: `handler(events)` under the deferred recovery.  It
returns the value of the variable `events` afterwards. -/
def runHandler (env : Env W) (handler : EventConsumerHandler W) (st : State W)
    (events : List event) : Outcome (List event) × State W :=
  let h := callHandler env handler st events
  match h.1.2 with
  | none => (.ok h.1.1, h.2)
  | some rec =>
    match st.r.errorHandler with
    | some eh =>
      let finalEvents := h.1.1.filter (fun e => !e.ack)
      match replay env handler eh h.2 finalEvents with
      | (.ok _, st2) => (.ok [], st2)
      | (.panicked v, st2) => (.panicked v, st2)
      | (.outOfFuel, st2) => (.outOfFuel, st2)
    | none => (.panicked rec, h.2)

/-- The statement `toAck[stream] = append(toAck[stream], id)` on a map kept as a list of
entries in the order the keys were first set. -/
def toAckAppend : List (String × List String) → String → String → List (String × List String)
  | [], stream, id => [(stream, [id])]
  | (s, ids) :: rest, stream, id =>
    if s = stream then (s, ids ++ [id]) :: rest else (s, ids) :: toAckAppend rest stream id

/-- The loop of lines 488-498 over `events`, from given values of `toAck` and
`allDeleted`. -/
def ackScan : List event → List (String × List String) → Bool →
    List (String × List String) × Bool
  | [], toAck, allDeleted => (toAck, allDeleted)
  | ev :: rest, toAck, allDeleted =>
    if !ev.ack then ackScan rest (toAckAppend toAck ev.stream ev.message.ID) allDeleted
    else if !ev.deleted then ackScan rest toAck false
    else ackScan rest toAck allDeleted

/-- The method `garbage`: publishes the group and pool code on the control stream. -/
def garbage (env : Env W) (st : State W) : State W :=
  emit env st (Call.publish env.garbageCollectorChannelName
    { Group := st.r.group, Pool := st.r.poolCode })

/-- The calls `r.redis.XAck(stream, r.group, ids...)` of lines 502-504. -/
def ackCalls (group : String) (toAck : List (String × List String)) : List Call :=
  toAck.map (fun p => Call.xAck p.1 group p.2)

/-- Lines 486-504: what the engine does with `events` once the closure has returned. -/
def acknowledge (env : Env W) (st : State W) (events : List event) : State W :=
  let scan := ackScan events [] true
  let st1 := if !scan.2 then garbage env st else st
  emitAll env st1 (ackCalls st.r.group scan.1)

/-- Lines 437-444: the events of a group read, one per message, in row order. -/
def newEvents : List XStream → List event
  | [] => []
  | row :: rest =>
    row.Messages.map (fun m => { stream := row.Stream, message := m, ack := false,
                                 deleted := false }) ++ newEvents rest

/-- Lines 481-485: the speed counters after the handler ran from `start` on. -/
def addSpeed (env : Env W) (st : State W) (start : Int) : State W :=
  { st with r := { st.r with
      speedTimeMicroseconds :=
        st.r.speedTimeMicroseconds + Int.tdiv (env.now st.world - start) 1000
      speedDBQueries := st.r.speedDBQueries + (env.speedLogger st.world).DBQueries
      speedRedisQueries := st.r.speedRedisQueries + (env.speedLogger st.world).RedisQueries
      speedDBMicroseconds :=
        st.r.speedDBMicroseconds + (env.speedLogger st.world).DBMicroseconds
      speedRedisMicroseconds :=
        st.r.speedRedisMicroseconds + (env.speedLogger st.world).RedisMicroseconds } }

/-- Lines 445-446: the event counter grows and the speed logger is cleared. -/
def beginDispatch (env : Env W) (st : State W) (totalMessages : Int) : State W :=
  emit env { st with r := { st.r with speedEvents := st.r.speedEvents + totalMessages } }
    Call.speedLoggerClear

/-- Modelled from the spec: the function `getNow` of line 447, whose code is not among the
sources.  The spec has the engine accumulate the wall-clock duration of the handler, and
`Consumer` registers the speed logger as a logger of the Redis queries (line 212): the
call is taken to give the time of the clock. -/
@[reducible] def getNow (env : Env W) (st : State W) : Int := env.now st.world

/-- Lines 437-504: one dispatch batch, from the rows of a group read that returned
`totalMessages > 0` messages to the batched acknowledgment. -/
def dispatchBatch (env : Env W) (handler : EventConsumerHandler W) (st : State W)
    (results : List XStream) (totalMessages : Int) : Outcome Unit × State W :=
  let events := newEvents results
  let st2 := beginDispatch env st totalMessages
  let start := getNow env st2
  match runHandler env handler st2 events with
  | (.ok events1, st3) => (.ok (), acknowledge env (addSpeed env st3 start) events1)
  | (.panicked v, st3) => (.panicked v, st3)
  | (.outOfFuel, st3) => (.outOfFuel, st3)

/-! ## Text and numbers (`strconv`, `strings`, `fmt`) -/

/-- The function `strconv.Itoa` on a number that is not negative. -/
def Itoa (n : Nat) : String := Nat.repr n

/-- The function `strconv.FormatInt(n, 10)`, which is also what the verb `%d` prints. -/
def FormatInt (n : Int) : String :=
  if n < 0 then "-" ++ Nat.repr n.natAbs else Nat.repr n.toNat

/-- Decimal digits to a number; `none` when a character is not a digit. -/
def parseDigits : List Char → Nat → Option Nat
  | [], acc => some acc
  | c :: cs, acc => if c.isDigit then parseDigits cs (10 * acc + (c.toNat - 48)) else none

/-- A decimal integer with an optional sign; `none` on a syntax error. -/
def parseDecimal : List Char → Option Int
  | [] => none
  | '-' :: cs => if cs = [] then none else (parseDigits cs 0).map (fun n => - (n : Int))
  | '+' :: cs => if cs = [] then none else (parseDigits cs 0).map (fun n => (n : Int))
  | cs => (parseDigits cs 0).map (fun n => (n : Int))

/-- The largest `int64` (and `int` on a 64-bit platform). -/
def maxInt64 : Int := 9223372036854775807

/-- The value of `strconv.ParseInt(s, 10, 64)` and of `strconv.Atoi(s)` when the error is
dropped: 0 on a syntax error, the nearest bound on a range error. -/
def ParseInt (s : String) : Int :=
  match parseDecimal s.data with
  | some n => if n > maxInt64 then maxInt64 else if n < -maxInt64 - 1 then -maxInt64 - 1 else n
  | none => 0

/-- Two's complement wrap-around of 64-bit `int` arithmetic. -/
def wrapInt64 (n : Int) : Int := (n + 9223372036854775808) % 18446744073709551616 - 9223372036854775808

/-- The function `strings.Split(s, "-")` on the characters of `s`. -/
def splitOnDash : List Char → List (List Char)
  | [] => [[]]
  | c :: cs =>
    if c = '-' then [] :: splitOnDash cs
    else
      match splitOnDash cs with
      | [] => [[c]]
      | p :: ps => (c :: p) :: ps

/-- The run-time panic of `s[1]` on a slice of length 1. -/
def indexOutOfRange : PanicValue :=
  .error ⟨"runtime error: index out of range [1] with length 1"⟩

/-! ## Names -/

/-- The local `uniqueLockKey` of `consume`. -/
def uniqueLockKey (r : eventsConsumer W) : String := r.group ++ "_" ++ r.poolCode

/-- The local `runningKey` of `consume`. -/
def runningKey (r : eventsConsumer W) : String := uniqueLockKey r ++ "_running"

/-- The lock name tried for slot number `nr`. -/
def lockNameOf (r : eventsConsumer W) (nr : Nat) : String := uniqueLockKey r ++ "-" ++ Itoa nr

/-- The method `getName`. -/
def getName (r : eventsConsumer W) : String := r.group ++ "-" ++ r.nrString

/-- The method `incrementID`; `none` is the run-time panic of `s[1]` when the ID has no
dash. -/
def incrementID (id : String) : Option String :=
  match splitOnDash id.data with
  | s0 :: s1 :: _ =>
    some (String.mk s0 ++ "-" ++ FormatInt (wrapInt64 (ParseInt (String.mk s1) + 1)))
  | _ => none

/-- The constant `countPending`. -/
def countPending : Nat := 100

/-- The constant `speedHSetKey`. -/
def speedHSetKey : String := "_orm_ss"

/-- The unix time in seconds of a time in nanoseconds. -/
def unixSeconds (t : Int) : Int := t / 1000000000

/-! ## Times and durations (`time`) -/

/-- The constant `unixToInternal` of package `time`: the seconds from the first of January
of the year 1 to the first of January 1970. -/
def unixToInternal : Int := 62135596800

/-- The largest `time.Duration`, in nanoseconds. -/
def maxDuration : Int := 9223372036854775807

/-- The smallest `time.Duration`, in nanoseconds. -/
def minDuration : Int := -9223372036854775808

/-- The time `time.Unix(sec, 0)`, in nanoseconds since the epoch.  Package `time` keeps a
time as the seconds since the year 1 in an `int64`: the sum `sec + unixToInternal` wraps
around, so that a `sec` near the largest `int64` gives a time far in the past. -/
def time.Unix (sec : Int) : Int :=
  (wrapInt64 (sec + unixToInternal) - unixToInternal) * 1000000000

/-- The duration `t.Sub(u)` between two times in nanoseconds since the epoch: their
difference, and the largest or the smallest duration when the difference is not one.
The function `time.Since(u)` is `time.Now().Sub(u)`. -/
def time.Sub (t u : Int) : Int :=
  if t - u > maxDuration then maxDuration
  else if t - u < minDuration then minDuration
  else t - u

/-! ## Slot acquisition (`consume`, lines 276-297) -/

/-- The error of line 290. -/
def limitReached (r : eventsConsumer W) : PanicValue :=
  .error ⟨"consumer for group " ++ r.group ++ " limit " ++ FormatInt r.limit ++ " reached"⟩

/-- Modelled from the spec: the lock service call `locker.Obtain(name, ttl, 0)`, whose
code is not among the sources.  Given the names of the leases that are held, the lease
`name` is obtained exactly when it is not held, and is then held. -/
def Obtain (held : List String) (name : String) : Bool × List String :=
  if name ∈ held then (false, held) else (true, name :: held)

/-- Modelled from the spec: the lock service call `lock.Release()`, whose code is not
among the sources: the lease is no longer held. -/
def Release (held : List String) (name : String) : List String :=
  held.erase name

/-- The loop of lines 282-297, entered with the value `nr` of the counter.  The first
argument bounds the number of iterations; `acquire` passes a bound the loop cannot
reach. -/
def obtainLoop (env : Env W) : Nat → State W → Nat → Outcome String × State W
  | 0, st, _ => (.outOfFuel, st)
  | fuel + 1, st, nr =>
    let lockName := lockNameOf st.r (nr + 1)
    let st1 := emit env st (Call.obtain lockName st.r.lockTTL)
    if !(Obtain st1.held lockName).1 then
      if ((nr + 1 : Nat) : Int) < st.r.limit then obtainLoop env fuel st1 (nr + 1)
      else (.panicked (limitReached st.r), st1)
    else
      let st2 := { st1 with held := (Obtain st1.held lockName).2,
                            r := { st1.r with nr := nr + 1, nrString := Itoa (nr + 1) } }
      (.ok lockName, emit env st2 (Call.hSet (runningKey st2.r) st2.r.nrString
        (FormatInt (unixSeconds (env.now st2.world)))))

/-- Lines 279-297: the slot acquisition of a pass. -/
def acquire (env : Env W) (st : State W) : Outcome String × State W :=
  obtainLoop env (max st.r.limit 1).toNat st 0

/-! ## The pending phase (lines 346-392) -/

/-- The locals of a pass of `consume`.  The zero `time.Time` that `pendingCheckedTime`
holds before the first claim run is written as the time 0: like the zero time, it lies at
least a claim interval back at any clock later than `claimDuration` after the epoch. -/
structure Locals where
  lockName : String
  lockAcquired : Int
  lastIDs : List (String × String)
  pendingChecked : Bool
  pendingCheckedTime : Int
  b : Int
deriving DecidableEq, Repr

/-- The loop of lines 353-361 over the entries of the running map, at time `now`, from a
given value of `r.deadConsumers`. -/
def countDead (nrString : String) (claimDuration now : Int) :
    List (String × String) → Nat → Nat
  | [], dead => dead
  | (k, v) :: rest, dead =>
    if k = nrString then countDead nrString claimDuration now rest dead
    else if time.Sub now (time.Unix (ParseInt v)) ≥ claimDuration then
      countDead nrString claimDuration now rest (dead + 1)
    else countDead nrString claimDuration now rest dead

/-- The loop of lines 374-379 over one page of pending rows, from given values of `ids`
and `start`. -/
def scanPending (name : String) (minIdle : Int) :
    List XPendingExt → List String → String → Outcome (List String × String)
  | [], ids, start => .ok (ids, start)
  | row :: rest, ids, _ =>
    match incrementID row.ID with
    | some next =>
      scanPending name minIdle rest
        (if row.Consumer ≠ name ∧ row.Idle ≥ minIdle then ids ++ [row.ID] else ids) next
    | none => .panicked indexOutOfRange

/-- One iteration of the paging loop (lines 368-386) with the cursor `start`: the pending
query, the scan of the page and the claim call.  The result `some next` goes on to the
next page from the cursor `next`; `none` is a `break`. -/
def claimPage (env : Env W) (st : State W) (stream start : String) :
    Outcome (Option String) × State W :=
  let a : XPendingExtArgs :=
    { Stream := stream, Group := st.r.group, Start := start,
      End := FormatInt (Int.tdiv (env.now st.world - st.r.minIdle) 1000000),
      Count := countPending }
  let pending := env.xPendingExt st.world a
  let st1 := emit env st (Call.xPendingExt a)
  if pending.length = 0 then (.ok none, st1)
  else
    match scanPending (getName st.r) st.r.minIdle pending [] start with
    | .ok (ids, next) =>
      let st2 :=
        if ids.length > 0 then
          emit env st1 (Call.xClaimJustID
            { Consumer := getName st.r, Stream := stream, Group := st.r.group,
              MinIdle := st.r.minIdle, Messages := ids })
        else st1
      if pending.length < countPending then (.ok none, st2) else (.ok (some next), st2)
    | .panicked v => (.panicked v, st1)
    | .outOfFuel => (.outOfFuel, st1)

/-- The paging loop of lines 367-387 for one stream, entered with the cursor `start`. -/
def claimLoop (env : Env W) : Nat → State W → String → String → Outcome Unit × State W
  | 0, st, _, _ => (.outOfFuel, st)
  | fuel + 1, st, stream, start =>
    match claimPage env st stream start with
    | (.ok (some next), st1) => claimLoop env fuel st1 stream next
    | (.ok none, st1) => (.ok (), st1)
    | (.panicked v, st1) => (.panicked v, st1)
    | (.outOfFuel, st1) => (.outOfFuel, st1)

/-- The loop of lines 365-388 over the streams. -/
def claimStreams (env : Env W) (fuel : Nat) : State W → List String → Outcome Unit × State W
  | st, [] => (.ok (), st)
  | st, stream :: rest =>
    match claimLoop env fuel st stream "-" with
    | (.ok _, st1) => claimStreams env fuel st1 rest
    | (.panicked v, st1) => (.panicked v, st1)
    | (.outOfFuel, st1) => (.outOfFuel, st1)

/-- Lines 351-361: the dead-peer count is cleared, the running map is read and its
entries are counted. -/
def scanRunning (env : Env W) (st : State W) : State W :=
  let all := env.hGetAll st.world (runningKey st.r)
  let st1 := emit env { st with r := { st.r with deadConsumers := 0 } }
    (Call.hGetAll (runningKey st.r))
  let dead := countDead st1.r.nrString st1.r.claimDuration (env.now st1.world) all 0
  { st1 with r := { st1.r with deadConsumers := dead } }

/-- Lines 346-392: one visit of the key `pending`. -/
def pendingPhase (env : Env W) (fuel : Nat) (st : State W) (loc : Locals) :
    Outcome Unit × State W × Locals :=
  if loc.pendingChecked ∧ env.now st.world - loc.pendingCheckedTime < st.r.claimDuration then
    (.ok (), st, loc)
  else
    let st2 := scanRunning env st
    if st2.r.deadConsumers = 0 then (.ok (), st2, loc)
    else
      match claimStreams env fuel st2 st2.r.streams with
      | (.ok _, st3) =>
        (.ok (), st3, { loc with pendingChecked := true,
                                 pendingCheckedTime := env.now st3.world })
      | (.panicked v, st3) => (.panicked v, st3, loc)
      | (.outOfFuel, st3) => (.outOfFuel, st3, loc)

/-! ## The read loop (lines 393-527) -/

/-- The statement `m[key] = value` on a map kept as a list of entries. -/
def mapSet : List (String × String) → String → String → List (String × String)
  | [], key, value => [(key, value)]
  | (k, v) :: rest, key, value =>
    if k = key then (k, value) :: rest else (k, v) :: mapSet rest key value

/-- The expression `m[key]` of a Go map of strings: the empty string when absent. -/
def mapGet : List (String × String) → String → String
  | [], _ => ""
  | (k, v) :: rest, key => if k = key then v else mapGet rest key

/-- Lines 394-396: every stream's backlog cursor is set to "0". -/
def resetLastIDs (lastIDs : List (String × String)) : List String → List (String × String)
  | [] => lastIDs
  | stream :: rest => resetLastIDs (mapSet lastIDs stream "0") rest

/-- Lines 406-418: the `Streams` argument of the group read. -/
def readStreams (streams : List String) (lastIDs : List (String × String))
    (invalidCheck : Bool) : List String :=
  streams ++ streams.map (fun stream => if invalidCheck then mapGet lastIDs stream else ">")

/-- Lines 424-433: the total number of messages, and the backlog cursors afterwards. -/
def countMessages (invalidCheck : Bool) :
    List XStream → Int → List (String × String) → Int × List (String × String)
  | [], total, lastIDs => (total, lastIDs)
  | row :: rest, total, lastIDs =>
    match row.Messages.getLast? with
    | some last =>
      countMessages invalidCheck rest (total + row.Messages.length)
        (if invalidCheck then mapSet lastIDs row.Stream last.ID else lastIDs)
    | none => countMessages invalidCheck rest total lastIDs

/-- Lines 505-523: the telemetry flush after a dispatch. -/
def flushSpeed (env : Env W) (st : State W) : State W :=
  if st.r.speedEvents ≥ st.r.speedLimit then
    let key := speedHSetKey ++ env.today st.world
    let st1 := emit env st (Call.pipelineExec
      [ .expire key (216 * 3600 * 1000000000),
        .hIncrBy key (st.r.speedPrefixKey ++ "e") st.r.speedEvents,
        .hIncrBy key (st.r.speedPrefixKey ++ "t") st.r.speedTimeMicroseconds,
        .hIncrBy key (st.r.speedPrefixKey ++ "d") st.r.speedDBQueries,
        .hIncrBy key (st.r.speedPrefixKey ++ "dt") st.r.speedDBMicroseconds,
        .hIncrBy key (st.r.speedPrefixKey ++ "r") st.r.speedRedisQueries,
        .hIncrBy key (st.r.speedPrefixKey ++ "rt") st.r.speedRedisMicroseconds ])
    { st1 with r := { st1.r with speedEvents := 0, speedDBQueries := 0, speedRedisQueries := 0,
                                 speedTimeMicroseconds := 0, speedDBMicroseconds := 0,
                                 speedRedisMicroseconds := 0 } }
  else st

/-- The value of the shared variable `lockAcquired`: the time of the last refresh by the
heartbeat, or the time the lease was acquired. -/
def lockAcquiredAt (env : Env W) (st : State W) (loc : Locals) : Int :=
  match env.refreshedAt st.world with
  | some t => t
  | none => loc.lockAcquired

/-- The loop of lines 398-527 for the key "0" (`invalidCheck`) or ">".  The result
`some valid` is a `return valid` of `consume`; `none` leaves the loop for the next key
(`continue KEYS` and `break` alike). -/
def readLoop (env : Env W) (handler : EventConsumerHandler W) (count : Int)
    (invalidCheck : Bool) : Nat → State W → Locals → Outcome (Option Bool) × State W × Locals
  | 0, st, loc => (.outOfFuel, st, loc)
  | fuel + 1, st, loc =>
    if env.canceled st.world then (.ok (some true), st, loc)
    else if !env.hasLock st.world ∨ env.now st.world - lockAcquiredAt env st loc > st.r.lockTTL
    then (.ok (some false), st, loc)
    else
      let a : XReadGroupArgs :=
        { Consumer := getName st.r, Group := st.r.group,
          Streams := readStreams st.r.streams loc.lastIDs invalidCheck,
          Count := count, Block := loc.b }
      let results := env.xReadGroup st.world a
      let st1 := emit env st (Call.xReadGroup a)
      if env.canceled st1.world then (.ok (some true), st1, loc)
      else
        let counted := countMessages invalidCheck results 0 loc.lastIDs
        let loc1 := { loc with lastIDs := counted.2 }
        if counted.1 = 0 then (.ok none, st1, loc1)
        else
          match dispatchBatch env handler st1 results counted.1 with
          | (.ok _, st2) =>
            let st3 := flushSpeed env st2
            if st3.r.deadConsumers > 0 ∧
                env.now st3.world - loc1.pendingCheckedTime ≥ st3.r.claimDuration
            then (.ok none, st3, loc1)
            else readLoop env handler count invalidCheck fuel st3 loc1
          | (.panicked v, st2) => (.panicked v, st2, loc1)
          | (.outOfFuel, st2) => (.outOfFuel, st2, loc1)

/-! ## `consume` and `Consume` -/

/-- The loop `KEYS` of lines 343-528 over the remaining keys of one cycle. -/
def keysLoop (env : Env W) (handler : EventConsumerHandler W) (count : Int) (fuel : Nat) :
    List String → State W → Locals → Outcome (Option Bool) × State W × Locals
  | [], st, loc => (.ok none, st, loc)
  | key :: keys, st, loc =>
    if key = "pending" then
      match pendingPhase env fuel st loc with
      | (.ok _, st1, loc1) => keysLoop env handler count fuel keys st1 loc1
      | (.panicked v, st1, loc1) => (.panicked v, st1, loc1)
      | (.outOfFuel, st1, loc1) => (.outOfFuel, st1, loc1)
    else
      let loc0 :=
        if key = "0" then { loc with lastIDs := resetLastIDs loc.lastIDs st.r.streams } else loc
      match readLoop env handler count (key = "0") fuel st loc0 with
      | (.ok none, st1, loc1) => keysLoop env handler count fuel keys st1 loc1
      | other => other

/-- The outer loop of lines 341-532. -/
def outerLoop (env : Env W) (handler : EventConsumerHandler W) (count : Int) :
    Nat → State W → Locals → Outcome Bool × State W
  | 0, st, _ => (.outOfFuel, st)
  | fuel + 1, st, loc =>
    match keysLoop env handler count fuel ["pending", "0", ">"] st loc with
    | (.ok (some valid), st1, _) => (.ok valid, st1)
    | (.ok none, st1, loc1) =>
      if !st1.r.loop then (.ok true, st1) else outerLoop env handler count fuel st1 loc1
    | (.panicked v, st1, _) => (.panicked v, st1)
    | (.outOfFuel, st1, _) => (.outOfFuel, st1)

/-- The deferred function of lines 301-306: the lease is released and the dead-peer count
is cleared. -/
def deferred (env : Env W) (st : State W) (lockName : String) : State W :=
  let st1 := emit env { st with held := Release st.held lockName } (Call.release lockName)
  { st1 with r := { st1.r with deadConsumers := 0 } }

/-- The method `consume`: one pass.  `fuel` bounds the iterations of its loops. -/
def consume (env : Env W) (handler : EventConsumerHandler W) (count : Int) (fuel : Nat)
    (st : State W) : Outcome Bool × State W :=
  match acquire env st with
  | (.ok lockName, st1) =>
    let loc : Locals :=
      { lockName := lockName, lockAcquired := env.now st1.world, lastIDs := [],
        pendingChecked := false, pendingCheckedTime := 0,
        b := if !st1.r.loop then -1 else st1.r.blockTime }
    let st2 := emitAll env st1
      (st1.r.streams.map (fun stream => Call.xGroupCreateMkStream stream st1.r.group "0"))
    match outerLoop env handler count fuel st2 loc with
    | (.outOfFuel, st3) => (.outOfFuel, st3)
    | (out, st3) => (out, deferred env st3 lockName)
  | (.panicked v, st1) => (.panicked v, st1)
  | (.outOfFuel, st1) => (.outOfFuel, st1)

/-- The method `Consume`: passes of `consume` until one is valid or the loop is off. -/
def Consume (env : Env W) (handler : EventConsumerHandler W) (count : Int) :
    Nat → State W → Outcome Unit × State W
  | 0, st => (.outOfFuel, st)
  | fuel + 1, st =>
    match consume env handler count fuel st with
    | (.ok valid, st1) =>
      if valid ∨ !st1.r.loop then (.ok (), st1)
      else Consume env handler count fuel (emit env st1 (Call.sleep 10000000000))
    | (.panicked v, st1) => (.panicked v, st1)
    | (.outOfFuel, st1) => (.outOfFuel, st1)

/-! ## The heartbeat of a pass (lines 298-328) -/

/-- What the `select` of the heartbeat goroutine receives (lines 312-326): the context is
done, the channel `done` is closed, or the ticker fires.  A tick comes with the answer of
`lock.Refresh(r.lockTTL)` and with the value of `time.Now()` right after it. -/
inductive Signal where
  | contextDone
  | done
  | tick (refreshed : Bool) (now : Int)
deriving DecidableEq, Repr

/-- A call of the heartbeat goroutine on the lock service or on the store. -/
inductive BeatCall where
  | refresh (lockName : String) (ttl : Int)
  | hSet (key field value : String)
deriving DecidableEq, Repr

/-- The variables that the heartbeat goroutine shares with the pass (lines 307-309),
whether the goroutine has returned, and the calls it has made. -/
structure Heartbeat where
  hasLock : Bool
  canceled : Bool
  lockAcquired : Int
  returned : Bool
  calls : List BeatCall
deriving DecidableEq, Repr

/-- The goroutine of lines 310-328 on the signals it receives, in the order in which its
`select` takes them: a `return` ends it, whatever signals are left. -/
def heartbeat (r : eventsConsumer W) (lockName : String) : Heartbeat → List Signal → Heartbeat
  | h, [] => h
  | h, .contextDone :: _ => { h with canceled := true, returned := true }
  | h, .done :: _ => { h with returned := true }
  | h, .tick refreshed now :: rest =>
    let h1 := { h with calls := h.calls ++ [BeatCall.refresh lockName r.lockTTL] }
    if !refreshed then { h1 with hasLock := false, returned := true }
    else
      heartbeat r lockName
        { h1 with lockAcquired := now
                  calls := h1.calls ++
                    [BeatCall.hSet (runningKey r) r.nrString (FormatInt (unixSeconds now))] }
        rest

/-! ## Publishing (lines 93-160) -/

/-- The loop `for k, v := range meta { values[k+2] = v }` of lines 104-106, entered with
the index `k`. -/
def fillMeta : List String → Nat → List String → List String
  | [], _, values => values
  | v :: rest, k, values => fillMeta rest (k + 1) (values.set (k + 2) v)

/-- The function `createEventSlice`.  A body is `none` for `nil`; `Marshal` is
`msgpack.Marshal`, which answers with the serialized body or with an error. -/
def createEventSlice {β : Type} (Marshal : β → Except GoError String) (body : Option β)
    (meta : List String) : Outcome (List String) :=
  match body with
  | none => .ok meta
  | some b =>
    match Marshal b with
    | .error err => .panicked (.error err)
    | .ok asString =>
      let values := List.replicate (meta.length + 2) ""
      let values := values.set 0 "s"
      let values := values.set 1 asString
      .ok (fillMeta meta 0 values)

/-- What `event_broker.go` uses of the engine: the map `registry.redisStreamPools`, the
codes of the Redis pools the engine holds, and the answer of the registry method
`getRedisStreamsForGroup`. -/
structure Engine where
  redisStreamPools : List (String × String)
  redisPools : List String
  getRedisStreamsForGroup : String → List String

/-- Modelled from the spec: the method `engine.GetRedis(code)`, whose code is not among the
sources.  The engine holds one pool per registered code, so a pool is identified by its
code; for a code that is not registered the call panics (with the error that the test
`TestEngine` expects). -/
def GetRedis (engine : Engine) (code : String) : Outcome String :=
  if code ∈ engine.redisPools then .ok code
  else .panicked (.error (fmtErrorf ("unregistered redis cache pool '" ++ code ++ "'")))

/-- The function `getRedisForStream`. -/
def getRedisForStream (engine : Engine) (stream : String) : Outcome String :=
  match engine.redisStreamPools.lookup stream with
  | none => .panicked (.error (fmtErrorf ("unregistered stream " ++ stream)))
  | some pool => GetRedis engine pool

/-- An append that `Publish` issues: the pool, the stream and the envelope. -/
structure Append where
  pool : String
  stream : String
  values : List String
deriving DecidableEq, Repr

/-- The method `(*eventBroker).Publish`: how it ends and the appends it has issued.  The
receiver `getRedisForStream(...)` is evaluated before the argument
`createEventSlice(...)`. -/
def eventBroker.Publish {β : Type} (Marshal : β → Except GoError String) (engine : Engine)
    (stream : String) (body : Option β) (meta : List String) : Outcome Unit × List Append :=
  match getRedisForStream engine stream with
  | .ok r =>
    match createEventSlice Marshal body meta with
    | .ok values => (.ok (), [{ pool := r, stream := stream, values := values }])
    | .panicked v => (.panicked v, [])
    | .outOfFuel => (.outOfFuel, [])
  | .panicked v => (.panicked v, [])
  | .outOfFuel => (.outOfFuel, [])

/-- The struct `eventFlusher`: the map `events`, as the list of its entries. -/
structure eventFlusher where
  events : List (String × List (List String))
deriving DecidableEq, Repr

/-- The function `NewFlusher`. -/
def NewFlusher : eventFlusher := { events := [] }

/-- The statement `m[stream] = append(m[stream], e...)` on a map from streams to lists of
envelopes. -/
def streamsAdd : List (String × List (List String)) → String → List (List String) →
    List (String × List (List String))
  | [], stream, events => [(stream, events)]
  | (s, l) :: rest, stream, events =>
    if s = stream then (s, l ++ events) :: rest else (s, l) :: streamsAdd rest stream events

/-- The method `(*eventFlusher).Publish`. -/
def eventFlusher.Publish {β : Type} (Marshal : β → Except GoError String) (ef : eventFlusher)
    (stream : String) (body : Option β) (meta : List String) : Outcome eventFlusher :=
  match createEventSlice Marshal body meta with
  | .ok values => .ok { events := streamsAdd ef.events stream [values] }
  | .panicked v => .panicked v
  | .outOfFuel => .outOfFuel

/-- The order in which a `range` over a map visits the entries: Go leaves it open, so it
is a parameter, one for the maps keyed by stream and one for the map keyed by pool. -/
structure RangeOrder where
  streams : List (String × List (List String)) → List (String × List (List String))
  pools : List (String × List (String × List (List String))) →
    List (String × List (String × List (List String)))

/-- Lines 115-122: the envelopes of `stream` are put under the pool `r`. -/
def groupedAdd : List (String × List (String × List (List String))) → String → String →
    List (List String) → List (String × List (String × List (List String)))
  | [], r, stream, events => [(r, [(stream, events)])]
  | (r1, m) :: rest, r, stream, events =>
    if r1 = r then (r1, streamsAdd m stream events) :: rest
    else (r1, m) :: groupedAdd rest r stream events

/-- The first loop of `Flush` (lines 112-123) over the entries of `ef.events`. -/
def groupStreams (engine : Engine) : List (String × List (List String)) →
    List (String × List (String × List (List String))) →
    Outcome (List (String × List (String × List (List String))))
  | [], grouped => .ok grouped
  | (stream, events) :: rest, grouped =>
    match getRedisForStream engine stream with
    | .ok r => groupStreams engine rest (groupedAdd grouped r stream events)
    | .panicked v => .panicked v
    | .outOfFuel => .outOfFuel

/-- The commands of the pipeline of one pool (lines 126-130). -/
def pipelineOf (order : RangeOrder) (events : List (String × List (List String))) :
    List PipelineCommand :=
  (order.streams events).flatMap (fun p => p.2.map (fun e => PipelineCommand.xAdd p.1 e))

/-- The method `(*eventFlusher).Flush`: how it ends, the pipelines it has executed, each
with its pool, and the flusher afterwards. -/
def eventFlusher.Flush (order : RangeOrder) (engine : Engine) (ef : eventFlusher) :
    Outcome Unit × List (String × List PipelineCommand) × eventFlusher :=
  match groupStreams engine (order.streams ef.events) [] with
  | .ok grouped =>
    (.ok (), (order.pools grouped).map (fun p => (p.1, pipelineOf order p.2)), { events := [] })
  | .panicked v => (.panicked v, [], ef)
  | .outOfFuel => (.outOfFuel, [], ef)

/-! ## `Consumer` (lines 196-218) -/

/-- The loop of lines 202-209 over the streams of the group, from a given value of
`redisPool`. -/
def poolScan (pools : List (String × String)) : List String → String → Outcome String
  | [], redisPool => .ok redisPool
  | stream :: rest, redisPool =>
    let pool := mapGet pools stream
    if redisPool = "" then poolScan pools rest pool
    else if redisPool ≠ pool then
      .panicked (.error (fmtErrorf "reading from different redis pool not allowed"))
    else poolScan pools rest redisPool

/-- The method `(*eventBroker).Consumer`. -/
def Consumer (engine : Engine) (group : String) : Outcome (eventsConsumer W) :=
  let streams := engine.getRedisStreamsForGroup group
  if streams.length = 0 then
    .panicked (.error (fmtErrorf ("unregistered streams for group " ++ group)))
  else
    match poolScan engine.redisStreamPools streams "" with
    | .ok redisPool =>
      match GetRedis engine redisPool with
      | .ok code =>
        .ok { loop := true, limit := 1, errorHandler := none, blockTime := 30000000000,
              poolCode := code, nr := 0, speedPrefixKey := group ++ "_" ++ redisPool,
              deadConsumers := 0, speedEvents := 0, speedDBQueries := 0,
              speedDBMicroseconds := 0, speedRedisQueries := 0, speedRedisMicroseconds := 0,
              speedTimeMicroseconds := 0, speedLimit := 10000, nrString := "",
              streams := streams, group := group, lockTTL := 90000000000,
              lockTick := 60000000000, minIdle := 120000000000,
              claimDuration := 120000000000 }
      | .panicked v => .panicked v
      | .outOfFuel => .outOfFuel
    | .panicked v => .panicked v
    | .outOfFuel => .outOfFuel

/-! ## `LocalCache.GetSet` (`local_cache.go`, lines 48-61) -/

/-- A value kept in the LRU cache: a `ttlValue`, as `GetSet` stores it, or a value of any
other type, as `Set` may store it.  Of a value of another type the model keeps what the
run time says of its type: `typeName` is the text of the dynamic type (`string`, `int`,
`nil` for a nil interface value, ...), and `samePackage` tells whether that type is
declared in the package of `ttlValue`. -/
inductive cached (V : Type) where
  | ttlValue (value : V) (time : Int)
  | other (typeName : String) (samePackage : Bool) (value : V)
deriving DecidableEq, Repr

/-- The LRU cache `c.config.lru` (package `groupcache/lru`) as `GetSet` uses it: `Get`
answers with the value under a key, if any, and `Add` stores a value; both may change the
cache. -/
structure Lru (L V : Type) where
  Get : L → String → Option (cached V) × L
  Add : L → String → cached V → L

/-- The whole number nearest to `N / D`, and the even one of the two nearest when they
are equally near. -/
def roundEven (N D : Nat) : Nat :=
  if 2 * (N % D) < D then N / D
  else if D < 2 * (N % D) then N / D + 1
  else if N / D % 2 = 0 then N / D else N / D + 1

/-- The position of the highest binary digit of `n`: the number of halvings that take `n`
below 2.  The first argument bounds the halvings; `n` itself is enough. -/
def log2Floor : Nat → Nat → Nat
  | 0, _ => 0
  | fuel + 1, n => if n < 2 then 0 else 1 + log2Floor fuel (n / 2)

/-- The binary exponent of `p / q`, for `p` and `q` above 0: the `e` with
`2^e ≤ p / q < 2^(e+1)`. -/
def binaryExponent (p q : Nat) : Int :=
  let e0 : Int := (log2Floor p p : Int) - (log2Floor q q : Int)
  if q * 2 ^ e0.toNat ≤ p * 2 ^ (-e0).toNat then e0 else e0 - 1

/-- The `float64` nearest to `p / q` (IEEE 754, round to nearest, ties to even), given as
`(m, k)` for the value `m * 2^k`: the 53 binary digits `m` of its significand and their
scale.  The numbers of `Seconds` are far from the ranges in which a `float64` overflows or
loses digits. -/
def float64 (p q : Nat) : Nat × Int :=
  if p = 0 then (0, 0)
  else
    let k := binaryExponent p q - 52
    (roundEven (p * 2 ^ (-k).toNat) (q * 2 ^ k.toNat), k)

/-- The value `int64(ttl.Seconds())` of a duration `ttl` in nanoseconds.  The method
`Duration.Seconds` of package `time` is `float64(sec) + float64(nsec)/1e9` with
`sec := d / Second` and `nsec := d % Second` (both rounded towards zero, so of the sign of
`d`): the quotient is rounded to a `float64`, and so is the sum, which is the quotient
itself when `sec` is 0; the conversion to `int64` drops the fraction.  The arithmetic of
`float64` is the same for a number and for its negative, so the value is computed from
the magnitude of `ttl`. -/
def Seconds (ttl : Int) : Int :=
  let sec := ttl.natAbs / 1000000000
  let nsec := ttl.natAbs % 1000000000
  let quotient := float64 nsec 1000000000
  let sum :=
    if sec = 0 then quotient
    else float64 (sec * 2 ^ (-quotient.2).toNat + quotient.1 * 2 ^ quotient.2.toNat)
      (2 ^ (-quotient.2).toNat)
  let whole : Nat := sum.1 * 2 ^ sum.2.toNat / 2 ^ (-sum.2).toNat
  if ttl < 0 then -(whole : Int) else whole

/-- The panic of the type assertion `val.(ttlValue)` on a value of another type: the
`runtime.TypeAssertionError`, whose text names the dynamic type of the value. -/
def typeAssertionError (typeName : String) (samePackage : Bool) : PanicValue :=
  .error ⟨"interface conversion: interface {} is " ++ typeName ++ ", not beeorm.ttlValue" ++
    (if typeName = "beeorm.ttlValue" then
      (if samePackage then " (types from different scopes)"
       else " (types from different packages)")
     else "")⟩

/-- The method `(*LocalCache).GetSet`: how it ends, the cache afterwards and the number of
calls of `provider`.  `provider` is the value the provider returns; `nowCheck` and
`nowStore` are the values of `time.Now().Unix()` of lines 53 and 58.  The difference of
line 53 is one of `int64`. -/
def LocalCache.GetSet {L V : Type} (lru : Lru L V) (c : L) (key : String) (ttl : Int)
    (provider : V) (nowCheck nowStore : Int) : Outcome V × L × Nat :=
  let got := lru.Get c key
  let store : Outcome V × L × Nat :=
    (.ok provider, lru.Add got.2 key (cached.ttlValue provider nowStore), 1)
  match got.1 with
  | some (cached.ttlValue value time) =>
    let seconds := Seconds ttl
    if seconds = 0 ∨ wrapInt64 (nowCheck - time) ≤ seconds then (.ok value, got.2, 0)
    else store
  | some (cached.other typeName samePackage _) =>
    (.panicked (typeAssertionError typeName samePackage), got.2, 0)
  | none => store

/-! ## Definitions used to state the properties -/

/-- The IDs of the events of `stream` whose ack flag is false, in batch order. -/
def unackedIDs (events : List event) (stream : String) : List String :=
  (events.filter (fun e => !e.ack && e.stream == stream)).map (fun e => e.message.ID)

/-- Whether a call is the start or the end of a call of a user callback. -/
def Call.isCallback : Call → Bool
  | .handler _ => true
  | .handlerDone _ => true
  | .errorHandler _ _ => true
  | .errorHandlerDone _ => true
  | _ => false

/-- The calls of the user callbacks in a trace, without the store calls between them. -/
def callbacks (tr : List Call) : List Call := tr.filter Call.isCallback

/-- The replay of a batch as the claim words it, checked on the callback calls of a trace:
for each event in order, the handler is called with the one-element list of that event;
if the call returns the replay goes on, and if it panics with `v` the error handler is
called once with the error of `v` and that event, returns, and the replay goes on. -/
def replayedLog : List event → List Call → Bool
  | [], [] => true
  | e :: es, Call.handler evs :: Call.handlerDone none :: cs =>
    decide (evs = [e]) && replayedLog es cs
  | e :: es, Call.handler evs :: Call.handlerDone (some v) :: Call.errorHandler err e1 ::
      Call.errorHandlerDone none :: cs =>
    decide (evs = [e]) && decide (err = asErr v) && decide (e1.stream = e.stream) &&
      decide (e1.message = e.message) && replayedLog es cs
  | _, _ => false

/-- The `Obtain` calls of a slot acquisition that tries the numbers `1, …, k` in order. -/
def obtainCalls (r : eventsConsumer W) (k : Nat) : List Call :=
  (List.range' 1 k).map (fun j => Call.obtain (lockNameOf r j) r.lockTTL)

/-- Successive slot acquisitions, none released in between, by `n` consumers that are each
set up like `r` and share the lock service of `st`: the result and the slot number of each
acquisition, in order. -/
def acquireMany (env : Env W) (r : eventsConsumer W) :
    Nat → State W → List (Outcome String × Nat) × State W
  | 0, st => ([], st)
  | n + 1, st =>
    (((acquire env { st with r := r }).1, (acquire env { st with r := r }).2.r.nr) ::
        (acquireMany env r n (acquire env { st with r := r }).2).1,
      (acquireMany env r n (acquire env { st with r := r }).2).2)

/-- The IDs of the rows of a page that are owned by another consumer than `name` and have
been idle for at least `minIdle`, in page order. -/
def claimable (name : String) (minIdle : Int) (pending : List XPendingExt) : List String :=
  (pending.filter (fun row => decide (row.Consumer ≠ name ∧ row.Idle ≥ minIdle))).map
    (fun row => row.ID)

/-- The number of entries of the running map whose field is not `nrString` and whose
timestamp lies at least `claimDuration` before `now`, as the claim words it: the
timestamp is the number of seconds since the epoch that the value of the entry reads as,
and the two times are compared as numbers of any size. -/
def deadEntries (nrString : String) (claimDuration now : Int)
    (all : List (String × String)) : Nat :=
  (all.filter (fun p =>
    decide (p.1 ≠ nrString ∧ now - ParseInt p.2 * 1000000000 ≥ claimDuration))).length

/-- The number of entries of the running map whose field is not `nrString` and whose
timestamp lies at least `claimDuration` back at `now` as the claim's own reference
measures it: `time.Since(time.Unix(timestamp, 0)) >= claimDuration`. -/
def sinceEntries (nrString : String) (claimDuration now : Int)
    (all : List (String × String)) : Nat :=
  (all.filter (fun p =>
    decide (p.1 ≠ nrString ∧ time.Sub now (time.Unix (ParseInt p.2)) ≥ claimDuration))).length

/-- The number of entries of the running map whose field is not `nrString` and whose
timestamp lies more than `claimDuration` before `now`, the two times compared as numbers
of any size. -/
def olderEntries (nrString : String) (claimDuration now : Int)
    (all : List (String × String)) : Nat :=
  (all.filter (fun p =>
    decide (p.1 ≠ nrString ∧ now - ParseInt p.2 * 1000000000 > claimDuration))).length

/-- Whether a call is the end of a handler call that panicked. -/
def Call.isHandlerPanic : Call → Bool
  | .handlerDone (some _) => true
  | _ => false

/-- A list of calls in which no handler call ends with a panic. -/
def Quiet (tr : List Call) : Prop := ∀ c ∈ tr, Call.isHandlerPanic c = false

/-- The state `st1` continues `st`: the error handler is the same and the calls made since
`st` are quiet. -/
def Continues (st st1 : State W) : Prop :=
  st1.r.errorHandler = st.r.errorHandler ∧ ∃ new, st1.trace = st.trace ++ new ∧ Quiet new

/-- The state `st1` follows `st` with the outcome `o`: the error handler is the same, and
the calls made since `st` are quiet, or they are quiet up to a last call, the end of a
handler call that panicked with the value with which `o` panics. -/
def PanicLast {α : Type} (st : State W) (o : Outcome α) (st1 : State W) : Prop :=
  st1.r.errorHandler = st.r.errorHandler ∧
    ∃ new, st1.trace = st.trace ++ new ∧
      (Quiet new ∨ ∃ pre v, new = pre ++ [Call.handlerDone (some v)] ∧ Quiet pre ∧
        o = .panicked v)

/-- As `PanicLast`, for a pass: after the end of the handler call that panicked comes the
release of the lease by the deferred function, and nothing else. -/
def PanicThenRelease {α : Type} (st : State W) (o : Outcome α) (st1 : State W) : Prop :=
  st1.r.errorHandler = st.r.errorHandler ∧
    ∃ new, st1.trace = st.trace ++ new ∧
      (Quiet new ∨ ∃ pre v name,
        new = pre ++ [Call.handlerDone (some v), Call.release name] ∧ Quiet pre ∧
        o = .panicked v)

/-- What the batch handler does in the dispatch of the rows `results` from the state `st`:
it runs in the world left by the clearing of the speed logger. -/
abbrev batchRun (env : Env W) (handler : EventConsumerHandler W) (st : State W)
    (results : List XStream) : HandlerRun :=
  handler (env.step st.world Call.speedLoggerClear) (newEvents results)

/-- The events of the batch, with their flags, when the batch handler has ended. -/
abbrev batchEvents (env : Env W) (handler : EventConsumerHandler W) (st : State W)
    (results : List XStream) : List event :=
  (applyOps st.r.group (newEvents results) (batchRun env handler st results).ops).1

/-- The store calls of the batch handler's own `Ack()` and `delete()`, in order. -/
abbrev batchCalls (env : Env W) (handler : EventConsumerHandler W) (st : State W)
    (results : List XStream) : List Call :=
  (applyOps st.r.group (newEvents results) (batchRun env handler st results).ops).2

/-- Whether a call is one that a pass makes between the acquisition of its slot and the
release of its lease: a store read, claim or acknowledgment, a publish, a telemetry flush
or a call of a user callback (and not `Obtain`, `Release`, `HSet` or a sleep). -/
def Call.inPass : Call → Bool
  | .obtain _ _ => false
  | .release _ => false
  | .hSet _ _ _ => false
  | .sleep _ => false
  | _ => true

/-- The state `st1` is reached from `st` by calls of a pass only. -/
def PassCalls (st st1 : State W) : Prop :=
  ∃ new, st1.trace = st.trace ++ new ∧ ∀ c ∈ new, Call.inPass c = true

/-- The state in which one further consumer, set up like `r` but with the limit `n`, starts
after the `n` acquisitions of `acquireMany`. -/
def furtherConsumer (env : Env W) (r : eventsConsumer W) (n : Nat) (st : State W) : State W :=
  { (acquireMany env r n st).2 with r := { r with limit := (n : Int) } }

/-- The arguments of the group read of line 419, for the key "0" (`invalidCheck`) or
">", with the locals `loc`. -/
def readArgs (r : eventsConsumer W) (loc : Locals) (count : Int) (invalidCheck : Bool) :
    XReadGroupArgs :=
  { Consumer := getName r, Group := r.group,
    Streams := readStreams r.streams loc.lastIDs invalidCheck, Count := count, Block := loc.b }

/-- What the group read of an iteration of the read loop returns when the iteration starts
in the state `st` with the locals `loc`. -/
def readResults (env : Env W) (st : State W) (loc : Locals) (count : Int)
    (invalidCheck : Bool) : List XStream :=
  env.xReadGroup st.world (readArgs st.r loc count invalidCheck)

/-- The state right after the group read of an iteration that starts in `st`. -/
def afterRead (env : Env W) (st : State W) (loc : Locals) (count : Int)
    (invalidCheck : Bool) : State W :=
  emit env st (Call.xReadGroup (readArgs st.r loc count invalidCheck))

/-- The locals after lines 424-433 of an iteration that starts in `st`. -/
def localsAfterRead (env : Env W) (st : State W) (loc : Locals) (count : Int)
    (invalidCheck : Bool) : Locals :=
  { loc with lastIDs :=
      (countMessages invalidCheck (readResults env st loc count invalidCheck) 0 loc.lastIDs).2 }

/-- The number of messages in the rows of a group read. -/
def totalMessages (results : List XStream) : Nat :=
  (results.map (fun row => row.Messages.length)).sum

/-- The pairs of a stream name and a message of the rows of a group read, in row order
and, within a row, in the order of the row. -/
def rowMessages (results : List XStream) : List (String × XMessage) :=
  results.flatMap (fun row => row.Messages.map (fun m => (row.Stream, m)))

/-- The ID of the last message that a group read returned for `stream`: the last message
of the last row of that stream that has messages. -/
def lastReturned : List XStream → String → Option String
  | [], _ => none
  | row :: rest, stream =>
    match lastReturned rest stream with
    | some id => some id
    | none => if row.Stream = stream then row.Messages.getLast?.map (fun m => m.ID) else none

/-- The condition of line 402: the heartbeat has flagged the lease as lost, or the time
since the lease was acquired or last refreshed exceeds `lockTTL`. -/
abbrev slotLost (env : Env W) (st : State W) (loc : Locals) : Prop :=
  env.hasLock st.world = false ∨ env.now st.world - lockAcquiredAt env st loc > st.r.lockTTL

/-- The condition of line 524: dead peers are counted and the last claim run of the
pending phase lies at least `claimDuration` back. -/
abbrev reclaimOverdue (env : Env W) (st : State W) (loc : Locals) : Prop :=
  st.r.deadConsumers > 0 ∧ env.now st.world - loc.pendingCheckedTime ≥ st.r.claimDuration

/-- The condition of line 347: the pending phase is throttled. -/
abbrev throttled (env : Env W) (st : State W) (loc : Locals) : Prop :=
  loc.pendingChecked = true ∧ env.now st.world - loc.pendingCheckedTime < st.r.claimDuration

/-- A read phase that ended with a group read that returned no message: its last call
is the group read of an iteration, and that read returned zero messages. -/
def endedEmpty (env : Env W) (count : Int) (invalidCheck : Bool) (st1 : State W) : Prop :=
  ∃ (st0 : State W) (loc0 : Locals), st1 = afterRead env st0 loc0 count invalidCheck ∧
    totalMessages (readResults env st0 loc0 count invalidCheck) = 0

/-- The end of `consume` once its outer loop is over: the deferred function of lines
301-306 runs on a return and on a panic alike. -/
def exitPass (env : Env W) (lockName : String) : Outcome Bool × State W → Outcome Bool × State W
  | (.outOfFuel, st3) => (.outOfFuel, st3)
  | (out, st3) => (out, deferred env st3 lockName)

/-- What the outer loop does with the result of a cycle over the keys (lines 529-533). -/
def afterCycle (env : Env W) (handler : EventConsumerHandler W) (count : Int) (fuel : Nat) :
    Outcome (Option Bool) × State W × Locals → Outcome Bool × State W
  | (.ok (some valid), st1, _) => (.ok valid, st1)
  | (.ok none, st1, loc1) =>
    if !st1.r.loop then (.ok true, st1) else outerLoop env handler count fuel st1 loc1
  | (.panicked v, st1, _) => (.panicked v, st1)
  | (.outOfFuel, st1, _) => (.outOfFuel, st1)

/-- What `consume` does from the start of an iteration of the read loop on: the rest of
the read loop of the phase (`fuelR` bounds it), the keys `keys` that are left in the
cycle, the further cycles, and the deferred function. -/
def passFrom (env : Env W) (handler : EventConsumerHandler W) (count : Int)
    (lockName : String) (invalidCheck : Bool) (keys : List String) (fuelR fuel : Nat)
    (st : State W) (loc : Locals) : Outcome Bool × State W :=
  exitPass env lockName (afterCycle env handler count fuel
    (match readLoop env handler count invalidCheck fuelR st loc with
     | (.ok none, st1, loc1) => keysLoop env handler count fuel keys st1 loc1
     | other => other))

/-- The consumer with its counters cleared: what is left are its settings and its slot
number, the fields that a pass does not write once the slot is acquired. -/
def settings (r : eventsConsumer W) : eventsConsumer W :=
  { r with deadConsumers := 0, speedEvents := 0, speedDBQueries := 0, speedDBMicroseconds := 0,
           speedRedisQueries := 0, speedRedisMicroseconds := 0, speedTimeMicroseconds := 0 }

/-- Whether a call is one of a dispatch or of the telemetry flush that follows it: a call
of a user callback, an acknowledgment or deletion, a publish or a pipeline. -/
def Call.inDispatch : Call → Bool
  | .speedLoggerClear => true
  | .handler _ => true
  | .handlerDone _ => true
  | .errorHandler _ _ => true
  | .errorHandlerDone _ => true
  | .xAck _ _ _ => true
  | .xDel _ _ => true
  | .publish _ _ => true
  | .pipelineExec _ => true
  | _ => false

/-- Whether a call is a store call of the pending phase. -/
def Call.inPending : Call → Bool
  | .hGetAll _ => true
  | .xPendingExt _ => true
  | .xClaimJustID _ => true
  | _ => false

/-- The state `st1` is reached from `st` by calls that satisfy `P`, and the settings of
the consumer are the same in both. -/
def Kept (P : Call → Prop) (st st1 : State W) : Prop :=
  settings st1.r = settings st.r ∧ ∃ new, st1.trace = st.trace ++ new ∧ ∀ c ∈ new, P c

/-- A call of a read phase: a call of a dispatch, or a group read of that phase with the
block duration `b`, for some values of the backlog cursors. -/
def phaseCall (r : eventsConsumer W) (count b : Int) (invalidCheck : Bool) (c : Call) : Prop :=
  Call.inDispatch c = true ∨
  ∃ lastIDs : List (String × String), c = Call.xReadGroup
    { Consumer := getName r, Group := r.group,
      Streams := readStreams r.streams lastIDs invalidCheck, Count := count, Block := b }

/-- A call of a pass between its set-up and its end: a store call of the pending phase or
a call of one of the two read phases. -/
def passCall (r : eventsConsumer W) (count b : Int) (c : Call) : Prop :=
  Call.inPending c = true ∨ ∃ invalidCheck, phaseCall r count b invalidCheck c

/-- The block duration of the group reads of a pass (lines 337-340). -/
def blockOf (r : eventsConsumer W) : Int := if !r.loop then -1 else r.blockTime

/-- The locals of `consume` when its outer loop starts (lines 309 and 329-340), in the
state `st1` the slot acquisition ended in. -/
def passLocals (env : Env W) (st1 : State W) (lockName : String) : Locals :=
  { lockName := lockName, lockAcquired := env.now st1.world, lastIDs := [],
    pendingChecked := false, pendingCheckedTime := 0,
    b := if !st1.r.loop then -1 else st1.r.blockTime }

/-- The state of `consume` when its outer loop starts: the groups of the streams are
created (lines 330-332). -/
def createGroups (env : Env W) (st1 : State W) : State W :=
  emitAll env st1
    (st1.r.streams.map (fun stream => Call.xGroupCreateMkStream stream st1.r.group "0"))

/-- The locals with which the backlog phase starts (lines 393-397). -/
def backlogLocals (st : State W) (loc : Locals) : Locals :=
  { loc with lastIDs := resetLastIDs loc.lastIDs st.r.streams }

/-- Whether a call is one of the slot acquisition: an `Obtain` or the `HSet` of the
heartbeat stamp. -/
def Call.inAcquire : Call → Bool
  | .obtain _ _ => true
  | .hSet _ _ _ => true
  | _ => false

/-- The settings of the consumer without its slot number: the fields that no part of
`consume` writes. -/
def config (r : eventsConsumer W) : eventsConsumer W :=
  { settings r with nr := 0, nrString := "" }

/-- Whether a call is a call of the handler passed to `Consume`. -/
def Call.isHandler : Call → Bool
  | .handler _ => true
  | _ => false

/-- A call of one of the two methods of an event that change its flags. -/
inductive FlagOp where
  | Ack
  | delete
deriving DecidableEq, Repr

/-- The event after a sequence of calls of `Ack()` and `delete()` on it. -/
def event.after (group : String) : event → List FlagOp → event
  | ev, [] => ev
  | ev, .Ack :: ops => event.after group (ev.Ack group).1 ops
  | ev, .delete :: ops => event.after group (ev.delete group).1 ops

/-- The panic a piece of code ended with, if it did. -/
def Outcome.panic? {α : Type} : Outcome α → Option PanicValue
  | .panicked v => some v
  | _ => none

/-- The value a piece of code returned, if it did. -/
def Outcome.value? {α : Type} : Outcome α → Option α
  | .ok a => some a
  | _ => none

/-- The envelopes that the pipelines of a `Flush` append to a stream, in the order of the
pipelines and of their commands. -/
def appended (pipelines : List (String × List PipelineCommand)) (stream : String) :
    List (List String) :=
  (pipelines.flatMap (fun p => p.2)).filterMap (fun c =>
    match c with
    | .xAdd s e => if s = stream then some e else none
    | _ => none)

/-- The buffer of a flusher is a map whose streams hold an envelope each: no stream has
two entries, and no entry is without envelopes.  (`NewFlusher` and `Publish` keep it so.) -/
def eventFlusher.wellFormed (ef : eventFlusher) : Prop :=
  (ef.events.map Prod.fst).Nodup ∧ ∀ p ∈ ef.events, p.2 ≠ []

/-- A `range` visits every entry of its map once: the order is a permutation. -/
def RangeOrder.valid (order : RangeOrder) : Prop :=
  (∀ l, (order.streams l).Perm l) ∧ (∀ l, (order.pools l).Perm l)

/-- The map `grouped` of `Flush` after the first loop has visited the entries `visited` of
the buffer: a map by pool of maps by stream, each stream under its own pool with the
envelopes of the buffer. -/
def Grouped (engine : Engine) (grouped : List (String × List (String × List (List String))))
    (visited : List (String × List (List String))) : Prop :=
  (grouped.map Prod.fst).Nodup ∧
  (∀ p ∈ grouped, (p.2.map Prod.fst).Nodup ∧ p.2 ≠ []) ∧
  (∀ p ∈ grouped, ∀ q ∈ p.2, q ∈ visited ∧ getRedisForStream engine q.1 = .ok p.1) ∧
  (∀ q ∈ visited, ∃ p ∈ grouped, q ∈ p.2 ∧ getRedisForStream engine q.1 = .ok p.1)

/-- What a call adds to the event counts flushed under `field`: the increments of `field`
in the pipeline, if the call executes one. -/
def Call.flushed (field : String) : Call → Int
  | .pipelineExec commands =>
    (commands.map (fun c =>
      match c with
      | .hIncrBy _ f incr => if f = field then incr else 0
      | _ => 0)).sum
  | _ => 0

/-- What a call adds to the number of events dispatched: the number of events passed, if
it is a call of the handler. -/
def Call.dispatched : Call → Int
  | .handler events => events.length
  | _ => 0

/-- The sum of the event counts that the pipelines among the calls have added to `field`. -/
def flushedEvents (field : String) (calls : List Call) : Int :=
  (calls.map (Call.flushed field)).sum

/-- The number of events that the handler calls among the calls were passed. -/
def dispatchedEvents (calls : List Call) : Int := (calls.map Call.dispatched).sum

/-- The event accumulator of the consumer is in balance: it is at least 0 and below
`speedLimit`, and together with the event counts flushed so far it makes up the number of
events dispatched so far. -/
def Balanced (st : State W) : Prop :=
  0 ≤ st.r.speedEvents ∧ st.r.speedEvents < st.r.speedLimit ∧
  flushedEvents (st.r.speedPrefixKey ++ "e") st.trace + st.r.speedEvents =
    dispatchedEvents st.trace

/-- The state `st1` is reached from `st` by calls that are neither handler calls nor
pipelines, with the event accumulator, the limit and the prefix as they were. -/
def Idle (st st1 : State W) : Prop :=
  st1.r.speedEvents = st.r.speedEvents ∧ st1.r.speedLimit = st.r.speedLimit ∧
  st1.r.speedPrefixKey = st.r.speedPrefixKey ∧
  ∃ new, st1.trace = st.trace ++ new ∧
    ∀ c ∈ new, Call.flushed (st.r.speedPrefixKey ++ "e") c = 0 ∧ Call.dispatched c = 0

/-- A stream ID `<ms>-<seq>` of the store: a millisecond time and a sequence number. -/
structure StreamID where
  ms : Nat
  seq : Nat
deriving DecidableEq, Repr

/-- The text of a stream ID. -/
def StreamID.render (x : StreamID) : String := Itoa x.ms ++ "-" ++ Itoa x.seq

/-- The order of the stream IDs: by time, and by sequence number within the same time. -/
@[reducible] def StreamID.lt (x y : StreamID) : Prop := x.ms < y.ms ∨ (x.ms = y.ms ∧ x.seq < y.seq)

/-- The ID with the next sequence number. -/
def StreamID.next (x : StreamID) : StreamID := { x with seq := x.seq + 1 }

/-- A cursor of the paging: `none` is the start "-" of a scan, `some x` is a start at the
ID `x`. -/
def cursor : Option StreamID → String
  | none => "-"
  | some x => x.render

/-- Whether the ID `x` lies in the range that starts at a cursor, which includes its
start. -/
def fromCursor : Option StreamID → StreamID → Bool
  | none, _ => true
  | some c, x => decide (c = x ∨ c.lt x)

/-- The pages of pending rows that the paging loop of `claimLoop` is answered with, in the
order of its queries. -/
def scanPages (env : Env W) : Nat → State W → String → String → List (List XPendingExt)
  | 0, _, _, _ => []
  | fuel + 1, st, stream, start =>
    let page := env.xPendingExt st.world
      { Stream := stream, Group := st.r.group, Start := start,
        End := FormatInt (Int.tdiv (env.now st.world - st.r.minIdle) 1000000),
        Count := countPending }
    match claimPage env st stream start with
    | (.ok (some next), st1) => page :: scanPages env fuel st1 stream next
    | _ => [page]

/-- The store answers the pending queries on `stream` in ID order: a page holds entries of
the pending list `entries` (whose sequence numbers are below the largest `int`), in
strictly ascending order of their IDs, none of them before the start of the query. -/
def OrderedStore (env : Env W) (stream : String) (entries : List StreamID) : Prop :=
  (∀ x ∈ entries, (x.seq : Int) < maxInt64) ∧
  ∀ (w : W) (a : XPendingExtArgs) (c : Option StreamID),
    a.Stream = stream → a.Start = cursor c →
    ∃ xs : List StreamID,
      (env.xPendingExt w a).map (fun row => row.ID) = xs.map StreamID.render ∧
      xs.Pairwise StreamID.lt ∧ ∀ x ∈ xs, x ∈ entries ∧ fromCursor c x = true

/-! ## Sample inputs -/

/-- A world without state: every read returns nothing and the clock stands at 0. -/
def env0 : Env Unit :=
  { step := fun _ _ => (), now := fun _ => 0, canceled := fun _ => false,
    hasLock := fun _ => true, refreshedAt := fun _ => none, hGetAll := fun _ _ => [],
    xPendingExt := fun _ _ => [], xReadGroup := fun _ _ => [],
    speedLogger := fun _ => ⟨0, 0, 0, 0⟩, today := fun _ => "01-02-06",
    garbageCollectorChannelName := "orm-stream-garbage-collector" }

/-- A consumer of the group `g` on the pool `default`, as `Consumer` builds it, with the
loop switched off. -/
def r0 : eventsConsumer Unit :=
  { loop := false, limit := 1, errorHandler := none, blockTime := 30000000000,
    poolCode := "default", nr := 0, speedPrefixKey := "g_default", deadConsumers := 0,
    speedEvents := 0, speedDBQueries := 0, speedDBMicroseconds := 0, speedRedisQueries := 0,
    speedRedisMicroseconds := 0, speedTimeMicroseconds := 0, speedLimit := 10000,
    nrString := "", streams := ["s1", "s2"], group := "g", lockTTL := 90000000000,
    lockTick := 60000000000, minIdle := 120000000000, claimDuration := 120000000000 }

/-- The state before the first call, with no lease held. -/
def st0 : State Unit := { r := r0, held := [], world := (), trace := [] }

/-- A group read that returned three messages on two streams. -/
def res3 : List XStream :=
  [⟨"s1", [⟨"1-0", []⟩, ⟨"2-0", []⟩]⟩, ⟨"s2", [⟨"3-0", []⟩]⟩]

/-- A handler that returns without touching its events. -/
def handlerIdle : EventConsumerHandler Unit := fun _ _ => ⟨[], none⟩

/-- A handler that deletes every event it is given. -/
def handlerDeleteAll : EventConsumerHandler Unit :=
  fun _ evs => ⟨(List.range evs.length).map EventOp.delete, none⟩

/-- A handler that acknowledges its first event and then panics with a non-error value. -/
def handlerAckThenPanic : EventConsumerHandler Unit :=
  fun _ _ => ⟨[EventOp.Ack 0], some (PanicValue.value "boom")⟩

/-- The first, second and third event of the batch `res3`. -/
def first : event := ⟨"s1", ⟨"1-0", []⟩, false, false⟩

/-- The second event of the batch `res3`. -/
def second : event := ⟨"s1", ⟨"2-0", []⟩, false, false⟩

/-- The third event of the batch `res3`. -/
def third : event := ⟨"s2", ⟨"3-0", []⟩, false, false⟩

/-- A handler that touches no event and fails exactly when the second event of `res3` is
among its events. -/
def handlerFailOnSecond : EventConsumerHandler Unit :=
  fun _ evs => ⟨[], if second ∈ evs then some (PanicValue.value "boom") else none⟩

/-- An error handler that returns without touching the event. -/
def errorHandlerIdle : ConsumerErrorHandler Unit := fun _ _ _ => ⟨[], none⟩

/-- An error handler that panics itself. -/
def errorHandlerPanics : ConsumerErrorHandler Unit :=
  fun _ _ _ => ⟨[], some (PanicValue.value "error handler failed")⟩

/-- The state `st0` with an error handler set. -/
def stWith (eh : ConsumerErrorHandler Unit) : State Unit :=
  { st0 with r := { r0 with errorHandler := some eh } }

/-- The state `st0` with the limit 3 and the leases of the slots 1 and 2 held. -/
def stTwoHeld : State Unit :=
  { st0 with r := { r0 with limit := 3 }, held := ["g_default-1", "g_default-2"] }

/-- The consumer `r0` with the limit 2. -/
def rLimitTwo : eventsConsumer Unit := { r0 with limit := 2 }

/-- A world whose clock stands 1120 s after the epoch, whose running map holds the own
slot 1 (last alive at second 1) and the slot 2 (last alive at second 1000), and whose
stream `s1` has three pending entries. -/
def envPending : Env Unit :=
  { env0 with
    now := fun _ => 1120000000000
    hGetAll := fun _ _ => [("1", "1"), ("2", "1000")]
    xPendingExt := fun _ a =>
      if a.Stream = "s1" ∧ a.Start = "-" then
        [⟨"5-1", "g-2", 120000000000, 1⟩, ⟨"5-2", "g-1", 500000000000, 1⟩,
         ⟨"5-3", "g-2", 119999999999, 1⟩]
      else [] }

/-- The state of the slot 1 of the group `g` in a pass. -/
def stSlotOne : State Unit :=
  { st0 with r := { r0 with nr := 1, nrString := "1" }, held := ["g_default-1"] }

/-- The locals of a pass that has not run the pending phase yet. -/
def locals0 : Locals :=
  { lockName := "g_default-1", lockAcquired := 0, lastIDs := [], pendingChecked := false,
    pendingCheckedTime := 0, b := -1 }

/-- The world `env0` with a store whose group reads always return the batch `res3`. -/
def envRead : Env Unit := { env0 with xReadGroup := fun _ _ => res3 }

/-- A world that is the time in seconds: a call of the batch handler takes 130 s, a sleep
takes its duration and every other call 1 s.  The heartbeat keeps the lease refreshed, the
cancellation flag is set from the second `cancelAt` on, the running map holds `peers`, the
stream `s1` has one pending entry of the consumer `g-2`, a group read from the cursors "0"
returns the batch `res3`, a live read returns one message, and any other read returns
nothing. -/
def envClock (peers : List (String × String)) (cancelAt : Nat) : Env Nat :=
  { step := fun w c => match c with
      | .handler _ => w + 130
      | .sleep d => w + (d / 1000000000).toNat
      | _ => w + 1
    now := fun w => (w : Int) * 1000000000
    canceled := fun w => decide (cancelAt ≤ w)
    hasLock := fun _ => true
    refreshedAt := fun w => some ((w : Int) * 1000000000)
    hGetAll := fun _ _ => peers
    xPendingExt := fun _ a =>
      if a.Stream = "s1" ∧ a.Start = "-" then [⟨"5-1", "g-2", 130000000000, 1⟩] else []
    xReadGroup := fun _ a =>
      if a.Streams = ["s1", "s2", "0", "0"] then res3
      else if a.Streams = ["s1", "s2", ">", ">"] then [⟨"s2", [⟨"4-0", []⟩]⟩]
      else []
    speedLogger := fun _ => ⟨0, 0, 0, 0⟩
    today := fun _ => "01-02-06"
    garbageCollectorChannelName := "orm-stream-garbage-collector" }

/-- A consumer of the group `g` on the pool `default`, as `Consumer` builds it, in a world
of the kind of `envClock`. -/
def rClock (loop : Bool) : eventsConsumer Nat :=
  { loop := loop, limit := 1, errorHandler := none, blockTime := 30000000000,
    poolCode := "default", nr := 0, speedPrefixKey := "g_default", deadConsumers := 0,
    speedEvents := 0, speedDBQueries := 0, speedDBMicroseconds := 0, speedRedisQueries := 0,
    speedRedisMicroseconds := 0, speedTimeMicroseconds := 0, speedLimit := 10000,
    nrString := "", streams := ["s1", "s2"], group := "g", lockTTL := 90000000000,
    lockTick := 60000000000, minIdle := 120000000000, claimDuration := 120000000000 }

/-- The state before the first call at the second 1000, with no lease held. -/
def stClock (loop : Bool) : State Nat :=
  { r := rClock loop, held := [], world := 1000, trace := [] }

/-- A handler, in a world of the kind of `envClock`, that returns without touching its
events. -/
def handlerQuiet : EventConsumerHandler Nat := fun _ _ => ⟨[], none⟩

/-- The world `env0` 91 s after the epoch: a lease acquired at the time 0 and never
refreshed is 1 s past its `lockTTL` of 90 s. -/
def envLate : Env Unit := { env0 with now := fun _ => 91000000000 }

/-- The world `env0` with the cancellation flag set and the lease flagged as lost. -/
def envCanceled : Env Unit :=
  { env0 with canceled := fun _ => true, hasLock := fun _ => false }

/-- The state of the slot 1 of the group `g` at the second `w` of a world of the kind of
`envClock`. -/
def stClockOne (w : Nat) : State Nat :=
  { r := { rClock false with nr := 1, nrString := "1" }, held := ["g_default-1"], world := w,
    trace := [] }

/-- The locals of a pass in a world of the kind of `envClock` when its first backlog phase
starts. -/
def localsClock : Locals :=
  { lockName := "g_default-1", lockAcquired := 1001000000000,
    lastIDs := [("s1", "0"), ("s2", "0")], pendingChecked := false, pendingCheckedTime := 0,
    b := -1 }

/-- A world of the kind of `envClock` in which the heartbeat refreshes nothing. -/
def envNoBeat : Env Nat := { envClock [] 100000 with refreshedAt := fun _ => none }

/-- A world of the kind of `envClock` with no peers, whose group reads return nothing: a
read with a positive block duration takes that duration. -/
def envIdle (cancelAt : Nat) : Env Nat :=
  { envClock [] cancelAt with
    step := fun w c => match c with
      | .xReadGroup a => w + (if a.Block > 0 then (a.Block / 1000000000).toNat else 1)
      | .sleep d => w + (d / 1000000000).toNat
      | _ => w + 1
    xReadGroup := fun _ _ => [] }

/-- A world of the kind of `envIdle` in which the heartbeat has flagged the lease as lost
until the second 1008 and the cancellation flag is set from the second 1020 on. -/
def envTwoPasses : Env Nat :=
  { envIdle 1020 with hasLock := fun w => decide (1008 ≤ w) }

/-- The backlog phase of a cycle that starts at the second 1005 of a world with no peers
whose cancellation flag is set from the second 1276 on. -/
def clockBacklog : Outcome (Option Bool) × State Nat × Locals :=
  readLoop (envClock [] 1276) handlerQuiet 10 true 3 (stClockOne 1005)
    (backlogLocals (stClockOne 1005) localsClock)

/-- The pending phase of a cycle that starts at the second 1004 of a world without peers
and without messages. -/
def idlePending : Outcome Unit × State Nat × Locals :=
  pendingPhase (envIdle 100000) 2 (stClockOne 1004) localsClock

/-- The backlog phase that follows `idlePending`. -/
def idleBacklog : Outcome (Option Bool) × State Nat × Locals :=
  readLoop (envIdle 100000) handlerQuiet 10 true 2 idlePending.2.1
    (backlogLocals idlePending.2.1 idlePending.2.2)

/-- The live phase that follows `idleBacklog`. -/
def idleLive : Outcome (Option Bool) × State Nat × Locals :=
  readLoop (envIdle 100000) handlerQuiet 10 false 2 idleBacklog.2.1 idleBacklog.2.2

/-- A serializer of bodies that are texts: it puts the text in angle brackets, and fails
on the empty text. -/
def sampleMarshal : String → Except GoError String :=
  fun b => if b = "" then .error ⟨"empty body"⟩ else .ok ("<" ++ b ++ ">")

/-- The shared variables of the heartbeat when a pass of the slot 1 has acquired its lease
at the time 0. -/
def beat0 : Heartbeat :=
  { hasLock := true, canceled := false, lockAcquired := 0, returned := false, calls := [] }

/-- The state of the slot 1 with a speed limit of three events. -/
def stSpeed : State Unit :=
  { stSlotOne with r := { stSlotOne.r with speedLimit := 3 } }

/-- A cache without a size limit, as the list of its entries: `Get` looks the key up and
`Add` puts the entry in front of the others, in place of an older entry of the key. -/
def listLru : Lru (List (String × cached String)) String :=
  { Get := fun c key => (c.lookup key, c)
    Add := fun c key value => (key, value) :: c.filter (fun p => p.1 ≠ key) }

/-- An engine with the pools `default` and `search`, the streams `s1` and `s2` on the pool
`default` and the stream `s3` on the pool `search`; the group `g` reads `s1` and `s2`, the
group `mixed` reads `s1` and `s3`, and no other group reads anything. -/
def engine0 : Engine :=
  { redisStreamPools := [("s1", "default"), ("s2", "default"), ("s3", "search")]
    redisPools := ["default", "search"]
    getRedisStreamsForGroup := fun group =>
      if group = "g" then ["s1", "s2"] else if group = "mixed" then ["s1", "s3"] else [] }

/-- An engine one of whose two pools has the empty text as its code: the stream `a` is on
that pool, the stream `b` on the pool `x`, and the group `g` reads both. -/
def engineEmptyCode : Engine :=
  { redisStreamPools := [("a", ""), ("b", "x")]
    redisPools := ["", "x"]
    getRedisStreamsForGroup := fun group => if group = "g" then ["a", "b"] else [] }

/-- The order of the entries as they were put in. -/
def orderPut : RangeOrder := { streams := fun l => l, pools := fun l => l }

/-- The reverse of the order in which the entries were put in. -/
def orderReverse : RangeOrder := { streams := List.reverse, pools := List.reverse }

/-- A flusher that holds two envelopes for the stream `s1`, one for `s3` and one for
`s2`. -/
def flusher0 : eventFlusher :=
  { events := [("s1", [["s", "<a>"], ["s", "<b>", "k"]]), ("s3", [["s", "<c>"]]),
               ("s2", [["plain"]])] }

/-- A flusher that holds an envelope for the stream `s1` and one for the stream `nowhere`,
which the engine `engine0` does not know. -/
def flusherLost : eventFlusher :=
  { events := [("s1", [["s", "<a>"]]), ("nowhere", [["s", "<b>"]])] }

/-- The state before the first call at the second 1000 of a world of the kind of
`envClock`, for a consumer with a speed limit of two events. -/
def stClockSpeed : State Nat :=
  { stClock false with r := { rClock false with speedLimit := 2 } }

/-- The cursor that a start of a pending query stands for: `none` for "-" and for any
text that is not a stream ID. -/
def readCursor (start : String) : Option StreamID :=
  match splitOnDash start.data with
  | [a, b] =>
    if a = [] then none
    else
      match parseDigits a 0, parseDigits b 0 with
      | some ms, some seq => some ⟨ms, seq⟩
      | _, _ => none
  | _ => none

/-- A world whose streams each have the pending entries `entries`, owned by the consumer
`g-2` and idle for 130 s: a pending query is answered with the first `countPending` of
the entries that are not before its start. -/
def envStore (entries : List StreamID) : Env Unit :=
  { env0 with
    xPendingExt := fun _ a =>
      ((entries.filter (fromCursor (readCursor a.Start))).take countPending).map
        (fun x => ⟨x.render, "g-2", 130000000000, 1⟩) }

/-- The 150 stream IDs `1-0`, `2-0`, ..., `150-0`. -/
def entries150 : List StreamID := (List.range 150).map (fun i => ⟨i + 1, 0⟩)

/-- The world `envPending` with a running map in which the slot 2 carries the largest
`int64` as its timestamp. -/
def envWrapped : Env Unit :=
  { envPending with hGetAll := fun _ _ => [("1", "1"), ("2", "9223372036854775807")] }

/-- A world of the kind of `envClock`, never canceled, whose speed logger has counted two
DB queries of 1500 microseconds and three Redis queries of 700 microseconds since it was
cleared. -/
def envBusy : Env Nat :=
  { envClock [] 1000000 with speedLogger := fun _ => ⟨2, 1500, 3, 700⟩ }

/-- The state of the slot 1 at the second 1000, with a speed limit of three events and
accumulators that are not empty: 5 microseconds of handler time, one DB query of 40
microseconds and two Redis queries of 9 microseconds. -/
def stBusy : State Nat :=
  { stClockOne 1000 with
    r := { (stClockOne 1000).r with
      speedLimit := 3, speedTimeMicroseconds := 5, speedDBQueries := 1,
      speedDBMicroseconds := 40, speedRedisQueries := 2, speedRedisMicroseconds := 9 } }

/-! ## Lemmas on traces and on the acknowledgment scan -/

@[simp] theorem emit_trace (env : Env W) (st : State W) (c : Call) :
    (emit env st c).trace = st.trace ++ [c] := rfl

@[simp] theorem emit_r (env : Env W) (st : State W) (c : Call) : (emit env st c).r = st.r := rfl

@[simp] theorem emit_held (env : Env W) (st : State W) (c : Call) :
    (emit env st c).held = st.held := rfl

@[simp] theorem emitAll_trace (env : Env W) (st : State W) (cs : List Call) :
    (emitAll env st cs).trace = st.trace ++ cs := by
  induction cs generalizing st with
  | nil => simp [emitAll]
  | cons c cs ih => simp [emitAll, ih]

@[simp] theorem emitAll_r (env : Env W) (st : State W) (cs : List Call) :
    (emitAll env st cs).r = st.r := by
  induction cs generalizing st with
  | nil => simp [emitAll]
  | cons c cs ih => simp [emitAll, ih]

@[simp] theorem emitAll_held (env : Env W) (st : State W) (cs : List Call) :
    (emitAll env st cs).held = st.held := by
  induction cs generalizing st with
  | nil => simp [emitAll]
  | cons c cs ih => simp [emitAll, ih]

theorem toAckAppend_keys (m : List (String × List String)) (s id : String) :
    (toAckAppend m s id).map Prod.fst =
      if s ∈ m.map Prod.fst then m.map Prod.fst else m.map Prod.fst ++ [s] := by
  induction m with
  | nil => simp [toAckAppend]
  | cons p m ih =>
    obtain ⟨k, ids⟩ := p
    by_cases h : k = s
    · simp [toAckAppend, h]
    · have h2 : ¬ s = k := fun e => h e.symm
      simp only [toAckAppend, h, if_false, List.map_cons, ih, List.mem_cons, h2, false_or]
      split <;> simp

theorem toAckAppend_nodup (m : List (String × List String)) (s id : String)
    (h : (m.map Prod.fst).Nodup) : ((toAckAppend m s id).map Prod.fst).Nodup := by
  rw [toAckAppend_keys]
  split
  · exact h
  · rename_i hs
    exact List.Nodup.append h (by simp) (by simpa using hs)

theorem mem_toAckAppend (m : List (String × List String)) (s id t : String) (ids : List String)
    (h : (m.map Prod.fst).Nodup) :
    (t, ids) ∈ toAckAppend m s id ↔
      (t ≠ s ∧ (t, ids) ∈ m) ∨
      (t = s ∧ ((∃ ids0, (s, ids0) ∈ m ∧ ids = ids0 ++ [id]) ∨
                (s ∉ m.map Prod.fst ∧ ids = [id]))) := by
  induction m with
  | nil => simp [toAckAppend]
  | cons p m ih =>
    obtain ⟨k, ids1⟩ := p
    have hk : k ∉ m.map Prod.fst := (List.nodup_cons.1 h).1
    have hm := ih (List.nodup_cons.1 h).2
    have hno : ∀ x, (k, x) ∉ m := fun x hx => hk (List.mem_map.2 ⟨(k, x), hx, rfl⟩)
    by_cases hks : k = s
    · subst hks
      simp only [toAckAppend, if_true, List.mem_cons, Prod.mk.injEq, List.map_cons]
      constructor
      · intro h1
        rcases h1 with ⟨h1, h2⟩ | hmem
        · subst h1; subst h2
          exact Or.inr ⟨rfl, Or.inl ⟨ids1, Or.inl ⟨trivial, rfl⟩, rfl⟩⟩
        · by_cases htk : t = k
          · subst htk; exact absurd hmem (hno _)
          · exact Or.inl ⟨htk, Or.inr hmem⟩
      · intro h1
        rcases h1 with ⟨hne, h2⟩ | ⟨h1, h2⟩
        · rcases h2 with ⟨h2, _⟩ | hmem
          · exact absurd h2 hne
          · exact Or.inr hmem
        · subst h1
          rcases h2 with ⟨ids0, h3, h4⟩ | ⟨hnot, _⟩
          · rcases h3 with ⟨_, h3⟩ | hmem
            · subst h3; subst h4; exact Or.inl ⟨rfl, rfl⟩
            · exact absurd hmem (hno _)
          · simp at hnot
    · have hsk : ¬ s = k := fun e => hks e.symm
      simp only [toAckAppend, hks, if_false, List.mem_cons, Prod.mk.injEq, List.map_cons, hm]
      constructor
      · intro h1
        rcases h1 with ⟨h1, h2⟩ | ⟨hne, hmem⟩ | ⟨h1, h2⟩
        · subst h1; subst h2
          exact Or.inl ⟨hks, Or.inl ⟨rfl, rfl⟩⟩
        · exact Or.inl ⟨hne, Or.inr hmem⟩
        · subst h1
          rcases h2 with ⟨ids0, hmem, h4⟩ | ⟨hnot, h4⟩
          · exact Or.inr ⟨rfl, Or.inl ⟨ids0, Or.inr hmem, h4⟩⟩
          · refine Or.inr ⟨rfl, Or.inr ⟨?_, h4⟩⟩
            intro hc
            rcases hc with hc | hc
            · exact hsk hc
            · exact hnot hc
      · intro h1
        rcases h1 with ⟨hne, h2⟩ | ⟨h1, h2⟩
        · rcases h2 with ⟨h2, h3⟩ | hmem
          · exact Or.inl ⟨h2, h3⟩
          · exact Or.inr (Or.inl ⟨hne, hmem⟩)
        · subst h1
          rcases h2 with ⟨ids0, h3, h4⟩ | ⟨hnot, h4⟩
          · rcases h3 with ⟨h3, _⟩ | hmem
            · exact absurd h3.symm hks
            · exact Or.inr (Or.inr ⟨rfl, Or.inl ⟨ids0, hmem, h4⟩⟩)
          · refine Or.inr (Or.inr ⟨rfl, Or.inr ⟨?_, h4⟩⟩)
            intro hc
            exact hnot (Or.inr hc)

theorem unackedIDs_append (l : List event) (e : event) (s : String) :
    unackedIDs (l ++ [e]) s =
      unackedIDs l s ++ (if e.ack = false ∧ e.stream = s then [e.message.ID] else []) := by
  unfold unackedIDs
  by_cases h : e.ack = false ∧ e.stream = s
  · simp [List.filter_append, List.filter_cons, h]
  · have h2 : (!e.ack && e.stream == s) = false := by
      rcases e.ack.eq_false_or_eq_true with ha | ha
      · simp [*] at *
      · simp only [ha] at h
        simp at h
        simp [ha, h]
    simp [List.filter_append, List.filter_cons, h, h2]

theorem ackScan_inv (events : List event) :
    ∀ (m : List (String × List String)) (b : Bool) (l : List event),
      (m.map Prod.fst).Nodup →
      (∀ s ids, (s, ids) ∈ m ↔ (ids = unackedIDs l s ∧ ids ≠ [])) →
      ((ackScan events m b).1.map Prod.fst).Nodup ∧
      ∀ s ids, (s, ids) ∈ (ackScan events m b).1 ↔
        (ids = unackedIDs (l ++ events) s ∧ ids ≠ []) := by
  induction events with
  | nil => intro m b l h1 h2; simpa [ackScan] using ⟨h1, h2⟩
  | cons e rest ih =>
    intro m b l h1 h2
    have hl : l ++ e :: rest = (l ++ [e]) ++ rest := by simp
    rw [hl]
    by_cases ha : e.ack = true
    · have key : ∀ s, unackedIDs (l ++ [e]) s = unackedIDs l s := by
        intro s; rw [unackedIDs_append]; simp [ha]
      have h2' : ∀ s ids, (s, ids) ∈ m ↔ (ids = unackedIDs (l ++ [e]) s ∧ ids ≠ []) := by
        intro s ids; rw [key]; exact h2 s ids
      by_cases hd : e.deleted = true
      · simpa [ackScan, ha, hd] using ih m b (l ++ [e]) h1 h2'
      · simpa [ackScan, ha, hd] using ih m false (l ++ [e]) h1 h2'
    · have ha' : e.ack = false := by simpa using ha
      have hn := toAckAppend_nodup m e.stream e.message.ID h1
      have h2' : ∀ s ids, (s, ids) ∈ toAckAppend m e.stream e.message.ID ↔
          (ids = unackedIDs (l ++ [e]) s ∧ ids ≠ []) := by
        intro s ids
        rw [mem_toAckAppend m e.stream e.message.ID s ids h1, unackedIDs_append]
        by_cases hs : s = e.stream
        · subst hs
          simp only [ne_eq, not_true_eq_false, false_and, false_or, true_and, ha', and_self,
            if_true]
          constructor
          · rintro (⟨ids0, hmem, rfl⟩ | ⟨hnot, rfl⟩)
            · exact ⟨by rw [((h2 _ _).1 hmem).1], by simp⟩
            · have : unackedIDs l e.stream = [] := by
                by_contra hne
                exact hnot (List.mem_map.2 ⟨(e.stream, unackedIDs l e.stream),
                  (h2 _ _).2 ⟨rfl, hne⟩, rfl⟩)
              exact ⟨by simp [this], by simp⟩
          · rintro ⟨rfl, _⟩
            by_cases hne : unackedIDs l e.stream = []
            · right
              refine ⟨?_, by simp [hne]⟩
              intro hc
              obtain ⟨p, hp, hp2⟩ := List.mem_map.1 hc
              obtain ⟨k, x⟩ := p
              simp only at hp2
              subst hp2
              exact ((h2 _ _).1 hp).2 (((h2 _ _).1 hp).1.trans hne)
            · left
              exact ⟨unackedIDs l e.stream, (h2 _ _).2 ⟨rfl, hne⟩, rfl⟩
        · have hs' : ¬ e.stream = s := fun h => hs h.symm
          simp [hs, hs', h2]
      simpa [ackScan, ha'] using ih _ b (l ++ [e]) hn h2'

theorem ackScan_allDeleted (events : List event) :
    ∀ (m : List (String × List String)) (b : Bool),
      (ackScan events m b).2 = (b && events.all (fun e => !e.ack || e.deleted)) := by
  induction events with
  | nil => intro m b; simp [ackScan]
  | cons e rest ih =>
    intro m b
    rcases e.ack.eq_false_or_eq_true with ha | ha <;>
      rcases e.deleted.eq_false_or_eq_true with hd | hd <;>
      simp [ackScan, ha, hd, ih]

theorem mem_ackCalls (group stream : String) (ids : List String)
    (m : List (String × List String)) :
    Call.xAck stream group ids ∈ ackCalls group m ↔ (stream, ids) ∈ m := by
  unfold ackCalls
  constructor
  · intro h
    obtain ⟨p, hp, hp2⟩ := List.mem_map.1 h
    obtain ⟨k, x⟩ := p
    simp only [Call.xAck.injEq] at hp2
    obtain ⟨rfl, _, rfl⟩ := hp2
    exact hp
  · intro h
    exact List.mem_map.2 ⟨(stream, ids), h, rfl⟩

@[simp] theorem beginDispatch_trace (env : Env W) (st : State W) (total : Int) :
    (beginDispatch env st total).trace = st.trace ++ [Call.speedLoggerClear] := rfl

@[simp] theorem beginDispatch_world (env : Env W) (st : State W) (total : Int) :
    (beginDispatch env st total).world = env.step st.world Call.speedLoggerClear := rfl

@[simp] theorem beginDispatch_group (env : Env W) (st : State W) (total : Int) :
    (beginDispatch env st total).r.group = st.r.group := rfl

@[simp] theorem beginDispatch_poolCode (env : Env W) (st : State W) (total : Int) :
    (beginDispatch env st total).r.poolCode = st.r.poolCode := rfl

@[simp] theorem beginDispatch_errorHandler (env : Env W) (st : State W) (total : Int) :
    (beginDispatch env st total).r.errorHandler = st.r.errorHandler := rfl

@[simp] theorem beginDispatch_held (env : Env W) (st : State W) (total : Int) :
    (beginDispatch env st total).held = st.held := rfl

theorem callHandler_fst (env : Env W) (handler : EventConsumerHandler W) (st : State W)
    (events : List event) :
    (callHandler env handler st events).1 =
      ((applyOps st.r.group events (handler st.world events).ops).1,
        (handler st.world events).panic) := rfl

theorem callHandler_trace (env : Env W) (handler : EventConsumerHandler W) (st : State W)
    (events : List event) :
    (callHandler env handler st events).2.trace =
      st.trace ++ Call.handler events ::
        ((applyOps st.r.group events (handler st.world events).ops).2 ++
          [Call.handlerDone (handler st.world events).panic]) := by
  simp [callHandler]

@[simp] theorem callHandler_r (env : Env W) (handler : EventConsumerHandler W) (st : State W)
    (events : List event) : (callHandler env handler st events).2.r = st.r := by
  simp [callHandler]

@[simp] theorem callHandler_held (env : Env W) (handler : EventConsumerHandler W)
    (st : State W) (events : List event) :
    (callHandler env handler st events).2.held = st.held := by
  simp [callHandler]

theorem acknowledge_trace (env : Env W) (st : State W) (events : List event) :
    (acknowledge env st events).trace =
      st.trace ++ ((if (ackScan events [] true).2 then []
        else [Call.publish env.garbageCollectorChannelName
                { Group := st.r.group, Pool := st.r.poolCode }]) ++
        ackCalls st.r.group (ackScan events [] true).1) := by
  unfold acknowledge garbage
  cases h : (ackScan events [] true).2 <;> simp [h]

theorem dispatchBatch_returned (env : Env W) (handler : EventConsumerHandler W) (st : State W)
    (results : List XStream) (total : Int)
    (hret : (handler (env.step st.world Call.speedLoggerClear) (newEvents results)).panic = none) :
    (dispatchBatch env handler st results total).1 = .ok () ∧
    (dispatchBatch env handler st results total).2.trace =
      st.trace ++ Call.speedLoggerClear :: Call.handler (newEvents results) ::
        ((applyOps st.r.group (newEvents results)
            (handler (env.step st.world Call.speedLoggerClear) (newEvents results)).ops).2 ++
         Call.handlerDone none ::
         ((if (ackScan (applyOps st.r.group (newEvents results)
              (handler (env.step st.world Call.speedLoggerClear) (newEvents results)).ops).1
              [] true).2 then []
           else [Call.publish env.garbageCollectorChannelName
                  { Group := st.r.group, Pool := st.r.poolCode }]) ++
          ackCalls st.r.group (ackScan (applyOps st.r.group (newEvents results)
              (handler (env.step st.world Call.speedLoggerClear) (newEvents results)).ops).1
              [] true).1)) := by
  have h1 : (callHandler env handler (beginDispatch env st total) (newEvents results)).1.2 =
      none := by
    rw [callHandler_fst]; exact hret
  unfold dispatchBatch runHandler
  simp only [h1]
  refine ⟨trivial, ?_⟩
  rw [acknowledge_trace]
  simp [addSpeed, callHandler_trace, callHandler_fst, hret]

/-! ## C1, C5, C6: the batched acknowledgment -/

theorem newEvents_flags (results : List XStream) :
    ∀ e ∈ newEvents results, e.ack = false ∧ e.deleted = false := by
  induction results with
  | nil => simp [newEvents]
  | cons row rest ih =>
    intro e he
    simp only [newEvents, List.mem_append, List.mem_map] at he
    rcases he with ⟨m, _, rfl⟩ | he
    · exact ⟨rfl, rfl⟩
    · exact ih e he

theorem applyOp_deleted_ack (group : String) (evs : List event) (op : EventOp)
    (h : ∀ e ∈ evs, e.deleted = true → e.ack = true) :
    ∀ e ∈ (applyOp group evs op).1, e.deleted = true → e.ack = true := by
  intro e he
  cases op with
  | Ack i =>
    simp only [applyOp] at he
    split at he
    · rcases List.mem_or_eq_of_mem_set he with he | rfl
      · exact h e he
      · intro _; rfl
    · exact h e he
  | delete i =>
    simp only [applyOp] at he
    split at he
    · rcases List.mem_or_eq_of_mem_set he with he | rfl
      · exact h e he
      · intro _; rfl
    · exact h e he

theorem applyOps_deleted_ack (group : String) (ops : List EventOp) :
    ∀ evs : List event, (∀ e ∈ evs, e.deleted = true → e.ack = true) →
      ∀ e ∈ (applyOps group evs ops).1, e.deleted = true → e.ack = true := by
  induction ops with
  | nil => intro evs h; simpa [applyOps] using h
  | cons op ops ih =>
    intro evs h
    simp only [applyOps]
    exact ih _ (applyOp_deleted_ack group evs op h)

theorem ackScan_all_deleted (events : List event)
    (h : ∀ e ∈ events, e.ack = true ∧ e.deleted = true) :
    ∀ (m : List (String × List String)) (b : Bool), ackScan events m b = (m, b) := by
  induction events with
  | nil => intro m b; rfl
  | cons e rest ih =>
    intro m b
    have he := h e (List.mem_cons_self _ _)
    simp only [ackScan, he.1, he.2, Bool.not_true, Bool.false_eq_true, if_false]
    exact ih (fun x hx => h x (List.mem_cons_of_mem _ hx)) m b

/-- C1: when the handler of a dispatch batch returns normally, the engine then makes at
most one garbage-collection publish followed by the `XAck` calls of the map `toAck`: the
streams of these calls are pairwise distinct, and `XAck(stream, group, ids)` is among them
exactly when `ids` is the non-empty list of the IDs of that stream's events whose ack flag
is still false, in batch order.  If the handler performed no operation on its events,
every event's ID is carried by the `XAck` call of its stream. -/
theorem C1_batch_acknowledged (env : Env W) (handler : EventConsumerHandler W) (st : State W)
    (results : List XStream) (total : Int)
    (hret : (batchRun env handler st results).panic = none) :
    (dispatchBatch env handler st results total).1 = .ok () ∧
    (dispatchBatch env handler st results total).2.trace =
      st.trace ++ Call.speedLoggerClear :: Call.handler (newEvents results) ::
        (batchCalls env handler st results ++ Call.handlerDone none ::
          ((if (ackScan (batchEvents env handler st results) [] true).2 then []
            else [Call.publish env.garbageCollectorChannelName
                   { Group := st.r.group, Pool := st.r.poolCode }]) ++
           ackCalls st.r.group (ackScan (batchEvents env handler st results) [] true).1)) ∧
    ((ackScan (batchEvents env handler st results) [] true).1.map Prod.fst).Nodup ∧
    (∀ stream ids,
      Call.xAck stream st.r.group ids ∈
          ackCalls st.r.group (ackScan (batchEvents env handler st results) [] true).1 ↔
        (ids = unackedIDs (batchEvents env handler st results) stream ∧ ids ≠ [])) ∧
    ((batchRun env handler st results).ops = [] →
      ∀ e ∈ newEvents results, ∃ ids,
        Call.xAck e.stream st.r.group ids ∈
            ackCalls st.r.group (ackScan (batchEvents env handler st results) [] true).1 ∧
          e.message.ID ∈ ids) := by
  have hd := dispatchBatch_returned env handler st results total hret
  have hinv := ackScan_inv (applyOps st.r.group (newEvents results)
      (handler (env.step st.world Call.speedLoggerClear) (newEvents results)).ops).1
      [] true [] (by simp) (by simp [unackedIDs])
  simp only [List.nil_append] at hinv
  have hmem : ∀ stream ids,
      Call.xAck stream st.r.group ids ∈
        ackCalls st.r.group (ackScan (applyOps st.r.group (newEvents results)
          (handler (env.step st.world Call.speedLoggerClear) (newEvents results)).ops).1
          [] true).1 ↔
      (ids = unackedIDs (applyOps st.r.group (newEvents results)
          (handler (env.step st.world Call.speedLoggerClear) (newEvents results)).ops).1 stream
        ∧ ids ≠ []) := by
    intro stream ids
    rw [mem_ackCalls]
    exact hinv.2 stream ids
  refine ⟨hd.1, hd.2, hinv.1, hmem, ?_⟩
  intro hops e he
  have hin : e.message.ID ∈ unackedIDs (newEvents results) e.stream := by
    unfold unackedIDs
    refine List.mem_map.2 ⟨e, ?_, rfl⟩
    simp [List.mem_filter, he, (newEvents_flags results e he).1]
  refine ⟨unackedIDs (newEvents results) e.stream, ?_, hin⟩
  rw [hmem]
  simp only [hops, applyOps]
  exact ⟨trivial, List.ne_nil_of_mem hin⟩

/-- C1 at a batch of three events on two streams with a handler that acknowledges nothing. -/
theorem C1_batch_acknowledged_witness :
    (batchRun env0 handlerIdle st0 res3).panic = none ∧
    (dispatchBatch env0 handlerIdle st0 res3 3).2.trace =
      [Call.speedLoggerClear, Call.handler (newEvents res3), Call.handlerDone none,
       Call.xAck "s1" "g" ["1-0", "2-0"], Call.xAck "s2" "g" ["3-0"]] :=
  ⟨rfl, by
    have h := (C1_batch_acknowledged env0 handlerIdle st0 res3 3 rfl).2.1
    rw [h]
    decide⟩

/-- C6: when the handler of a dispatch batch returns normally and every event of the
batch then carries the deleted flag, the engine makes no call after the handler has
returned: no garbage-collection message is published and no `XAck` is issued for the
batch (the only calls of the dispatch are those of the handler's own `delete()`). -/
theorem C6_all_deleted_no_signal (env : Env W) (handler : EventConsumerHandler W)
    (st : State W) (results : List XStream) (total : Int)
    (hret : (batchRun env handler st results).panic = none)
    (hdel : ∀ e ∈ batchEvents env handler st results, e.deleted = true) :
    (dispatchBatch env handler st results total).1 = .ok () ∧
    (dispatchBatch env handler st results total).2.trace =
      st.trace ++ Call.speedLoggerClear :: Call.handler (newEvents results) ::
        (batchCalls env handler st results ++ [Call.handlerDone none]) := by
  have hd := dispatchBatch_returned env handler st results total hret
  have hack := applyOps_deleted_ack st.r.group
    (handler (env.step st.world Call.speedLoggerClear) (newEvents results)).ops
    (newEvents results) (fun e he hx => by
      rw [(newEvents_flags results e he).2] at hx; exact absurd hx (by decide))
  have hscan := ackScan_all_deleted _ (fun e he => ⟨hack e he (hdel e he), hdel e he⟩) [] true
  refine ⟨hd.1, ?_⟩
  rw [hd.2, hscan]
  simp [ackCalls]

/-- C6 at a batch of three events that the handler deletes one by one. -/
theorem C6_all_deleted_no_signal_witness :
    ((batchRun env0 handlerDeleteAll st0 res3).panic = none ∧
     ∀ e ∈ batchEvents env0 handlerDeleteAll st0 res3, e.deleted = true) ∧
    (dispatchBatch env0 handlerDeleteAll st0 res3 3).2.trace =
      [Call.speedLoggerClear, Call.handler (newEvents res3),
       Call.xAck "s1" "g" ["1-0"], Call.xDel "s1" "1-0",
       Call.xAck "s1" "g" ["2-0"], Call.xDel "s1" "2-0",
       Call.xAck "s2" "g" ["3-0"], Call.xDel "s2" "3-0",
       Call.handlerDone none] :=
  ⟨⟨rfl, by decide⟩, by
    have h := (C6_all_deleted_no_signal env0 handlerDeleteAll st0 res3 3 rfl (by decide)).2
    rw [h]
    decide⟩

/-- C5 (the code at the failing input): a batch of three events whose handler returns
normally without acknowledging or deleting anything completes with no event deleted, and
the engine acknowledges the three events but publishes no garbage-collection message: the
scan sets `allDeleted` to false only for an event that is acknowledged and not deleted. -/
theorem C5_no_signal_for_unacknowledged_batch :
    (batchRun env0 handlerIdle st0 res3).panic = none ∧
    (∀ e ∈ batchEvents env0 handlerIdle st0 res3, e.deleted = false) ∧
    (dispatchBatch env0 handlerIdle st0 res3 3).1 = .ok () ∧
    (dispatchBatch env0 handlerIdle st0 res3 3).2.trace =
      [Call.speedLoggerClear, Call.handler (newEvents res3), Call.handlerDone none,
       Call.xAck "s1" "g" ["1-0", "2-0"], Call.xAck "s2" "g" ["3-0"]] ∧
    ∀ stream body, Call.publish stream body ∉ (dispatchBatch env0 handlerIdle st0 res3 3).2.trace := by
  refine ⟨rfl, by decide, by decide, by decide, ?_⟩
  intro stream body h
  have ht : (dispatchBatch env0 handlerIdle st0 res3 3).2.trace =
      [Call.speedLoggerClear, Call.handler (newEvents res3), Call.handlerDone none,
       Call.xAck "s1" "g" ["1-0", "2-0"], Call.xAck "s2" "g" ["3-0"]] := by decide
  rw [ht] at h
  simp at h

/-! ## C3, C4: the replay of a failed batch -/

theorem applyOp_map (group : String) (evs : List event) (op : EventOp) :
    (applyOp group evs op).1.map (fun e => (e.stream, e.message)) =
      evs.map (fun e => (e.stream, e.message)) := by
  cases op with
  | Ack i =>
    simp only [applyOp]
    split
    · rename_i ev h
      apply List.ext_getElem
      · simp
      · intro n h1 h2
        simp only [List.getElem_map, List.getElem_set]
        split
        · rename_i hin
          subst hin
          have := List.getElem?_eq_some.1 h
          obtain ⟨hlt, hx⟩ := this
          simp [event.Ack, ← hx]
        · rfl
    · rfl
  | delete i =>
    simp only [applyOp]
    split
    · rename_i ev h
      apply List.ext_getElem
      · simp
      · intro n h1 h2
        simp only [List.getElem_map, List.getElem_set]
        split
        · rename_i hin
          subst hin
          have := List.getElem?_eq_some.1 h
          obtain ⟨hlt, hx⟩ := this
          simp [event.delete, event.Ack, ← hx]
        · rfl
    · rfl

theorem applyOps_map (group : String) (ops : List EventOp) :
    ∀ evs : List event,
      (applyOps group evs ops).1.map (fun e => (e.stream, e.message)) =
        evs.map (fun e => (e.stream, e.message)) := by
  induction ops with
  | nil => intro evs; rfl
  | cons op ops ih =>
    intro evs
    simp only [applyOps]
    rw [ih, applyOp_map]

theorem applyOps_single (group : String) (ops : List EventOp) (e : event) :
    ∃ e1, (applyOps group [e] ops).1 = [e1] ∧ e1.stream = e.stream ∧ e1.message = e.message := by
  have h := applyOps_map group ops [e]
  match hl : (applyOps group [e] ops).1 with
  | [] => rw [hl] at h; simp at h
  | [e1] =>
    rw [hl] at h
    simp at h
    exact ⟨e1, rfl, h.1, h.2⟩
  | _ :: _ :: _ => rw [hl] at h; simp at h

theorem applyOp_calls (group : String) (evs : List event) (op : EventOp) :
    ∀ c ∈ (applyOp group evs op).2,
      ∃ e ∈ evs, c = Call.xAck e.stream group [e.message.ID] ∨
        c = Call.xDel e.stream e.message.ID := by
  intro c hc
  cases op with
  | Ack i =>
    simp only [applyOp] at hc
    split at hc
    · rename_i ev h
      simp only [event.Ack, List.mem_singleton] at hc
      exact ⟨ev, List.getElem?_mem h, Or.inl hc⟩
    · simp at hc
  | delete i =>
    simp only [applyOp] at hc
    split at hc
    · rename_i ev h
      simp only [event.delete, event.Ack, List.mem_append, List.mem_singleton,
        List.singleton_append, List.mem_cons, List.not_mem_nil, or_false] at hc
      exact ⟨ev, List.getElem?_mem h, hc⟩
    · simp at hc

theorem applyOps_calls (group : String) (ops : List EventOp) :
    ∀ (evs : List event), ∀ c ∈ (applyOps group evs ops).2,
      ∃ s id, c = Call.xAck s group [id] ∨ c = Call.xDel s id := by
  induction ops with
  | nil => intro evs c hc; simp [applyOps] at hc
  | cons op ops ih =>
    intro evs c hc
    simp only [applyOps, List.mem_append] at hc
    rcases hc with hc | hc
    · obtain ⟨e, _, h⟩ := applyOp_calls group evs op c hc
      exact ⟨e.stream, e.message.ID, h⟩
    · exact ih _ c hc

theorem callbacks_applyOps (group : String) (ops : List EventOp) (evs : List event) :
    callbacks (applyOps group evs ops).2 = [] := by
  unfold callbacks
  rw [List.filter_eq_nil_iff]
  intro c hc
  obtain ⟨s, id, h | h⟩ := applyOps_calls group ops evs c hc <;> simp [h, Call.isCallback]

theorem callbacks_append (a b : List Call) : callbacks (a ++ b) = callbacks a ++ callbacks b := by
  simp [callbacks]

theorem replay_log (env : Env W) (handler : EventConsumerHandler W)
    (eh : ConsumerErrorHandler W) (hret : ∀ w err e, (eh w err e).panic = none)
    (es : List event) :
    ∀ st : State W,
      (replay env handler eh st es).1 = .ok () ∧
      (replay env handler eh st es).2.r = st.r ∧
      (replay env handler eh st es).2.held = st.held ∧
      ∃ tail, (replay env handler eh st es).2.trace = st.trace ++ tail ∧
        replayedLog es (callbacks tail) = true := by
  induction es with
  | nil => intro st; exact ⟨rfl, rfl, rfl, [], by simp [replay], by simp [callbacks, replayedLog]⟩
  | cons e rest ih =>
    intro st
    cases hp : (handler st.world [e]).panic with
    | none =>
      have hfst : (callHandler env handler st [e]).1.2 = none := by rw [callHandler_fst]; exact hp
      have hrw : replay env handler eh st (e :: rest) =
          replay env handler eh (callHandler env handler st [e]).2 rest := by
        simp only [replay, hfst]
      obtain ⟨h1, h2, h3, tail, h4, h5⟩ := ih (callHandler env handler st [e]).2
      rw [hrw]
      refine ⟨h1, by simpa using h2, by simpa using h3,
        Call.handler [e] :: ((applyOps st.r.group [e] (handler st.world [e]).ops).2 ++
          [Call.handlerDone none]) ++ tail, ?_, ?_⟩
      · rw [h4, callHandler_trace, hp]; simp
      · have : callbacks (Call.handler [e] :: ((applyOps st.r.group [e]
            (handler st.world [e]).ops).2 ++ [Call.handlerDone none]) ++ tail) =
            Call.handler [e] :: Call.handlerDone none :: callbacks tail := by
          have hc := callbacks_applyOps st.r.group (handler st.world [e]).ops [e]
          simp only [callbacks] at hc ⊢
          simp [List.filter_cons, List.filter_append, hc, Call.isCallback]
        rw [this]
        simp [replayedLog, h5]
    | some rec =>
      have hfst : (callHandler env handler st [e]).1.2 = some rec := by
        rw [callHandler_fst]; exact hp
      obtain ⟨e1, he1, hs, hm⟩ := applyOps_single st.r.group (handler st.world [e]).ops e
      have hhead : (callHandler env handler st [e]).1.1.headD e = e1 := by
        rw [callHandler_fst]; simp [he1]
      have hrw : replay env handler eh st (e :: rest) =
          replay env handler eh
            (emit env (emitAll env (emit env (callHandler env handler st [e]).2
              (Call.errorHandler (asErr rec) e1))
              (applyOps st.r.group [e1]
                (eh (callHandler env handler st [e]).2.world (asErr rec) e1).ops).2)
              (Call.errorHandlerDone none)) rest := by
        simp only [replay, hfst, hhead, hret]
      rw [hrw]
      obtain ⟨h1, h2, h3, tail, h4, h5⟩ := ih (emit env (emitAll env (emit env
        (callHandler env handler st [e]).2 (Call.errorHandler (asErr rec) e1))
        (applyOps st.r.group [e1]
          (eh (callHandler env handler st [e]).2.world (asErr rec) e1).ops).2)
        (Call.errorHandlerDone none))
      refine ⟨h1, by simpa using h2, by simpa using h3,
        Call.handler [e] :: ((applyOps st.r.group [e] (handler st.world [e]).ops).2 ++
          Call.handlerDone (some rec) :: Call.errorHandler (asErr rec) e1 ::
          ((applyOps st.r.group [e1]
            (eh (callHandler env handler st [e]).2.world (asErr rec) e1).ops).2 ++
          [Call.errorHandlerDone none])) ++ tail, ?_, ?_⟩
      · rw [h4]; simp [callHandler_trace, hp]
      · have hc1 := callbacks_applyOps st.r.group (handler st.world [e]).ops [e]
        have hc2 := callbacks_applyOps st.r.group
          (eh (callHandler env handler st [e]).2.world (asErr rec) e1).ops [e1]
        simp only [callbacks] at hc1 hc2 h5 ⊢
        simp [List.filter_cons, List.filter_append, hc1, hc2, Call.isCallback, replayedLog,
          h5, hs, hm]

theorem replay_append (env : Env W) (handler : EventConsumerHandler W)
    (eh : ConsumerErrorHandler W) (es : List event) (pre : List event) :
    ∀ st : State W, (replay env handler eh st pre).1 = .ok () →
      replay env handler eh st (pre ++ es) =
        replay env handler eh (replay env handler eh st pre).2 es := by
  induction pre with
  | nil => intro st _; rfl
  | cons e rest ih =>
    intro st hok
    simp only [List.cons_append, replay] at hok ⊢
    split
    · rename_i hnone
      simp only [hnone] at hok
      exact ih _ hok
    · rename_i rec hsome
      simp only [hsome] at hok
      split
      · rename_i v hv
        simp only [hv] at hok
        cases hok
      · rename_i hv
        simp only [hv] at hok ⊢
        exact ih _ hok

theorem replay_cons_escapes (env : Env W) (handler : EventConsumerHandler W)
    (eh : ConsumerErrorHandler W) (st : State W) (e e1 : event) (rest : List event)
    (rec v : PanicValue) (hp : (handler st.world [e]).panic = some rec)
    (he1 : e1 = (applyOps st.r.group [e] (handler st.world [e]).ops).1.headD e)
    (hv : (eh (callHandler env handler st [e]).2.world (asErr rec) e1).panic = some v) :
    replay env handler eh st (e :: rest) =
      (.panicked v,
        emit env (emitAll env (emit env (callHandler env handler st [e]).2
          (Call.errorHandler (asErr rec) e1))
          (applyOps st.r.group [e1]
            (eh (callHandler env handler st [e]).2.world (asErr rec) e1).ops).2)
          (Call.errorHandlerDone (some v))) := by
  have hfst : (callHandler env handler st [e]).1.2 = some rec := by
    rw [callHandler_fst]; exact hp
  have hhead : (callHandler env handler st [e]).1.1.headD e = e1 := by
    rw [callHandler_fst, he1]
  simp only [replay, hfst, hhead, hv]

theorem dispatchBatch_escapes (env : Env W) (handler : EventConsumerHandler W)
    (eh : ConsumerErrorHandler W) (st : State W) (results : List XStream) (total : Int)
    (rec v : PanicValue) (st2 : State W)
    (hpanic : (batchRun env handler st results).panic = some rec)
    (hset : st.r.errorHandler = some eh)
    (hreplay : replay env handler eh
      (callHandler env handler (beginDispatch env st total) (newEvents results)).2
      ((batchEvents env handler st results).filter (fun e => !e.ack)) = (.panicked v, st2)) :
    dispatchBatch env handler st results total = (.panicked v, st2) := by
  have h1 : (callHandler env handler (beginDispatch env st total) (newEvents results)).1.2 =
      some rec := by
    rw [callHandler_fst]; exact hpanic
  have hset2 : (beginDispatch env st total).r.errorHandler = some eh := by simpa using hset
  have hev : (callHandler env handler (beginDispatch env st total) (newEvents results)).1.1 =
      batchEvents env handler st results := by
    rw [callHandler_fst]; rfl
  have hrun : runHandler env handler (beginDispatch env st total) (newEvents results) =
      (.panicked v, st2) := by
    unfold runHandler
    simp only [h1, hset2, hev, hreplay]
  unfold dispatchBatch
  simp only [hrun]

/-- C3 (as amended): when the batch handler panics and an error handler is set, (a) if
the error handler returns normally whenever it is called, the engine replays exactly the
events of the batch whose ack flag is false at that moment, in batch order, each with a
one-element list; a single-event call that panics is followed by exactly one call of the
error handler with the error of the panic value and that event, after which the replay
goes on; and the dispatch ends normally, so no panic escapes it; (b) if the replay has
gone through the events `pre` and the single-event call for the next event `e` panics and
the error handler, called with the error of that panic and the event (`e1`, which is `e`
with the flags the call has set), panics with `v`, then the dispatch ends with the panic
`v`: the call of the error handler is its last call, so that the events after `e` are not
replayed and nothing is acknowledged. -/
theorem C3_replay_isolates_events (env : Env W) (handler : EventConsumerHandler W)
    (eh : ConsumerErrorHandler W) (st : State W) (results : List XStream) (total : Int)
    (rec : PanicValue)
    (hpanic : (batchRun env handler st results).panic = some rec)
    (hset : st.r.errorHandler = some eh) :
    ((∀ w err e, (eh w err e).panic = none) →
      (dispatchBatch env handler st results total).1 = .ok () ∧
      ∃ tail, (dispatchBatch env handler st results total).2.trace =
        st.trace ++ Call.speedLoggerClear :: Call.handler (newEvents results) ::
          (batchCalls env handler st results ++ [Call.handlerDone (some rec)]) ++ tail ∧
        replayedLog ((batchEvents env handler st results).filter (fun e => !e.ack))
          (callbacks tail) = true) ∧
    (∀ (pre rest : List event) (e e1 : event) (rec1 v : PanicValue) (s1 : State W),
      (batchEvents env handler st results).filter (fun e => !e.ack) = pre ++ e :: rest →
      replay env handler eh
        (callHandler env handler (beginDispatch env st total) (newEvents results)).2 pre =
          (.ok (), s1) →
      (handler s1.world [e]).panic = some rec1 →
      e1 = (applyOps s1.r.group [e] (handler s1.world [e]).ops).1.headD e →
      (eh (callHandler env handler s1 [e]).2.world (asErr rec1) e1).panic = some v →
      (dispatchBatch env handler st results total).1 = .panicked v ∧
      (dispatchBatch env handler st results total).2.trace =
        s1.trace ++ Call.handler [e] ::
          ((applyOps s1.r.group [e] (handler s1.world [e]).ops).2 ++
            Call.handlerDone (some rec1) :: Call.errorHandler (asErr rec1) e1 ::
            ((applyOps s1.r.group [e1]
              (eh (callHandler env handler s1 [e]).2.world (asErr rec1) e1).ops).2 ++
              [Call.errorHandlerDone (some v)]))) := by
  have h1 : (callHandler env handler (beginDispatch env st total) (newEvents results)).1.2 =
      some rec := by
    rw [callHandler_fst]; exact hpanic
  have hset' : (beginDispatch env st total).r.errorHandler = some eh := by simpa using hset
  refine ⟨?_, ?_⟩
  · intro hret
    obtain ⟨r1, r2, r3, tail, r4, r5⟩ := replay_log env handler eh hret
      ((callHandler env handler (beginDispatch env st total) (newEvents results)).1.1.filter
        (fun e => !e.ack))
      (callHandler env handler (beginDispatch env st total) (newEvents results)).2
    have hrun : runHandler env handler (beginDispatch env st total) (newEvents results) =
        (.ok [], (replay env handler eh
          (callHandler env handler (beginDispatch env st total) (newEvents results)).2
          ((callHandler env handler (beginDispatch env st total) (newEvents results)).1.1.filter
            (fun e => !e.ack))).2) := by
      unfold runHandler
      simp only [h1, hset']
      revert r1
      generalize replay env handler eh _ _ = q
      obtain ⟨o, s⟩ := q
      intro r1
      simp only at r1
      subst r1
      rfl
    unfold dispatchBatch
    simp only [hrun]
    refine ⟨trivial, tail, ?_, ?_⟩
    · rw [acknowledge_trace]
      simp [ackScan, ackCalls, addSpeed, r4, callHandler_trace, hpanic]
    · simpa [callHandler_fst] using r5
  · intro pre rest e e1 rec1 v s1 hsplit hpre hp he1 hv
    have hpre1 : (replay env handler eh
        (callHandler env handler (beginDispatch env st total) (newEvents results)).2 pre).1 =
          .ok () := by rw [hpre]
    have hpre2 : (replay env handler eh
        (callHandler env handler (beginDispatch env st total) (newEvents results)).2 pre).2 =
          s1 := by rw [hpre]
    have hreplay := replay_append env handler eh (e :: rest) pre
      (callHandler env handler (beginDispatch env st total) (newEvents results)).2 hpre1
    rw [hpre2, replay_cons_escapes env handler eh s1 e e1 rest rec1 v hp he1 hv,
      ← hsplit] at hreplay
    have hd := dispatchBatch_escapes env handler eh st results total rec v _ hpanic hset
      hreplay
    rw [hd]
    refine ⟨rfl, ?_⟩
    simp [callHandler_trace, hp]

/-- C3 (as amended) at a batch of three events whose handler fails on the second one: with
an error handler that returns, the replay goes through the three events and the dispatch
ends normally; with an error handler that panics, the replay has gone through the first
event when the panic of the error handler, called for the second, ends the dispatch. -/
theorem C3_replay_isolates_events_witness :
    ((batchRun env0 handlerFailOnSecond (stWith errorHandlerIdle) res3).panic =
        some (PanicValue.value "boom") ∧
     (stWith errorHandlerIdle).r.errorHandler = some errorHandlerIdle ∧
     ∀ w err e, (errorHandlerIdle w err e).panic = none) ∧
    ((dispatchBatch env0 handlerFailOnSecond (stWith errorHandlerIdle) res3 3).1 = .ok () ∧
      ∃ tail, (dispatchBatch env0 handlerFailOnSecond (stWith errorHandlerIdle) res3 3).2.trace =
        (stWith errorHandlerIdle).trace ++
          Call.speedLoggerClear :: Call.handler (newEvents res3) ::
          (batchCalls env0 handlerFailOnSecond (stWith errorHandlerIdle) res3 ++
            [Call.handlerDone (some (PanicValue.value "boom"))]) ++ tail ∧
        replayedLog
          ((batchEvents env0 handlerFailOnSecond (stWith errorHandlerIdle) res3).filter
            (fun e => !e.ack))
          (callbacks tail) = true) ∧
    ((batchEvents env0 handlerFailOnSecond (stWith errorHandlerPanics) res3).filter
        (fun e => !e.ack) = [first] ++ second :: [third] ∧
      (dispatchBatch env0 handlerFailOnSecond (stWith errorHandlerPanics) res3 3).1 =
        .panicked (PanicValue.value "error handler failed") ∧
      (dispatchBatch env0 handlerFailOnSecond (stWith errorHandlerPanics) res3 3).2.trace =
        [Call.speedLoggerClear, Call.handler (newEvents res3),
         Call.handlerDone (some (PanicValue.value "boom")),
         Call.handler [first], Call.handlerDone none,
         Call.handler [second], Call.handlerDone (some (PanicValue.value "boom")),
         Call.errorHandler ⟨"boom"⟩ second,
         Call.errorHandlerDone (some (PanicValue.value "error handler failed"))]) :=
  have hsplit : (batchEvents env0 handlerFailOnSecond (stWith errorHandlerPanics) res3).filter
      (fun e => !e.ack) = [first] ++ second :: [third] := by decide
  have hescape := (C3_replay_isolates_events env0 handlerFailOnSecond errorHandlerPanics
    (stWith errorHandlerPanics) res3 3 (PanicValue.value "boom") rfl rfl).2
    [first] [third] second second (PanicValue.value "boom")
    (PanicValue.value "error handler failed")
    (replay env0 handlerFailOnSecond errorHandlerPanics
      (callHandler env0 handlerFailOnSecond (beginDispatch env0 (stWith errorHandlerPanics) 3)
        (newEvents res3)).2 [first]).2
    hsplit (Prod.ext (by decide) rfl) (by decide) (by decide) (by decide)
  ⟨⟨rfl, rfl, fun _ _ _ => rfl⟩,
   (C3_replay_isolates_events env0 handlerFailOnSecond errorHandlerIdle (stWith errorHandlerIdle)
     res3 3 (PanicValue.value "boom") rfl rfl).1 (fun _ _ _ => rfl),
   hsplit, hescape.1, by rw [hescape.2]; decide⟩

/-- C3 (counterexample): with an error handler set that panics itself, the batch handler
panics, the replay calls the handler for the first and the second event, the error handler
is called for the second event and its panic escapes the dispatch; the third event is not
replayed. -/
theorem C3_error_handler_panic_escapes :
    (stWith errorHandlerPanics).r.errorHandler.isSome = true ∧
    (batchRun env0 handlerFailOnSecond (stWith errorHandlerPanics) res3).panic =
      some (PanicValue.value "boom") ∧
    (dispatchBatch env0 handlerFailOnSecond (stWith errorHandlerPanics) res3 3).1 =
      .panicked (PanicValue.value "error handler failed") ∧
    (dispatchBatch env0 handlerFailOnSecond (stWith errorHandlerPanics) res3 3).2.trace =
      [Call.speedLoggerClear, Call.handler (newEvents res3),
       Call.handlerDone (some (PanicValue.value "boom")),
       Call.handler [⟨"s1", ⟨"1-0", []⟩, false, false⟩], Call.handlerDone none,
       Call.handler [⟨"s1", ⟨"2-0", []⟩, false, false⟩],
       Call.handlerDone (some (PanicValue.value "boom")),
       Call.errorHandler ⟨"boom"⟩ ⟨"s1", ⟨"2-0", []⟩, false, false⟩,
       Call.errorHandlerDone (some (PanicValue.value "error handler failed"))] := by
  refine ⟨rfl, rfl, ?_, ?_⟩ <;> decide

theorem applyOps_calls_mem (group : String) (ops : List EventOp) :
    ∀ (evs : List event), ∀ c ∈ (applyOps group evs ops).2,
      ∃ p ∈ evs.map (fun e => (e.stream, e.message)),
        c = Call.xAck p.1 group [p.2.ID] ∨ c = Call.xDel p.1 p.2.ID := by
  induction ops with
  | nil => intro evs c hc; simp [applyOps] at hc
  | cons op ops ih =>
    intro evs c hc
    simp only [applyOps, List.mem_append] at hc
    rcases hc with hc | hc
    · obtain ⟨e, he, h⟩ := applyOp_calls group evs op c hc
      exact ⟨(e.stream, e.message), List.mem_map.2 ⟨e, he, rfl⟩, h⟩
    · have := ih _ c hc
      rw [applyOp_map] at this
      exact this

theorem replay_cons_returned (env : Env W) (handler : EventConsumerHandler W)
    (eh : ConsumerErrorHandler W) (st : State W) (e : event) (rest : List event)
    (hp : (handler st.world [e]).panic = none) :
    replay env handler eh st (e :: rest) =
      replay env handler eh (callHandler env handler st [e]).2 rest := by
  have hfst : (callHandler env handler st [e]).1.2 = none := by rw [callHandler_fst]; exact hp
  simp only [replay, hfst]

theorem replay_cons_panicked (env : Env W) (handler : EventConsumerHandler W)
    (eh : ConsumerErrorHandler W) (st : State W) (e e1 : event) (rest : List event)
    (rec : PanicValue) (hp : (handler st.world [e]).panic = some rec)
    (he1 : (applyOps st.r.group [e] (handler st.world [e]).ops).1 = [e1])
    (hret : (eh (callHandler env handler st [e]).2.world (asErr rec) e1).panic = none) :
    replay env handler eh st (e :: rest) =
      replay env handler eh
        (emit env (emitAll env (emit env (callHandler env handler st [e]).2
          (Call.errorHandler (asErr rec) e1))
          (applyOps st.r.group [e1]
            (eh (callHandler env handler st [e]).2.world (asErr rec) e1).ops).2)
          (Call.errorHandlerDone none)) rest := by
  have hfst : (callHandler env handler st [e]).1.2 = some rec := by
    rw [callHandler_fst]; exact hp
  have hhead : (callHandler env handler st [e]).1.1.headD e = e1 := by
    rw [callHandler_fst]; simp [he1]
  simp only [replay, hfst, hhead, hret]

theorem dispatchBatch_three_events (env : Env W)
    (handler : EventConsumerHandler W) (eh : ConsumerErrorHandler W) (st : State W)
    (results : List XStream) (total : Int) (e1 e2 e3 : event)
    (hbatch : newEvents results = [e1, e2, e3])
    (hops : ∀ w evs, (handler w evs).ops = [])
    (hfail : ∀ w evs, (handler w evs).panic.isSome = true ↔ e2 ∈ evs)
    (hset : st.r.errorHandler = some eh)
    (hret : ∀ w err e, (eh w err e).panic = none)
    (h12 : e1 ≠ e2) (h32 : e3 ≠ e2) :
    (dispatchBatch env handler st results total).1 = .ok () ∧
    ∃ v0 v2 ehCalls,
      (dispatchBatch env handler st results total).2.trace =
        st.trace ++ [Call.speedLoggerClear, Call.handler [e1, e2, e3],
          Call.handlerDone (some v0), Call.handler [e1], Call.handlerDone none,
          Call.handler [e2], Call.handlerDone (some v2), Call.errorHandler (asErr v2) e2] ++
        ehCalls ++ [Call.errorHandlerDone none, Call.handler [e3], Call.handlerDone none] ∧
      ∀ c ∈ ehCalls, c = Call.xAck e2.stream st.r.group [e2.message.ID] ∨
        c = Call.xDel e2.stream e2.message.ID := by
  have hflags := newEvents_flags results
  rw [hbatch] at hflags
  have hnone : ∀ w (e : event), e ≠ e2 → (handler w [e]).panic = none := by
    intro w e hne
    have h := hfail w [e]
    cases hp : (handler w [e]).panic with
    | none => rfl
    | some v =>
      rw [hp] at h
      have : e2 ∈ [e] := h.1 rfl
      simp at this
      exact absurd this.symm hne
  have hsome : ∀ w evs, e2 ∈ evs → ∃ v, (handler w evs).panic = some v := by
    intro w evs hin
    have h := (hfail w evs).2 hin
    exact Option.isSome_iff_exists.1 h
  obtain ⟨v0, hv0⟩ := hsome (beginDispatch env st total).world [e1, e2, e3] (by simp)
  have hfst : (callHandler env handler (beginDispatch env st total) [e1, e2, e3]).1 =
      ([e1, e2, e3], some v0) := by
    rw [callHandler_fst, hv0, hops]; rfl
  have hfilter : [e1, e2, e3].filter (fun e => !e.ack) = [e1, e2, e3] := by
    simp [(hflags e1 (by simp)).1, (hflags e2 (by simp)).1, (hflags e3 (by simp)).1]
  obtain ⟨v2, hv2⟩ := hsome (callHandler env handler
    (callHandler env handler (beginDispatch env st total) [e1, e2, e3]).2 [e1]).2.world
    [e2] (by simp)
  have hrun : runHandler env handler (beginDispatch env st total) [e1, e2, e3] =
      (.ok [], (callHandler env handler
        (emit env (emitAll env (emit env (callHandler env handler (callHandler env handler
          (callHandler env handler (beginDispatch env st total) [e1, e2, e3]).2 [e1]).2
          [e2]).2 (Call.errorHandler (asErr v2) e2))
          (applyOps st.r.group [e2]
            (eh (callHandler env handler (callHandler env handler
              (callHandler env handler (beginDispatch env st total) [e1, e2, e3]).2 [e1]).2
              [e2]).2.world (asErr v2) e2).ops).2)
          (Call.errorHandlerDone none)) [e3]).2) := by
    unfold runHandler
    simp only [hfst, beginDispatch_errorHandler, hset, hfilter]
    rw [replay_cons_returned env handler eh _ e1 _ (hnone _ e1 h12)]
    rw [replay_cons_panicked env handler eh _ e2 e2 _ v2 hv2 (by simp [hops, applyOps])
      (hret _ _ _)]
    rw [replay_cons_returned env handler eh _ e3 _ (hnone _ e3 h32)]
    simp [replay]
  unfold dispatchBatch
  simp only [hbatch, hrun]
  refine ⟨trivial, v0, v2, (applyOps st.r.group [e2]
    (eh (callHandler env handler (callHandler env handler
      (callHandler env handler (beginDispatch env st total) [e1, e2, e3]).2 [e1]).2
      [e2]).2.world (asErr v2) e2).ops).2, ?_, ?_⟩
  · rw [acknowledge_trace]
    have hv0' : (handler (env.step st.world Call.speedLoggerClear) [e1, e2, e3]).panic =
        some v0 := hv0
    simp [ackScan, ackCalls, addSpeed, callHandler_trace, hops, applyOps, hv0', hv2,
      hnone _ e1 h12, hnone _ e3 h32]
  · intro c hc
    obtain ⟨p, hp, h⟩ := applyOps_calls_mem st.r.group _ [e2] c hc
    simp only [List.map_cons, List.map_nil, List.mem_singleton] at hp
    subst hp
    exact h

theorem dispatchBatch_replayed (env : Env W) (handler : EventConsumerHandler W)
    (eh : ConsumerErrorHandler W) (st : State W) (results : List XStream) (total : Int)
    (rec : PanicValue)
    (hpanic : (batchRun env handler st results).panic = some rec)
    (hset : st.r.errorHandler = some eh)
    (hret : ∀ w err e, (eh w err e).panic = none) :
    (dispatchBatch env handler st results total).1 = .ok () ∧
    (dispatchBatch env handler st results total).2.trace =
      (replay env handler eh
        (callHandler env handler (beginDispatch env st total) (newEvents results)).2
        ((batchEvents env handler st results).filter (fun e => !e.ack))).2.trace := by
  have h1 : (callHandler env handler (beginDispatch env st total) (newEvents results)).1.2 =
      some rec := by
    rw [callHandler_fst]; exact hpanic
  have hset' : (beginDispatch env st total).r.errorHandler = some eh := by simpa using hset
  have hev : (callHandler env handler (beginDispatch env st total) (newEvents results)).1.1 =
      batchEvents env handler st results := by
    rw [callHandler_fst]; rfl
  obtain ⟨r1, _⟩ := replay_log env handler eh hret
    ((batchEvents env handler st results).filter (fun e => !e.ack))
    (callHandler env handler (beginDispatch env st total) (newEvents results)).2
  have hrun : runHandler env handler (beginDispatch env st total) (newEvents results) =
      (.ok [], (replay env handler eh
        (callHandler env handler (beginDispatch env st total) (newEvents results)).2
        ((batchEvents env handler st results).filter (fun e => !e.ack))).2) := by
    unfold runHandler
    simp only [h1, hset', hev]
    revert r1
    generalize replay env handler eh _ _ = q
    obtain ⟨o, s⟩ := q
    intro r1
    simp only at r1
    subst r1
    rfl
  unfold dispatchBatch
  simp only [hrun]
  refine ⟨trivial, ?_⟩
  rw [acknowledge_trace]
  simp [ackScan, ackCalls, addSpeed]

/-- C4 (as amended): with an error handler set that returns normally, (a) whenever the
batch handler panics the dispatch ends normally and its last call is the last call of the
replay loop: after the replay the engine issues no `XAck` and publishes no
garbage-collection message; (b) for a batch of three events `e1`, `e2`, `e3` and a handler
that never acknowledges or deletes and fails exactly when `e2` is among its events, the
trace of the dispatch is: the batch call fails, the handler is called again for `e1` alone,
for `e2` alone (which fails and is reported to the error handler exactly once) and for `e3`
alone.  The only store calls are those of the error handler on `e2`, so `e1` and `e3` are
not acknowledged. -/
theorem C4_replay_leaves_events_unacknowledged (env : Env W)
    (handler : EventConsumerHandler W) (eh : ConsumerErrorHandler W) (st : State W)
    (results : List XStream) (total : Int)
    (hset : st.r.errorHandler = some eh)
    (hret : ∀ w err e, (eh w err e).panic = none) :
    (∀ rec, (batchRun env handler st results).panic = some rec →
      (dispatchBatch env handler st results total).1 = .ok () ∧
      (dispatchBatch env handler st results total).2.trace =
        (replay env handler eh
          (callHandler env handler (beginDispatch env st total) (newEvents results)).2
          ((batchEvents env handler st results).filter (fun e => !e.ack))).2.trace) ∧
    (∀ e1 e2 e3 : event, newEvents results = [e1, e2, e3] →
      (∀ w evs, (handler w evs).ops = []) →
      (∀ w evs, (handler w evs).panic.isSome = true ↔ e2 ∈ evs) →
      e1 ≠ e2 → e3 ≠ e2 →
      (dispatchBatch env handler st results total).1 = .ok () ∧
      ∃ v0 v2 ehCalls,
        (dispatchBatch env handler st results total).2.trace =
          st.trace ++ [Call.speedLoggerClear, Call.handler [e1, e2, e3],
            Call.handlerDone (some v0), Call.handler [e1], Call.handlerDone none,
            Call.handler [e2], Call.handlerDone (some v2), Call.errorHandler (asErr v2) e2] ++
          ehCalls ++ [Call.errorHandlerDone none, Call.handler [e3], Call.handlerDone none] ∧
        ∀ c ∈ ehCalls, c = Call.xAck e2.stream st.r.group [e2.message.ID] ∨
          c = Call.xDel e2.stream e2.message.ID) :=
  ⟨fun rec hpanic => dispatchBatch_replayed env handler eh st results total rec hpanic hset hret,
   fun e1 e2 e3 hbatch hops hfail h12 h32 =>
     dispatchBatch_three_events env handler eh st results total e1 e2 e3 hbatch hops hfail
       hset hret h12 h32⟩

/-- C4 (as amended) at the batch `res3` with the handler that fails on its second event. -/
theorem C4_replay_leaves_events_unacknowledged_witness :
    ((stWith errorHandlerIdle).r.errorHandler = some errorHandlerIdle ∧
     (∀ w err e, (errorHandlerIdle w err e).panic = none) ∧
     newEvents res3 = [first, second, third] ∧
     (∀ w evs, (handlerFailOnSecond w evs).ops = []) ∧
     (∀ w evs, (handlerFailOnSecond w evs).panic.isSome = true ↔ second ∈ evs) ∧
     first ≠ second ∧ third ≠ second) ∧
    (dispatchBatch env0 handlerFailOnSecond (stWith errorHandlerIdle) res3 3).1 = .ok () ∧
    ∃ v0 v2 ehCalls,
      (dispatchBatch env0 handlerFailOnSecond (stWith errorHandlerIdle) res3 3).2.trace =
        (stWith errorHandlerIdle).trace ++ [Call.speedLoggerClear,
          Call.handler [first, second, third],
          Call.handlerDone (some v0), Call.handler [first], Call.handlerDone none,
          Call.handler [second], Call.handlerDone (some v2),
          Call.errorHandler (asErr v2) second] ++
        ehCalls ++ [Call.errorHandlerDone none, Call.handler [third], Call.handlerDone none] ∧
      ∀ c ∈ ehCalls, c = Call.xAck second.stream (stWith errorHandlerIdle).r.group
          [second.message.ID] ∨
        c = Call.xDel second.stream second.message.ID :=
  ⟨⟨rfl, fun _ _ _ => rfl, by decide, fun _ _ => rfl,
    fun _ evs => by by_cases h : second ∈ evs <;> simp [handlerFailOnSecond, h],
    by decide, by decide⟩,
   (C4_replay_leaves_events_unacknowledged env0 handlerFailOnSecond errorHandlerIdle
     (stWith errorHandlerIdle) res3 3 rfl (fun _ _ _ => rfl)).2 first second third
     (by decide) (fun _ _ => rfl)
     (fun _ evs => by by_cases h : second ∈ evs <;> simp [handlerFailOnSecond, h])
     (by decide) (by decide)⟩

/-- C4 (counterexample): a batch of three events, a handler that never acknowledges and
fails exactly when the second event is among its events, and an error handler set.  After
the dispatch the second event has been reported once to the error handler, but no `XAck`
has been issued at all: the first and the third event are not acknowledged. -/
theorem C4_no_ack_after_replay :
    newEvents res3 = [first, second, third] ∧
    (∀ w evs, (handlerFailOnSecond w evs).ops = []) ∧
    (∀ w evs, (handlerFailOnSecond w evs).panic.isSome = true ↔ second ∈ evs) ∧
    (stWith errorHandlerIdle).r.errorHandler.isSome = true ∧
    (dispatchBatch env0 handlerFailOnSecond (stWith errorHandlerIdle) res3 3).1 = .ok () ∧
    (dispatchBatch env0 handlerFailOnSecond (stWith errorHandlerIdle) res3 3).2.trace =
      [Call.speedLoggerClear, Call.handler [first, second, third],
       Call.handlerDone (some (PanicValue.value "boom")),
       Call.handler [first], Call.handlerDone none,
       Call.handler [second], Call.handlerDone (some (PanicValue.value "boom")),
       Call.errorHandler ⟨"boom"⟩ second, Call.errorHandlerDone none,
       Call.handler [third], Call.handlerDone none] ∧
    ∀ stream group ids, Call.xAck stream group ids ∉
      (dispatchBatch env0 handlerFailOnSecond (stWith errorHandlerIdle) res3 3).2.trace := by
  have ht : (dispatchBatch env0 handlerFailOnSecond (stWith errorHandlerIdle) res3 3).2.trace =
      [Call.speedLoggerClear, Call.handler [first, second, third],
       Call.handlerDone (some (PanicValue.value "boom")),
       Call.handler [first], Call.handlerDone none,
       Call.handler [second], Call.handlerDone (some (PanicValue.value "boom")),
       Call.errorHandler ⟨"boom"⟩ second, Call.errorHandlerDone none,
       Call.handler [third], Call.handlerDone none] := by decide
  refine ⟨by decide, fun _ _ => rfl,
    fun _ evs => by by_cases h : second ∈ evs <;> simp [handlerFailOnSecond, h],
    rfl, by decide, ht, ?_⟩
  intro stream group ids h
  rw [ht] at h
  simp at h

/-! ## The calls of a pass -/

theorem passCalls_refl (st : State W) : PassCalls st st :=
  ⟨[], by simp, by intro c hc; simp at hc⟩

theorem passCalls_trans {a b c : State W} (h1 : PassCalls a b) (h2 : PassCalls b c) :
    PassCalls a c := by
  obtain ⟨n1, t1, q1⟩ := h1
  obtain ⟨n2, t2, q2⟩ := h2
  refine ⟨n1 ++ n2, by rw [t2, t1, List.append_assoc], ?_⟩
  intro x hx
  rcases List.mem_append.1 hx with h | h
  · exact q1 x h
  · exact q2 x h

theorem passCalls_emit (env : Env W) (st : State W) (c : Call) (hc : Call.inPass c = true) :
    PassCalls st (emit env st c) :=
  ⟨[c], rfl, by intro x hx; rw [List.mem_singleton.1 hx]; exact hc⟩

theorem passCalls_emitAll (env : Env W) (st : State W) (cs : List Call)
    (hq : ∀ c ∈ cs, Call.inPass c = true) : PassCalls st (emitAll env st cs) :=
  ⟨cs, by simp, hq⟩

theorem passCalls_of_eq {st st1 : State W} (ht : st1.trace = st.trace) : PassCalls st st1 :=
  ⟨[], by simp [ht], by intro c hc; simp at hc⟩

theorem inPass_applyOps (group : String) (ops : List EventOp) (evs : List event) :
    ∀ c ∈ (applyOps group evs ops).2, Call.inPass c = true := by
  intro c hc
  obtain ⟨s, id, h | h⟩ := applyOps_calls group ops evs c hc <;> rw [h] <;> rfl

theorem callHandler_passCalls (env : Env W) (handler : EventConsumerHandler W) (st : State W)
    (events : List event) : PassCalls st (callHandler env handler st events).2 := by
  refine ⟨_, callHandler_trace _ _ _ _, ?_⟩
  intro c hc
  rcases List.mem_cons.1 hc with h | h
  · rw [h]; rfl
  · rcases List.mem_append.1 h with h | h
    · exact inPass_applyOps _ _ _ c h
    · rw [List.mem_singleton.1 h]; rfl

theorem replay_passCalls (env : Env W) (handler : EventConsumerHandler W)
    (eh : ConsumerErrorHandler W) (es : List event) :
    ∀ st : State W, PassCalls st (replay env handler eh st es).2 := by
  induction es with
  | nil => intro st; exact passCalls_refl st
  | cons e rest ih =>
    intro st
    have hc := callHandler_passCalls env handler st [e]
    simp only [replay]
    split
    · exact passCalls_trans hc (ih _)
    · split
      · exact passCalls_trans hc (passCalls_trans
          (passCalls_emit env _ (Call.errorHandler _ _) rfl)
          (passCalls_trans (passCalls_emitAll env _ _ (inPass_applyOps _ _ _))
            (passCalls_emit env _ (Call.errorHandlerDone _) rfl)))
      · refine passCalls_trans (passCalls_trans hc (passCalls_trans
          (passCalls_emit env _ (Call.errorHandler _ _) rfl)
          (passCalls_trans (passCalls_emitAll env _ _ (inPass_applyOps _ _ _))
            (passCalls_emit env _ (Call.errorHandlerDone _) rfl)))) (ih _)

theorem runHandler_passCalls (env : Env W) (handler : EventConsumerHandler W) (st : State W)
    (events : List event) : PassCalls st (runHandler env handler st events).2 := by
  have hc := callHandler_passCalls env handler st events
  simp only [runHandler]
  split
  · exact hc
  · split
    · rename_i eh _
      have hr := replay_passCalls env handler eh
        ((callHandler env handler st events).1.1.filter (fun e => !e.ack))
        (callHandler env handler st events).2
      generalize replay env handler eh _ _ = q at hr ⊢
      obtain ⟨o, st2⟩ := q
      cases o <;> exact passCalls_trans hc hr
    · exact hc

theorem acknowledge_passCalls (env : Env W) (st : State W) (events : List event) :
    PassCalls st (acknowledge env st events) := by
  have hacks : ∀ c ∈ ackCalls st.r.group (ackScan events [] true).1, Call.inPass c = true := by
    intro c hc
    obtain ⟨p, _, rfl⟩ := List.mem_map.1 hc
    rfl
  unfold acknowledge
  simp only
  split
  · exact passCalls_trans (passCalls_emit env st (Call.publish _ _) rfl)
      (passCalls_emitAll env (garbage env st) _ hacks)
  · exact passCalls_emitAll env st _ hacks

theorem dispatchBatch_passCalls (env : Env W) (handler : EventConsumerHandler W)
    (st : State W) (results : List XStream) (total : Int) :
    PassCalls st (dispatchBatch env handler st results total).2 := by
  have hb : PassCalls st (beginDispatch env st total) :=
    ⟨[Call.speedLoggerClear], rfl, by intro x hx; rw [List.mem_singleton.1 hx]; rfl⟩
  have hr := runHandler_passCalls env handler (beginDispatch env st total) (newEvents results)
  unfold dispatchBatch
  simp only
  generalize runHandler env handler (beginDispatch env st total) (newEvents results) = q at hr ⊢
  obtain ⟨o, st3⟩ := q
  cases o with
  | ok events1 =>
    have h2 : PassCalls st3 (addSpeed env st3 (env.now (beginDispatch env st total).world)) :=
      passCalls_of_eq rfl
    exact passCalls_trans hb (passCalls_trans hr (passCalls_trans h2
      (acknowledge_passCalls env _ events1)))
  | panicked v => exact passCalls_trans hb hr
  | outOfFuel => exact passCalls_trans hb hr

theorem flushSpeed_passCalls (env : Env W) (st : State W) :
    PassCalls st (flushSpeed env st) := by
  unfold flushSpeed
  split
  · exact passCalls_trans (passCalls_emit env st (Call.pipelineExec _) rfl)
      (passCalls_of_eq rfl)
  · exact passCalls_refl st

theorem readLoop_passCalls (env : Env W) (handler : EventConsumerHandler W) (count : Int)
    (invalidCheck : Bool) :
    ∀ (fuel : Nat) (st : State W) (loc : Locals),
      PassCalls st (readLoop env handler count invalidCheck fuel st loc).2.1 := by
  intro fuel
  induction fuel with
  | zero => intro st loc; exact passCalls_refl st
  | succ fuel ih =>
    intro st loc
    simp only [readLoop]
    split
    · exact passCalls_refl st
    · split
      · exact passCalls_refl st
      · have he := passCalls_emit env st (Call.xReadGroup
          { Consumer := getName st.r, Group := st.r.group,
            Streams := readStreams st.r.streams loc.lastIDs invalidCheck,
            Count := count, Block := loc.b }) rfl
        split
        · exact he
        · split
          · exact he
          · have hd := dispatchBatch_passCalls env handler
              (emit env st (Call.xReadGroup
                { Consumer := getName st.r, Group := st.r.group,
                  Streams := readStreams st.r.streams loc.lastIDs invalidCheck,
                  Count := count, Block := loc.b }))
              (env.xReadGroup st.world
                { Consumer := getName st.r, Group := st.r.group,
                  Streams := readStreams st.r.streams loc.lastIDs invalidCheck,
                  Count := count, Block := loc.b })
              (countMessages invalidCheck (env.xReadGroup st.world
                { Consumer := getName st.r, Group := st.r.group,
                  Streams := readStreams st.r.streams loc.lastIDs invalidCheck,
                  Count := count, Block := loc.b }) 0 loc.lastIDs).1
            generalize dispatchBatch env handler _ _ _ = q at hd ⊢
            obtain ⟨o, st2⟩ := q
            cases o with
            | ok u =>
              simp only
              have h2 : PassCalls st (flushSpeed env st2) :=
                passCalls_trans he (passCalls_trans hd (flushSpeed_passCalls env st2))
              split
              · exact h2
              · exact passCalls_trans h2 (ih _ _)
            | panicked v => exact passCalls_trans he hd
            | outOfFuel => exact passCalls_trans he hd

theorem claimPage_passCalls (env : Env W) (st : State W) (stream start : String) :
    PassCalls st (claimPage env st stream start).2 := by
  unfold claimPage
  simp only
  have he := passCalls_emit env st (Call.xPendingExt
    { Stream := stream, Group := st.r.group, Start := start,
      End := FormatInt (Int.tdiv (env.now st.world - st.r.minIdle) 1000000),
      Count := countPending }) rfl
  split
  · exact he
  · split
    · have h2 : ∀ ids : List String, PassCalls st
          (if ids.length > 0 then
            emit env (emit env st (Call.xPendingExt
              { Stream := stream, Group := st.r.group, Start := start,
                End := FormatInt (Int.tdiv (env.now st.world - st.r.minIdle) 1000000),
                Count := countPending }))
              (Call.xClaimJustID
                { Consumer := getName st.r, Stream := stream, Group := st.r.group,
                  MinIdle := st.r.minIdle, Messages := ids })
          else emit env st (Call.xPendingExt
              { Stream := stream, Group := st.r.group, Start := start,
                End := FormatInt (Int.tdiv (env.now st.world - st.r.minIdle) 1000000),
                Count := countPending })) := by
        intro ids
        split
        · exact passCalls_trans he (passCalls_emit env _ (Call.xClaimJustID _) rfl)
        · exact he
      split <;> exact h2 _
    · exact he
    · exact he

theorem claimLoop_passCalls (env : Env W) (stream : String) :
    ∀ (fuel : Nat) (st : State W) (start : String),
      PassCalls st (claimLoop env fuel st stream start).2 := by
  intro fuel
  induction fuel with
  | zero => intro st start; exact passCalls_refl st
  | succ fuel ih =>
    intro st start
    have h := claimPage_passCalls env st stream start
    simp only [claimLoop]
    generalize claimPage env st stream start = q at h ⊢
    obtain ⟨o, st1⟩ := q
    cases o with
    | ok next =>
      cases next with
      | none => exact h
      | some next => exact passCalls_trans h (ih st1 next)
    | panicked v => exact h
    | outOfFuel => exact h

theorem claimStreams_passCalls (env : Env W) (fuel : Nat) (streams : List String) :
    ∀ st : State W, PassCalls st (claimStreams env fuel st streams).2 := by
  induction streams with
  | nil => intro st; exact passCalls_refl st
  | cons stream rest ih =>
    intro st
    have h := claimLoop_passCalls env stream fuel st "-"
    simp only [claimStreams]
    generalize claimLoop env fuel st stream "-" = q at h ⊢
    obtain ⟨o, st1⟩ := q
    cases o with
    | ok u => exact passCalls_trans h (ih st1)
    | panicked v => exact h
    | outOfFuel => exact h

theorem pendingPhase_passCalls (env : Env W) (fuel : Nat) (st : State W) (loc : Locals) :
    PassCalls st (pendingPhase env fuel st loc).2.1 := by
  have h1 : PassCalls st (scanRunning env st) :=
    ⟨[Call.hGetAll (runningKey st.r)], rfl, by
      intro x hx; rw [List.mem_singleton.1 hx]; rfl⟩
  have h2 := claimStreams_passCalls env fuel (scanRunning env st).r.streams (scanRunning env st)
  unfold pendingPhase
  simp only
  split
  · exact passCalls_refl st
  · split
    · exact h1
    · generalize claimStreams env fuel (scanRunning env st) (scanRunning env st).r.streams = q
        at h2 ⊢
      obtain ⟨o, st3⟩ := q
      cases o <;> exact passCalls_trans h1 h2

theorem keysLoop_passCalls (env : Env W) (handler : EventConsumerHandler W) (count : Int)
    (fuel : Nat) (keys : List String) :
    ∀ (st : State W) (loc : Locals),
      PassCalls st (keysLoop env handler count fuel keys st loc).2.1 := by
  induction keys with
  | nil => intro st loc; exact passCalls_refl st
  | cons key keys ih =>
    intro st loc
    simp only [keysLoop]
    split
    · have h := pendingPhase_passCalls env fuel st loc
      generalize pendingPhase env fuel st loc = q at h ⊢
      obtain ⟨o, st1, loc1⟩ := q
      cases o with
      | ok u => exact passCalls_trans h (ih st1 loc1)
      | panicked v => exact h
      | outOfFuel => exact h
    · have h := readLoop_passCalls env handler count (decide (key = "0")) fuel st
        (if key = "0" then { loc with lastIDs := resetLastIDs loc.lastIDs st.r.streams }
          else loc)
      generalize readLoop env handler count (decide (key = "0")) fuel st
        (if key = "0" then { loc with lastIDs := resetLastIDs loc.lastIDs st.r.streams }
          else loc) = q at h ⊢
      obtain ⟨o, st1, loc1⟩ := q
      cases o with
      | ok b =>
        cases b with
        | none => exact passCalls_trans h (ih st1 loc1)
        | some b => exact h
      | panicked v => exact h
      | outOfFuel => exact h

theorem outerLoop_passCalls (env : Env W) (handler : EventConsumerHandler W) (count : Int) :
    ∀ (fuel : Nat) (st : State W) (loc : Locals),
      PassCalls st (outerLoop env handler count fuel st loc).2 := by
  intro fuel
  induction fuel with
  | zero => intro st loc; exact passCalls_refl st
  | succ fuel ih =>
    intro st loc
    have h := keysLoop_passCalls env handler count fuel ["pending", "0", ">"] st loc
    simp only [outerLoop]
    generalize keysLoop env handler count fuel ["pending", "0", ">"] st loc = q at h ⊢
    obtain ⟨o, st1, loc1⟩ := q
    cases o with
    | ok b =>
      cases b with
      | none =>
        simp only
        split
        · exact h
        · exact passCalls_trans h (ih st1 loc1)
      | some valid => exact h
    | panicked v => exact h
    | outOfFuel => exact h

theorem consume_after_acquire (env : Env W) (handler : EventConsumerHandler W) (count : Int)
    (fuel : Nat) (st : State W) (lockName : String) (st1 : State W)
    (hacq : acquire env st = (.ok lockName, st1)) :
    ∃ new tail, (consume env handler count fuel st).2.trace = st1.trace ++ new ++ tail ∧
      (∀ c ∈ new, Call.inPass c = true) ∧ (tail = [] ∨ tail = [Call.release lockName]) := by
  have hx : PassCalls st1 (emitAll env st1 (st1.r.streams.map
      (fun stream => Call.xGroupCreateMkStream stream st1.r.group "0"))) :=
    passCalls_emitAll env st1 _ (by
      intro c hc
      obtain ⟨s, _, rfl⟩ := List.mem_map.1 hc
      rfl)
  have ho := outerLoop_passCalls env handler count fuel
    (emitAll env st1 (st1.r.streams.map
      (fun stream => Call.xGroupCreateMkStream stream st1.r.group "0")))
    { lockName := lockName, lockAcquired := env.now st1.world, lastIDs := [],
      pendingChecked := false, pendingCheckedTime := 0,
      b := if !st1.r.loop then -1 else st1.r.blockTime }
  unfold consume
  simp only [hacq]
  generalize outerLoop env handler count fuel _ _ = q2 at ho ⊢
  obtain ⟨o2, st3⟩ := q2
  obtain ⟨new, ht, hq⟩ := passCalls_trans hx ho
  simp only at ht
  cases o2 with
  | ok valid => exact ⟨new, [Call.release lockName], by simp [deferred, ht], hq, Or.inr rfl⟩
  | panicked v => exact ⟨new, [Call.release lockName], by simp [deferred, ht], hq, Or.inr rfl⟩
  | outOfFuel => exact ⟨new, [], by simp [ht], hq, Or.inl rfl⟩

/-! ## C7, C8: slot acquisition -/

theorem obtainLoop_acquires (env : Env W) (k : Nat) :
    ∀ (fuel : Nat) (st : State W) (nr : Nat),
      nr < k → k ≤ nr + fuel → (k : Int) ≤ st.r.limit →
      lockNameOf st.r k ∉ st.held →
      (∀ j, nr < j → j < k → lockNameOf st.r j ∈ st.held) →
      obtainLoop env fuel st nr =
        (.ok (lockNameOf st.r k),
          emit env
            { emitAll env st ((List.range' (nr + 1) (k - nr)).map
                (fun j => Call.obtain (lockNameOf st.r j) st.r.lockTTL)) with
              held := lockNameOf st.r k :: st.held,
              r := { st.r with nr := k, nrString := Itoa k } }
            (Call.hSet (runningKey st.r) (Itoa k)
              (FormatInt (unixSeconds (env.now (emitAll env st ((List.range' (nr + 1) (k - nr)).map
                (fun j => Call.obtain (lockNameOf st.r j) st.r.lockTTL))).world))))) := by
  intro fuel
  induction fuel with
  | zero => intro st nr h1 h2; omega
  | succ fuel ih =>
    intro st nr h1 h2 h3 h4 h5
    by_cases hk : nr + 1 = k
    · subst hk
      have hr : nr + 1 - nr = 1 := by omega
      have hnot : lockNameOf st.r (nr + 1) ∉ (emit env st
          (Call.obtain (lockNameOf st.r (nr + 1)) st.r.lockTTL)).held := h4
      simp only [obtainLoop, Obtain, hnot, if_false, hr]
      rfl
    · have hlt : nr + 1 < k := by omega
      have hin : lockNameOf st.r (nr + 1) ∈ (emit env st
          (Call.obtain (lockNameOf st.r (nr + 1)) st.r.lockTTL)).held := h5 (nr + 1) (by omega) hlt
      have hlim : ((nr + 1 : Nat) : Int) < st.r.limit := by
        have : ((nr + 1 : Nat) : Int) < (k : Int) := by exact_mod_cast hlt
        omega
      have hrange : List.range' (nr + 1) (k - nr) =
          (nr + 1) :: List.range' (nr + 1 + 1) (k - (nr + 1)) := by
        have : k - nr = (k - (nr + 1)) + 1 := by omega
        rw [this, List.range'_succ]
      have := ih (emit env st (Call.obtain (lockNameOf st.r (nr + 1)) st.r.lockTTL)) (nr + 1)
        hlt (by omega) h3 h4 (fun j hj1 hj2 => h5 j (by omega) hj2)
      simp only [obtainLoop, Obtain, hin, if_true, hlim, Bool.not_false]
      rw [this, hrange]
      rfl

theorem acquire_acquires (env : Env W) (st : State W) (k : Nat)
    (hk : 1 ≤ k) (hlimit : (k : Int) ≤ st.r.limit)
    (hfree : lockNameOf st.r k ∉ st.held)
    (hheld : ∀ j, 1 ≤ j → j < k → lockNameOf st.r j ∈ st.held) :
    acquire env st =
      (.ok (lockNameOf st.r k),
        emit env
          { emitAll env st (obtainCalls st.r k) with
            held := lockNameOf st.r k :: st.held,
            r := { st.r with nr := k, nrString := Itoa k } }
          (Call.hSet (runningKey st.r) (Itoa k)
            (FormatInt (unixSeconds (env.now (emitAll env st (obtainCalls st.r k)).world))))) := by
  have hfuel : k ≤ 0 + (max st.r.limit 1).toNat := by
    have : (k : Int) ≤ max st.r.limit 1 := le_trans hlimit (le_max_left _ _)
    omega
  have h := obtainLoop_acquires env k (max st.r.limit 1).toNat st 0 (by omega) hfuel hlimit hfree
    (fun j hj1 hj2 => hheld j (by omega) hj2)
  unfold acquire
  rw [h]
  rfl

/-- C7: when the limit is at least 1 and `k` is the smallest number in `1..limit` whose
lock is free, the slot acquisition tries the lock names `<group>_<pool>-1`, …,
`<group>_<pool>-k` in this order and no other, obtains the lock of `k` (which is then
held along with the leases held before), records `k` as `nr` and its decimal text as
`nrString` (so the consumer name is `<group>-k`), and writes the current unix time to the
running map `<group>_<pool>_running` under the field `k`.  These are the first calls of
`consume`, and the rest of the pass makes no further `Obtain` and no further `HSet` call,
so the pass writes under no other field. -/
theorem C7_lowest_free_slot (env : Env W) (st : State W) (k : Nat)
    (hk : 1 ≤ k) (hlimit : (k : Int) ≤ st.r.limit)
    (hfree : lockNameOf st.r k ∉ st.held)
    (hheld : ∀ j, 1 ≤ j → j < k → lockNameOf st.r j ∈ st.held) :
    (acquire env st).1 = .ok (st.r.group ++ "_" ++ st.r.poolCode ++ "-" ++ Itoa k) ∧
    (acquire env st).2.r.nr = k ∧
    (acquire env st).2.r.nrString = Itoa k ∧
    getName (acquire env st).2.r = st.r.group ++ "-" ++ Itoa k ∧
    (acquire env st).2.held = lockNameOf st.r k :: st.held ∧
    (acquire env st).2.trace =
      st.trace ++ obtainCalls st.r k ++
        [Call.hSet (st.r.group ++ "_" ++ st.r.poolCode ++ "_running") (Itoa k)
          (FormatInt (unixSeconds (env.now (emitAll env st (obtainCalls st.r k)).world)))] ∧
    ∀ (handler : EventConsumerHandler W) (count : Int) (fuel : Nat),
      ∃ rest, (consume env handler count fuel st).2.trace = (acquire env st).2.trace ++ rest ∧
        (∀ name ttl, Call.obtain name ttl ∉ rest) ∧
        (∀ key field value, Call.hSet key field value ∉ rest) := by
  have hacq := acquire_acquires env st k hk hlimit hfree hheld
  refine ⟨?_, ?_, ?_, ?_, ?_, ?_, ?_⟩
  · rw [hacq]; simp [lockNameOf, uniqueLockKey]
  · rw [hacq]; rfl
  · rw [hacq]; rfl
  · rw [hacq]; simp [getName]
  · rw [hacq]; rfl
  · rw [hacq]; simp [obtainCalls, runningKey, uniqueLockKey]
  · intro handler count fuel
    obtain ⟨new, tail, ht, hq, htail⟩ :=
      consume_after_acquire env handler count fuel st _ _ hacq
    refine ⟨new ++ tail, ?_, ?_, ?_⟩
    · rw [ht, hacq, List.append_assoc]
    · intro name ttl hmem
      rcases List.mem_append.1 hmem with h | h
      · have := hq _ h
        cases this
      · rcases htail with rfl | rfl <;> simp at h
    · intro key field value hmem
      rcases List.mem_append.1 hmem with h | h
      · have := hq _ h
        cases this
      · rcases htail with rfl | rfl <;> simp at h

/-- C7 at the limit 3 with the leases of the slots 1 and 2 held: slot 3 is acquired. -/
theorem C7_lowest_free_slot_witness :
    (1 ≤ 3 ∧ ((3 : Nat) : Int) ≤ stTwoHeld.r.limit ∧
      lockNameOf stTwoHeld.r 3 ∉ stTwoHeld.held ∧
      ∀ j, 1 ≤ j → j < 3 → lockNameOf stTwoHeld.r j ∈ stTwoHeld.held) ∧
    (acquire env0 stTwoHeld).1 = .ok "g_default-3" ∧
    (acquire env0 stTwoHeld).2.r.nr = 3 ∧
    getName (acquire env0 stTwoHeld).2.r = "g-3" ∧
    (acquire env0 stTwoHeld).2.trace =
      [Call.obtain "g_default-1" 90000000000, Call.obtain "g_default-2" 90000000000,
       Call.obtain "g_default-3" 90000000000, Call.hSet "g_default_running" "3" "0"] := by
  have hj : ∀ j, 1 ≤ j → j < 3 → lockNameOf stTwoHeld.r j ∈ stTwoHeld.held := by
    intro j h1 h2
    interval_cases j <;> decide
  have h := C7_lowest_free_slot env0 stTwoHeld 3 (by decide) (by decide) (by decide) hj
  refine ⟨⟨by decide, by decide, by decide, hj⟩, ?_, h.2.1, ?_, ?_⟩
  · rw [h.1]; decide
  · rw [h.2.2.2.1]; decide
  · rw [h.2.2.2.2.2.1]; decide

theorem digitChar_isDigit (k : Nat) (h : k < 10) :
    (Nat.digitChar k).isDigit = true ∧ (Nat.digitChar k).toNat - 48 = k := by
  interval_cases k <;> exact ⟨by decide, by decide⟩

theorem parseDigits_toDigitsCore :
    ∀ (fuel n : Nat) (ds : List Char), n < fuel →
      ∃ pre, Nat.toDigitsCore 10 fuel n ds = pre ++ ds ∧
        ∀ acc rest, parseDigits (pre ++ rest) acc =
          parseDigits rest (acc * 10 ^ pre.length + n) := by
  intro fuel
  induction fuel with
  | zero => intro n ds h; omega
  | succ fuel ih =>
    intro n ds h
    have hd := digitChar_isDigit (n % 10) (Nat.mod_lt _ (by decide))
    by_cases h0 : n / 10 = 0
    · refine ⟨[Nat.digitChar (n % 10)], by simp [Nat.toDigitsCore, h0], ?_⟩
      intro acc rest
      have hn : n % 10 = n := Nat.mod_eq_of_lt (by omega)
      simp only [List.singleton_append, parseDigits, hd.1, if_true, hd.2, List.length_singleton,
        pow_one]
      rw [hn, Nat.mul_comm]
      rfl
    · have hlt : n / 10 < fuel := by omega
      obtain ⟨pre, hpre, hval⟩ := ih (n / 10) (Nat.digitChar (n % 10) :: ds) hlt
      refine ⟨pre ++ [Nat.digitChar (n % 10)], by simp [Nat.toDigitsCore, h0, hpre], ?_⟩
      intro acc rest
      rw [List.append_assoc, hval]
      simp only [List.singleton_append, parseDigits, hd.1, if_true, hd.2, List.length_append,
        List.length_singleton]
      congr 1
      have := Nat.div_add_mod n 10
      rw [pow_succ]
      nlinarith [this]

theorem parseDigits_Itoa (n : Nat) : parseDigits (Itoa n).data 0 = some n := by
  obtain ⟨pre, hpre, hval⟩ := parseDigits_toDigitsCore (n + 1) n [] (by omega)
  have h := hval 0 []
  simp only [List.append_nil, zero_mul, zero_add, parseDigits] at h hpre
  simp only [Itoa, Nat.repr, Nat.toDigits, List.asString, hpre, h]

theorem Itoa_injective (a b : Nat) (h : Itoa a = Itoa b) : a = b := by
  have ha := parseDigits_Itoa a
  rw [h, parseDigits_Itoa b] at ha
  exact (Option.some.inj ha).symm

theorem lockNameOf_injective (r : eventsConsumer W) (a b : Nat)
    (h : lockNameOf r a = lockNameOf r b) : a = b := by
  apply Itoa_injective
  have h2 := congrArg String.data h
  simp only [lockNameOf, String.data_append] at h2
  have h3 := List.append_cancel_left h2
  exact String.ext h3

theorem obtainLoop_limit (env : Env W) (N : Nat) :
    ∀ (fuel : Nat) (st : State W) (nr : Nat),
      nr < N → N ≤ nr + fuel → st.r.limit = (N : Int) →
      (∀ j, nr < j → j ≤ N → lockNameOf st.r j ∈ st.held) →
      obtainLoop env fuel st nr =
        (.panicked (limitReached st.r),
          emitAll env st ((List.range' (nr + 1) (N - nr)).map
            (fun j => Call.obtain (lockNameOf st.r j) st.r.lockTTL))) := by
  intro fuel
  induction fuel with
  | zero => intro st nr h1 h2; omega
  | succ fuel ih =>
    intro st nr h1 h2 h3 h5
    have hin : lockNameOf st.r (nr + 1) ∈ (emit env st
        (Call.obtain (lockNameOf st.r (nr + 1)) st.r.lockTTL)).held := h5 (nr + 1) (by omega) h1
    by_cases hk : nr + 1 = N
    · subst hk
      have hr : nr + 1 - nr = 1 := by omega
      have hlim : ¬ ((nr + 1 : Nat) : Int) < st.r.limit := by rw [h3]; omega
      simp only [obtainLoop, Obtain, hin, if_true, hlim, if_false, Bool.not_false, hr]
      rfl
    · have hlt : nr + 1 < N := by omega
      have hlim : ((nr + 1 : Nat) : Int) < st.r.limit := by
        rw [h3]; exact_mod_cast hlt
      have hrange : List.range' (nr + 1) (N - nr) =
          (nr + 1) :: List.range' (nr + 1 + 1) (N - (nr + 1)) := by
        have : N - nr = (N - (nr + 1)) + 1 := by omega
        rw [this, List.range'_succ]
      have := ih (emit env st (Call.obtain (lockNameOf st.r (nr + 1)) st.r.lockTTL)) (nr + 1)
        hlt (by omega) h3 (fun j hj1 hj2 => h5 j (by omega) hj2)
      simp only [obtainLoop, Obtain, hin, if_true, hlim, Bool.not_false]
      rw [this, hrange]
      rfl

theorem acquireMany_slots (env : Env W) (r : eventsConsumer W) :
    ∀ (n : Nat) (st : State W) (j0 : Nat),
      ((j0 + n : Nat) : Int) ≤ r.limit →
      (∀ j, 1 ≤ j → j ≤ j0 → lockNameOf r j ∈ st.held) →
      (∀ j, j0 < j → lockNameOf r j ∉ st.held) →
      (acquireMany env r n st).1 =
        (List.range' (j0 + 1) n).map (fun k => (Outcome.ok (lockNameOf r k), k)) ∧
      (∀ j, 1 ≤ j → j ≤ j0 + n → lockNameOf r j ∈ (acquireMany env r n st).2.held) ∧
      (∀ j, j0 + n < j → lockNameOf r j ∉ (acquireMany env r n st).2.held) := by
  intro n
  induction n with
  | zero =>
    intro st j0 _ h2 h3
    exact ⟨rfl, h2, h3⟩
  | succ n ih =>
    intro st j0 h1 h2 h3
    have hacq := acquire_acquires env { st with r := r } (j0 + 1) (by omega)
      (by have : ((j0 + 1 : Nat) : Int) ≤ ((j0 + (n + 1) : Nat) : Int) := by
            exact_mod_cast (by omega : j0 + 1 ≤ j0 + (n + 1))
          exact le_trans this h1)
      (h3 (j0 + 1) (by omega)) (fun j hj1 hj2 => h2 j hj1 (by omega))
    have hheld : (acquire env { st with r := r }).2.held = lockNameOf r (j0 + 1) :: st.held := by
      rw [hacq]; rfl
    have hnr : (acquire env { st with r := r }).2.r.nr = j0 + 1 := by rw [hacq]; rfl
    have hfst : (acquire env { st with r := r }).1 = .ok (lockNameOf r (j0 + 1)) := by
      rw [hacq]
    obtain ⟨i1, i2, i3⟩ := ih (acquire env { st with r := r }).2 (j0 + 1)
      (by have : j0 + 1 + n = j0 + (n + 1) := by omega
          rw [this]; exact h1)
      (by
        intro j hj1 hj2
        rw [hheld]
        by_cases hj : j = j0 + 1
        · subst hj; exact List.mem_cons_self _ _
        · exact List.mem_cons_of_mem _ (h2 j hj1 (by omega)))
      (by
        intro j hj
        rw [hheld]
        intro hmem
        rcases List.mem_cons.1 hmem with heq | hmem
        · have := lockNameOf_injective r _ _ heq
          omega
        · exact h3 j (by omega) hmem)
    refine ⟨?_, ?_, ?_⟩
    · simp only [acquireMany, i1, hfst, hnr, List.range'_succ, List.map_cons]
    · intro j hj1 hj2
      simp only [acquireMany]
      exact i2 j hj1 (by omega)
    · intro j hj
      simp only [acquireMany]
      exact i3 j (by omega)

/-- C8: from a state in which no lock of the group is held, `N ≥ 1` successive slot
acquisitions on the same group and pool with a limit of at least `N`, none released in
between, all succeed and obtain the slot numbers `1, 2, …, N` in this order (so pairwise
distinct); one further acquisition with the limit `N` panics with
"consumer for group <group> limit <N> reached": it holds no more leases than before, it
tries the lock names of the numbers `1..N` and no other, and it makes no `HSet` call.
The pass `consume` and the call `Consume` of that further consumer end with this panic
in the state the acquisition left. -/
theorem C8_exclusive_slot_numbering (env : Env W) (r : eventsConsumer W) (st : State W)
    (N : Nat) (hN : 0 < N) (hlimit : (N : Int) ≤ r.limit)
    (hfree : ∀ j, lockNameOf r j ∉ st.held) :
    (acquireMany env r N st).1 =
      (List.range' 1 N).map (fun k => (Outcome.ok (lockNameOf r k), k)) ∧
    (acquire env (furtherConsumer env r N st)).1 =
      .panicked (.error ⟨"consumer for group " ++ r.group ++ " limit " ++ FormatInt N ++
        " reached"⟩) ∧
    (acquire env (furtherConsumer env r N st)).2.held = (acquireMany env r N st).2.held ∧
    (acquire env (furtherConsumer env r N st)).2.trace =
      (acquireMany env r N st).2.trace ++ obtainCalls r N ∧
    ∀ (handler : EventConsumerHandler W) (count : Int) (fuel : Nat),
      consume env handler count fuel (furtherConsumer env r N st) =
        (.panicked (.error ⟨"consumer for group " ++ r.group ++ " limit " ++ FormatInt N ++
          " reached"⟩), (acquire env (furtherConsumer env r N st)).2) ∧
      Consume env handler count (fuel + 1) (furtherConsumer env r N st) =
        (.panicked (.error ⟨"consumer for group " ++ r.group ++ " limit " ++ FormatInt N ++
          " reached"⟩), (acquire env (furtherConsumer env r N st)).2) := by
  obtain ⟨h1, h2, _⟩ := acquireMany_slots env r N st 0 (by simpa using hlimit)
    (fun j hj1 hj2 => by omega) (fun j _ => hfree j)
  have hfuel : (max ((N : Int)) 1).toNat = N := by
    have : max (N : Int) 1 = N := max_eq_left (by exact_mod_cast hN)
    rw [this]; simp
  have hl := obtainLoop_limit env N N (furtherConsumer env r N st) 0 hN (by omega) rfl
    (fun j hj1 hj2 => by
      have := h2 j (by omega) (by omega)
      exact this)
  have hacq : acquire env (furtherConsumer env r N st) =
      (.panicked (.error ⟨"consumer for group " ++ r.group ++ " limit " ++ FormatInt N ++
          " reached"⟩),
        emitAll env (furtherConsumer env r N st)
          ((List.range' (0 + 1) (N - 0)).map
            (fun j => Call.obtain (lockNameOf (furtherConsumer env r N st).r j)
              (furtherConsumer env r N st).r.lockTTL))) := by
    unfold acquire
    have hlim : (furtherConsumer env r N st).r.limit = (N : Int) := rfl
    simp only [hlim, hfuel]
    rw [hl]
    rfl
  have hcons : ∀ (handler : EventConsumerHandler W) (count : Int) (fuel : Nat),
      consume env handler count fuel (furtherConsumer env r N st) =
        (.panicked (.error ⟨"consumer for group " ++ r.group ++ " limit " ++ FormatInt N ++
          " reached"⟩), (acquire env (furtherConsumer env r N st)).2) := by
    intro handler count fuel
    unfold consume
    simp only [hacq]
  refine ⟨by simpa using h1, ?_, ?_, ?_, ?_⟩
  · rw [hacq]
  · rw [hacq]; simp [furtherConsumer]
  · rw [hacq]; simp [obtainCalls, furtherConsumer, lockNameOf, uniqueLockKey]
  · intro handler count fuel
    refine ⟨hcons handler count fuel, ?_⟩
    simp only [Consume, hcons]

/-- C8 at two acquisitions with the limit 2: the slots 1 and 2 are obtained. -/
theorem C8_exclusive_slot_numbering_witness :
    (0 < 2 ∧ ((2 : Nat) : Int) ≤ rLimitTwo.limit ∧ ∀ j, lockNameOf rLimitTwo j ∉ st0.held) ∧
    (acquireMany env0 rLimitTwo 2 st0).1 =
      [(Outcome.ok "g_default-1", 1), (Outcome.ok "g_default-2", 2)] ∧
    (acquire env0 (furtherConsumer env0 rLimitTwo 2 st0)).1 =
      .panicked (.error ⟨"consumer for group g limit 2 reached"⟩) ∧
    (acquire env0 (furtherConsumer env0 rLimitTwo 2 st0)).2.trace =
      (acquireMany env0 rLimitTwo 2 st0).2.trace ++
        [Call.obtain "g_default-1" 90000000000, Call.obtain "g_default-2" 90000000000] := by
  have h := C8_exclusive_slot_numbering env0 rLimitTwo st0 2 (by decide) (by decide)
    (fun j => List.not_mem_nil _)
  refine ⟨⟨by decide, by decide, fun j => List.not_mem_nil _⟩, ?_, ?_, ?_⟩
  · rw [h.1]; decide
  · rw [h.2.1]; decide
  · rw [h.2.2.2.1]; decide

/-! ## C9, C10: the pending phase -/

theorem splitOnDash_ne_nil (cs : List Char) : splitOnDash cs ≠ [] := by
  induction cs with
  | nil => simp [splitOnDash]
  | cons c cs ih =>
    simp only [splitOnDash]
    split
    · simp
    · split <;> simp

theorem splitOnDash_two (cs : List Char) (h : '-' ∈ cs) :
    ∃ s0 s1 rest, splitOnDash cs = s0 :: s1 :: rest := by
  induction cs with
  | nil => simp at h
  | cons c cs ih =>
    by_cases hc : c = '-'
    · subst hc
      match hs : splitOnDash cs with
      | [] => exact absurd hs (splitOnDash_ne_nil cs)
      | p :: ps => exact ⟨[], p, ps, by simp [splitOnDash, hs]⟩
    · have hin : '-' ∈ cs := by
        rcases List.mem_cons.1 h with h | h
        · exact absurd h.symm hc
        · exact h
      obtain ⟨s0, s1, rest, hs⟩ := ih hin
      exact ⟨c :: s0, s1, rest, by simp [splitOnDash, hc, hs]⟩

theorem incrementID_isSome (id : String) (h : '-' ∈ id.data) :
    ∃ next, incrementID id = some next := by
  obtain ⟨s0, s1, rest, hs⟩ := splitOnDash_two id.data h
  simp only [incrementID, hs]
  exact ⟨_, rfl⟩

theorem scanPending_ok (name : String) (minIdle : Int) (pending : List XPendingExt)
    (hwf : ∀ row ∈ pending, '-' ∈ row.ID.data) :
    ∀ (ids : List String) (start : String),
      ∃ next, scanPending name minIdle pending ids start =
        .ok (ids ++ claimable name minIdle pending, next) := by
  induction pending with
  | nil => intro ids start; exact ⟨start, by simp [scanPending, claimable]⟩
  | cons row rest ih =>
    intro ids start
    obtain ⟨next, hnext⟩ := incrementID_isSome row.ID (hwf row (List.mem_cons_self _ _))
    obtain ⟨last, hlast⟩ := ih (fun r hr => hwf r (List.mem_cons_of_mem _ hr))
      (if row.Consumer ≠ name ∧ row.Idle ≥ minIdle then ids ++ [row.ID] else ids) next
    refine ⟨last, ?_⟩
    simp only [scanPending, hnext, hlast]
    by_cases hc : row.Consumer ≠ name ∧ row.Idle ≥ minIdle
    · simp [claimable, List.filter_cons, hc]
    · simp [claimable, List.filter_cons, hc]

/-- C9: for a page of pending entries returned for a stream (each ID with its dash, as the
store writes them), one round of the paging loop issues the pending query and then, when
the list of the IDs of the rows owned by another consumer and idle for at least `minIdle`
(in page order) is not empty, exactly one claim call whose messages are that list; when the
list is empty it issues no claim call.  A row that is idle for less than `minIdle` or that
this consumer owns is not in the list. -/
theorem C9_reclaim_threshold (env : Env W) (st : State W) (stream start : String)
    (hwf : ∀ row ∈ env.xPendingExt st.world
        { Stream := stream, Group := st.r.group, Start := start,
          End := FormatInt (Int.tdiv (env.now st.world - st.r.minIdle) 1000000),
          Count := countPending }, '-' ∈ row.ID.data) :
    (∃ next, (claimPage env st stream start).1 = .ok next) ∧
    (claimPage env st stream start).2.trace =
      st.trace ++ Call.xPendingExt
          { Stream := stream, Group := st.r.group, Start := start,
            End := FormatInt (Int.tdiv (env.now st.world - st.r.minIdle) 1000000),
            Count := countPending } ::
        (if claimable (getName st.r) st.r.minIdle (env.xPendingExt st.world
              { Stream := stream, Group := st.r.group, Start := start,
                End := FormatInt (Int.tdiv (env.now st.world - st.r.minIdle) 1000000),
                Count := countPending }) = [] then []
         else [Call.xClaimJustID
            { Consumer := getName st.r, Stream := stream, Group := st.r.group,
              MinIdle := st.r.minIdle,
              Messages := claimable (getName st.r) st.r.minIdle (env.xPendingExt st.world
                { Stream := stream, Group := st.r.group, Start := start,
                  End := FormatInt (Int.tdiv (env.now st.world - st.r.minIdle) 1000000),
                  Count := countPending }) }]) ∧
    ∀ row ∈ env.xPendingExt st.world
        { Stream := stream, Group := st.r.group, Start := start,
          End := FormatInt (Int.tdiv (env.now st.world - st.r.minIdle) 1000000),
          Count := countPending },
      (row.Idle < st.r.minIdle ∨ row.Consumer = getName st.r) →
      (∀ other ∈ env.xPendingExt st.world
        { Stream := stream, Group := st.r.group, Start := start,
          End := FormatInt (Int.tdiv (env.now st.world - st.r.minIdle) 1000000),
          Count := countPending },
        other.ID = row.ID → other = row) →
      row.ID ∉ claimable (getName st.r) st.r.minIdle (env.xPendingExt st.world
        { Stream := stream, Group := st.r.group, Start := start,
          End := FormatInt (Int.tdiv (env.now st.world - st.r.minIdle) 1000000),
          Count := countPending }) := by
  generalize hp : env.xPendingExt st.world
        { Stream := stream, Group := st.r.group, Start := start,
          End := FormatInt (Int.tdiv (env.now st.world - st.r.minIdle) 1000000),
          Count := countPending } = page at hwf ⊢
  obtain ⟨next, hscan⟩ := scanPending_ok (getName st.r) st.r.minIdle page hwf [] start
  simp only [List.nil_append] at hscan
  refine ⟨?_, ?_, ?_⟩
  · unfold claimPage
    simp only [hp, hscan]
    split
    · exact ⟨_, rfl⟩
    · split <;> exact ⟨_, rfl⟩
  · unfold claimPage
    simp only [hp, hscan]
    by_cases hlen : page.length = 0
    · have : page = [] := List.length_eq_zero.1 hlen
      subst this
      simp [claimable]
    · simp only [hlen, if_false]
      by_cases hc : claimable (getName st.r) st.r.minIdle page = []
      · simp [hc]
        split <;> simp
      · have hpos : (claimable (getName st.r) st.r.minIdle page).length > 0 :=
          List.length_pos.2 hc
        simp only [hpos, if_true, hc, if_false]
        split <;> simp
  · intro row hrow hcases huniq hmem
    simp only [claimable, List.mem_map, List.mem_filter, decide_eq_true_eq] at hmem
    obtain ⟨other, ⟨hother, hne, hidle⟩, hid⟩ := hmem
    have := huniq other hother hid
    subst this
    rcases hcases with h | h
    · omega
    · exact hne h

/-- C9 at a page of three rows: only the row of another consumer that has been idle for
exactly `minIdle` is claimed. -/
theorem C9_reclaim_threshold_witness :
    (∀ row ∈ envPending.xPendingExt stSlotOne.world
        { Stream := "s1", Group := stSlotOne.r.group, Start := "-",
          End := FormatInt (Int.tdiv (envPending.now stSlotOne.world - stSlotOne.r.minIdle)
            1000000),
          Count := countPending }, '-' ∈ row.ID.data) ∧
    (claimPage envPending stSlotOne "s1" "-").2.trace =
      [Call.xPendingExt
         { Stream := "s1", Group := "g", Start := "-", End := "1000000", Count := 100 },
       Call.xClaimJustID
         { Consumer := "g-1", Stream := "s1", Group := "g", MinIdle := 120000000000,
           Messages := ["5-1"] }] := by
  have hwf : ∀ row ∈ envPending.xPendingExt stSlotOne.world
        { Stream := "s1", Group := stSlotOne.r.group, Start := "-",
          End := FormatInt (Int.tdiv (envPending.now stSlotOne.world - stSlotOne.r.minIdle)
            1000000),
          Count := countPending }, '-' ∈ row.ID.data := by decide
  have h := (C9_reclaim_threshold envPending stSlotOne "s1" "-" hwf).2.1
  refine ⟨hwf, ?_⟩
  rw [h]
  decide

theorem ParseInt_range (v : String) :
    -9223372036854775808 ≤ ParseInt v ∧ ParseInt v ≤ 9223372036854775807 := by
  unfold ParseInt
  cases parseDecimal v.data with
  | none => exact ⟨by decide, by decide⟩
  | some n =>
    simp only [maxInt64]
    split
    · exact ⟨by decide, by decide⟩
    · split
      · exact ⟨by decide, by decide⟩
      · omega

theorem since_unix_ge (now unix claimDuration : Int)
    (hlow : minDuration < claimDuration) (hhigh : claimDuration ≤ maxDuration)
    (h1 : -9223372036854775808 ≤ unix) (h2 : unix ≤ maxInt64 - unixToInternal) :
    time.Sub now (time.Unix unix) ≥ claimDuration ↔
      now - unix * 1000000000 ≥ claimDuration := by
  have hw : wrapInt64 (unix + unixToInternal) = unix + unixToInternal := by
    unfold wrapInt64
    simp only [maxInt64, unixToInternal] at h2 ⊢
    omega
  have hu : time.Unix unix = unix * 1000000000 := by
    unfold time.Unix
    rw [hw]
    ring
  rw [hu]
  unfold time.Sub
  simp only [minDuration, maxDuration] at hlow hhigh ⊢
  split
  · constructor <;> intro <;> omega
  · split
    · constructor <;> intro <;> omega
    · exact Iff.rfl

theorem countDead_eq (nrString : String) (claimDuration now : Int)
    (hlow : minDuration < claimDuration) (hhigh : claimDuration ≤ maxDuration)
    (all : List (String × String))
    (hall : ∀ p ∈ all, p.1 ≠ nrString → ParseInt p.2 ≤ maxInt64 - unixToInternal) :
    ∀ dead, countDead nrString claimDuration now all dead =
      dead + deadEntries nrString claimDuration now all := by
  induction all with
  | nil => intro dead; simp [countDead, deadEntries]
  | cons p rest ih =>
    intro dead
    obtain ⟨k, v⟩ := p
    have ih2 := ih (fun q hq => hall q (List.mem_cons_of_mem _ hq))
    by_cases hk : k = nrString
    · simp only [countDead, hk, if_true, ih2]
      simp [deadEntries, List.filter_cons]
    · have hiff := since_unix_ge now (ParseInt v) claimDuration hlow hhigh (ParseInt_range v).1
        (hall (k, v) (List.mem_cons_self _ _) hk)
      by_cases ht : now - ParseInt v * 1000000000 ≥ claimDuration
      · simp only [countDead, hk, if_false, hiff.2 ht, if_true, ih2]
        simp [deadEntries, List.filter_cons, hk, ht]
        omega
      · have ht2 : ¬ time.Sub now (time.Unix (ParseInt v)) ≥ claimDuration :=
          fun h => ht (hiff.1 h)
        simp only [countDead, hk, if_false, ht2, ih2]
        simp [deadEntries, List.filter_cons, hk, ht]

theorem countDead_since (nrString : String) (claimDuration now : Int)
    (all : List (String × String)) :
    ∀ dead, countDead nrString claimDuration now all dead =
      dead + sinceEntries nrString claimDuration now all := by
  induction all with
  | nil => intro dead; simp [countDead, sinceEntries]
  | cons p rest ih =>
    intro dead
    obtain ⟨k, v⟩ := p
    by_cases hk : k = nrString
    · simp only [countDead, hk, if_true, ih]
      simp [sinceEntries, List.filter_cons]
    · by_cases ht : time.Sub now (time.Unix (ParseInt v)) ≥ claimDuration
      · simp only [countDead, hk, if_false, ht, if_true, ih]
        simp [sinceEntries, List.filter_cons, hk, ht]
        omega
      · simp only [countDead, hk, if_false, ht, ih]
        simp [sinceEntries, List.filter_cons, hk, ht]

theorem countDead_own (nrString : String) (claimDuration now : Int) (v : String)
    (all : List (String × String)) (dead : Nat) :
    countDead nrString claimDuration now ((nrString, v) :: all) dead =
      countDead nrString claimDuration now all dead := by
  simp only [countDead, if_true]

theorem claimPage_r (env : Env W) (st : State W) (stream start : String) :
    (claimPage env st stream start).2.r = st.r := by
  unfold claimPage
  simp only
  split
  · rfl
  · split
    · split <;> split <;> rfl
    · rfl
    · rfl

theorem claimLoop_r (env : Env W) (stream : String) :
    ∀ (fuel : Nat) (st : State W) (start : String),
      (claimLoop env fuel st stream start).2.r = st.r := by
  intro fuel
  induction fuel with
  | zero => intro st start; rfl
  | succ fuel ih =>
    intro st start
    have h := claimPage_r env st stream start
    simp only [claimLoop]
    split
    · rename_i next st1 heq
      rw [ih, ← h, heq]
    · rename_i st1 heq
      rw [← h, heq]
    · rename_i v st1 heq
      rw [← h, heq]
    · rename_i st1 heq
      rw [← h, heq]

theorem claimStreams_r (env : Env W) (fuel : Nat) (streams : List String) :
    ∀ st : State W, (claimStreams env fuel st streams).2.r = st.r := by
  induction streams with
  | nil => intro st; rfl
  | cons stream rest ih =>
    intro st
    have h := claimLoop_r env stream fuel st "-"
    simp only [claimStreams]
    split
    · rename_i x st1 heq
      rw [ih, ← h, heq]
    · rename_i v st1 heq
      rw [← h, heq]
    · rename_i st1 heq
      rw [← h, heq]

theorem scanRunning_deadConsumers (env : Env W) (st : State W)
    (hlow : minDuration < st.r.claimDuration) (hhigh : st.r.claimDuration ≤ maxDuration)
    (hall : ∀ p ∈ env.hGetAll st.world (runningKey st.r), p.1 ≠ st.r.nrString →
      ParseInt p.2 ≤ maxInt64 - unixToInternal) :
    (scanRunning env st).r.deadConsumers =
      deadEntries st.r.nrString st.r.claimDuration
        (env.now (env.step st.world (Call.hGetAll (runningKey st.r))))
        (env.hGetAll st.world (runningKey st.r)) := by
  have hc := countDead_eq st.r.nrString st.r.claimDuration
    (env.now (env.step st.world (Call.hGetAll (runningKey st.r)))) hlow hhigh
    (env.hGetAll st.world (runningKey st.r)) hall 0
  rw [Nat.zero_add] at hc
  exact hc

theorem pendingPhase_deadConsumers (env : Env W) (fuel : Nat) (st : State W) (loc : Locals)
    (hrun : ¬ (loc.pendingChecked = true ∧
      env.now st.world - loc.pendingCheckedTime < st.r.claimDuration))
    (hlow : minDuration < st.r.claimDuration) (hhigh : st.r.claimDuration ≤ maxDuration)
    (hall : ∀ p ∈ env.hGetAll st.world (runningKey st.r), p.1 ≠ st.r.nrString →
      ParseInt p.2 ≤ maxInt64 - unixToInternal) :
    (pendingPhase env fuel st loc).2.1.r.deadConsumers =
      deadEntries st.r.nrString st.r.claimDuration
        (env.now (env.step st.world (Call.hGetAll (runningKey st.r))))
        (env.hGetAll st.world (runningKey st.r)) := by
  have hc := scanRunning_deadConsumers env st hlow hhigh hall
  have hr := claimStreams_r env fuel (scanRunning env st).r.streams (scanRunning env st)
  unfold pendingPhase
  simp only [hrun, if_false]
  split
  · exact hc
  · generalize claimStreams env fuel (scanRunning env st) (scanRunning env st).r.streams = q
      at hr ⊢
    obtain ⟨o, st3⟩ := q
    simp only at hr
    cases o <;> simp only [hr] <;> exact hc

theorem pendingPhase_sinceEntries (env : Env W) (fuel : Nat) (st : State W) (loc : Locals)
    (hrun : ¬ (loc.pendingChecked = true ∧
      env.now st.world - loc.pendingCheckedTime < st.r.claimDuration)) :
    (pendingPhase env fuel st loc).2.1.r.deadConsumers =
      sinceEntries st.r.nrString st.r.claimDuration
        (env.now (env.step st.world (Call.hGetAll (runningKey st.r))))
        (env.hGetAll st.world (runningKey st.r)) := by
  have hc : (scanRunning env st).r.deadConsumers =
      sinceEntries st.r.nrString st.r.claimDuration
        (env.now (env.step st.world (Call.hGetAll (runningKey st.r))))
        (env.hGetAll st.world (runningKey st.r)) := by
    have h0 := countDead_since st.r.nrString st.r.claimDuration
      (env.now (env.step st.world (Call.hGetAll (runningKey st.r))))
      (env.hGetAll st.world (runningKey st.r)) 0
    rw [Nat.zero_add] at h0
    exact h0
  have hr := claimStreams_r env fuel (scanRunning env st).r.streams (scanRunning env st)
  unfold pendingPhase
  simp only [hrun, if_false]
  split
  · exact hc
  · generalize claimStreams env fuel (scanRunning env st) (scanRunning env st).r.streams = q
      at hr ⊢
    obtain ⟨o, st3⟩ := q
    simp only at hr
    cases o <;> simp only [hr] <;> exact hc

/-- C10 (as amended): when the pending phase is not skipped by its throttle, then after
the phase the field `deadConsumers` equals the number of entries of the running map whose
field is not this slot's own number and whose last-alive timestamp lies at least the claim
interval back (`time.Since(time.Unix(timestamp, 0)) >= claimDuration`), and no other entry
is counted.  When the claim interval is a duration above the smallest one and no timestamp
of another slot is so large that `time.Unix` wraps around (none is above the largest
`int64` less `unixToInternal`), these are the entries with `now - timestamp` at least the
claim interval, the times taken as numbers of any size.  And the scan never counts an
entry under the slot's own number, whatever its timestamp. -/
theorem C10_dead_peer_count (env : Env W) (fuel : Nat) (st : State W) (loc : Locals)
    (hrun : ¬ (loc.pendingChecked = true ∧
      env.now st.world - loc.pendingCheckedTime < st.r.claimDuration)) :
    (pendingPhase env fuel st loc).2.1.r.deadConsumers =
      sinceEntries st.r.nrString st.r.claimDuration
        (env.now (env.step st.world (Call.hGetAll (runningKey st.r))))
        (env.hGetAll st.world (runningKey st.r)) ∧
    (minDuration < st.r.claimDuration → st.r.claimDuration ≤ maxDuration →
      (∀ p ∈ env.hGetAll st.world (runningKey st.r), p.1 ≠ st.r.nrString →
        ParseInt p.2 ≤ maxInt64 - unixToInternal) →
      (pendingPhase env fuel st loc).2.1.r.deadConsumers =
        deadEntries st.r.nrString st.r.claimDuration
          (env.now (env.step st.world (Call.hGetAll (runningKey st.r))))
          (env.hGetAll st.world (runningKey st.r))) ∧
    ∀ (now : Int) (v : String) (all : List (String × String)) (dead : Nat),
      countDead st.r.nrString st.r.claimDuration now ((st.r.nrString, v) :: all) dead =
        countDead st.r.nrString st.r.claimDuration now all dead ∧
      sinceEntries st.r.nrString st.r.claimDuration now ((st.r.nrString, v) :: all) =
        sinceEntries st.r.nrString st.r.claimDuration now all ∧
      deadEntries st.r.nrString st.r.claimDuration now ((st.r.nrString, v) :: all) =
        deadEntries st.r.nrString st.r.claimDuration now all := by
  refine ⟨pendingPhase_sinceEntries env fuel st loc hrun,
    fun hlow hhigh hall => pendingPhase_deadConsumers env fuel st loc hrun hlow hhigh hall, ?_⟩
  intro now v all dead
  exact ⟨countDead_own _ _ _ _ _ _, by simp [sinceEntries, List.filter_cons],
    by simp [deadEntries, List.filter_cons]⟩

/-- C10 (as amended) at a running map with the own entry and one peer entry, last alive a
claim interval ago; and at a running map whose peer entry has the largest `int64` as its
timestamp, which `time.Since` measures as the largest duration back. -/
theorem C10_dead_peer_count_witness :
    (¬ (locals0.pendingChecked = true ∧
      envPending.now stSlotOne.world - locals0.pendingCheckedTime < stSlotOne.r.claimDuration)) ∧
    (minDuration < stSlotOne.r.claimDuration ∧ stSlotOne.r.claimDuration ≤ maxDuration) ∧
    (∀ p ∈ envPending.hGetAll stSlotOne.world (runningKey stSlotOne.r),
      p.1 ≠ stSlotOne.r.nrString → ParseInt p.2 ≤ maxInt64 - unixToInternal) ∧
    (pendingPhase envPending 5 stSlotOne locals0).2.1.r.deadConsumers = 1 ∧
    (¬ (locals0.pendingChecked = true ∧
      envWrapped.now stSlotOne.world - locals0.pendingCheckedTime < stSlotOne.r.claimDuration)) ∧
    (pendingPhase envWrapped 5 stSlotOne locals0).2.1.r.deadConsumers =
      sinceEntries "1" stSlotOne.r.claimDuration
        (envWrapped.now (envWrapped.step stSlotOne.world
          (Call.hGetAll (runningKey stSlotOne.r))))
        [("1", "1"), ("2", "9223372036854775807")] ∧
    sinceEntries "1" stSlotOne.r.claimDuration
        (envWrapped.now (envWrapped.step stSlotOne.world
          (Call.hGetAll (runningKey stSlotOne.r))))
        [("1", "1"), ("2", "9223372036854775807")] = 1 := by
  have hrun : ¬ (locals0.pendingChecked = true ∧
      envPending.now stSlotOne.world - locals0.pendingCheckedTime <
        stSlotOne.r.claimDuration) := by decide
  have hrun2 : ¬ (locals0.pendingChecked = true ∧
      envWrapped.now stSlotOne.world - locals0.pendingCheckedTime <
        stSlotOne.r.claimDuration) := by decide
  have hall : ∀ p ∈ envPending.hGetAll stSlotOne.world (runningKey stSlotOne.r),
      p.1 ≠ stSlotOne.r.nrString → ParseInt p.2 ≤ maxInt64 - unixToInternal := by decide
  refine ⟨hrun, ⟨by decide, by decide⟩, hall, ?_, hrun2,
    (C10_dead_peer_count envWrapped 5 stSlotOne locals0 hrun2).1, by decide⟩
  rw [(C10_dead_peer_count envPending 5 stSlotOne locals0 hrun).2.1 (by decide) (by decide)
    hall]
  decide

/-- A timestamp so large that `time.Unix` wraps around stands for a time far in the past:
the entry of the slot 2, with the largest `int64` as its timestamp, is counted as dead,
though as a number of seconds since the epoch it lies in the future. -/
theorem scanRunning_wrapped_timestamp :
    envWrapped.hGetAll stSlotOne.world (runningKey stSlotOne.r) =
      [("1", "1"), ("2", "9223372036854775807")] ∧
    time.Sub (envWrapped.now stSlotOne.world) (time.Unix (ParseInt "9223372036854775807")) =
      maxDuration ∧
    deadEntries stSlotOne.r.nrString stSlotOne.r.claimDuration
      (envWrapped.now (envWrapped.step stSlotOne.world (Call.hGetAll (runningKey stSlotOne.r))))
      (envWrapped.hGetAll stSlotOne.world (runningKey stSlotOne.r)) = 0 ∧
    (pendingPhase envWrapped 5 stSlotOne locals0).2.1.r.deadConsumers = 1 := by
  refine ⟨rfl, by decide, by decide, by decide⟩

/-- C10 (counterexample): the running map holds the slot's own entry and the entry of
slot 2, last alive exactly one claim interval (120 s) ago.  No entry is older than the
claim interval, yet after the pending phase `deadConsumers` is 1: the comparison of the
scan is `>=`. -/
theorem C10_counts_entry_at_the_interval :
    envPending.hGetAll stSlotOne.world (runningKey stSlotOne.r) = [("1", "1"), ("2", "1000")] ∧
    envPending.now stSlotOne.world - ParseInt "1000" * 1000000000 = stSlotOne.r.claimDuration ∧
    olderEntries stSlotOne.r.nrString stSlotOne.r.claimDuration
      (envPending.now (envPending.step stSlotOne.world (Call.hGetAll (runningKey stSlotOne.r))))
      (envPending.hGetAll stSlotOne.world (runningKey stSlotOne.r)) = 0 ∧
    (pendingPhase envPending 5 stSlotOne locals0).2.1.r.deadConsumers = 1 := by
  refine ⟨rfl, by decide, by decide, by decide⟩

/-! ## C2: a handler panic with no error handler set -/

theorem Quiet.nil : Quiet [] := by intro c hc; simp at hc

theorem Quiet.append {a b : List Call} (ha : Quiet a) (hb : Quiet b) : Quiet (a ++ b) := by
  intro c hc
  rcases List.mem_append.1 hc with h | h
  · exact ha c h
  · exact hb c h

theorem Quiet.cons {c : Call} {a : List Call} (hc : Call.isHandlerPanic c = false)
    (ha : Quiet a) : Quiet (c :: a) := by
  intro x hx
  rcases List.mem_cons.1 hx with h | h
  · rw [h]; exact hc
  · exact ha x h

theorem Quiet.applyOps (group : String) (ops : List EventOp) (evs : List event) :
    Quiet (applyOps group evs ops).2 := by
  intro c hc
  obtain ⟨s, id, h | h⟩ := applyOps_calls group ops evs c hc <;> rw [h] <;> rfl

theorem Continues.refl (st : State W) : Continues st st :=
  ⟨rfl, [], by simp, Quiet.nil⟩

theorem Continues.trans {a b c : State W} (h1 : Continues a b) (h2 : Continues b c) :
    Continues a c := by
  obtain ⟨e1, n1, t1, q1⟩ := h1
  obtain ⟨e2, n2, t2, q2⟩ := h2
  exact ⟨e2.trans e1, n1 ++ n2, by rw [t2, t1, List.append_assoc], q1.append q2⟩

theorem Continues.emit (env : Env W) (st : State W) (c : Call)
    (hc : Call.isHandlerPanic c = false) : Continues st (emit env st c) :=
  ⟨rfl, [c], rfl, Quiet.cons hc Quiet.nil⟩

theorem Continues.emitAll (env : Env W) (st : State W) (cs : List Call) (hq : Quiet cs) :
    Continues st (emitAll env st cs) :=
  ⟨by simp, cs, by simp, hq⟩

theorem Continues.of_eq {st st1 : State W} (he : st1.r.errorHandler = st.r.errorHandler)
    (ht : st1.trace = st.trace) : Continues st st1 :=
  ⟨he, [], by simp [ht], Quiet.nil⟩

theorem PanicLast.of_continues {α : Type} {st st1 : State W} (o : Outcome α)
    (h : Continues st st1) : PanicLast st o st1 := by
  obtain ⟨e, n, t, q⟩ := h
  exact ⟨e, n, t, Or.inl q⟩

theorem PanicLast.after {α : Type} {a b c : State W} {o : Outcome α} (h1 : Continues a b)
    (h2 : PanicLast b o c) : PanicLast a o c := by
  obtain ⟨e1, n1, t1, q1⟩ := h1
  obtain ⟨e2, n2, t2, q2⟩ := h2
  refine ⟨e2.trans e1, n1 ++ n2, by rw [t2, t1, List.append_assoc], ?_⟩
  rcases q2 with q2 | ⟨pre, v, hn, hq, ho⟩
  · exact Or.inl (q1.append q2)
  · exact Or.inr ⟨n1 ++ pre, v, by rw [hn, List.append_assoc], q1.append hq, ho⟩

theorem PanicLast.continues_ok {α : Type} {st st1 : State W} {a : α}
    (h : PanicLast st (Outcome.ok a) st1) : Continues st st1 := by
  obtain ⟨e, n, t, q⟩ := h
  rcases q with q | ⟨pre, v, _, _, ho⟩
  · exact ⟨e, n, t, q⟩
  · cases ho

theorem PanicLast.cast {α β : Type} {st st1 : State W} {o : Outcome α} {o2 : Outcome β}
    (h : PanicLast st o st1) (hv : ∀ v, o = .panicked v → o2 = .panicked v) :
    PanicLast st o2 st1 := by
  obtain ⟨e, n, t, q⟩ := h
  refine ⟨e, n, t, ?_⟩
  rcases q with q | ⟨pre, v, hn, hq, ho⟩
  · exact Or.inl q
  · exact Or.inr ⟨pre, v, hn, hq, hv v ho⟩

theorem callHandler_continues (env : Env W) (handler : EventConsumerHandler W) (st : State W)
    (events : List event) (hp : (handler st.world events).panic = none) :
    Continues st (callHandler env handler st events).2 := by
  refine ⟨by simp, Call.handler events ::
    ((applyOps st.r.group events (handler st.world events).ops).2 ++
      [Call.handlerDone (handler st.world events).panic]), callHandler_trace _ _ _ _, ?_⟩
  refine Quiet.cons rfl (Quiet.append (Quiet.applyOps _ _ _) ?_)
  rw [hp]
  exact Quiet.cons rfl Quiet.nil

theorem callHandler_panicLast {α : Type} (env : Env W) (handler : EventConsumerHandler W)
    (st : State W) (events : List event) (v : PanicValue)
    (hp : (handler st.world events).panic = some v) :
    PanicLast st (Outcome.panicked v : Outcome α) (callHandler env handler st events).2 := by
  refine ⟨by simp, Call.handler events ::
    ((applyOps st.r.group events (handler st.world events).ops).2 ++
      [Call.handlerDone (handler st.world events).panic]), callHandler_trace _ _ _ _, ?_⟩
  right
  refine ⟨Call.handler events :: (applyOps st.r.group events (handler st.world events).ops).2,
    v, by rw [hp]; simp, Quiet.cons rfl (Quiet.applyOps _ _ _), rfl⟩

theorem runHandler_panicLast (env : Env W) (handler : EventConsumerHandler W) (st : State W)
    (events : List event) (hnone : st.r.errorHandler = none) :
    PanicLast st (runHandler env handler st events).1 (runHandler env handler st events).2 := by
  cases hp : (handler st.world events).panic with
  | none =>
    have hfst : (callHandler env handler st events).1.2 = none := by
      rw [callHandler_fst]; exact hp
    simp only [runHandler, hfst]
    exact PanicLast.of_continues _ (callHandler_continues env handler st events hp)
  | some v =>
    have hfst : (callHandler env handler st events).1.2 = some v := by
      rw [callHandler_fst]; exact hp
    simp only [runHandler, hfst, hnone]
    exact callHandler_panicLast env handler st events v hp

theorem Quiet.ackCalls (group : String) (m : List (String × List String)) :
    Quiet (ackCalls group m) := by
  intro c hc
  obtain ⟨p, _, rfl⟩ := List.mem_map.1 hc
  rfl

theorem acknowledge_continues (env : Env W) (st : State W) (events : List event) :
    Continues st (acknowledge env st events) := by
  unfold acknowledge
  simp only
  split
  · exact (Continues.emit env st (Call.publish _ _) rfl).trans (by
      have := Continues.emitAll env (garbage env st) (ackCalls st.r.group
        (ackScan events [] true).1) (Quiet.ackCalls _ _)
      exact this)
  · exact Continues.emitAll env st _ (Quiet.ackCalls _ _)

theorem dispatchBatch_panicLast (env : Env W) (handler : EventConsumerHandler W)
    (st : State W) (results : List XStream) (total : Int)
    (hnone : st.r.errorHandler = none) :
    PanicLast st (dispatchBatch env handler st results total).1
      (dispatchBatch env handler st results total).2 := by
  have hb : Continues st (beginDispatch env st total) := ⟨rfl, [Call.speedLoggerClear], rfl,
    Quiet.cons rfl Quiet.nil⟩
  have hr := runHandler_panicLast env handler (beginDispatch env st total) (newEvents results)
    (by simpa using hnone)
  unfold dispatchBatch
  simp only
  generalize runHandler env handler (beginDispatch env st total) (newEvents results) = q at hr ⊢
  obtain ⟨o, st3⟩ := q
  cases o with
  | ok events1 =>
    simp only
    have h1 : Continues (beginDispatch env st total) st3 := hr.continues_ok
    have h2 : Continues st3 (addSpeed env st3 (env.now (beginDispatch env st total).world)) :=
      Continues.of_eq rfl rfl
    exact PanicLast.of_continues _
      (hb.trans (h1.trans (h2.trans (acknowledge_continues env _ events1))))
  | panicked v =>
    simp only
    exact PanicLast.after hb (hr.cast (fun v hv => by cases hv; rfl))
  | outOfFuel =>
    simp only
    exact PanicLast.after hb (hr.cast (fun v hv => by cases hv))

theorem flushSpeed_continues (env : Env W) (st : State W) : Continues st (flushSpeed env st) := by
  unfold flushSpeed
  split
  · exact (Continues.emit env st (Call.pipelineExec _) rfl).trans (Continues.of_eq rfl rfl)
  · exact Continues.refl st

theorem readLoop_panicLast (env : Env W) (handler : EventConsumerHandler W) (count : Int)
    (invalidCheck : Bool) :
    ∀ (fuel : Nat) (st : State W) (loc : Locals), st.r.errorHandler = none →
      PanicLast st (readLoop env handler count invalidCheck fuel st loc).1
        (readLoop env handler count invalidCheck fuel st loc).2.1 := by
  intro fuel
  induction fuel with
  | zero => intro st loc _; exact PanicLast.of_continues _ (Continues.refl st)
  | succ fuel ih =>
    intro st loc hnone
    simp only [readLoop]
    split
    · exact PanicLast.of_continues _ (Continues.refl st)
    · split
      · exact PanicLast.of_continues _ (Continues.refl st)
      · have he := Continues.emit env st (Call.xReadGroup
          { Consumer := getName st.r, Group := st.r.group,
            Streams := readStreams st.r.streams loc.lastIDs invalidCheck,
            Count := count, Block := loc.b }) rfl
        split
        · exact PanicLast.of_continues _ he
        · split
          · exact PanicLast.of_continues _ he
          · have hd := dispatchBatch_panicLast env handler _
              (env.xReadGroup st.world
                { Consumer := getName st.r, Group := st.r.group,
                  Streams := readStreams st.r.streams loc.lastIDs invalidCheck,
                  Count := count, Block := loc.b })
              (countMessages invalidCheck (env.xReadGroup st.world
                { Consumer := getName st.r, Group := st.r.group,
                  Streams := readStreams st.r.streams loc.lastIDs invalidCheck,
                  Count := count, Block := loc.b }) 0 loc.lastIDs).1
              (he.1.trans hnone)
            generalize dispatchBatch env handler _ _ _ = q at hd ⊢
            obtain ⟨o, st2⟩ := q
            cases o with
            | ok u =>
              simp only
              have h2 : Continues st (flushSpeed env st2) :=
                he.trans (hd.continues_ok.trans (flushSpeed_continues env st2))
              split
              · exact PanicLast.of_continues _ h2
              · exact PanicLast.after h2 (ih _ _ (h2.1.trans hnone))
            | panicked v =>
              simp only
              exact PanicLast.after he (hd.cast (fun v hv => by cases hv; rfl))
            | outOfFuel =>
              simp only
              exact PanicLast.after he (hd.cast (fun v hv => by cases hv))

theorem claimPage_continues (env : Env W) (st : State W) (stream start : String) :
    Continues st (claimPage env st stream start).2 := by
  unfold claimPage
  simp only
  have he := Continues.emit env st (Call.xPendingExt
    { Stream := stream, Group := st.r.group, Start := start,
      End := FormatInt (Int.tdiv (env.now st.world - st.r.minIdle) 1000000),
      Count := countPending }) rfl
  split
  · exact he
  · split
    · have h2 : ∀ ids : List String, Continues st
          (if ids.length > 0 then
            emit env (emit env st (Call.xPendingExt
              { Stream := stream, Group := st.r.group, Start := start,
                End := FormatInt (Int.tdiv (env.now st.world - st.r.minIdle) 1000000),
                Count := countPending }))
              (Call.xClaimJustID
                { Consumer := getName st.r, Stream := stream, Group := st.r.group,
                  MinIdle := st.r.minIdle, Messages := ids })
          else emit env st (Call.xPendingExt
              { Stream := stream, Group := st.r.group, Start := start,
                End := FormatInt (Int.tdiv (env.now st.world - st.r.minIdle) 1000000),
                Count := countPending })) := by
        intro ids
        split
        · exact he.trans (Continues.emit env _ (Call.xClaimJustID _) rfl)
        · exact he
      split <;> exact h2 _
    · exact he
    · exact he

theorem claimLoop_continues (env : Env W) (stream : String) :
    ∀ (fuel : Nat) (st : State W) (start : String),
      Continues st (claimLoop env fuel st stream start).2 := by
  intro fuel
  induction fuel with
  | zero => intro st start; exact Continues.refl st
  | succ fuel ih =>
    intro st start
    have h := claimPage_continues env st stream start
    simp only [claimLoop]
    generalize claimPage env st stream start = q at h ⊢
    obtain ⟨o, st1⟩ := q
    cases o with
    | ok next =>
      cases next with
      | none => exact h
      | some next => exact h.trans (ih st1 next)
    | panicked v => exact h
    | outOfFuel => exact h

theorem claimStreams_continues (env : Env W) (fuel : Nat) (streams : List String) :
    ∀ st : State W, Continues st (claimStreams env fuel st streams).2 := by
  induction streams with
  | nil => intro st; exact Continues.refl st
  | cons stream rest ih =>
    intro st
    have h := claimLoop_continues env stream fuel st "-"
    simp only [claimStreams]
    generalize claimLoop env fuel st stream "-" = q at h ⊢
    obtain ⟨o, st1⟩ := q
    cases o with
    | ok u => exact h.trans (ih st1)
    | panicked v => exact h
    | outOfFuel => exact h

theorem scanRunning_continues (env : Env W) (st : State W) :
    Continues st (scanRunning env st) :=
  ⟨rfl, [Call.hGetAll (runningKey st.r)], rfl, Quiet.cons rfl Quiet.nil⟩

theorem pendingPhase_continues (env : Env W) (fuel : Nat) (st : State W) (loc : Locals) :
    Continues st (pendingPhase env fuel st loc).2.1 := by
  have h1 := scanRunning_continues env st
  have h2 := claimStreams_continues env fuel (scanRunning env st).r.streams (scanRunning env st)
  unfold pendingPhase
  simp only
  split
  · exact Continues.refl st
  · split
    · exact h1
    · generalize claimStreams env fuel (scanRunning env st) (scanRunning env st).r.streams = q
        at h2 ⊢
      obtain ⟨o, st3⟩ := q
      cases o <;> exact h1.trans h2

theorem keysLoop_panicLast (env : Env W) (handler : EventConsumerHandler W) (count : Int)
    (fuel : Nat) (keys : List String) :
    ∀ (st : State W) (loc : Locals), st.r.errorHandler = none →
      PanicLast st (keysLoop env handler count fuel keys st loc).1
        (keysLoop env handler count fuel keys st loc).2.1 := by
  induction keys with
  | nil => intro st loc _; exact PanicLast.of_continues _ (Continues.refl st)
  | cons key keys ih =>
    intro st loc hnone
    simp only [keysLoop]
    split
    · have h := pendingPhase_continues env fuel st loc
      generalize pendingPhase env fuel st loc = q at h ⊢
      obtain ⟨o, st1, loc1⟩ := q
      cases o with
      | ok u => exact PanicLast.after h (ih st1 loc1 (h.1.trans hnone))
      | panicked v => exact PanicLast.of_continues _ h
      | outOfFuel => exact PanicLast.of_continues _ h
    · have h := readLoop_panicLast env handler count (decide (key = "0")) fuel st
        (if key = "0" then { loc with lastIDs := resetLastIDs loc.lastIDs st.r.streams }
          else loc) hnone
      generalize readLoop env handler count (decide (key = "0")) fuel st
        (if key = "0" then { loc with lastIDs := resetLastIDs loc.lastIDs st.r.streams }
          else loc) = q at h ⊢
      obtain ⟨o, st1, loc1⟩ := q
      cases o with
      | ok b =>
        cases b with
        | none => exact PanicLast.after h.continues_ok (ih st1 loc1 (h.1.trans hnone))
        | some b => exact h
      | panicked v => exact h
      | outOfFuel => exact h

theorem outerLoop_panicLast (env : Env W) (handler : EventConsumerHandler W) (count : Int) :
    ∀ (fuel : Nat) (st : State W) (loc : Locals), st.r.errorHandler = none →
      PanicLast st (outerLoop env handler count fuel st loc).1
        (outerLoop env handler count fuel st loc).2 := by
  intro fuel
  induction fuel with
  | zero => intro st loc _; exact PanicLast.of_continues _ (Continues.refl st)
  | succ fuel ih =>
    intro st loc hnone
    have h := keysLoop_panicLast env handler count fuel ["pending", "0", ">"] st loc hnone
    simp only [outerLoop]
    generalize keysLoop env handler count fuel ["pending", "0", ">"] st loc = q at h ⊢
    obtain ⟨o, st1, loc1⟩ := q
    cases o with
    | ok b =>
      cases b with
      | none =>
        simp only
        split
        · exact PanicLast.of_continues _ h.continues_ok
        · exact PanicLast.after h.continues_ok (ih st1 loc1 (h.1.trans hnone))
      | some valid => exact PanicLast.of_continues _ h.continues_ok
    | panicked v => exact h.cast (fun v hv => by cases hv; rfl)
    | outOfFuel => exact h.cast (fun v hv => by cases hv)

theorem obtainLoop_continues (env : Env W) :
    ∀ (fuel : Nat) (st : State W) (nr : Nat), Continues st (obtainLoop env fuel st nr).2 := by
  intro fuel
  induction fuel with
  | zero => intro st nr; exact Continues.refl st
  | succ fuel ih =>
    intro st nr
    have he := Continues.emit env st (Call.obtain (lockNameOf st.r (nr + 1)) st.r.lockTTL) rfl
    simp only [obtainLoop]
    split
    · split
      · exact he.trans (ih _ _)
      · exact he
    · exact he.trans ⟨rfl, [Call.hSet _ _ _], rfl, Quiet.cons rfl Quiet.nil⟩

theorem PanicThenRelease.ofContinues {α : Type} {st st1 : State W} (o : Outcome α)
    (h : Continues st st1) : PanicThenRelease st o st1 := by
  obtain ⟨e, n, t, q⟩ := h
  exact ⟨e, n, t, Or.inl q⟩

theorem PanicThenRelease.afterContinues {α : Type} {a b c : State W} {o : Outcome α}
    (h1 : Continues a b) (h2 : PanicThenRelease b o c) : PanicThenRelease a o c := by
  obtain ⟨e1, n1, t1, q1⟩ := h1
  obtain ⟨e2, n2, t2, q2⟩ := h2
  refine ⟨e2.trans e1, n1 ++ n2, by rw [t2, t1, List.append_assoc], ?_⟩
  rcases q2 with q2 | ⟨pre, v, name, hn, hq, ho⟩
  · exact Or.inl (q1.append q2)
  · exact Or.inr ⟨n1 ++ pre, v, name, by rw [hn, List.append_assoc], q1.append hq, ho⟩

theorem PanicThenRelease.continuesOfOk {α : Type} {st st1 : State W} {a : α}
    (h : PanicThenRelease st (Outcome.ok a) st1) : Continues st st1 := by
  obtain ⟨e, n, t, q⟩ := h
  rcases q with q | ⟨pre, v, name, _, _, ho⟩
  · exact ⟨e, n, t, q⟩
  · cases ho

theorem PanicThenRelease.castOutcome {α β : Type} {st st1 : State W} {o : Outcome α}
    {o2 : Outcome β} (h : PanicThenRelease st o st1)
    (hv : ∀ v, o = .panicked v → o2 = .panicked v) : PanicThenRelease st o2 st1 := by
  obtain ⟨e, n, t, q⟩ := h
  refine ⟨e, n, t, ?_⟩
  rcases q with q | ⟨pre, v, name, hn, hq, ho⟩
  · exact Or.inl q
  · exact Or.inr ⟨pre, v, name, hn, hq, hv v ho⟩

theorem deferred_panicThenRelease {α : Type} (env : Env W) (st st3 : State W)
    (o : Outcome α) (lockName : String) (h : PanicLast st o st3) :
    PanicThenRelease st o (deferred env st3 lockName) := by
  obtain ⟨e, n, t, q⟩ := h
  refine ⟨e, n ++ [Call.release lockName], ?_, ?_⟩
  · simp [deferred, t]
  · rcases q with q | ⟨pre, v, hn, hq, ho⟩
    · exact Or.inl (q.append (Quiet.cons rfl Quiet.nil))
    · exact Or.inr ⟨pre, v, lockName, by rw [hn]; simp, hq, ho⟩

theorem consume_panicThenRelease (env : Env W) (handler : EventConsumerHandler W)
    (count : Int) (fuel : Nat) (st : State W) (hnone : st.r.errorHandler = none) :
    PanicThenRelease st (consume env handler count fuel st).1
      (consume env handler count fuel st).2 := by
  have ha : Continues st (acquire env st).2 := obtainLoop_continues env _ st 0
  unfold consume
  generalize acquire env st = q at ha ⊢
  obtain ⟨o, st1⟩ := q
  cases o with
  | ok lockName =>
    simp only
    have hx : Continues st1 (emitAll env st1 (st1.r.streams.map
        (fun stream => Call.xGroupCreateMkStream stream st1.r.group "0"))) :=
      Continues.emitAll env st1 _ (by
        intro c hc
        obtain ⟨s, _, rfl⟩ := List.mem_map.1 hc
        rfl)
    have ho := outerLoop_panicLast env handler count fuel
      (emitAll env st1 (st1.r.streams.map
        (fun stream => Call.xGroupCreateMkStream stream st1.r.group "0")))
      { lockName := lockName, lockAcquired := env.now st1.world, lastIDs := [],
        pendingChecked := false, pendingCheckedTime := 0,
        b := if !st1.r.loop then -1 else st1.r.blockTime }
      ((ha.trans hx).1.trans hnone)
    generalize outerLoop env handler count fuel _ _ = q2 at ho ⊢
    obtain ⟨o2, st3⟩ := q2
    have ho2 : PanicLast st o2 st3 := PanicLast.after (ha.trans hx) ho
    cases o2 with
    | ok valid => exact deferred_panicThenRelease env st st3 _ lockName ho2
    | panicked v => exact deferred_panicThenRelease env st st3 _ lockName ho2
    | outOfFuel =>
      obtain ⟨e, n, t, q⟩ := ho2
      rcases q with q | ⟨pre, v, _, _, hv⟩
      · exact ⟨e, n, t, Or.inl q⟩
      · cases hv
  | panicked v => exact PanicThenRelease.ofContinues _ ha
  | outOfFuel => exact PanicThenRelease.ofContinues _ ha

theorem Consume_panicThenRelease (env : Env W) (handler : EventConsumerHandler W)
    (count : Int) :
    ∀ (fuel : Nat) (st : State W), st.r.errorHandler = none →
      PanicThenRelease st (Consume env handler count fuel st).1
        (Consume env handler count fuel st).2 := by
  intro fuel
  induction fuel with
  | zero => intro st _; exact PanicThenRelease.ofContinues _ (Continues.refl st)
  | succ fuel ih =>
    intro st hnone
    have h := consume_panicThenRelease env handler count fuel st hnone
    simp only [Consume]
    generalize consume env handler count fuel st = q at h ⊢
    obtain ⟨o, st1⟩ := q
    cases o with
    | ok valid =>
      simp only
      split
      · exact PanicThenRelease.ofContinues _ h.continuesOfOk
      · have hs := h.continuesOfOk.trans (Continues.emit env st1 (Call.sleep 10000000000) rfl)
        exact PanicThenRelease.afterContinues hs (ih _ (hs.1.trans hnone))
    | panicked v => exact h.castOutcome (fun v hv => by cases hv; rfl)
    | outOfFuel => exact h.castOutcome (fun v hv => by cases hv)

theorem panicThenRelease_split {α : Type} {st st1 : State W} {o : Outcome α}
    (h : PanicThenRelease st o st1) (pre post : List Call) (v : PanicValue)
    (ht : st1.trace = st.trace ++ pre ++ Call.handlerDone (some v) :: post) :
    o = .panicked v ∧ ∃ name, post = [Call.release name] := by
  obtain ⟨_, n, t, q⟩ := h
  rw [t, List.append_assoc] at ht
  have hn : n = pre ++ Call.handlerDone (some v) :: post := List.append_cancel_left ht
  rcases q with q | ⟨pre1, v1, name, hn1, hq, ho⟩
  · have := q (Call.handlerDone (some v)) (by rw [hn]; simp)
    cases this
  · rw [hn] at hn1
    rcases List.append_eq_append_iff.1 hn1 with ⟨c, hc1, hc2⟩ | ⟨c, hc1, hc2⟩
    · cases c with
      | nil =>
        simp only [List.nil_append, List.cons.injEq, Call.handlerDone.injEq,
          Option.some.injEq] at hc2
        obtain ⟨hv, hp⟩ := hc2
        subst hv
        exact ⟨ho, name, hp⟩
      | cons x c =>
        simp only [List.cons_append, List.cons.injEq] at hc2
        have := hq (Call.handlerDone (some v)) (by rw [hc1, ← hc2.1]; simp)
        cases this
    · cases c with
      | nil =>
        simp only [List.nil_append, List.cons.injEq, Call.handlerDone.injEq,
          Option.some.injEq] at hc2
        obtain ⟨hv, hp⟩ := hc2
        subst hv
        exact ⟨ho, name, hp.symm⟩
      | cons x c =>
        simp only [List.cons_append, List.cons.injEq] at hc2
        obtain ⟨_, hc3⟩ := hc2
        have hmem : Call.handlerDone (some v) ∈ [Call.release name] := by
          rw [hc3]; simp
        simp at hmem

/-- C2: with no error handler set, (a) a dispatch whose batch handler panics with `v` ends
with the panic `v`, and its calls are the handler call, the store calls of the handler's
own `Ack()` and `delete()`, and the end of the handler call: the engine issues no `XAck`
and publishes no garbage-collection message for the batch; (b) in every run of `Consume`,
a handler call that panics with `v` is followed by the release of the lease by the deferred
function of `consume` and by no other call, and `Consume` itself panics with that same
value `v`. -/
theorem C2_handler_panic_propagates (env : Env W) (handler : EventConsumerHandler W)
    (count : Int) (fuel : Nat) (st : State W) (hnone : st.r.errorHandler = none) :
    (∀ (results : List XStream) (total : Int) (v : PanicValue),
      (batchRun env handler st results).panic = some v →
      (dispatchBatch env handler st results total).1 = .panicked v ∧
      (dispatchBatch env handler st results total).2.trace =
        st.trace ++ Call.speedLoggerClear :: Call.handler (newEvents results) ::
          (batchCalls env handler st results ++ [Call.handlerDone (some v)])) ∧
    (∀ (pre post : List Call) (v : PanicValue),
      (Consume env handler count fuel st).2.trace =
        st.trace ++ pre ++ Call.handlerDone (some v) :: post →
      (Consume env handler count fuel st).1 = .panicked v ∧
      ∃ name, post = [Call.release name]) := by
  constructor
  · intro results total v hp
    have h1 : (callHandler env handler (beginDispatch env st total) (newEvents results)).1.2 =
        some v := by
      rw [callHandler_fst]; exact hp
    have hn : (beginDispatch env st total).r.errorHandler = none := by simpa using hnone
    unfold dispatchBatch runHandler
    simp only [h1, hn]
    refine ⟨trivial, ?_⟩
    simp [callHandler_trace, hp]
  · intro pre post v ht
    exact panicThenRelease_split (Consume_panicThenRelease env handler count fuel st hnone)
      pre post v ht

/-- C2 at a run of `Consume` whose first backlog read returns three events and whose
handler acknowledges the first one and panics. -/
theorem C2_handler_panic_propagates_witness :
    st0.r.errorHandler = none ∧
    (Consume envRead handlerAckThenPanic 10 3 st0).2.trace =
      st0.trace ++ [Call.obtain "g_default-1" 90000000000,
        Call.hSet "g_default_running" "1" "0",
        Call.xGroupCreateMkStream "s1" "g" "0", Call.xGroupCreateMkStream "s2" "g" "0",
        Call.hGetAll "g_default_running",
        Call.xReadGroup { Group := "g", Consumer := "g-1", Streams := ["s1", "s2", "0", "0"],
                          Count := 10, Block := -1 },
        Call.speedLoggerClear, Call.handler (newEvents res3), Call.xAck "s1" "g" ["1-0"]] ++
      Call.handlerDone (some (PanicValue.value "boom")) :: [Call.release "g_default-1"] ∧
    (Consume envRead handlerAckThenPanic 10 3 st0).1 = .panicked (PanicValue.value "boom") ∧
    ∃ name, [Call.release "g_default-1"] = [Call.release name] := by
  have ht : (Consume envRead handlerAckThenPanic 10 3 st0).2.trace =
      st0.trace ++ [Call.obtain "g_default-1" 90000000000,
        Call.hSet "g_default_running" "1" "0",
        Call.xGroupCreateMkStream "s1" "g" "0", Call.xGroupCreateMkStream "s2" "g" "0",
        Call.hGetAll "g_default_running",
        Call.xReadGroup { Group := "g", Consumer := "g-1", Streams := ["s1", "s2", "0", "0"],
                          Count := 10, Block := -1 },
        Call.speedLoggerClear, Call.handler (newEvents res3), Call.xAck "s1" "g" ["1-0"]] ++
      Call.handlerDone (some (PanicValue.value "boom")) :: [Call.release "g_default-1"] := by
    decide
  exact ⟨rfl, ht,
    (C2_handler_panic_propagates envRead handlerAckThenPanic 10 3 st0 rfl).2 _ _ _ ht⟩

/-! ## Further facts about the model -/

theorem obtainLoop_ne_outOfFuel (env : Env W) :
    ∀ (fuel : Nat) (st : State W) (nr : Nat),
      0 < fuel → st.r.limit ≤ ((nr + fuel : Nat) : Int) →
      (obtainLoop env fuel st nr).1 ≠ .outOfFuel := by
  intro fuel
  induction fuel with
  | zero => intro st nr h; omega
  | succ fuel ih =>
    intro st nr _ hlim
    simp only [obtainLoop]
    split
    · split
      · rename_i hlt
        have hpos : 0 < fuel := by
          by_contra h0
          have : fuel = 0 := by omega
          subst this
          push_cast at hlim hlt
          omega
        exact ih _ _ hpos (by
          have : nr + 1 + fuel = nr + (fuel + 1) := by omega
          rw [this]; exact hlim)
      · intro h; cases h
    · intro h; cases h

theorem acquire_ne_outOfFuel (env : Env W) (st : State W) :
    (acquire env st).1 ≠ .outOfFuel := by
  unfold acquire
  apply obtainLoop_ne_outOfFuel
  · have : (1 : Int) ≤ max st.r.limit 1 := le_max_right _ _
    omega
  · have : st.r.limit ≤ max st.r.limit 1 := le_max_left _ _
    have h2 : (0 : Int) ≤ max st.r.limit 1 := le_trans (by decide) (le_max_right _ _)
    rw [Nat.zero_add, Int.toNat_of_nonneg h2]
    exact this

theorem garbage_published_iff (events : List event) :
    (ackScan events [] true).2 = false ↔ ∃ e ∈ events, e.ack = true ∧ e.deleted = false := by
  rw [ackScan_allDeleted]
  simp only [Bool.true_and]
  constructor
  · intro h
    have : ¬ (events.all (fun e => !e.ack || e.deleted) = true) := by simp [h]
    rw [List.all_eq_true] at this
    push_neg at this
    obtain ⟨e, he, hx⟩ := this
    refine ⟨e, he, ?_⟩
    rcases e.ack.eq_false_or_eq_true with ha | ha <;>
      rcases e.deleted.eq_false_or_eq_true with hd | hd <;> simp [ha, hd] at hx ⊢
  · rintro ⟨e, he, ha, hd⟩
    apply Bool.eq_false_iff.2
    intro hall
    rw [List.all_eq_true] at hall
    have := hall e he
    simp [ha, hd] at this

/-! ## The iterations of the read loop -/

theorem countMessages_total (invalidCheck : Bool) (results : List XStream) :
    ∀ (total : Int) (lastIDs : List (String × String)),
      (countMessages invalidCheck results total lastIDs).1 = total + totalMessages results := by
  induction results with
  | nil => intro total lastIDs; simp [countMessages, totalMessages]
  | cons row rest ih =>
    intro total lastIDs
    simp only [countMessages]
    cases hm : row.Messages.getLast? with
    | none =>
      have hnil : row.Messages = [] := List.getLast?_eq_none_iff.1 hm
      simp only [ih]
      simp [totalMessages, hnil]
    | some last =>
      simp only [ih]
      simp only [totalMessages, List.map_cons, List.sum_cons]
      push_cast
      ring

theorem countMessages_zero (invalidCheck : Bool) (results : List XStream)
    (lastIDs : List (String × String)) :
    (countMessages invalidCheck results 0 lastIDs).1 = 0 ↔ totalMessages results = 0 := by
  rw [countMessages_total]
  omega

theorem readLoop_canceled (env : Env W) (handler : EventConsumerHandler W) (count : Int)
    (invalidCheck : Bool) (fuel : Nat) (st : State W) (loc : Locals)
    (hc : env.canceled st.world = true) :
    readLoop env handler count invalidCheck (fuel + 1) st loc = (.ok (some true), st, loc) := by
  simp [readLoop, hc]

theorem readLoop_slotLost (env : Env W) (handler : EventConsumerHandler W) (count : Int)
    (invalidCheck : Bool) (fuel : Nat) (st : State W) (loc : Locals)
    (hc : env.canceled st.world = false) (hl : slotLost env st loc) :
    readLoop env handler count invalidCheck (fuel + 1) st loc = (.ok (some false), st, loc) := by
  have hl2 : (!env.hasLock st.world) = true ∨
      env.now st.world - lockAcquiredAt env st loc > st.r.lockTTL := by
    rcases hl with h | h
    · left; simp [h]
    · right; exact h
  simp only [readLoop, hc, Bool.false_eq_true, if_false, if_pos hl2]

theorem readLoop_canceled_after (env : Env W) (handler : EventConsumerHandler W) (count : Int)
    (invalidCheck : Bool) (fuel : Nat) (st : State W) (loc : Locals)
    (hc : env.canceled st.world = false) (hl : ¬ slotLost env st loc)
    (hc2 : env.canceled (afterRead env st loc count invalidCheck).world = true) :
    readLoop env handler count invalidCheck (fuel + 1) st loc =
      (.ok (some true), afterRead env st loc count invalidCheck, loc) := by
  have hl2 : ¬ ((!env.hasLock st.world) = true ∨
      env.now st.world - lockAcquiredAt env st loc > st.r.lockTTL) := by
    intro h
    apply hl
    rcases h with h | h
    · left; simpa using h
    · right; exact h
  have hc3 : env.canceled (emit env st (Call.xReadGroup
      { Consumer := getName st.r, Group := st.r.group,
        Streams := readStreams st.r.streams loc.lastIDs invalidCheck,
        Count := count, Block := loc.b })).world = true := hc2
  simp only [readLoop, hc, Bool.false_eq_true, if_false, if_neg hl2, hc3, if_true]
  rfl

theorem readLoop_empty (env : Env W) (handler : EventConsumerHandler W) (count : Int)
    (invalidCheck : Bool) (fuel : Nat) (st : State W) (loc : Locals)
    (hc : env.canceled st.world = false) (hl : ¬ slotLost env st loc)
    (hc2 : env.canceled (afterRead env st loc count invalidCheck).world = false)
    (h0 : totalMessages (readResults env st loc count invalidCheck) = 0) :
    readLoop env handler count invalidCheck (fuel + 1) st loc =
      (.ok none, afterRead env st loc count invalidCheck,
        localsAfterRead env st loc count invalidCheck) := by
  have hl2 : ¬ ((!env.hasLock st.world) = true ∨
      env.now st.world - lockAcquiredAt env st loc > st.r.lockTTL) := by
    intro h
    apply hl
    rcases h with h | h
    · left; simpa using h
    · right; exact h
  have hc3 : env.canceled (emit env st (Call.xReadGroup
      { Consumer := getName st.r, Group := st.r.group,
        Streams := readStreams st.r.streams loc.lastIDs invalidCheck,
        Count := count, Block := loc.b })).world = false := hc2
  have h1 : (countMessages invalidCheck (env.xReadGroup st.world
      { Consumer := getName st.r, Group := st.r.group,
        Streams := readStreams st.r.streams loc.lastIDs invalidCheck,
        Count := count, Block := loc.b }) 0 loc.lastIDs).1 = 0 :=
    (countMessages_zero _ _ _).2 h0
  simp only [readLoop, hc, Bool.false_eq_true, if_false, if_neg hl2, hc3, h1, if_true]
  rfl

theorem readLoop_dispatch (env : Env W) (handler : EventConsumerHandler W) (count : Int)
    (invalidCheck : Bool) (fuel : Nat) (st : State W) (loc : Locals)
    (hc : env.canceled st.world = false) (hl : ¬ slotLost env st loc)
    (hc2 : env.canceled (afterRead env st loc count invalidCheck).world = false)
    (hpos : totalMessages (readResults env st loc count invalidCheck) ≠ 0) :
    readLoop env handler count invalidCheck (fuel + 1) st loc =
      match dispatchBatch env handler (afterRead env st loc count invalidCheck)
          (readResults env st loc count invalidCheck)
          (totalMessages (readResults env st loc count invalidCheck)) with
      | (.ok _, st2) =>
        if reclaimOverdue env (flushSpeed env st2) (localsAfterRead env st loc count invalidCheck)
        then (.ok none, flushSpeed env st2, localsAfterRead env st loc count invalidCheck)
        else readLoop env handler count invalidCheck fuel (flushSpeed env st2)
          (localsAfterRead env st loc count invalidCheck)
      | (.panicked v, st2) => (.panicked v, st2, localsAfterRead env st loc count invalidCheck)
      | (.outOfFuel, st2) => (.outOfFuel, st2, localsAfterRead env st loc count invalidCheck) := by
  have hl2 : ¬ ((!env.hasLock st.world) = true ∨
      env.now st.world - lockAcquiredAt env st loc > st.r.lockTTL) := by
    intro h
    apply hl
    rcases h with h | h
    · left; simpa using h
    · right; exact h
  have hc3 : env.canceled (emit env st (Call.xReadGroup
      { Consumer := getName st.r, Group := st.r.group,
        Streams := readStreams st.r.streams loc.lastIDs invalidCheck,
        Count := count, Block := loc.b })).world = false := hc2
  have h1 : (countMessages invalidCheck (env.xReadGroup st.world
      { Consumer := getName st.r, Group := st.r.group,
        Streams := readStreams st.r.streams loc.lastIDs invalidCheck,
        Count := count, Block := loc.b }) 0 loc.lastIDs).1 =
      (totalMessages (readResults env st loc count invalidCheck) : Int) := by
    rw [countMessages_total]; simp [readResults, readArgs]
  have h2 : ¬ ((totalMessages (readResults env st loc count invalidCheck) : Int) = 0) := by
    intro h; apply hpos; exact_mod_cast h
  simp only [readLoop, hc, Bool.false_eq_true, if_false, if_neg hl2, hc3, h1, if_neg h2]
  rfl

/-! ## The pass from a checkpoint on -/

theorem consume_exitPass (env : Env W) (handler : EventConsumerHandler W) (count : Int)
    (fuel : Nat) (st : State W) (lockName : String) (st1 : State W)
    (hacq : acquire env st = (.ok lockName, st1)) :
    consume env handler count fuel st =
      exitPass env lockName
        (outerLoop env handler count fuel (createGroups env st1) (passLocals env st1 lockName)) := by
  unfold consume
  simp only [hacq]
  unfold exitPass createGroups passLocals
  rfl

theorem outerLoop_succ (env : Env W) (handler : EventConsumerHandler W) (count : Int)
    (fuel : Nat) (st : State W) (loc : Locals) :
    outerLoop env handler count (fuel + 1) st loc =
      afterCycle env handler count fuel
        (keysLoop env handler count fuel ["pending", "0", ">"] st loc) := by
  simp only [outerLoop]
  generalize keysLoop env handler count fuel ["pending", "0", ">"] st loc = q
  obtain ⟨o, st1, loc1⟩ := q
  cases o with
  | ok b => cases b <;> rfl
  | panicked v => rfl
  | outOfFuel => rfl

theorem keysLoop_pending (env : Env W) (handler : EventConsumerHandler W) (count : Int)
    (fuel : Nat) (keys : List String) (st : State W) (loc : Locals) (u : Unit)
    (st1 : State W) (loc1 : Locals) (hp : pendingPhase env fuel st loc = (.ok u, st1, loc1)) :
    keysLoop env handler count fuel ("pending" :: keys) st loc =
      keysLoop env handler count fuel keys st1 loc1 := by
  simp only [keysLoop, if_true, hp]

theorem keysLoop_backlog (env : Env W) (handler : EventConsumerHandler W) (count : Int)
    (fuel : Nat) (keys : List String) (st : State W) (loc : Locals) :
    keysLoop env handler count fuel ("0" :: keys) st loc =
      match readLoop env handler count true fuel st (backlogLocals st loc) with
      | (.ok none, st1, loc1) => keysLoop env handler count fuel keys st1 loc1
      | other => other := by
  have h : ¬ ("0" = "pending") := by decide
  simp only [keysLoop, if_neg h, if_true, decide_True]
  rfl

theorem keysLoop_live (env : Env W) (handler : EventConsumerHandler W) (count : Int)
    (fuel : Nat) (keys : List String) (st : State W) (loc : Locals) :
    keysLoop env handler count fuel (">" :: keys) st loc =
      match readLoop env handler count false fuel st loc with
      | (.ok none, st1, loc1) => keysLoop env handler count fuel keys st1 loc1
      | other => other := by
  have h : ¬ (">" = "pending") := by decide
  have h2 : ¬ (">" = "0") := by decide
  have h3 : decide (">" = "0") = false := by decide
  simp only [keysLoop, if_neg h, if_neg h2, h3]

theorem consume_passFrom (env : Env W) (handler : EventConsumerHandler W) (count : Int)
    (fuel : Nat) (st : State W) (lockName : String) (st1 : State W) (u : Unit)
    (st2 : State W) (loc2 : Locals)
    (hacq : acquire env st = (.ok lockName, st1))
    (hp : pendingPhase env fuel (createGroups env st1) (passLocals env st1 lockName) =
      (.ok u, st2, loc2)) :
    consume env handler count (fuel + 1) st =
      passFrom env handler count lockName true [">"] fuel fuel st2 (backlogLocals st2 loc2) := by
  rw [consume_exitPass env handler count (fuel + 1) st lockName st1 hacq, outerLoop_succ,
    keysLoop_pending env handler count fuel _ _ _ u st2 loc2 hp, keysLoop_backlog]
  rfl

theorem passFrom_again (env : Env W) (handler : EventConsumerHandler W) (count : Int)
    (lockName : String) (invalidCheck : Bool) (keys : List String) (fuelR fuel : Nat)
    (st : State W) (loc : Locals) (u : Unit) (st2 : State W)
    (hc : env.canceled st.world = false) (hl : ¬ slotLost env st loc)
    (hc2 : env.canceled (afterRead env st loc count invalidCheck).world = false)
    (hpos : totalMessages (readResults env st loc count invalidCheck) ≠ 0)
    (hd : dispatchBatch env handler (afterRead env st loc count invalidCheck)
      (readResults env st loc count invalidCheck)
      (totalMessages (readResults env st loc count invalidCheck)) = (.ok u, st2))
    (hno : ¬ reclaimOverdue env (flushSpeed env st2)
      (localsAfterRead env st loc count invalidCheck)) :
    passFrom env handler count lockName invalidCheck keys (fuelR + 1) fuel st loc =
      passFrom env handler count lockName invalidCheck keys fuelR fuel (flushSpeed env st2)
        (localsAfterRead env st loc count invalidCheck) := by
  unfold passFrom
  rw [readLoop_dispatch env handler count invalidCheck fuelR st loc hc hl hc2 hpos, hd]
  simp only [if_neg hno]

theorem passFrom_live (env : Env W) (handler : EventConsumerHandler W) (count : Int)
    (lockName : String) (fuelR fuel : Nat) (st : State W) (loc : Locals)
    (st1 : State W) (loc1 : Locals)
    (hr : readLoop env handler count true fuelR st loc = (.ok none, st1, loc1)) :
    passFrom env handler count lockName true [">"] fuelR fuel st loc =
      passFrom env handler count lockName false [] fuel fuel st1 loc1 := by
  unfold passFrom
  rw [hr]
  simp only
  rw [keysLoop_live]

theorem passFrom_cycle (env : Env W) (handler : EventConsumerHandler W) (count : Int)
    (lockName : String) (fuelR fuel : Nat) (st : State W) (loc : Locals)
    (st1 : State W) (loc1 : Locals) (u : Unit) (st2 : State W) (loc2 : Locals)
    (hr : readLoop env handler count false fuelR st loc = (.ok none, st1, loc1))
    (hloop : st1.r.loop = true)
    (hp : pendingPhase env fuel st1 loc1 = (.ok u, st2, loc2)) :
    passFrom env handler count lockName false [] fuelR (fuel + 1) st loc =
      passFrom env handler count lockName true [">"] fuel fuel st2 (backlogLocals st2 loc2) := by
  unfold passFrom
  rw [hr]
  simp only [keysLoop, afterCycle, hloop, Bool.not_true, Bool.false_eq_true, if_false]
  rw [outerLoop_succ, keysLoop_pending env handler count fuel _ _ _ u st2 loc2 hp,
    keysLoop_backlog]
  rfl

theorem passFrom_returned (env : Env W) (handler : EventConsumerHandler W) (count : Int)
    (lockName : String) (invalidCheck : Bool) (keys : List String) (fuelR fuel : Nat)
    (st : State W) (loc : Locals) (valid : Bool) (st1 : State W) (loc1 : Locals)
    (hr : readLoop env handler count invalidCheck fuelR st loc = (.ok (some valid), st1, loc1)) :
    passFrom env handler count lockName invalidCheck keys fuelR fuel st loc =
      (.ok valid, deferred env st1 lockName) := by
  unfold passFrom
  rw [hr]
  rfl

theorem deferred_trace (env : Env W) (st : State W) (lockName : String) :
    (deferred env st lockName).trace = st.trace ++ [Call.release lockName] := rfl

/-! ## C12, C13: the checkpoints of the read loop -/

/-- C12: at the start of every iteration of the read loop, which is the checkpoint before a
group read, if the cancellation flag is not set and the slot is lost (the heartbeat has
flagged the lease as lost, or the time since the lease was acquired or last refreshed
exceeds `lockTTL`), the read loop returns `false` in the state it was entered in, and from
there `consume` returns `false` after the release of the lease by its deferred function and
after no other call: it issues no further read and no `XAck` and calls no handler. -/
theorem C12_slot_lost_returns_false (env : Env W) (handler : EventConsumerHandler W)
    (count : Int) (invalidCheck : Bool) (keys : List String) (fuelR fuel : Nat)
    (lockName : String) (st : State W) (loc : Locals)
    (hc : env.canceled st.world = false) (hl : slotLost env st loc) :
    readLoop env handler count invalidCheck (fuelR + 1) st loc = (.ok (some false), st, loc) ∧
    passFrom env handler count lockName invalidCheck keys (fuelR + 1) fuel st loc =
      (.ok false, deferred env st lockName) ∧
    (deferred env st lockName).trace = st.trace ++ [Call.release lockName] := by
  have hr := readLoop_slotLost env handler count invalidCheck fuelR st loc hc hl
  exact ⟨hr, passFrom_returned env handler count lockName invalidCheck keys (fuelR + 1) fuel
    st loc false st loc hr, rfl⟩

/-- C12 at a checkpoint 91 s after the lease was acquired, and in a pass whose handler takes
130 s while the heartbeat refreshes nothing: the checkpoint after the first dispatch ends the
pass with `false`. -/
theorem C12_slot_lost_returns_false_witness :
    envLate.canceled stSlotOne.world = false ∧ slotLost envLate stSlotOne locals0 ∧
    (readLoop envLate handlerIdle 10 true (2 + 1) stSlotOne locals0 =
        (.ok (some false), stSlotOne, locals0) ∧
      passFrom envLate handlerIdle 10 "g_default-1" true [">"] (2 + 1) 3 stSlotOne locals0 =
        (.ok false, deferred envLate stSlotOne "g_default-1") ∧
      (deferred envLate stSlotOne "g_default-1").trace =
        stSlotOne.trace ++ [Call.release "g_default-1"]) ∧
    (consume envNoBeat handlerQuiet 10 5 (stClock false)).1 = .ok false ∧
    (consume envNoBeat handlerQuiet 10 5 (stClock false)).2.trace =
      [Call.obtain "g_default-1" 90000000000, Call.hSet "g_default_running" "1" "1001",
       Call.xGroupCreateMkStream "s1" "g" "0", Call.xGroupCreateMkStream "s2" "g" "0",
       Call.hGetAll "g_default_running",
       Call.xReadGroup { Group := "g", Consumer := "g-1", Streams := ["s1", "s2", "0", "0"],
                         Count := 10, Block := -1 },
       Call.speedLoggerClear, Call.handler (newEvents res3), Call.handlerDone none,
       Call.xAck "s1" "g" ["1-0", "2-0"], Call.xAck "s2" "g" ["3-0"],
       Call.release "g_default-1"] :=
  ⟨by decide, by decide,
    C12_slot_lost_returns_false envLate handlerIdle 10 true [">"] 2 3 "g_default-1" stSlotOne
      locals0 (by decide) (by decide),
    by decide, by decide⟩

/-- C13: (a) at the start of every iteration of the read loop, if the cancellation flag is
set, whatever the state of the lease, the read loop returns `true` in the state it was
entered in, and from there `consume` returns `true` after the release of the lease only;
(b) if the flag is not set and the slot is not lost at the start of the iteration but the
flag is set when the group read has returned, the read loop returns `true` right after the
read, and from there `consume` returns `true` after the release of the lease only: the
messages of that read reach no handler and no `XAck` is issued for them; (c) after a pass
that returned `true`, `Consume` returns in the state that pass ended in: it starts no
further pass. -/
theorem C13_cancellation_returns_true (env : Env W) (handler : EventConsumerHandler W)
    (count : Int) (invalidCheck : Bool) (keys : List String) (fuelR fuel : Nat)
    (lockName : String) (st : State W) (loc : Locals) :
    (env.canceled st.world = true →
      readLoop env handler count invalidCheck (fuelR + 1) st loc = (.ok (some true), st, loc) ∧
      passFrom env handler count lockName invalidCheck keys (fuelR + 1) fuel st loc =
        (.ok true, deferred env st lockName) ∧
      (deferred env st lockName).trace = st.trace ++ [Call.release lockName]) ∧
    (env.canceled st.world = false → ¬ slotLost env st loc →
      env.canceled (afterRead env st loc count invalidCheck).world = true →
      readLoop env handler count invalidCheck (fuelR + 1) st loc =
        (.ok (some true), afterRead env st loc count invalidCheck, loc) ∧
      passFrom env handler count lockName invalidCheck keys (fuelR + 1) fuel st loc =
        (.ok true, deferred env (afterRead env st loc count invalidCheck) lockName) ∧
      (deferred env (afterRead env st loc count invalidCheck) lockName).trace =
        st.trace ++ [Call.xReadGroup (readArgs st.r loc count invalidCheck),
          Call.release lockName]) ∧
    (∀ (n : Nat) (stA stB : State W), consume env handler count n stA = (.ok true, stB) →
      Consume env handler count (n + 1) stA = (.ok (), stB)) := by
  refine ⟨?_, ?_, ?_⟩
  · intro hc
    have hr := readLoop_canceled env handler count invalidCheck fuelR st loc hc
    exact ⟨hr, passFrom_returned env handler count lockName invalidCheck keys (fuelR + 1) fuel
      st loc true st loc hr, rfl⟩
  · intro hc hl hc2
    have hr := readLoop_canceled_after env handler count invalidCheck fuelR st loc hc hl hc2
    refine ⟨hr, passFrom_returned env handler count lockName invalidCheck keys (fuelR + 1) fuel
      st loc true _ loc hr, ?_⟩
    simp [deferred_trace, afterRead]
  · intro n stA stB h
    simp only [Consume, h]
    simp

/-- C13 (a) at a checkpoint with the cancellation flag set and the lease flagged as lost,
(b) at a checkpoint whose group read returns three messages while the flag is set during the
read, and (c) at a run of `Consume` whose only pass is ended by that read. -/
theorem C13_cancellation_returns_true_witness :
    (envCanceled.canceled stSlotOne.world = true ∧ slotLost envCanceled stSlotOne locals0 ∧
      passFrom envCanceled handlerIdle 10 "g_default-1" true [">"] (2 + 1) 3 stSlotOne locals0 =
        (.ok true, deferred envCanceled stSlotOne "g_default-1")) ∧
    ((envClock [] 1006).canceled (stClockOne 1005).world = false ∧
      ¬ slotLost (envClock [] 1006) (stClockOne 1005) localsClock ∧
      readResults (envClock [] 1006) (stClockOne 1005) localsClock 10 true = res3 ∧
      passFrom (envClock [] 1006) handlerQuiet 10 "g_default-1" true [">"] (2 + 1) 3
          (stClockOne 1005) localsClock =
        (.ok true, deferred (envClock [] 1006)
          (afterRead (envClock [] 1006) (stClockOne 1005) localsClock 10 true) "g_default-1") ∧
      (deferred (envClock [] 1006)
          (afterRead (envClock [] 1006) (stClockOne 1005) localsClock 10 true)
          "g_default-1").trace =
        [Call.xReadGroup { Group := "g", Consumer := "g-1", Streams := ["s1", "s2", "0", "0"],
                           Count := 10, Block := -1 },
         Call.release "g_default-1"]) ∧
    (Consume (envClock [] 1006) handlerQuiet 10 (5 + 1) (stClock false) =
        (.ok (), (consume (envClock [] 1006) handlerQuiet 10 5 (stClock false)).2) ∧
      (consume (envClock [] 1006) handlerQuiet 10 5 (stClock false)).2.trace =
        [Call.obtain "g_default-1" 90000000000, Call.hSet "g_default_running" "1" "1001",
         Call.xGroupCreateMkStream "s1" "g" "0", Call.xGroupCreateMkStream "s2" "g" "0",
         Call.hGetAll "g_default_running",
         Call.xReadGroup { Group := "g", Consumer := "g-1", Streams := ["s1", "s2", "0", "0"],
                           Count := 10, Block := -1 },
         Call.release "g_default-1"]) := by
  refine ⟨⟨by decide, by decide, ?_⟩, ⟨by decide, by decide, by decide, ?_, by decide⟩, ?_,
    by decide⟩
  · exact ((C13_cancellation_returns_true envCanceled handlerIdle 10 true [">"] 2 3
      "g_default-1" stSlotOne locals0).1 (by decide)).2.1
  · exact ((C13_cancellation_returns_true (envClock [] 1006) handlerQuiet 10 true [">"] 2 3
      "g_default-1" (stClockOne 1005) localsClock).2.1 (by decide) (by decide) (by decide)).2.1
  · exact (C13_cancellation_returns_true (envClock [] 1006) handlerQuiet 10 true [">"] 2 3
      "g_default-1" (stClockOne 1005) localsClock).2.2 5 (stClock false) _
      (Prod.ext (by decide) rfl)

/-! ## The calls and the settings of a pass -/

theorem kept_refl (P : Call → Prop) (st : State W) : Kept P st st :=
  ⟨rfl, [], by simp, by intro c hc; simp at hc⟩

theorem kept_trans {P : Call → Prop} {a b c : State W} (h1 : Kept P a b) (h2 : Kept P b c) :
    Kept P a c := by
  obtain ⟨s1, n1, t1, q1⟩ := h1
  obtain ⟨s2, n2, t2, q2⟩ := h2
  refine ⟨s2.trans s1, n1 ++ n2, by rw [t2, t1, List.append_assoc], ?_⟩
  intro x hx
  rcases List.mem_append.1 hx with h | h
  · exact q1 x h
  · exact q2 x h

theorem kept_mono {P Q : Call → Prop} {a b : State W} (hPQ : ∀ c, P c → Q c)
    (h : Kept P a b) : Kept Q a b := by
  obtain ⟨s1, n1, t1, q1⟩ := h
  exact ⟨s1, n1, t1, fun c hc => hPQ c (q1 c hc)⟩

theorem kept_emit (P : Call → Prop) (env : Env W) (st : State W) (c : Call) (hc : P c) :
    Kept P st (emit env st c) :=
  ⟨rfl, [c], rfl, by intro x hx; rw [List.mem_singleton.1 hx]; exact hc⟩

theorem kept_emitAll (P : Call → Prop) (env : Env W) (st : State W) (cs : List Call)
    (hq : ∀ c ∈ cs, P c) : Kept P st (emitAll env st cs) :=
  ⟨by simp, cs, by simp, hq⟩

theorem kept_of_eq (P : Call → Prop) {st st1 : State W}
    (hs : settings st1.r = settings st.r) (ht : st1.trace = st.trace) : Kept P st st1 :=
  ⟨hs, [], by simp [ht], by intro c hc; simp at hc⟩

theorem inDispatch_applyOps (group : String) (ops : List EventOp) (evs : List event) :
    ∀ c ∈ (applyOps group evs ops).2, Call.inDispatch c = true := by
  intro c hc
  obtain ⟨s, id, h | h⟩ := applyOps_calls group ops evs c hc <;> rw [h] <;> rfl

theorem callHandler_kept (env : Env W) (handler : EventConsumerHandler W) (st : State W)
    (events : List event) :
    Kept (fun c => Call.inDispatch c = true) st (callHandler env handler st events).2 := by
  refine ⟨by simp, _, callHandler_trace _ _ _ _, ?_⟩
  intro c hc
  rcases List.mem_cons.1 hc with h | h
  · rw [h]; rfl
  · rcases List.mem_append.1 h with h | h
    · exact inDispatch_applyOps _ _ _ c h
    · rw [List.mem_singleton.1 h]; rfl

theorem replay_kept (env : Env W) (handler : EventConsumerHandler W)
    (eh : ConsumerErrorHandler W) (es : List event) :
    ∀ st : State W, Kept (fun c => Call.inDispatch c = true) st
      (replay env handler eh st es).2 := by
  induction es with
  | nil => intro st; exact kept_refl _ st
  | cons e rest ih =>
    intro st
    have hc := callHandler_kept env handler st [e]
    simp only [replay]
    split
    · exact kept_trans hc (ih _)
    · split
      · exact kept_trans hc (kept_trans
          (kept_emit _ env _ (Call.errorHandler _ _) rfl)
          (kept_trans (kept_emitAll _ env _ _ (inDispatch_applyOps _ _ _))
            (kept_emit _ env _ (Call.errorHandlerDone _) rfl)))
      · refine kept_trans (kept_trans hc (kept_trans
          (kept_emit _ env _ (Call.errorHandler _ _) rfl)
          (kept_trans (kept_emitAll _ env _ _ (inDispatch_applyOps _ _ _))
            (kept_emit _ env _ (Call.errorHandlerDone _) rfl)))) (ih _)

theorem runHandler_kept (env : Env W) (handler : EventConsumerHandler W) (st : State W)
    (events : List event) :
    Kept (fun c => Call.inDispatch c = true) st (runHandler env handler st events).2 := by
  have hc := callHandler_kept env handler st events
  simp only [runHandler]
  split
  · exact hc
  · split
    · rename_i eh _
      have hr := replay_kept env handler eh
        ((callHandler env handler st events).1.1.filter (fun e => !e.ack))
        (callHandler env handler st events).2
      generalize replay env handler eh _ _ = q at hr ⊢
      obtain ⟨o, st2⟩ := q
      cases o <;> exact kept_trans hc hr
    · exact hc

theorem acknowledge_kept (env : Env W) (st : State W) (events : List event) :
    Kept (fun c => Call.inDispatch c = true) st (acknowledge env st events) := by
  have hacks : ∀ c ∈ ackCalls st.r.group (ackScan events [] true).1,
      Call.inDispatch c = true := by
    intro c hc
    obtain ⟨p, _, rfl⟩ := List.mem_map.1 hc
    rfl
  unfold acknowledge
  simp only
  split
  · exact kept_trans (kept_emit _ env st (Call.publish _ _) rfl)
      (kept_emitAll _ env (garbage env st) _ hacks)
  · exact kept_emitAll _ env st _ hacks

theorem dispatchBatch_kept (env : Env W) (handler : EventConsumerHandler W)
    (st : State W) (results : List XStream) (total : Int) :
    Kept (fun c => Call.inDispatch c = true) st
      (dispatchBatch env handler st results total).2 := by
  have hb : Kept (fun c => Call.inDispatch c = true) st (beginDispatch env st total) :=
    ⟨rfl, [Call.speedLoggerClear], rfl, by intro x hx; rw [List.mem_singleton.1 hx]; rfl⟩
  have hr := runHandler_kept env handler (beginDispatch env st total) (newEvents results)
  unfold dispatchBatch
  simp only
  generalize runHandler env handler (beginDispatch env st total) (newEvents results) = q at hr ⊢
  obtain ⟨o, st3⟩ := q
  cases o with
  | ok events1 =>
    have h2 : Kept (fun c => Call.inDispatch c = true) st3
        (addSpeed env st3 (env.now (beginDispatch env st total).world)) :=
      kept_of_eq _ rfl rfl
    exact kept_trans hb (kept_trans hr (kept_trans h2
      (acknowledge_kept env _ events1)))
  | panicked v => exact kept_trans hb hr
  | outOfFuel => exact kept_trans hb hr

theorem flushSpeed_kept (env : Env W) (st : State W) :
    Kept (fun c => Call.inDispatch c = true) st (flushSpeed env st) := by
  unfold flushSpeed
  split
  · exact kept_trans (kept_emit _ env st (Call.pipelineExec _) rfl)
      (kept_of_eq _ rfl rfl)
  · exact kept_refl _ st

theorem claimPage_kept (env : Env W) (st : State W) (stream start : String) :
    Kept (fun c => Call.inPending c = true) st (claimPage env st stream start).2 := by
  unfold claimPage
  simp only
  have he := kept_emit (fun c => Call.inPending c = true) env st (Call.xPendingExt
    { Stream := stream, Group := st.r.group, Start := start,
      End := FormatInt (Int.tdiv (env.now st.world - st.r.minIdle) 1000000),
      Count := countPending }) rfl
  split
  · exact he
  · split
    · have h2 : ∀ ids : List String, Kept (fun c => Call.inPending c = true) st
          (if ids.length > 0 then
            emit env (emit env st (Call.xPendingExt
              { Stream := stream, Group := st.r.group, Start := start,
                End := FormatInt (Int.tdiv (env.now st.world - st.r.minIdle) 1000000),
                Count := countPending }))
              (Call.xClaimJustID
                { Consumer := getName st.r, Stream := stream, Group := st.r.group,
                  MinIdle := st.r.minIdle, Messages := ids })
          else emit env st (Call.xPendingExt
              { Stream := stream, Group := st.r.group, Start := start,
                End := FormatInt (Int.tdiv (env.now st.world - st.r.minIdle) 1000000),
                Count := countPending })) := by
        intro ids
        split
        · exact kept_trans he (kept_emit _ env _ (Call.xClaimJustID _) rfl)
        · exact he
      split <;> exact h2 _
    · exact he
    · exact he

theorem claimLoop_kept (env : Env W) (stream : String) :
    ∀ (fuel : Nat) (st : State W) (start : String),
      Kept (fun c => Call.inPending c = true) st (claimLoop env fuel st stream start).2 := by
  intro fuel
  induction fuel with
  | zero => intro st start; exact kept_refl _ st
  | succ fuel ih =>
    intro st start
    have h := claimPage_kept env st stream start
    simp only [claimLoop]
    generalize claimPage env st stream start = q at h ⊢
    obtain ⟨o, st1⟩ := q
    cases o with
    | ok next =>
      cases next with
      | none => exact h
      | some next => exact kept_trans h (ih st1 next)
    | panicked v => exact h
    | outOfFuel => exact h

theorem claimStreams_kept (env : Env W) (fuel : Nat) (streams : List String) :
    ∀ st : State W,
      Kept (fun c => Call.inPending c = true) st (claimStreams env fuel st streams).2 := by
  induction streams with
  | nil => intro st; exact kept_refl _ st
  | cons stream rest ih =>
    intro st
    have h := claimLoop_kept env stream fuel st "-"
    simp only [claimStreams]
    generalize claimLoop env fuel st stream "-" = q at h ⊢
    obtain ⟨o, st1⟩ := q
    cases o with
    | ok u => exact kept_trans h (ih st1)
    | panicked v => exact h
    | outOfFuel => exact h

theorem scanRunning_kept (env : Env W) (st : State W) :
    Kept (fun c => Call.inPending c = true) st (scanRunning env st) :=
  ⟨rfl, [Call.hGetAll (runningKey st.r)], rfl, by
    intro x hx; rw [List.mem_singleton.1 hx]; rfl⟩

theorem pendingPhase_kept (env : Env W) (fuel : Nat) (st : State W) (loc : Locals) :
    Kept (fun c => Call.inPending c = true) st (pendingPhase env fuel st loc).2.1 := by
  have h1 := scanRunning_kept env st
  have h2 := claimStreams_kept env fuel (scanRunning env st).r.streams (scanRunning env st)
  unfold pendingPhase
  simp only
  split
  · exact kept_refl _ st
  · split
    · exact h1
    · generalize claimStreams env fuel (scanRunning env st) (scanRunning env st).r.streams = q
        at h2 ⊢
      obtain ⟨o, st3⟩ := q
      cases o <;> exact kept_trans h1 h2

theorem pendingPhase_b (env : Env W) (fuel : Nat) (st : State W) (loc : Locals) :
    (pendingPhase env fuel st loc).2.2.b = loc.b := by
  unfold pendingPhase
  simp only
  split
  · rfl
  · split
    · rfl
    · generalize claimStreams env fuel (scanRunning env st) (scanRunning env st).r.streams = q
      obtain ⟨o, st3⟩ := q
      cases o <;> rfl

theorem phaseCall_settings {r1 r : eventsConsumer W} (hs : settings r1 = settings r)
    (count b : Int) (invalidCheck : Bool) (c : Call)
    (h : phaseCall r1 count b invalidCheck c) : phaseCall r count b invalidCheck c := by
  have hg : r1.group = r.group := congrArg (fun x => x.group) hs
  have hn : r1.nrString = r.nrString := congrArg (fun x => x.nrString) hs
  have hstreams : r1.streams = r.streams := congrArg (fun x => x.streams) hs
  rcases h with h | ⟨lastIDs, h⟩
  · exact Or.inl h
  · refine Or.inr ⟨lastIDs, ?_⟩
    rw [h]
    simp only [getName, hg, hn, hstreams]

theorem passCall_settings {r1 r : eventsConsumer W} (hs : settings r1 = settings r)
    (count b : Int) (c : Call) (h : passCall r1 count b c) : passCall r count b c := by
  rcases h with h | ⟨invalidCheck, h⟩
  · exact Or.inl h
  · exact Or.inr ⟨invalidCheck, phaseCall_settings hs count b invalidCheck c h⟩

theorem readLoop_kept (env : Env W) (handler : EventConsumerHandler W) (count : Int)
    (invalidCheck : Bool) :
    ∀ (fuel : Nat) (st : State W) (loc : Locals),
      Kept (phaseCall st.r count loc.b invalidCheck) st
        (readLoop env handler count invalidCheck fuel st loc).2.1 ∧
      (readLoop env handler count invalidCheck fuel st loc).2.2.b = loc.b := by
  intro fuel
  induction fuel with
  | zero => intro st loc; exact ⟨kept_refl _ st, rfl⟩
  | succ fuel ih =>
    intro st loc
    by_cases hc : env.canceled st.world = true
    · rw [readLoop_canceled env handler count invalidCheck fuel st loc hc]
      exact ⟨kept_refl _ st, rfl⟩
    · have hc1 : env.canceled st.world = false := by simpa using hc
      by_cases hl : slotLost env st loc
      · rw [readLoop_slotLost env handler count invalidCheck fuel st loc hc1 hl]
        exact ⟨kept_refl _ st, rfl⟩
      · have he : Kept (phaseCall st.r count loc.b invalidCheck) st
            (afterRead env st loc count invalidCheck) :=
          kept_emit _ env st _ (Or.inr ⟨loc.lastIDs, rfl⟩)
        by_cases hc2 : env.canceled (afterRead env st loc count invalidCheck).world = true
        · rw [readLoop_canceled_after env handler count invalidCheck fuel st loc hc1 hl hc2]
          exact ⟨he, rfl⟩
        · have hc3 : env.canceled (afterRead env st loc count invalidCheck).world = false := by
            simpa using hc2
          by_cases h0 : totalMessages (readResults env st loc count invalidCheck) = 0
          · rw [readLoop_empty env handler count invalidCheck fuel st loc hc1 hl hc3 h0]
            exact ⟨he, rfl⟩
          · rw [readLoop_dispatch env handler count invalidCheck fuel st loc hc1 hl hc3 h0]
            have hd := dispatchBatch_kept env handler (afterRead env st loc count invalidCheck)
              (readResults env st loc count invalidCheck)
              (totalMessages (readResults env st loc count invalidCheck))
            generalize dispatchBatch env handler (afterRead env st loc count invalidCheck)
              (readResults env st loc count invalidCheck)
              (totalMessages (readResults env st loc count invalidCheck)) = q at hd ⊢
            obtain ⟨o, st2⟩ := q
            have hd2 : Kept (phaseCall st.r count loc.b invalidCheck) st st2 :=
              kept_trans he (kept_mono (fun c h => Or.inl h) hd)
            cases o with
            | ok u =>
              simp only
              have h2 : Kept (phaseCall st.r count loc.b invalidCheck) st (flushSpeed env st2) :=
                kept_trans hd2 (kept_mono (fun c h => Or.inl h) (flushSpeed_kept env st2))
              split
              · exact ⟨h2, rfl⟩
              · have h3 := ih (flushSpeed env st2) (localsAfterRead env st loc count invalidCheck)
                exact ⟨kept_trans h2 (kept_mono
                  (fun c h => phaseCall_settings h2.1 count _ invalidCheck c h) h3.1), h3.2⟩
            | panicked v => exact ⟨hd2, rfl⟩
            | outOfFuel => exact ⟨hd2, rfl⟩

theorem keysLoop_kept (env : Env W) (handler : EventConsumerHandler W) (count : Int)
    (fuel : Nat) (keys : List String) :
    ∀ (st : State W) (loc : Locals),
      Kept (passCall st.r count loc.b) st (keysLoop env handler count fuel keys st loc).2.1 ∧
      (keysLoop env handler count fuel keys st loc).2.2.b = loc.b := by
  induction keys with
  | nil => intro st loc; exact ⟨kept_refl _ st, rfl⟩
  | cons key keys ih =>
    intro st loc
    simp only [keysLoop]
    split
    · have h := pendingPhase_kept env fuel st loc
      have hb := pendingPhase_b env fuel st loc
      generalize pendingPhase env fuel st loc = q at h hb ⊢
      obtain ⟨o, st1, loc1⟩ := q
      have h1 : Kept (passCall st.r count loc.b) st st1 := kept_mono (fun c h => Or.inl h) h
      simp only at hb
      cases o with
      | ok u =>
        have h3 := ih st1 loc1
        rw [hb] at h3
        exact ⟨kept_trans h1 (kept_mono (fun c h => passCall_settings h1.1 count _ c h) h3.1),
          h3.2⟩
      | panicked v => exact ⟨h1, hb⟩
      | outOfFuel => exact ⟨h1, hb⟩
    · have h := readLoop_kept env handler count (decide (key = "0")) fuel st
        (if key = "0" then { loc with lastIDs := resetLastIDs loc.lastIDs st.r.streams }
          else loc)
      have hb0 : (if key = "0" then
          { loc with lastIDs := resetLastIDs loc.lastIDs st.r.streams } else loc).b = loc.b := by
        split <;> rfl
      rw [hb0] at h
      generalize readLoop env handler count (decide (key = "0")) fuel st
        (if key = "0" then { loc with lastIDs := resetLastIDs loc.lastIDs st.r.streams }
          else loc) = q at h ⊢
      obtain ⟨o, st1, loc1⟩ := q
      obtain ⟨hk, hb⟩ := h
      simp only at hb hk
      have h1 : Kept (passCall st.r count loc.b) st st1 :=
        kept_mono (fun c h => Or.inr ⟨_, h⟩) hk
      cases o with
      | ok b =>
        cases b with
        | none =>
          have h3 := ih st1 loc1
          rw [hb] at h3
          exact ⟨kept_trans h1 (kept_mono (fun c h => passCall_settings h1.1 count _ c h) h3.1),
            h3.2⟩
        | some b => exact ⟨h1, hb⟩
      | panicked v => exact ⟨h1, hb⟩
      | outOfFuel => exact ⟨h1, hb⟩

theorem outerLoop_kept (env : Env W) (handler : EventConsumerHandler W) (count : Int) :
    ∀ (fuel : Nat) (st : State W) (loc : Locals),
      Kept (passCall st.r count loc.b) st (outerLoop env handler count fuel st loc).2 := by
  intro fuel
  induction fuel with
  | zero => intro st loc; exact kept_refl _ st
  | succ fuel ih =>
    intro st loc
    have h := keysLoop_kept env handler count fuel ["pending", "0", ">"] st loc
    simp only [outerLoop]
    generalize keysLoop env handler count fuel ["pending", "0", ">"] st loc = q at h ⊢
    obtain ⟨o, st1, loc1⟩ := q
    obtain ⟨h1, hb⟩ := h
    simp only at h1 hb
    cases o with
    | ok b =>
      cases b with
      | none =>
        simp only
        split
        · exact h1
        · have h3 := ih st1 loc1
          rw [hb] at h3
          exact kept_trans h1 (kept_mono (fun c h => passCall_settings h1.1 count _ c h) h3)
      | some valid => exact h1
    | panicked v => exact h1
    | outOfFuel => exact h1

theorem obtainLoop_config (env : Env W) :
    ∀ (fuel : Nat) (st : State W) (nr : Nat),
      config (obtainLoop env fuel st nr).2.r = config st.r ∧
      ∃ new, (obtainLoop env fuel st nr).2.trace = st.trace ++ new ∧
        ∀ c ∈ new, Call.inAcquire c = true := by
  intro fuel
  induction fuel with
  | zero => intro st nr; exact ⟨rfl, [], by simp [obtainLoop], by intro c hc; simp at hc⟩
  | succ fuel ih =>
    intro st nr
    simp only [obtainLoop]
    split
    · split
      · obtain ⟨h1, new, h2, h3⟩ := ih (emit env st (Call.obtain (lockNameOf st.r (nr + 1))
          st.r.lockTTL)) (nr + 1)
        refine ⟨h1, Call.obtain (lockNameOf st.r (nr + 1)) st.r.lockTTL :: new, ?_, ?_⟩
        · rw [h2]; simp
        · intro c hc
          rcases List.mem_cons.1 hc with h | h
          · rw [h]; rfl
          · exact h3 c h
      · exact ⟨rfl, [Call.obtain (lockNameOf st.r (nr + 1)) st.r.lockTTL], rfl, by
          intro c hc; rw [List.mem_singleton.1 hc]; rfl⟩
    · refine ⟨rfl, [Call.obtain (lockNameOf st.r (nr + 1)) st.r.lockTTL,
        Call.hSet (runningKey st.r) (Itoa (nr + 1)) (FormatInt (unixSeconds (env.now
          (env.step st.world (Call.obtain (lockNameOf st.r (nr + 1)) st.r.lockTTL)))))],
        ?_, ?_⟩
      · simp [emit, runningKey, uniqueLockKey]
      · intro c hc
        simp only [List.mem_cons, List.mem_singleton, List.not_mem_nil, or_false] at hc
        rcases hc with h | h <;> rw [h] <;> rfl

theorem passCall_read {r : eventsConsumer W} {count b : Int} {a : XReadGroupArgs}
    (h : passCall r count b (Call.xReadGroup a)) :
    a.Block = b ∧ a.Count = count ∧ a.Group = r.group ∧ a.Consumer = getName r ∧
    ∃ (invalidCheck : Bool) (lastIDs : List (String × String)),
      a.Streams = readStreams r.streams lastIDs invalidCheck := by
  rcases h with h | ⟨invalidCheck, h | ⟨lastIDs, h⟩⟩
  · simp [Call.inPending] at h
  · simp [Call.inDispatch] at h
  · injection h with h
    subst h
    exact ⟨rfl, rfl, rfl, rfl, invalidCheck, lastIDs, rfl⟩

theorem blockOf_config {r1 r : eventsConsumer W} (h : config r1 = config r) :
    blockOf r1 = blockOf r := by
  have h1 : r1.loop = r.loop := congrArg (fun x => x.loop) h
  have h2 : r1.blockTime = r.blockTime := congrArg (fun x => x.blockTime) h
  simp only [blockOf, h1, h2]

theorem config_of_settings {r1 r : eventsConsumer W} (h : settings r1 = settings r) :
    config r1 = config r := by
  unfold config
  rw [h]

theorem consume_calls (env : Env W) (handler : EventConsumerHandler W) (count : Int)
    (fuel : Nat) (st : State W) :
    config (consume env handler count fuel st).2.r = config st.r ∧
    ∃ new, (consume env handler count fuel st).2.trace = st.trace ++ new ∧
      ∀ a, Call.xReadGroup a ∈ new →
        a.Block = blockOf st.r ∧ a.Count = count ∧ a.Group = st.r.group ∧
        ∃ (invalidCheck : Bool) (lastIDs : List (String × String)),
          a.Streams = readStreams st.r.streams lastIDs invalidCheck := by
  have ha := obtainLoop_config env (max st.r.limit 1).toNat st 0
  unfold consume acquire
  generalize obtainLoop env (max st.r.limit 1).toNat st 0 = q at ha ⊢
  obtain ⟨o, st1⟩ := q
  obtain ⟨hcfg, new1, ht1, hq1⟩ := ha
  simp only at hcfg ht1
  have hnoread : ∀ a, Call.xReadGroup a ∈ new1 → False := by
    intro a ha
    have := hq1 _ ha
    simp [Call.inAcquire] at this
  cases o with
  | panicked v => exact ⟨hcfg, new1, ht1, fun a ha => (hnoread a ha).elim⟩
  | outOfFuel => exact ⟨hcfg, new1, ht1, fun a ha => (hnoread a ha).elim⟩
  | ok lockName =>
    simp only
    have ho := outerLoop_kept env handler count fuel
      (emitAll env st1
        (st1.r.streams.map (fun stream => Call.xGroupCreateMkStream stream st1.r.group "0")))
      { lockName := lockName, lockAcquired := env.now st1.world, lastIDs := [],
        pendingChecked := false, pendingCheckedTime := 0,
        b := if !st1.r.loop then -1 else st1.r.blockTime }
    generalize outerLoop env handler count fuel _ _ = q2 at ho ⊢
    obtain ⟨o2, st3⟩ := q2
    obtain ⟨hs, new2, ht2, hq2⟩ := ho
    simp only [emitAll_r, emitAll_trace] at hs ht2 hq2
    have hcfg3 : config st3.r = config st.r := (config_of_settings hs).trans hcfg
    have hb : (if !st1.r.loop then -1 else st1.r.blockTime) = blockOf st.r :=
      blockOf_config hcfg
    have hg : st1.r.group = st.r.group := congrArg (fun x => x.group) hcfg
    have hstr : st1.r.streams = st.r.streams := congrArg (fun x => x.streams) hcfg
    have hread : ∀ a, Call.xReadGroup a ∈ new1 ++
        st1.r.streams.map (fun stream => Call.xGroupCreateMkStream stream st1.r.group "0") ++
        new2 →
        a.Block = blockOf st.r ∧ a.Count = count ∧ a.Group = st.r.group ∧
        ∃ (invalidCheck : Bool) (lastIDs : List (String × String)),
          a.Streams = readStreams st.r.streams lastIDs invalidCheck := by
      intro a ha
      rcases List.mem_append.1 ha with h | h
      · rcases List.mem_append.1 h with h | h
        · exact (hnoread a h).elim
        · obtain ⟨s, _, hs2⟩ := List.mem_map.1 h
          cases hs2
      · obtain ⟨h1, h2, h3, _, ic, lastIDs, h5⟩ := passCall_read (hq2 _ h)
        exact ⟨h1.trans hb, h2, h3.trans hg, ic, lastIDs, by rw [h5, hstr]⟩
    have htr : st3.trace = st.trace ++ (new1 ++
        st1.r.streams.map (fun stream => Call.xGroupCreateMkStream stream st1.r.group "0") ++
        new2) := by
      rw [ht2, ht1]; simp
    generalize new1 ++
        st1.r.streams.map (fun stream => Call.xGroupCreateMkStream stream st1.r.group "0") ++
        new2 = mid at hread htr
    cases o2 with
    | outOfFuel => exact ⟨hcfg3, mid, htr, hread⟩
    | ok valid =>
      refine ⟨hcfg3, mid ++ [Call.release lockName], ?_, ?_⟩
      · simp only [deferred_trace, htr, List.append_assoc]
      · intro a ha
        rcases List.mem_append.1 ha with h | h
        · exact hread a h
        · simp at h
    | panicked v =>
      refine ⟨hcfg3, mid ++ [Call.release lockName], ?_, ?_⟩
      · simp only [deferred_trace, htr, List.append_assoc]
      · intro a ha
        rcases List.mem_append.1 ha with h | h
        · exact hread a h
        · simp at h

theorem consume_loop (env : Env W) (handler : EventConsumerHandler W) (count : Int)
    (fuel : Nat) (st : State W) :
    (consume env handler count fuel st).2.r.loop = st.r.loop :=
  congrArg (fun x => x.loop) (consume_calls env handler count fuel st).1

theorem Consume_calls (env : Env W) (handler : EventConsumerHandler W) (count : Int) :
    ∀ (fuel : Nat) (st : State W),
      ∃ new, (Consume env handler count fuel st).2.trace = st.trace ++ new ∧
        ∀ a, Call.xReadGroup a ∈ new →
          a.Block = blockOf st.r ∧ a.Count = count ∧ a.Group = st.r.group ∧
          ∃ (invalidCheck : Bool) (lastIDs : List (String × String)),
            a.Streams = readStreams st.r.streams lastIDs invalidCheck := by
  intro fuel
  induction fuel with
  | zero => intro st; exact ⟨[], by simp [Consume], by intro a ha; simp at ha⟩
  | succ fuel ih =>
    intro st
    have hc := consume_calls env handler count fuel st
    simp only [Consume]
    generalize consume env handler count fuel st = q at hc ⊢
    obtain ⟨o, st1⟩ := q
    obtain ⟨hcfg, new1, ht1, hq1⟩ := hc
    simp only at hcfg ht1
    cases o with
    | panicked v => exact ⟨new1, ht1, hq1⟩
    | outOfFuel => exact ⟨new1, ht1, hq1⟩
    | ok valid =>
      simp only
      split
      · exact ⟨new1, ht1, hq1⟩
      · obtain ⟨new2, ht2, hq2⟩ := ih (emit env st1 (Call.sleep 10000000000))
        have hb : blockOf st1.r = blockOf st.r := blockOf_config hcfg
        have hg : st1.r.group = st.r.group := congrArg (fun x => x.group) hcfg
        have hstr : st1.r.streams = st.r.streams := congrArg (fun x => x.streams) hcfg
        refine ⟨new1 ++ Call.sleep 10000000000 :: new2, ?_, ?_⟩
        · rw [ht2]; simp [ht1]
        · intro a ha
          rcases List.mem_append.1 ha with h | h
          · exact hq1 a h
          · rcases List.mem_cons.1 h with h | h
            · cases h
            · have := hq2 a h
              simp only [emit_r, hb, hg, hstr] at this
              exact this

/-! ## C14, C20: the pending phase -/

theorem claimLoop_flag (env : Env W) (flag : W → Bool) (stream : String) :
    ∀ (fuel : Nat) (st : State W) (start : String),
      claimLoop { env with canceled := flag } fuel st stream start =
        claimLoop env fuel st stream start := by
  intro fuel
  induction fuel with
  | zero => intro st start; rfl
  | succ fuel ih =>
    intro st start
    simp only [claimLoop]
    have hp : claimPage { env with canceled := flag } st stream start =
        claimPage env st stream start := rfl
    rw [hp]
    generalize claimPage env st stream start = q
    obtain ⟨o, st1⟩ := q
    cases o with
    | ok next =>
      cases next with
      | none => rfl
      | some next => exact ih st1 next
    | panicked v => rfl
    | outOfFuel => rfl

theorem claimStreams_flag (env : Env W) (flag : W → Bool) (fuel : Nat)
    (streams : List String) :
    ∀ st : State W, claimStreams { env with canceled := flag } fuel st streams =
      claimStreams env fuel st streams := by
  induction streams with
  | nil => intro st; rfl
  | cons stream rest ih =>
    intro st
    simp only [claimStreams]
    rw [claimLoop_flag]
    generalize claimLoop env fuel st stream "-" = q
    obtain ⟨o, st1⟩ := q
    cases o with
    | ok u => exact ih st1
    | panicked v => rfl
    | outOfFuel => rfl

theorem pendingPhase_flag (env : Env W) (flag : W → Bool) (fuel : Nat) (st : State W)
    (loc : Locals) :
    pendingPhase { env with canceled := flag } fuel st loc = pendingPhase env fuel st loc := by
  have hs : scanRunning { env with canceled := flag } st = scanRunning env st := rfl
  unfold pendingPhase
  simp only [hs, claimStreams_flag]

/-- C14, as the code has it: the pending phase does not read the cancellation flag.
(a) One visit of the key `pending` makes the same calls and ends in the same state and
with the same locals whatever the flag says in any world; (b) a flag that is set during the
phase is read first at the checkpoint that starts the backlog phase, where the cycle ends
with the result `true` in the state the pending phase ended in. -/
theorem C14_pending_phase_ignores_cancellation (env : Env W)
    (handler : EventConsumerHandler W) (count : Int) (fuel : Nat) (keys : List String)
    (st : State W) (loc : Locals) :
    (∀ flag : W → Bool,
      pendingPhase { env with canceled := flag } fuel st loc = pendingPhase env fuel st loc) ∧
    (∀ (u : Unit) (st1 : State W) (loc1 : Locals),
      pendingPhase env (fuel + 1) st loc = (.ok u, st1, loc1) →
      env.canceled st1.world = true →
      keysLoop env handler count (fuel + 1) ("pending" :: "0" :: keys) st loc =
        (.ok (some true), st1, backlogLocals st1 loc1)) := by
  refine ⟨fun flag => pendingPhase_flag env flag fuel st loc, ?_⟩
  intro u st1 loc1 hp hc
  rw [keysLoop_pending env handler count (fuel + 1) _ st loc u st1 loc1 hp, keysLoop_backlog,
    readLoop_canceled env handler count true fuel st1 (backlogLocals st1 loc1) hc]

/-- C14 in a world whose cancellation flag is set from the start and whose running map
holds a dead peer: the visit of the key `pending` ends as with the flag never set, and the
cycle ends at the first checkpoint of the backlog phase. -/
theorem C14_pending_phase_ignores_cancellation_witness :
    pendingPhase (envClock [("2", "0")] 0) (2 + 1) (stClockOne 1004) localsClock =
      pendingPhase (envClock [("2", "0")] 100000) (2 + 1) (stClockOne 1004) localsClock ∧
    (envClock [("2", "0")] 0).canceled
      (pendingPhase (envClock [("2", "0")] 0) (2 + 1) (stClockOne 1004)
        localsClock).2.1.world = true ∧
    keysLoop (envClock [("2", "0")] 0) handlerQuiet 10 (2 + 1) ["pending", "0", ">"]
        (stClockOne 1004) localsClock =
      (.ok (some true),
        (pendingPhase (envClock [("2", "0")] 0) (2 + 1) (stClockOne 1004) localsClock).2.1,
        backlogLocals
          (pendingPhase (envClock [("2", "0")] 0) (2 + 1) (stClockOne 1004) localsClock).2.1
          (pendingPhase (envClock [("2", "0")] 0) (2 + 1) (stClockOne 1004)
            localsClock).2.2) :=
  ⟨(C14_pending_phase_ignores_cancellation (envClock [("2", "0")] 100000) handlerQuiet 10 3
      [">"] (stClockOne 1004) localsClock).1 (fun w => decide (0 ≤ w)),
    by decide,
    (C14_pending_phase_ignores_cancellation (envClock [("2", "0")] 0) handlerQuiet 10 2
      [">"] (stClockOne 1004) localsClock).2 ()
      (pendingPhase (envClock [("2", "0")] 0) (2 + 1) (stClockOne 1004) localsClock).2.1
      (pendingPhase (envClock [("2", "0")] 0) (2 + 1) (stClockOne 1004) localsClock).2.2
      (Prod.ext (by decide) rfl) (by decide)⟩

/-- C14 as stated fails: in a world whose cancellation flag is set before the pass starts,
the pass still scans the running map, queries the pending entries of both streams and
claims the entry of the dead peer, and returns only at the first checkpoint of the backlog
phase. -/
theorem C14_claims_after_cancellation :
    (envClock [("2", "0")] 0).canceled (stClock true).world = true ∧
    (consume (envClock [("2", "0")] 0) handlerQuiet 10 5 (stClock true)).1 = .ok true ∧
    (consume (envClock [("2", "0")] 0) handlerQuiet 10 5 (stClock true)).2.trace =
      [Call.obtain "g_default-1" 90000000000, Call.hSet "g_default_running" "1" "1001",
       Call.xGroupCreateMkStream "s1" "g" "0", Call.xGroupCreateMkStream "s2" "g" "0",
       Call.hGetAll "g_default_running",
       Call.xPendingExt { Stream := "s1", Group := "g", Start := "-", End := "885000",
                          Count := 100 },
       Call.xClaimJustID { Stream := "s1", Group := "g", Consumer := "g-1",
                           MinIdle := 120000000000, Messages := ["5-1"] },
       Call.xPendingExt { Stream := "s2", Group := "g", Start := "-", End := "887000",
                          Count := 100 },
       Call.release "g_default-1"] := by
  decide

theorem readLoop_throttle (env : Env W) (handler : EventConsumerHandler W) (count : Int)
    (invalidCheck : Bool) :
    ∀ (fuel : Nat) (st : State W) (loc : Locals),
      (readLoop env handler count invalidCheck fuel st loc).2.2.pendingChecked =
        loc.pendingChecked ∧
      (readLoop env handler count invalidCheck fuel st loc).2.2.pendingCheckedTime =
        loc.pendingCheckedTime := by
  intro fuel
  induction fuel with
  | zero => intro st loc; exact ⟨rfl, rfl⟩
  | succ fuel ih =>
    intro st loc
    by_cases hc : env.canceled st.world = true
    · rw [readLoop_canceled env handler count invalidCheck fuel st loc hc]
      exact ⟨rfl, rfl⟩
    · have hc1 : env.canceled st.world = false := by simpa using hc
      by_cases hl : slotLost env st loc
      · rw [readLoop_slotLost env handler count invalidCheck fuel st loc hc1 hl]
        exact ⟨rfl, rfl⟩
      · by_cases hc2 : env.canceled (afterRead env st loc count invalidCheck).world = true
        · rw [readLoop_canceled_after env handler count invalidCheck fuel st loc hc1 hl hc2]
          exact ⟨rfl, rfl⟩
        · have hc3 : env.canceled (afterRead env st loc count invalidCheck).world = false := by
            simpa using hc2
          by_cases h0 : totalMessages (readResults env st loc count invalidCheck) = 0
          · rw [readLoop_empty env handler count invalidCheck fuel st loc hc1 hl hc3 h0]
            exact ⟨rfl, rfl⟩
          · rw [readLoop_dispatch env handler count invalidCheck fuel st loc hc1 hl hc3 h0]
            generalize dispatchBatch env handler (afterRead env st loc count invalidCheck)
              (readResults env st loc count invalidCheck)
              (totalMessages (readResults env st loc count invalidCheck)) = q
            obtain ⟨o, st2⟩ := q
            cases o with
            | ok u =>
              simp only
              split
              · exact ⟨rfl, rfl⟩
              · exact ih (flushSpeed env st2) (localsAfterRead env st loc count invalidCheck)
            | panicked v => exact ⟨rfl, rfl⟩
            | outOfFuel => exact ⟨rfl, rfl⟩

/-- C20, as the code has it: a visit of the key `pending` is throttled by the last
completed claim run, not by the last scan of the running map.  (a) A visit at which a claim
run has completed in this pass less than `claimDuration` ago is skipped: it makes no call
and changes neither the state nor the locals; (b) any other visit scans the running map,
and if the scan counts no dead peer the visit ends there with the locals unchanged, so it
does not throttle the next visit; (c) if the scan counts a dead peer and the claim run
over the streams completes, the visit records the time at its end as that of the last
completed claim run; (d) the read phases between two visits leave that record as it is. -/
theorem C20_pending_throttle (env : Env W) (fuel : Nat) (st : State W) (loc : Locals) :
    (throttled env st loc → pendingPhase env fuel st loc = (.ok (), st, loc)) ∧
    (¬ throttled env st loc →
      (scanRunning env st).trace = st.trace ++ [Call.hGetAll (runningKey st.r)] ∧
      ((scanRunning env st).r.deadConsumers = 0 →
        pendingPhase env fuel st loc = (.ok (), scanRunning env st, loc)) ∧
      ((scanRunning env st).r.deadConsumers ≠ 0 →
        ∀ (u : Unit) (st3 : State W),
          claimStreams env fuel (scanRunning env st) (scanRunning env st).r.streams =
            (.ok u, st3) →
          pendingPhase env fuel st loc =
            (.ok (), st3,
              { loc with pendingChecked := true, pendingCheckedTime := env.now st3.world }))) ∧
    (∀ (handler : EventConsumerHandler W) (count : Int) (invalidCheck : Bool),
      (readLoop env handler count invalidCheck fuel st loc).2.2.pendingChecked =
        loc.pendingChecked ∧
      (readLoop env handler count invalidCheck fuel st loc).2.2.pendingCheckedTime =
        loc.pendingCheckedTime) := by
  refine ⟨?_, ?_, fun handler count invalidCheck =>
    readLoop_throttle env handler count invalidCheck fuel st loc⟩
  · intro ht
    unfold pendingPhase
    simp only [if_pos ht]
  · intro ht
    refine ⟨rfl, ?_, ?_⟩
    · intro h0
      unfold pendingPhase
      simp only [if_neg ht, if_pos h0]
    · intro h0 u st3 hcs
      unfold pendingPhase
      simp only [if_neg ht, if_neg h0, hcs]

/-- C20 at a visit 119 s after a claim run (skipped) and at a first visit that finds no
dead peer (the running map is scanned and the throttle stays off). -/
theorem C20_pending_throttle_witness :
    (throttled (envClock [("2", "0")] 100000) (stClockOne 1119)
        { localsClock with pendingChecked := true, pendingCheckedTime := 1000000000000 } ∧
      pendingPhase (envClock [("2", "0")] 100000) 3 (stClockOne 1119)
          { localsClock with pendingChecked := true, pendingCheckedTime := 1000000000000 } =
        (.ok (), stClockOne 1119,
          { localsClock with pendingChecked := true, pendingCheckedTime := 1000000000000 })) ∧
    (¬ throttled (envIdle 100000) (stClockOne 1004) localsClock ∧
      (scanRunning (envIdle 100000) (stClockOne 1004)).r.deadConsumers = 0 ∧
      pendingPhase (envIdle 100000) 3 (stClockOne 1004) localsClock =
        (.ok (), scanRunning (envIdle 100000) (stClockOne 1004), localsClock)) :=
  ⟨⟨by decide,
      (C20_pending_throttle (envClock [("2", "0")] 100000) 3 (stClockOne 1119)
        { localsClock with pendingChecked := true, pendingCheckedTime := 1000000000000 }).1
        (by decide)⟩,
    ⟨by decide, by decide,
      ((C20_pending_throttle (envIdle 100000) 3 (stClockOne 1004) localsClock).2.1
        (by decide)).2.1 (by decide)⟩⟩

/-- C20 as stated fails: a pass in loop mode that finds no dead peer and no message scans
the running map at the start of each of its two cycles, although the whole pass lasts 97 s,
less than the claim interval of 120 s. -/
theorem C20_scan_not_throttled :
    (stClock true).world = 1000 ∧ (stClock true).r.claimDuration = 120000000000 ∧
    (consume (envIdle 1070) handlerQuiet 10 6 (stClock true)).2.world = 1097 ∧
    (consume (envIdle 1070) handlerQuiet 10 6 (stClock true)).2.trace =
      [Call.obtain "g_default-1" 90000000000, Call.hSet "g_default_running" "1" "1001",
       Call.xGroupCreateMkStream "s1" "g" "0", Call.xGroupCreateMkStream "s2" "g" "0",
       Call.hGetAll "g_default_running",
       Call.xReadGroup { Group := "g", Consumer := "g-1", Streams := ["s1", "s2", "0", "0"],
                         Count := 10, Block := 30000000000 },
       Call.xReadGroup { Group := "g", Consumer := "g-1", Streams := ["s1", "s2", ">", ">"],
                         Count := 10, Block := 30000000000 },
       Call.hGetAll "g_default_running",
       Call.xReadGroup { Group := "g", Consumer := "g-1", Streams := ["s1", "s2", "0", "0"],
                         Count := 10, Block := 30000000000 },
       Call.release "g_default-1"] := by
  decide

/-! ## C15, C19: the passes of `Consume` and the block duration of their reads -/

/-- C15: `Consume` runs passes of `consume` one after another.  (a) After a pass that
returns `true` it returns in the state that pass ended in, without a sleep; (b) in no-loop
mode it returns after its first pass, whatever that pass returned; (c) in loop mode, after
a pass that returns `false` it sleeps 10 s and goes on as `Consume` does from there, which
is with another pass: the calls of that pass follow the sleep. -/
theorem C15_consume_passes (env : Env W) (handler : EventConsumerHandler W) (count : Int)
    (fuel : Nat) (st : State W) :
    (∀ st1 : State W, consume env handler count fuel st = (.ok true, st1) →
      Consume env handler count (fuel + 1) st = (.ok (), st1)) ∧
    (∀ (valid : Bool) (st1 : State W), st.r.loop = false →
      consume env handler count fuel st = (.ok valid, st1) →
      Consume env handler count (fuel + 1) st = (.ok (), st1)) ∧
    (∀ st1 : State W, st.r.loop = true →
      consume env handler count fuel st = (.ok false, st1) →
      Consume env handler count (fuel + 1) st =
        Consume env handler count fuel (emit env st1 (Call.sleep 10000000000)) ∧
      (emit env st1 (Call.sleep 10000000000)).trace = st1.trace ++ [Call.sleep 10000000000] ∧
      ∀ n : Nat, fuel = n + 1 →
        ∃ further, (Consume env handler count (fuel + 1) st).2.trace =
          (consume env handler count n (emit env st1 (Call.sleep 10000000000))).2.trace ++
            further) := by
  refine ⟨?_, ?_, ?_⟩
  · intro st1 h
    simp only [Consume, h]
    simp
  · intro valid st1 hloop h
    have hl : st1.r.loop = false := by
      have := consume_loop env handler count fuel st
      rw [h] at this
      exact this.trans hloop
    simp only [Consume, h, hl]
    simp
  · intro st1 hloop h
    have hl : st1.r.loop = true := by
      have := consume_loop env handler count fuel st
      rw [h] at this
      exact this.trans hloop
    have hstep : Consume env handler count (fuel + 1) st =
        Consume env handler count fuel (emit env st1 (Call.sleep 10000000000)) := by
      simp only [Consume, h, hl]
      simp
    refine ⟨hstep, rfl, ?_⟩
    intro n hn
    rw [hstep, hn]
    simp only [Consume]
    generalize consume env handler count n (emit env st1 (Call.sleep 10000000000)) = q
    obtain ⟨o, st2⟩ := q
    cases o with
    | panicked v => exact ⟨[], by simp⟩
    | outOfFuel => exact ⟨[], by simp⟩
    | ok valid =>
      simp only
      split
      · exact ⟨[], by simp⟩
      · obtain ⟨new, hnew, _⟩ := Consume_calls env handler count n
          (emit env st2 (Call.sleep 10000000000))
        exact ⟨Call.sleep 10000000000 :: new, by rw [hnew]; simp⟩

/-- C15 at a run in loop mode whose first pass finds the lease lost and whose second pass
finds the cancellation flag set, and at a run in no-loop mode whose only pass finds the
lease lost. -/
theorem C15_consume_passes_witness :
    ((stClock true).r.loop = true ∧
      (consume envTwoPasses handlerQuiet 10 (4 + 1) (stClock true)).1 = .ok false ∧
      Consume envTwoPasses handlerQuiet 10 (4 + 1 + 1) (stClock true) =
        Consume envTwoPasses handlerQuiet 10 (4 + 1)
          (emit envTwoPasses (consume envTwoPasses handlerQuiet 10 (4 + 1) (stClock true)).2
            (Call.sleep 10000000000)) ∧
      (Consume envTwoPasses handlerQuiet 10 (4 + 1 + 1) (stClock true)).1 = .ok () ∧
      (Consume envTwoPasses handlerQuiet 10 (4 + 1 + 1) (stClock true)).2.trace =
        [Call.obtain "g_default-1" 90000000000, Call.hSet "g_default_running" "1" "1001",
         Call.xGroupCreateMkStream "s1" "g" "0", Call.xGroupCreateMkStream "s2" "g" "0",
         Call.hGetAll "g_default_running", Call.release "g_default-1",
         Call.sleep 10000000000,
         Call.obtain "g_default-1" 90000000000, Call.hSet "g_default_running" "1" "1017",
         Call.xGroupCreateMkStream "s1" "g" "0", Call.xGroupCreateMkStream "s2" "g" "0",
         Call.hGetAll "g_default_running", Call.release "g_default-1"]) ∧
    ((stClock false).r.loop = false ∧
      (consume envTwoPasses handlerQuiet 10 5 (stClock false)).1 = .ok false ∧
      Consume envTwoPasses handlerQuiet 10 (5 + 1) (stClock false) =
        (.ok (), (consume envTwoPasses handlerQuiet 10 5 (stClock false)).2) ∧
      (Consume envTwoPasses handlerQuiet 10 (5 + 1) (stClock false)).2.trace =
        [Call.obtain "g_default-1" 90000000000, Call.hSet "g_default_running" "1" "1001",
         Call.xGroupCreateMkStream "s1" "g" "0", Call.xGroupCreateMkStream "s2" "g" "0",
         Call.hGetAll "g_default_running", Call.release "g_default-1"]) :=
  ⟨⟨rfl, by decide,
      ((C15_consume_passes envTwoPasses handlerQuiet 10 (4 + 1) (stClock true)).2.2 _ rfl
        (Prod.ext (by decide) rfl)).1,
      by decide, by decide⟩,
    ⟨rfl, by decide,
      (C15_consume_passes envTwoPasses handlerQuiet 10 5 (stClock false)).2.1 false _ rfl
        (Prod.ext (by decide) rfl),
      by decide⟩⟩

/-- C19, as the code has it: every group read of every pass of `Consume`, in the backlog
phase and in the live phase alike, is passed the block duration of lines 337-340, which is
the configured `blockTime` when the consumer runs forever (loop mode) and -1 when it runs
once (no-loop mode). -/
theorem C19_block_duration (env : Env W) (handler : EventConsumerHandler W) (count : Int)
    (fuel : Nat) (st : State W) :
    blockOf st.r = (if st.r.loop = true then st.r.blockTime else -1) ∧
    ∃ new, (Consume env handler count fuel st).2.trace = st.trace ++ new ∧
      ∀ a, Call.xReadGroup a ∈ new → a.Block = blockOf st.r := by
  constructor
  · unfold blockOf
    cases st.r.loop <;> simp
  · obtain ⟨new, h1, h2⟩ := Consume_calls env handler count fuel st
    exact ⟨new, h1, fun a ha => (h2 a ha).1⟩

/-- C19 at a run in loop mode with the configured block duration of 30 s: every group read
of the run is passed 30 s. -/
theorem C19_block_duration_witness :
    ∃ new, (Consume (envIdle 1040) handlerQuiet 10 6 (stClock true)).2.trace =
        (stClock true).trace ++ new ∧
      ∀ a, Call.xReadGroup a ∈ new → a.Block = 30000000000 := by
  obtain ⟨_, new, h1, h2⟩ := C19_block_duration (envIdle 1040) handlerQuiet 10 6 (stClock true)
  exact ⟨new, h1, fun a ha => (h2 a ha).trans (by decide)⟩

/-- C19 as stated fails in both modes: a pass in no-loop mode passes -1, not the
configured 30 s, to its live read, and a pass in loop mode passes the configured 30 s to
its live read. -/
theorem C19_block_duration_reversed :
    ((stClock false).r.loop = false ∧ (stClock false).r.blockTime = 30000000000 ∧
      (consume (envIdle 100000) handlerQuiet 10 6 (stClock false)).2.trace =
        [Call.obtain "g_default-1" 90000000000, Call.hSet "g_default_running" "1" "1001",
         Call.xGroupCreateMkStream "s1" "g" "0", Call.xGroupCreateMkStream "s2" "g" "0",
         Call.hGetAll "g_default_running",
         Call.xReadGroup { Group := "g", Consumer := "g-1", Streams := ["s1", "s2", "0", "0"],
                           Count := 10, Block := -1 },
         Call.xReadGroup { Group := "g", Consumer := "g-1", Streams := ["s1", "s2", ">", ">"],
                           Count := 10, Block := -1 },
         Call.release "g_default-1"]) ∧
    ((stClock true).r.loop = true ∧ (stClock true).r.blockTime = 30000000000 ∧
      (consume (envIdle 1040) handlerQuiet 10 6 (stClock true)).2.trace =
        [Call.obtain "g_default-1" 90000000000, Call.hSet "g_default_running" "1" "1001",
         Call.xGroupCreateMkStream "s1" "g" "0", Call.xGroupCreateMkStream "s2" "g" "0",
         Call.hGetAll "g_default_running",
         Call.xReadGroup { Group := "g", Consumer := "g-1", Streams := ["s1", "s2", "0", "0"],
                           Count := 10, Block := 30000000000 },
         Call.xReadGroup { Group := "g", Consumer := "g-1", Streams := ["s1", "s2", ">", ">"],
                           Count := 10, Block := 30000000000 },
         Call.release "g_default-1"]) := by
  decide

/-! ## C17: the backlog cursors -/

theorem mapGet_mapSet_same (l : List (String × String)) (k v : String) :
    mapGet (mapSet l k v) k = v := by
  induction l with
  | nil => simp [mapSet, mapGet]
  | cons p rest ih =>
    obtain ⟨k1, v1⟩ := p
    simp only [mapSet]
    split
    · rename_i h
      simp [mapGet, h]
    · rename_i h
      simp [mapGet, h, ih]

theorem mapGet_mapSet_other (l : List (String × String)) (k v s : String) (hs : s ≠ k) :
    mapGet (mapSet l k v) s = mapGet l s := by
  induction l with
  | nil =>
    have : ¬ k = s := fun h => hs h.symm
    simp [mapSet, mapGet, this]
  | cons p rest ih =>
    obtain ⟨k1, v1⟩ := p
    simp only [mapSet]
    split
    · rename_i h
      have : ¬ k1 = s := fun h2 => hs (h2.symm.trans h)
      simp [mapGet, this]
    · rename_i h
      by_cases h2 : k1 = s
      · simp [mapGet, h2]
      · simp [mapGet, h2, ih]

theorem resetLastIDs_other (streams : List String) (s : String) (hs : s ∉ streams) :
    ∀ l : List (String × String), mapGet (resetLastIDs l streams) s = mapGet l s := by
  induction streams with
  | nil => intro l; rfl
  | cons stream rest ih =>
    intro l
    have h1 : s ≠ stream := fun h => hs (by simp [h])
    have h2 : s ∉ rest := fun h => hs (by simp [h])
    simp only [resetLastIDs]
    rw [ih h2, mapGet_mapSet_other _ _ _ _ h1]

theorem resetLastIDs_mem (streams : List String) (s : String) (hs : s ∈ streams) :
    ∀ l : List (String × String), mapGet (resetLastIDs l streams) s = "0" := by
  induction streams with
  | nil => simp at hs
  | cons stream rest ih =>
    intro l
    simp only [resetLastIDs]
    by_cases h2 : s ∈ rest
    · exact ih h2 _
    · have h1 : s = stream := by
        rcases List.mem_cons.1 hs with h | h
        · exact h
        · exact (h2 h).elim
      rw [resetLastIDs_other rest s h2, h1, mapGet_mapSet_same]

theorem countMessages_cursor (results : List XStream) (s : String) :
    ∀ (total : Int) (l : List (String × String)),
      mapGet (countMessages true results total l).2 s =
        (lastReturned results s).getD (mapGet l s) := by
  induction results with
  | nil => intro total l; rfl
  | cons row rest ih =>
    intro total l
    simp only [countMessages, lastReturned]
    cases hm : row.Messages.getLast? with
    | none =>
      simp only [ih]
      cases lastReturned rest s <;> simp
    | some last =>
      simp only [ih, if_true]
      cases lastReturned rest s with
      | some id => simp
      | none =>
        by_cases h : row.Stream = s
        · simp [h, mapGet_mapSet_same]
        · have h2 : s ≠ row.Stream := fun h3 => h h3.symm
          simp [h, mapGet_mapSet_other _ _ _ _ h2]

theorem countMessages_live (results : List XStream) :
    ∀ (total : Int) (l : List (String × String)),
      (countMessages false results total l).2 = l := by
  induction results with
  | nil => intro total l; rfl
  | cons row rest ih =>
    intro total l
    simp only [countMessages]
    cases row.Messages.getLast? <;> simp [ih]

theorem readLoop_reads (env : Env W) (handler : EventConsumerHandler W) (count : Int)
    (invalidCheck : Bool) (fuel : Nat) (st : State W) (loc : Locals)
    (hc : env.canceled st.world = false) (hl : ¬ slotLost env st loc) :
    ∃ rest, (readLoop env handler count invalidCheck (fuel + 1) st loc).2.1.trace =
      st.trace ++ Call.xReadGroup (readArgs st.r loc count invalidCheck) :: rest := by
  have hext : ∀ {P : Call → Prop} {st1 : State W},
      Kept P (afterRead env st loc count invalidCheck) st1 →
      ∃ rest, st1.trace =
        st.trace ++ Call.xReadGroup (readArgs st.r loc count invalidCheck) :: rest := by
    intro P st1 h
    obtain ⟨_, new, hnew, _⟩ := h
    exact ⟨new, by rw [hnew]; simp [afterRead]⟩
  by_cases hc2 : env.canceled (afterRead env st loc count invalidCheck).world = true
  · rw [readLoop_canceled_after env handler count invalidCheck fuel st loc hc hl hc2]
    exact hext (kept_refl (fun _ => True) _)
  · have hc3 : env.canceled (afterRead env st loc count invalidCheck).world = false := by
      simpa using hc2
    by_cases h0 : totalMessages (readResults env st loc count invalidCheck) = 0
    · rw [readLoop_empty env handler count invalidCheck fuel st loc hc hl hc3 h0]
      exact hext (kept_refl (fun _ => True) _)
    · rw [readLoop_dispatch env handler count invalidCheck fuel st loc hc hl hc3 h0]
      have hd := dispatchBatch_kept env handler (afterRead env st loc count invalidCheck)
        (readResults env st loc count invalidCheck)
        (totalMessages (readResults env st loc count invalidCheck))
      generalize dispatchBatch env handler (afterRead env st loc count invalidCheck)
        (readResults env st loc count invalidCheck)
        (totalMessages (readResults env st loc count invalidCheck)) = q at hd ⊢
      obtain ⟨o, st2⟩ := q
      have hd1 : Kept (fun _ => True) (afterRead env st loc count invalidCheck) st2 :=
        kept_mono (fun _ _ => trivial) hd
      cases o with
      | ok u =>
        simp only
        have h2 : Kept (fun _ => True) (afterRead env st loc count invalidCheck)
            (flushSpeed env st2) :=
          kept_trans hd1 (kept_mono (fun _ _ => trivial) (flushSpeed_kept env st2))
        split
        · exact hext h2
        · exact hext (kept_trans h2 (kept_mono (fun _ _ => trivial)
            (readLoop_kept env handler count invalidCheck fuel (flushSpeed env st2)
              (localsAfterRead env st loc count invalidCheck)).1))
      | panicked v => exact hext hd1
      | outOfFuel => exact hext hd1

/-- C17: (a) the backlog phase starts its read loop with the cursor of every stream of the
consumer at "0"; (b) the `Streams` argument of a group read has twice as many entries as
the consumer has streams: entry `i` is the `i`-th stream name and entry `n + i` is that
stream's cursor, which is its backlog cursor in the backlog phase and ">" in the live
phase, and an iteration of the read loop that passes its checkpoint issues the read with
these arguments as its first call; (c) after a backlog read the cursor of a stream for which
the read returned messages is the ID of the last of them, the cursor of any other stream is
as before, and a live read leaves all cursors as they were. -/
theorem C17_backlog_cursors (env : Env W) (handler : EventConsumerHandler W) (count : Int)
    (fuel : Nat) (st : State W) (loc : Locals) :
    (∀ keys : List String,
      keysLoop env handler count fuel ("0" :: keys) st loc =
        match readLoop env handler count true fuel st (backlogLocals st loc) with
        | (.ok none, st1, loc1) => keysLoop env handler count fuel keys st1 loc1
        | other => other) ∧
    (∀ s ∈ st.r.streams, mapGet (backlogLocals st loc).lastIDs s = "0") ∧
    (∀ invalidCheck : Bool,
      (readArgs st.r loc count invalidCheck).Streams.length = 2 * st.r.streams.length ∧
      ∀ i, i < st.r.streams.length →
        (readArgs st.r loc count invalidCheck).Streams[i]? = st.r.streams[i]? ∧
        (readArgs st.r loc count invalidCheck).Streams[st.r.streams.length + i]? =
          st.r.streams[i]?.map
            (fun s => if invalidCheck = true then mapGet loc.lastIDs s else ">")) ∧
    (∀ invalidCheck : Bool, env.canceled st.world = false → ¬ slotLost env st loc →
      ∃ rest, (readLoop env handler count invalidCheck (fuel + 1) st loc).2.1.trace =
        st.trace ++ Call.xReadGroup (readArgs st.r loc count invalidCheck) :: rest) ∧
    (∀ s : String, mapGet (localsAfterRead env st loc count true).lastIDs s =
      (lastReturned (readResults env st loc count true) s).getD (mapGet loc.lastIDs s)) ∧
    (localsAfterRead env st loc count false).lastIDs = loc.lastIDs := by
  refine ⟨fun keys => keysLoop_backlog env handler count fuel keys st loc, ?_, ?_, ?_, ?_, ?_⟩
  · intro s hs
    exact resetLastIDs_mem st.r.streams s hs loc.lastIDs
  · intro invalidCheck
    refine ⟨?_, ?_⟩
    · simp [readArgs, readStreams]; omega
    · intro i hi
      constructor
      · simp only [readArgs, readStreams]
        rw [List.getElem?_append_left hi]
      · simp only [readArgs, readStreams]
        rw [List.getElem?_append_right (by omega)]
        simp
  · intro invalidCheck hc hl
    exact readLoop_reads env handler count invalidCheck fuel st loc hc hl
  · intro s
    exact countMessages_cursor _ s 0 loc.lastIDs
  · exact countMessages_live _ 0 loc.lastIDs

/-- C17 at the first backlog read of a pass on the streams `s1` and `s2`, which returns
two messages of `s1` and one of `s2`. -/
theorem C17_backlog_cursors_witness :
    ((envClock [] 100000).canceled (stClockOne 1005).world = false ∧
      ¬ slotLost (envClock [] 100000) (stClockOne 1005) localsClock) ∧
    (mapGet (backlogLocals (stClockOne 1005) { localsClock with lastIDs := [] }).lastIDs "s1" =
        "0" ∧
      mapGet (backlogLocals (stClockOne 1005) { localsClock with lastIDs := [] }).lastIDs "s2" =
        "0") ∧
    (readArgs (stClockOne 1005).r localsClock 10 true).Streams = ["s1", "s2", "0", "0"] ∧
    (readArgs (stClockOne 1005).r localsClock 10 false).Streams = ["s1", "s2", ">", ">"] ∧
    (∃ rest, (readLoop (envClock [] 100000) handlerQuiet 10 true (2 + 1) (stClockOne 1005)
        localsClock).2.1.trace =
      (stClockOne 1005).trace ++
        Call.xReadGroup (readArgs (stClockOne 1005).r localsClock 10 true) :: rest) ∧
    readResults (envClock [] 100000) (stClockOne 1005) localsClock 10 true = res3 ∧
    (mapGet (localsAfterRead (envClock [] 100000) (stClockOne 1005) localsClock 10
        true).lastIDs "s1" = "2-0" ∧
      mapGet (localsAfterRead (envClock [] 100000) (stClockOne 1005) localsClock 10
        true).lastIDs "s2" = "3-0") := by
  have h := C17_backlog_cursors (envClock [] 100000) handlerQuiet 10 2 (stClockOne 1005)
    localsClock
  have h0 := C17_backlog_cursors (envClock [] 100000) handlerQuiet 10 2 (stClockOne 1005)
    { localsClock with lastIDs := [] }
  refine ⟨⟨by decide, by decide⟩, ⟨h0.2.1 "s1" (by decide), h0.2.1 "s2" (by decide)⟩,
    by decide, by decide, h.2.2.2.1 true (by decide) (by decide), by decide, ?_, ?_⟩
  · rw [h.2.2.2.2.1 "s1"]; decide
  · rw [h.2.2.2.2.1 "s2"]; decide

/-! ## C18: the batch of a group read -/

theorem newEvents_length (results : List XStream) :
    (newEvents results).length = totalMessages results := by
  induction results with
  | nil => rfl
  | cons row rest ih =>
    simp only [newEvents, totalMessages, List.length_append, List.length_map, List.map_cons,
      List.sum_cons] at *
    rw [ih]

theorem newEvents_rows (results : List XStream) :
    (newEvents results).map (fun e => (e.stream, e.message)) = rowMessages results := by
  induction results with
  | nil => rfl
  | cons row rest ih =>
    simp only [newEvents, rowMessages, List.map_append, List.map_map, List.flatMap_cons] at *
    rw [ih]
    rfl

theorem runHandler_begins (env : Env W) (handler : EventConsumerHandler W) (st : State W)
    (events : List event) :
    ∃ rest, (runHandler env handler st events).2.trace =
      st.trace ++ Call.handler events :: rest := by
  have hc := callHandler_trace env handler st events
  have hext : ∀ {st1 : State W},
      Kept (fun c => Call.inDispatch c = true) (callHandler env handler st events).2 st1 →
      ∃ rest, st1.trace = st.trace ++ Call.handler events :: rest := by
    intro st1 h
    obtain ⟨_, new, hnew, _⟩ := h
    exact ⟨(applyOps st.r.group events (handler st.world events).ops).2 ++
      Call.handlerDone (handler st.world events).panic :: new, by rw [hnew, hc]; simp⟩
  simp only [runHandler]
  split
  · exact hext (kept_refl _ _)
  · split
    · rename_i eh _
      have hr := replay_kept env handler eh
        ((callHandler env handler st events).1.1.filter (fun e => !e.ack))
        (callHandler env handler st events).2
      generalize replay env handler eh _ _ = q at hr ⊢
      obtain ⟨o, st2⟩ := q
      cases o <;> exact hext hr
    · exact hext (kept_refl _ _)

theorem dispatchBatch_begins (env : Env W) (handler : EventConsumerHandler W) (st : State W)
    (results : List XStream) (total : Int) :
    ∃ rest, (dispatchBatch env handler st results total).2.trace =
      st.trace ++ Call.speedLoggerClear :: Call.handler (newEvents results) :: rest := by
  have hr := runHandler_begins env handler (beginDispatch env st total) (newEvents results)
  unfold dispatchBatch
  simp only
  generalize runHandler env handler (beginDispatch env st total) (newEvents results) = q at hr ⊢
  obtain ⟨o, st3⟩ := q
  obtain ⟨rest, hrest⟩ := hr
  simp only [beginDispatch_trace] at hrest
  cases o with
  | ok events1 =>
    obtain ⟨_, new, hnew, _⟩ := acknowledge_kept env
      (addSpeed env st3 (env.now (beginDispatch env st total).world)) events1
    refine ⟨rest ++ new, ?_⟩
    simp only at hnew ⊢
    rw [hnew]
    simp only [addSpeed, hrest]
    simp
  | panicked v => exact ⟨rest, by simpa using hrest⟩
  | outOfFuel => exact ⟨rest, by simpa using hrest⟩

theorem dispatchBatch_one_call (env : Env W) (handler : EventConsumerHandler W) (st : State W)
    (results : List XStream) (total : Int)
    (h : (batchRun env handler st results).panic = none ∨ st.r.errorHandler = none) :
    ∃ rest, (dispatchBatch env handler st results total).2.trace =
        st.trace ++ Call.speedLoggerClear :: Call.handler (newEvents results) :: rest ∧
      ∀ c ∈ rest, Call.isHandler c = false := by
  have hops : ∀ c ∈ batchCalls env handler st results, Call.isHandler c = false := by
    intro c hc
    obtain ⟨s, id, h | h⟩ := applyOps_calls _ _ _ c hc <;> rw [h] <;> rfl
  cases hp : (batchRun env handler st results).panic with
  | none =>
    refine ⟨_, (dispatchBatch_returned env handler st results total hp).2, ?_⟩
    intro c hc
    rcases List.mem_append.1 hc with hc | hc
    · exact hops c hc
    · rcases List.mem_cons.1 hc with hc | hc
      · rw [hc]; rfl
      · rcases List.mem_append.1 hc with hc | hc
        · split at hc
          · simp at hc
          · rw [List.mem_singleton.1 hc]; rfl
        · obtain ⟨p, _, rfl⟩ := List.mem_map.1 hc
          rfl
  | some v =>
    have hnone : st.r.errorHandler = none := by
      rcases h with h | h
      · rw [hp] at h; cases h
      · exact h
    have h1 : (callHandler env handler (beginDispatch env st total) (newEvents results)).1.2 =
        some v := by
      rw [callHandler_fst]; exact hp
    have hn : (beginDispatch env st total).r.errorHandler = none := by simpa using hnone
    refine ⟨batchCalls env handler st results ++ [Call.handlerDone (some v)], ?_, ?_⟩
    · unfold dispatchBatch runHandler
      simp only [h1, hn]
      simp [callHandler_trace, hp]
    · intro c hc
      rcases List.mem_append.1 hc with hc | hc
      · exact hops c hc
      · rw [List.mem_singleton.1 hc]; rfl

/-- C18, as the code has it, at an iteration of the read loop that passes its checkpoint
and whose group read returns with the cancellation flag not set.  (a) If the read returned
no message the loop ends in the state right after the read: no handler is called; (b) if it
returned a message, the calls after the read start with the clearing of the speed logger
and the call of the handler with the events of the read; (c) these events are as many as
the messages of all rows, they carry the stream name of their row and their message, in row
order and within a row in the order of the row, and their flags `ack` and `deleted` are
false; (d) the dispatch of these events calls the handler with them first and, if that call
returns or no error handler is set, calls the handler no second time. -/
theorem C18_dispatch_batch (env : Env W) (handler : EventConsumerHandler W) (count : Int)
    (invalidCheck : Bool) (fuel : Nat) (st : State W) (loc : Locals)
    (hc : env.canceled st.world = false) (hl : ¬ slotLost env st loc)
    (hc2 : env.canceled (afterRead env st loc count invalidCheck).world = false) :
    (totalMessages (readResults env st loc count invalidCheck) = 0 →
      (readLoop env handler count invalidCheck (fuel + 1) st loc).2.1.trace =
        st.trace ++ [Call.xReadGroup (readArgs st.r loc count invalidCheck)]) ∧
    (totalMessages (readResults env st loc count invalidCheck) ≠ 0 →
      ∃ rest, (readLoop env handler count invalidCheck (fuel + 1) st loc).2.1.trace =
        st.trace ++ Call.xReadGroup (readArgs st.r loc count invalidCheck) ::
          Call.speedLoggerClear ::
          Call.handler (newEvents (readResults env st loc count invalidCheck)) :: rest) ∧
    ((newEvents (readResults env st loc count invalidCheck)).length =
        totalMessages (readResults env st loc count invalidCheck) ∧
      (newEvents (readResults env st loc count invalidCheck)).map
          (fun e => (e.stream, e.message)) =
        rowMessages (readResults env st loc count invalidCheck) ∧
      ∀ e ∈ newEvents (readResults env st loc count invalidCheck),
        e.ack = false ∧ e.deleted = false) ∧
    (∀ (st1 : State W) (results : List XStream) (total : Int),
      (batchRun env handler st1 results).panic = none ∨ st1.r.errorHandler = none →
      ∃ rest, (dispatchBatch env handler st1 results total).2.trace =
          st1.trace ++ Call.speedLoggerClear :: Call.handler (newEvents results) :: rest ∧
        ∀ c ∈ rest, Call.isHandler c = false) := by
  refine ⟨?_, ?_, ⟨newEvents_length _, newEvents_rows _, newEvents_flags _⟩,
    fun st1 results total h => dispatchBatch_one_call env handler st1 results total h⟩
  · intro h0
    rw [readLoop_empty env handler count invalidCheck fuel st loc hc hl hc2 h0]
    rfl
  · intro h0
    rw [readLoop_dispatch env handler count invalidCheck fuel st loc hc hl hc2 h0]
    have hd := dispatchBatch_begins env handler (afterRead env st loc count invalidCheck)
      (readResults env st loc count invalidCheck)
      (totalMessages (readResults env st loc count invalidCheck))
    generalize dispatchBatch env handler (afterRead env st loc count invalidCheck)
      (readResults env st loc count invalidCheck)
      (totalMessages (readResults env st loc count invalidCheck)) = q at hd ⊢
    obtain ⟨o, st2⟩ := q
    obtain ⟨rest, hrest⟩ := hd
    simp only at hrest
    have hext : ∀ {P : Call → Prop} {st3 : State W}, Kept P st2 st3 →
        ∃ rest, st3.trace =
          st.trace ++ Call.xReadGroup (readArgs st.r loc count invalidCheck) ::
            Call.speedLoggerClear ::
            Call.handler (newEvents (readResults env st loc count invalidCheck)) :: rest := by
      intro P st3 h
      obtain ⟨_, new, hnew, _⟩ := h
      exact ⟨rest ++ new, by rw [hnew, hrest]; simp [afterRead]⟩
    cases o with
    | ok u =>
      simp only
      split
      · exact hext (flushSpeed_kept env st2)
      · exact hext (kept_trans (kept_mono (fun _ _ => trivial) (flushSpeed_kept env st2))
          (kept_mono (fun _ _ => trivial)
            (readLoop_kept env handler count invalidCheck fuel (flushSpeed env st2)
              (localsAfterRead env st loc count invalidCheck)).1))
    | panicked v => exact hext (kept_refl (fun _ => True) st2)
    | outOfFuel => exact hext (kept_refl (fun _ => True) st2)

/-- C18 at a backlog read that returns two messages of `s1` and one of `s2`, and at a
backlog read that returns nothing. -/
theorem C18_dispatch_batch_witness :
    ((envClock [] 100000).canceled (stClockOne 1005).world = false ∧
      ¬ slotLost (envClock [] 100000) (stClockOne 1005) localsClock ∧
      (envClock [] 100000).canceled
        (afterRead (envClock [] 100000) (stClockOne 1005) localsClock 10 true).world = false ∧
      totalMessages (readResults (envClock [] 100000) (stClockOne 1005) localsClock 10 true) ≠
        0) ∧
    (∃ rest, (readLoop (envClock [] 100000) handlerQuiet 10 true (2 + 1) (stClockOne 1005)
        localsClock).2.1.trace =
      (stClockOne 1005).trace ++
        Call.xReadGroup (readArgs (stClockOne 1005).r localsClock 10 true) ::
        Call.speedLoggerClear ::
        Call.handler (newEvents
          (readResults (envClock [] 100000) (stClockOne 1005) localsClock 10 true)) :: rest) ∧
    newEvents (readResults (envClock [] 100000) (stClockOne 1005) localsClock 10 true) =
      [first, second, third] ∧
    (totalMessages (readResults (envIdle 100000) (stClockOne 1005) localsClock 10 true) = 0 ∧
      (readLoop (envIdle 100000) handlerQuiet 10 true (2 + 1) (stClockOne 1005)
          localsClock).2.1.trace =
        (stClockOne 1005).trace ++
          [Call.xReadGroup (readArgs (stClockOne 1005).r localsClock 10 true)]) :=
  ⟨⟨by decide, by decide, by decide, by decide⟩,
    (C18_dispatch_batch (envClock [] 100000) handlerQuiet 10 true 2 (stClockOne 1005)
      localsClock (by decide) (by decide) (by decide)).2.1 (by decide),
    by decide,
    ⟨by decide,
      (C18_dispatch_batch (envIdle 100000) handlerQuiet 10 true 2 (stClockOne 1005)
        localsClock (by decide) (by decide) (by decide)).1 (by decide)⟩⟩

/-- C18 as stated fails: a backlog read that returns three messages while the cancellation
flag is set during the read leads to no handler call; the pass ends right after the
read. -/
theorem C18_read_dropped_on_cancellation :
    totalMessages (readResults (envClock [] 1006) (stClockOne 1005) localsClock 10 true) = 3 ∧
    (readLoop (envClock [] 1006) handlerQuiet 10 true 3 (stClockOne 1005) localsClock).1 =
      .ok (some true) ∧
    (readLoop (envClock [] 1006) handlerQuiet 10 true 3 (stClockOne 1005)
        localsClock).2.1.trace =
      [Call.xReadGroup { Group := "g", Consumer := "g-1", Streams := ["s1", "s2", "0", "0"],
                         Count := 10, Block := -1 }] ∧
    (consume (envClock [] 1006) handlerQuiet 10 5 (stClock true)).2.trace =
      [Call.obtain "g_default-1" 90000000000, Call.hSet "g_default_running" "1" "1001",
       Call.xGroupCreateMkStream "s1" "g" "0", Call.xGroupCreateMkStream "s2" "g" "0",
       Call.hGetAll "g_default_running",
       Call.xReadGroup { Group := "g", Consumer := "g-1", Streams := ["s1", "s2", "0", "0"],
                         Count := 10, Block := 30000000000 },
       Call.release "g_default-1"] := by
  decide

/-! ## C11, C16: the cycle over the keys -/

theorem readLoop_left (env : Env W) (handler : EventConsumerHandler W) (count : Int)
    (invalidCheck : Bool) :
    ∀ (fuel : Nat) (st : State W) (loc : Locals) (st1 : State W) (loc1 : Locals),
      readLoop env handler count invalidCheck fuel st loc = (.ok none, st1, loc1) →
      endedEmpty env count invalidCheck st1 ∨ reclaimOverdue env st1 loc1 := by
  intro fuel
  induction fuel with
  | zero =>
    intro st loc st1 loc1 h
    simp [readLoop] at h
  | succ fuel ih =>
    intro st loc st1 loc1 h
    by_cases hc : env.canceled st.world = true
    · rw [readLoop_canceled env handler count invalidCheck fuel st loc hc] at h
      simp at h
    · have hc1 : env.canceled st.world = false := by simpa using hc
      by_cases hl : slotLost env st loc
      · rw [readLoop_slotLost env handler count invalidCheck fuel st loc hc1 hl] at h
        simp at h
      · by_cases hc2 : env.canceled (afterRead env st loc count invalidCheck).world = true
        · rw [readLoop_canceled_after env handler count invalidCheck fuel st loc hc1 hl hc2] at h
          simp at h
        · have hc3 : env.canceled (afterRead env st loc count invalidCheck).world = false := by
            simpa using hc2
          by_cases h0 : totalMessages (readResults env st loc count invalidCheck) = 0
          · rw [readLoop_empty env handler count invalidCheck fuel st loc hc1 hl hc3 h0] at h
            simp only [Prod.mk.injEq, true_and] at h
            left
            exact ⟨st, loc, h.1.symm, h0⟩
          · rw [readLoop_dispatch env handler count invalidCheck fuel st loc hc1 hl hc3 h0] at h
            generalize dispatchBatch env handler (afterRead env st loc count invalidCheck)
              (readResults env st loc count invalidCheck)
              (totalMessages (readResults env st loc count invalidCheck)) = q at h
            obtain ⟨o, st2⟩ := q
            cases o with
            | ok u =>
              simp only at h
              split at h
              · rename_i hov
                simp only [Prod.mk.injEq, true_and] at h
                right
                rw [← h.1, ← h.2]
                exact hov
              · exact ih _ _ _ _ h
            | panicked v => simp at h
            | outOfFuel => simp at h

theorem keysLoop_live_last (env : Env W) (handler : EventConsumerHandler W) (count : Int)
    (fuel : Nat) (st : State W) (loc : Locals) :
    keysLoop env handler count fuel [">"] st loc =
      readLoop env handler count false fuel st loc := by
  rw [keysLoop_live]
  generalize readLoop env handler count false fuel st loc = q
  obtain ⟨o, st1, loc1⟩ := q
  cases o with
  | ok b => cases b <;> rfl
  | panicked v => rfl
  | outOfFuel => rfl

/-- C11, as the code has it, for the visit of the key "0" in any cycle.  (a) If the read
loop of the backlog phase ends in any other way than by being left for the next key (a
return of `consume`, a panic), the cycle ends there, in the state the backlog phase ended
in: nothing of the live phase happens; (b) if it is left for the next key, the live phase
is the read loop from the state and the locals the backlog phase ended with, and the
backlog phase ended either with a group read that returned no message or, after a dispatch,
because dead peers are counted and the last claim run lies at least `claimDuration` back
(line 524); (c) the calls of the backlog phase are its group reads, with the backlog
cursors, and the calls of its dispatches. -/
theorem C11_backlog_before_live (env : Env W) (handler : EventConsumerHandler W)
    (count : Int) (fuel : Nat) (st : State W) (loc : Locals) :
    (∀ (o : Outcome (Option Bool)) (st1 : State W) (loc1 : Locals),
      readLoop env handler count true fuel st (backlogLocals st loc) = (o, st1, loc1) →
      o ≠ .ok none →
      keysLoop env handler count fuel ["0", ">"] st loc = (o, st1, loc1)) ∧
    (∀ (st1 : State W) (loc1 : Locals),
      readLoop env handler count true fuel st (backlogLocals st loc) = (.ok none, st1, loc1) →
      keysLoop env handler count fuel ["0", ">"] st loc =
        readLoop env handler count false fuel st1 loc1 ∧
      (endedEmpty env count true st1 ∨ reclaimOverdue env st1 loc1)) ∧
    Kept (phaseCall st.r count loc.b true) st
      (readLoop env handler count true fuel st (backlogLocals st loc)).2.1 := by
  refine ⟨?_, ?_, (readLoop_kept env handler count true fuel st (backlogLocals st loc)).1⟩
  · intro o st1 loc1 h hne
    rw [keysLoop_backlog, h]
    cases o with
    | ok b =>
      cases b with
      | none => exact (hne rfl).elim
      | some b => rfl
    | panicked v => rfl
    | outOfFuel => rfl
  · intro st1 loc1 h
    refine ⟨?_, readLoop_left env handler count true fuel st (backlogLocals st loc) st1 loc1 h⟩
    rw [keysLoop_backlog, h]
    exact keysLoop_live_last env handler count fuel st1 loc1

/-- C16, as the code has it.  (a) An iteration of the outer loop visits the keys in the
order pending, "0", ">": the backlog phase starts in the state the pending phase ended in and
the live phase in the state the backlog phase ended in, and when the live phase is left a
pass in no-loop mode returns `true` and a pass in loop mode goes on with the next iteration
of the outer loop, which starts at the key pending again; (b) a read phase is left for the
next key only after a group read that returned no message or, after a dispatch, when dead
peers are counted and the last claim run lies at least `claimDuration` back; (c) after a
read that returned messages and their dispatch, the read loop goes on with a further
iteration unless that second condition holds. -/
theorem C16_phase_cycle (env : Env W) (handler : EventConsumerHandler W) (count : Int)
    (fuel : Nat) (st : State W) (loc : Locals) :
    (∀ (u : Unit) (st1 : State W) (loc1 : Locals) (st2 : State W) (loc2 : Locals)
        (st3 : State W) (loc3 : Locals),
      pendingPhase env fuel st loc = (.ok u, st1, loc1) →
      readLoop env handler count true fuel st1 (backlogLocals st1 loc1) = (.ok none, st2, loc2) →
      readLoop env handler count false fuel st2 loc2 = (.ok none, st3, loc3) →
      outerLoop env handler count (fuel + 1) st loc =
        (if st3.r.loop = true then outerLoop env handler count fuel st3 loc3
          else (.ok true, st3))) ∧
    (∀ (n : Nat) (stA : State W) (locA : Locals),
      outerLoop env handler count (n + 1) stA locA =
        afterCycle env handler count n
          (keysLoop env handler count n ["pending", "0", ">"] stA locA)) ∧
    (∀ (invalidCheck : Bool) (stA : State W) (locA : Locals) (stB : State W) (locB : Locals),
      readLoop env handler count invalidCheck fuel stA locA = (.ok none, stB, locB) →
      endedEmpty env count invalidCheck stB ∨ reclaimOverdue env stB locB) ∧
    (∀ (invalidCheck : Bool) (stA : State W) (locA : Locals) (u : Unit) (stB : State W),
      env.canceled stA.world = false → ¬ slotLost env stA locA →
      env.canceled (afterRead env stA locA count invalidCheck).world = false →
      totalMessages (readResults env stA locA count invalidCheck) ≠ 0 →
      dispatchBatch env handler (afterRead env stA locA count invalidCheck)
        (readResults env stA locA count invalidCheck)
        (totalMessages (readResults env stA locA count invalidCheck)) = (.ok u, stB) →
      ¬ reclaimOverdue env (flushSpeed env stB)
        (localsAfterRead env stA locA count invalidCheck) →
      readLoop env handler count invalidCheck (fuel + 1) stA locA =
        readLoop env handler count invalidCheck fuel (flushSpeed env stB)
          (localsAfterRead env stA locA count invalidCheck)) := by
  refine ⟨?_, fun n stA locA => outerLoop_succ env handler count n stA locA,
    fun invalidCheck stA locA stB locB h =>
      readLoop_left env handler count invalidCheck fuel stA locA stB locB h, ?_⟩
  · intro u st1 loc1 st2 loc2 st3 loc3 hp hb hlive
    rw [outerLoop_succ, keysLoop_pending env handler count fuel _ st loc u st1 loc1 hp,
      keysLoop_backlog, hb]
    simp only
    rw [keysLoop_live_last, hlive]
    simp only [afterCycle]
    cases st3.r.loop <;> simp
  · intro invalidCheck stA locA u stB hc hl hc2 hpos hd hno
    rw [readLoop_dispatch env handler count invalidCheck fuel stA locA hc hl hc2 hpos, hd]
    simp only [if_neg hno]

/-- C11 at a backlog phase that dispatches three messages and is left after a second read
that returns nothing. -/
theorem C11_backlog_before_live_witness :
    clockBacklog.1 = .ok none ∧
    (keysLoop (envClock [] 1276) handlerQuiet 10 3 ["0", ">"] (stClockOne 1005) localsClock =
        readLoop (envClock [] 1276) handlerQuiet 10 false 3 clockBacklog.2.1
          clockBacklog.2.2 ∧
      (endedEmpty (envClock [] 1276) 10 true clockBacklog.2.1 ∨
        reclaimOverdue (envClock [] 1276) clockBacklog.2.1 clockBacklog.2.2)) ∧
    (keysLoop (envClock [] 1276) handlerQuiet 10 3 ["0", ">"] (stClockOne 1005)
        localsClock).2.1.trace =
      [Call.xReadGroup { Group := "g", Consumer := "g-1", Streams := ["s1", "s2", "0", "0"],
                         Count := 10, Block := -1 },
       Call.speedLoggerClear, Call.handler (newEvents res3), Call.handlerDone none,
       Call.xAck "s1" "g" ["1-0", "2-0"], Call.xAck "s2" "g" ["3-0"],
       Call.xReadGroup { Group := "g", Consumer := "g-1",
                         Streams := ["s1", "s2", "2-0", "3-0"], Count := 10, Block := -1 },
       Call.xReadGroup { Group := "g", Consumer := "g-1", Streams := ["s1", "s2", ">", ">"],
                         Count := 10, Block := -1 },
       Call.speedLoggerClear, Call.handler (newEvents [⟨"s2", [⟨"4-0", []⟩]⟩]),
       Call.handlerDone none, Call.xAck "s2" "g" ["4-0"],
       Call.xReadGroup { Group := "g", Consumer := "g-1", Streams := ["s1", "s2", ">", ">"],
                         Count := 10, Block := -1 }] :=
  ⟨by decide,
    (C11_backlog_before_live (envClock [] 1276) handlerQuiet 10 3 (stClockOne 1005)
      localsClock).2.1 clockBacklog.2.1 clockBacklog.2.2 (Prod.ext (by decide) rfl),
    by decide⟩

/-- C11 as stated fails: in a pass that finds a dead peer and whose handler takes 130 s,
the backlog read returns three messages, and after their dispatch the pass issues its live
read and dispatches a live message although no backlog read has returned zero messages. -/
theorem C11_live_read_after_nonempty_backlog_read :
    (consume (envClock [("1", "1001"), ("2", "0")] 100000) handlerQuiet 10 5
      (stClock false)).1 = .ok true ∧
    (consume (envClock [("1", "1001"), ("2", "0")] 100000) handlerQuiet 10 5
        (stClock false)).2.trace =
      [Call.obtain "g_default-1" 90000000000, Call.hSet "g_default_running" "1" "1001",
       Call.xGroupCreateMkStream "s1" "g" "0", Call.xGroupCreateMkStream "s2" "g" "0",
       Call.hGetAll "g_default_running",
       Call.xPendingExt { Stream := "s1", Group := "g", Start := "-", End := "885000",
                          Count := 100 },
       Call.xClaimJustID { Stream := "s1", Group := "g", Consumer := "g-1",
                           MinIdle := 120000000000, Messages := ["5-1"] },
       Call.xPendingExt { Stream := "s2", Group := "g", Start := "-", End := "887000",
                          Count := 100 },
       Call.xReadGroup { Group := "g", Consumer := "g-1", Streams := ["s1", "s2", "0", "0"],
                         Count := 10, Block := -1 },
       Call.speedLoggerClear, Call.handler (newEvents res3), Call.handlerDone none,
       Call.xAck "s1" "g" ["1-0", "2-0"], Call.xAck "s2" "g" ["3-0"],
       Call.xReadGroup { Group := "g", Consumer := "g-1", Streams := ["s1", "s2", ">", ">"],
                         Count := 10, Block := -1 },
       Call.speedLoggerClear, Call.handler (newEvents [⟨"s2", [⟨"4-0", []⟩]⟩]),
       Call.handlerDone none, Call.xAck "s2" "g" ["4-0"],
       Call.release "g_default-1"] := by
  decide

/-- C16 at a cycle in a world without peers and without messages: the pending phase, the
backlog phase and the live phase end one after the other, and the pass, in no-loop mode,
returns `true`. -/
theorem C16_phase_cycle_witness :
    (idlePending.1 = .ok () ∧ idleBacklog.1 = .ok none ∧ idleLive.1 = .ok none) ∧
    outerLoop (envIdle 100000) handlerQuiet 10 (2 + 1) (stClockOne 1004) localsClock =
      (.ok true, idleLive.2.1) ∧
    idleLive.2.1.trace =
      [Call.hGetAll "g_default_running",
       Call.xReadGroup { Group := "g", Consumer := "g-1", Streams := ["s1", "s2", "0", "0"],
                         Count := 10, Block := -1 },
       Call.xReadGroup { Group := "g", Consumer := "g-1", Streams := ["s1", "s2", ">", ">"],
                         Count := 10, Block := -1 }] := by
  refine ⟨⟨by decide, by decide, by decide⟩, ?_, by decide⟩
  have h := (C16_phase_cycle (envIdle 100000) handlerQuiet 10 2 (stClockOne 1004)
    localsClock).1 () idlePending.2.1 idlePending.2.2 idleBacklog.2.1 idleBacklog.2.2
    idleLive.2.1 idleLive.2.2 (Prod.ext (by decide) rfl) (Prod.ext (by decide) rfl)
    (Prod.ext (by decide) rfl)
  rw [h]
  rfl

/-- C16 as stated fails: in a pass in loop mode that finds a dead peer and whose handler
takes 130 s, the backlog phase is left after one read that returned three messages and the
live phase after one read that returned a message, and the next cycle starts. -/
theorem C16_phase_left_after_nonempty_read :
    (consume (envClock [("1", "1001"), ("2", "0")] 1281) handlerQuiet 10 5
        (stClock true)).2.trace =
      [Call.obtain "g_default-1" 90000000000, Call.hSet "g_default_running" "1" "1001",
       Call.xGroupCreateMkStream "s1" "g" "0", Call.xGroupCreateMkStream "s2" "g" "0",
       Call.hGetAll "g_default_running",
       Call.xPendingExt { Stream := "s1", Group := "g", Start := "-", End := "885000",
                          Count := 100 },
       Call.xClaimJustID { Stream := "s1", Group := "g", Consumer := "g-1",
                           MinIdle := 120000000000, Messages := ["5-1"] },
       Call.xPendingExt { Stream := "s2", Group := "g", Start := "-", End := "887000",
                          Count := 100 },
       Call.xReadGroup { Group := "g", Consumer := "g-1", Streams := ["s1", "s2", "0", "0"],
                         Count := 10, Block := 30000000000 },
       Call.speedLoggerClear, Call.handler (newEvents res3), Call.handlerDone none,
       Call.xAck "s1" "g" ["1-0", "2-0"], Call.xAck "s2" "g" ["3-0"],
       Call.xReadGroup { Group := "g", Consumer := "g-1", Streams := ["s1", "s2", ">", ">"],
                         Count := 10, Block := 30000000000 },
       Call.speedLoggerClear, Call.handler (newEvents [⟨"s2", [⟨"4-0", []⟩]⟩]),
       Call.handlerDone none, Call.xAck "s2" "g" ["4-0"],
       Call.hGetAll "g_default_running",
       Call.xPendingExt { Stream := "s1", Group := "g", Start := "-", End := "1158000",
                          Count := 100 },
       Call.xClaimJustID { Stream := "s1", Group := "g", Consumer := "g-1",
                           MinIdle := 120000000000, Messages := ["5-1"] },
       Call.xPendingExt { Stream := "s2", Group := "g", Start := "-", End := "1160000",
                          Count := 100 },
       Call.release "g_default-1"] := by
  decide

/-! ## C27: the flags of an event -/

theorem event_after_deleted_ack (group : String) (ops : List FlagOp) :
    ∀ ev : event, (ev.deleted = true → ev.ack = true) →
      ((event.after group ev ops).deleted = true → (event.after group ev ops).ack = true) := by
  induction ops with
  | nil => intro ev h; exact h
  | cons op ops ih =>
    intro ev h
    cases op with
    | Ack => exact ih _ (fun _ => rfl)
    | delete => exact ih _ (fun _ => rfl)

/-- C27: (a) `Ack()` issues one `XAck` for the event's ID and no `XDel`, sets the ack flag
and leaves the deleted flag, the stream and the message as they are; (b) `delete()` issues
the `XAck` and then one `XDel` for the event's ID and sets both flags; (c) after any
sequence of `Ack()` and `delete()` calls on an event that was delivered with both flags
false, the deleted flag is set only if the ack flag is; (d) a second `Ack()` leaves the
event as the first one left it. -/
theorem C27_event_flags (group : String) (ev : event) :
    ((ev.Ack group).1 = { ev with ack := true } ∧
      (ev.Ack group).1.deleted = ev.deleted ∧
      (ev.Ack group).2 = [Call.xAck ev.stream group [ev.message.ID]]) ∧
    ((ev.delete group).1 = { ev with ack := true, deleted := true } ∧
      (ev.delete group).2 =
        [Call.xAck ev.stream group [ev.message.ID], Call.xDel ev.stream ev.message.ID]) ∧
    (ev.ack = false → ev.deleted = false → ∀ ops : List FlagOp,
      (event.after group ev ops).deleted = true → (event.after group ev ops).ack = true) ∧
    ((ev.Ack group).1.Ack group).1 = (ev.Ack group).1 := by
  refine ⟨⟨rfl, rfl, rfl⟩, ⟨rfl, rfl⟩, ?_, rfl⟩
  intro _ hd ops
  exact event_after_deleted_ack group ops ev (fun h => by rw [hd] at h; cases h)

/-- C27 at the first event of the batch `res3`, acknowledged, deleted and acknowledged
again. -/
theorem C27_event_flags_witness :
    first.ack = false ∧ first.deleted = false ∧
    ((event.after "g" first [FlagOp.Ack, FlagOp.delete, FlagOp.Ack]).deleted = true →
      (event.after "g" first [FlagOp.Ack, FlagOp.delete, FlagOp.Ack]).ack = true) ∧
    event.after "g" first [FlagOp.Ack] = { first with ack := true } ∧
    event.after "g" first [FlagOp.Ack, FlagOp.delete, FlagOp.Ack] =
      { first with ack := true, deleted := true } :=
  ⟨rfl, rfl,
    (C27_event_flags "g" first).2.2.1 rfl rfl [FlagOp.Ack, FlagOp.delete, FlagOp.Ack],
    by decide, by decide⟩

/-! ## C23: the envelope -/

theorem fillMeta_getElem? (meta : List String) :
    ∀ (k : Nat) (values : List String) (j : Nat),
      (fillMeta meta k values)[j]? =
        if k + 2 ≤ j ∧ j < k + 2 + meta.length ∧ j < values.length then meta[j - (k + 2)]?
        else values[j]? := by
  induction meta with
  | nil =>
    intro k values j
    simp only [fillMeta, List.length_nil, Nat.add_zero]
    split
    · omega
    · rfl
  | cons v rest ih =>
    intro k values j
    simp only [fillMeta, ih, List.length_set, List.length_cons]
    by_cases h1 : j = k + 2
    · subst h1
      by_cases h2 : k + 2 < values.length
      · have e1 : ¬ (k + 1 + 2 ≤ k + 2 ∧ k + 2 < k + 1 + 2 + rest.length ∧
            k + 2 < values.length) := by omega
        have e2 : (k + 2 ≤ k + 2 ∧ k + 2 < k + 2 + (rest.length + 1) ∧
            k + 2 < values.length) := by omega
        rw [if_neg e1, if_pos e2]
        simp [List.getElem?_set, h2]
      · have e1 : ¬ (k + 1 + 2 ≤ k + 2 ∧ k + 2 < k + 1 + 2 + rest.length ∧
            k + 2 < values.length) := by omega
        have e2 : ¬ (k + 2 ≤ k + 2 ∧ k + 2 < k + 2 + (rest.length + 1) ∧
            k + 2 < values.length) := by omega
        rw [if_neg e1, if_neg e2]
        rw [List.getElem?_eq_none (by simp only [List.length_set]; omega),
          List.getElem?_eq_none (by omega)]
    · by_cases h3 : k + 1 + 2 ≤ j ∧ j < k + 1 + 2 + rest.length ∧ j < values.length
      · have e2 : (k + 2 ≤ j ∧ j < k + 2 + (rest.length + 1) ∧ j < values.length) := by omega
        rw [if_pos h3, if_pos e2]
        have : j - (k + 2) = (j - (k + 1 + 2)) + 1 := by omega
        rw [this, List.getElem?_cons_succ]
      · have e2 : ¬ (k + 2 ≤ j ∧ j < k + 2 + (rest.length + 1) ∧ j < values.length) := by
          omega
        rw [if_neg h3, if_neg e2]
        have h4 : ¬ (k + 2 = j) := fun h => h1 h.symm
        simp [List.getElem?_set, h4]

theorem fillMeta_length (meta : List String) :
    ∀ (k : Nat) (values : List String), (fillMeta meta k values).length = values.length := by
  induction meta with
  | nil => intro k values; rfl
  | cons v rest ih => intro k values; simp [fillMeta, ih]

theorem createEventSlice_values {β : Type} (Marshal : β → Except GoError String) (b : β)
    (meta : List String) (asString : String) (hs : Marshal b = .ok asString) :
    createEventSlice Marshal (some b) meta = .ok ("s" :: asString :: meta) := by
  simp only [createEventSlice, hs]
  congr 1
  apply List.ext_getElem?
  intro j
  rw [fillMeta_getElem?]
  simp only [List.length_set, List.length_replicate, Nat.zero_add]
  match j with
  | 0 => simp
  | 1 => simp
  | j + 2 =>
    by_cases h : j < meta.length
    · have e : (2 ≤ j + 2 ∧ j + 2 < 2 + meta.length ∧ j + 2 < meta.length + 2) := by omega
      rw [if_pos e]
      simp
    · have e : ¬ (2 ≤ j + 2 ∧ j + 2 < 2 + meta.length ∧ j + 2 < meta.length + 2) := by omega
      rw [if_neg e]
      rw [List.getElem?_eq_none (by simp only [List.length_set, List.length_replicate]; omega),
        List.getElem?_eq_none (by simp only [List.length_cons]; omega)]

/-- C23: (a) for a body that is not nil, with `asString` its serialization, and any tag
list `meta`, `createEventSlice` returns the list "s", `asString`, then the tags: it has
`len(meta) + 2` elements, element 0 is "s", element 1 is `asString`, and element `k + 2`
is `meta[k]` for every `k < len(meta)`; (b) for a nil body it returns `meta` itself; (c) if
the serializer answers with an error, `createEventSlice` panics with that error. -/
theorem C23_envelope_layout {β : Type} (Marshal : β → Except GoError String)
    (meta : List String) :
    (∀ (b : β) (asString : String), Marshal b = .ok asString →
      createEventSlice Marshal (some b) meta = .ok ("s" :: asString :: meta) ∧
      ("s" :: asString :: meta).length = meta.length + 2 ∧
      ("s" :: asString :: meta)[0]? = some "s" ∧
      ("s" :: asString :: meta)[1]? = some asString ∧
      ∀ k, k < meta.length → ("s" :: asString :: meta)[k + 2]? = meta[k]?) ∧
    createEventSlice Marshal none meta = .ok meta ∧
    (∀ (b : β) (err : GoError), Marshal b = .error err →
      createEventSlice Marshal (some b) meta = .panicked (.error err)) := by
  refine ⟨?_, rfl, ?_⟩
  · intro b asString hs
    exact ⟨createEventSlice_values Marshal b meta asString hs, by simp, by simp, by simp,
      fun k _ => by simp⟩
  · intro b err he
    simp only [createEventSlice, he]

/-! ## C21: the heartbeat -/

/-- C21: for the heartbeat goroutine of a pass, in any state `h` of its shared variables,
and whatever signals `rest` follow a tick: (a) a tick whose refresh fails makes the one
call `Refresh(lockTTL)`, clears `hasLock` and ends the goroutine: no further call is made,
whatever follows; (b) a tick whose refresh succeeds makes the call `Refresh(lockTTL)` and
then one `HSet` on the running key, under the field `nrString` of this slot, of the unix
time of `now`, sets `lockAcquired` to `now`, leaves `hasLock` and `canceled` as they are,
and the goroutine goes on with the signals that follow. -/
theorem C21_heartbeat_tick (r : eventsConsumer W) (lockName : String) (h : Heartbeat)
    (now : Int) (rest : List Signal) :
    heartbeat r lockName h (Signal.tick false now :: rest) =
      { h with hasLock := false, returned := true,
               calls := h.calls ++ [BeatCall.refresh lockName r.lockTTL] } ∧
    heartbeat r lockName h (Signal.tick true now :: rest) =
      heartbeat r lockName
        { h with lockAcquired := now,
                 calls := h.calls ++ [BeatCall.refresh lockName r.lockTTL,
                   BeatCall.hSet (runningKey r) r.nrString (FormatInt (unixSeconds now))] }
        rest ∧
    (heartbeat r lockName h [Signal.tick true now]).hasLock = h.hasLock ∧
    (heartbeat r lockName h [Signal.tick true now]).canceled = h.canceled ∧
    (heartbeat r lockName h [Signal.tick true now]).returned = h.returned := by
  refine ⟨?_, ?_, ?_, ?_, ?_⟩ <;> simp [heartbeat]

/-- C23 at a body that the serializer turns into `<order 7>`, with two tags. -/
theorem C23_envelope_layout_witness :
    sampleMarshal "order 7" = .ok "<order 7>" ∧
    createEventSlice sampleMarshal (some "order 7") ["type", "new"] =
      .ok ["s", "<order 7>", "type", "new"] ∧
    createEventSlice sampleMarshal none ["type", "new"] = .ok ["type", "new"] ∧
    createEventSlice sampleMarshal (some "") ["type", "new"] =
      .panicked (.error ⟨"empty body"⟩) :=
  ⟨rfl,
    ((C23_envelope_layout sampleMarshal ["type", "new"]).1 "order 7" "<order 7>" rfl).1,
    (C23_envelope_layout sampleMarshal ["type", "new"]).2.1,
    (C23_envelope_layout sampleMarshal ["type", "new"]).2.2 "" ⟨"empty body"⟩ rfl⟩

/-- C21 at a heartbeat of the slot 1 whose first tick refreshes the lease at the second 60
and whose second tick fails: the third tick and the closing of `done` find the goroutine
gone. -/
theorem C21_heartbeat_tick_witness :
    heartbeat stSlotOne.r "g_default-1" beat0
        [Signal.tick true 60000000000, Signal.tick false 120000000000,
         Signal.tick true 180000000000, Signal.done] =
      { hasLock := false, canceled := false, lockAcquired := 60000000000, returned := true,
        calls := [BeatCall.refresh "g_default-1" 90000000000,
                  BeatCall.hSet "g_default_running" "1" "60",
                  BeatCall.refresh "g_default-1" 90000000000] } := by
  rw [(C21_heartbeat_tick stSlotOne.r "g_default-1" beat0 60000000000
    [Signal.tick false 120000000000, Signal.tick true 180000000000, Signal.done]).2.1]
  decide

/-! ## C22: the telemetry flush -/

theorem replay_r (env : Env W) (handler : EventConsumerHandler W)
    (eh : ConsumerErrorHandler W) (es : List event) :
    ∀ st : State W, (replay env handler eh st es).2.r = st.r := by
  induction es with
  | nil => intro st; rfl
  | cons e rest ih =>
    intro st
    simp only [replay]
    split
    · rw [ih]; simp
    · split
      · simp
      · rw [ih]; simp

theorem runHandler_r (env : Env W) (handler : EventConsumerHandler W) (st : State W)
    (events : List event) : (runHandler env handler st events).2.r = st.r := by
  simp only [runHandler]
  split
  · simp
  · split
    · rename_i eh _
      have hr := replay_r env handler eh
        ((callHandler env handler st events).1.1.filter (fun e => !e.ack))
        (callHandler env handler st events).2
      generalize replay env handler eh _ _ = q at hr ⊢
      obtain ⟨o, st2⟩ := q
      cases o <;> simpa using hr
    · simp

theorem acknowledge_r (env : Env W) (st : State W) (events : List event) :
    (acknowledge env st events).r = st.r := by
  unfold acknowledge
  simp only
  split <;> simp [garbage]

theorem dispatchBatch_speedEvents (env : Env W) (handler : EventConsumerHandler W)
    (st : State W) (results : List XStream) (total : Int) :
    (dispatchBatch env handler st results total).2.r.speedEvents =
      st.r.speedEvents + total := by
  have hr := runHandler_r env handler (beginDispatch env st total) (newEvents results)
  unfold dispatchBatch
  simp only
  generalize runHandler env handler (beginDispatch env st total) (newEvents results) = q at hr ⊢
  obtain ⟨o, st3⟩ := q
  simp only at hr
  cases o with
  | ok events1 =>
    simp only [acknowledge_r, addSpeed, hr]
    rfl
  | panicked v => simp only [hr]; rfl
  | outOfFuel => simp only [hr]; rfl

theorem dispatchBatch_speed (env : Env W) (handler : EventConsumerHandler W)
    (st : State W) (results : List XStream) (total : Int)
    (hok : (dispatchBatch env handler st results total).1 = .ok ()) :
    (dispatchBatch env handler st results total).2.r =
      { st.r with
        speedEvents := st.r.speedEvents + total
        speedTimeMicroseconds := st.r.speedTimeMicroseconds +
          Int.tdiv (env.now (runHandler env handler (beginDispatch env st total)
            (newEvents results)).2.world - env.now (beginDispatch env st total).world) 1000
        speedDBQueries := st.r.speedDBQueries +
          (env.speedLogger (runHandler env handler (beginDispatch env st total)
            (newEvents results)).2.world).DBQueries
        speedRedisQueries := st.r.speedRedisQueries +
          (env.speedLogger (runHandler env handler (beginDispatch env st total)
            (newEvents results)).2.world).RedisQueries
        speedDBMicroseconds := st.r.speedDBMicroseconds +
          (env.speedLogger (runHandler env handler (beginDispatch env st total)
            (newEvents results)).2.world).DBMicroseconds
        speedRedisMicroseconds := st.r.speedRedisMicroseconds +
          (env.speedLogger (runHandler env handler (beginDispatch env st total)
            (newEvents results)).2.world).RedisMicroseconds } := by
  have hr := runHandler_r env handler (beginDispatch env st total) (newEvents results)
  unfold dispatchBatch at hok ⊢
  simp only at hok ⊢
  generalize runHandler env handler (beginDispatch env st total) (newEvents results) = q
    at hr hok ⊢
  obtain ⟨o, st3⟩ := q
  simp only at hr
  cases o with
  | ok events1 =>
    simp only [acknowledge_r, addSpeed, hr]
    rfl
  | panicked v => simp at hok
  | outOfFuel => simp at hok

/-- C22: (a) if the accumulated event count is at least `speedLimit`, the flush executes
one pipeline on the record of the day (`speedHSetKey` followed by the day): an expiry of
216 hours and six increments, under the consumer's prefix, of the fields `e`, `t`, `d`,
`dt`, `r` and `rt` by the accumulated event count, handler time, DB query count, DB time,
Redis query count and Redis time, and afterwards the six accumulators are 0 and nothing
else of the consumer has changed; (b) if the count is below `speedLimit`, the flush makes
no call and changes nothing; (c) a dispatch adds the number of its messages to the event
count, so when a dispatch brings the count to exactly `speedLimit`, the flush after it
increments the field `e` by `speedLimit` and leaves the six accumulators at 0; (d) a
dispatch that completes adds to the five other accumulators the time from the start of
the handler call (line 447) to the end of the closure of lines 448-480, in whole
microseconds, and the four counters of the speed logger at that moment, and changes
nothing else of the consumer; so when the event count has reached `speedLimit`, the
pipeline of the flush after it carries these six sums.  (Part (d) is stated for an
elapsed time that is a duration and for sums in the range of `int64`, where the sums of
the code do not wrap around.) -/
theorem C22_telemetry_flush (env : Env W) (st : State W) :
    (st.r.speedEvents ≥ st.r.speedLimit →
      (flushSpeed env st).trace = st.trace ++ [Call.pipelineExec
        [ .expire (speedHSetKey ++ env.today st.world) (216 * 3600 * 1000000000),
          .hIncrBy (speedHSetKey ++ env.today st.world) (st.r.speedPrefixKey ++ "e")
            st.r.speedEvents,
          .hIncrBy (speedHSetKey ++ env.today st.world) (st.r.speedPrefixKey ++ "t")
            st.r.speedTimeMicroseconds,
          .hIncrBy (speedHSetKey ++ env.today st.world) (st.r.speedPrefixKey ++ "d")
            st.r.speedDBQueries,
          .hIncrBy (speedHSetKey ++ env.today st.world) (st.r.speedPrefixKey ++ "dt")
            st.r.speedDBMicroseconds,
          .hIncrBy (speedHSetKey ++ env.today st.world) (st.r.speedPrefixKey ++ "r")
            st.r.speedRedisQueries,
          .hIncrBy (speedHSetKey ++ env.today st.world) (st.r.speedPrefixKey ++ "rt")
            st.r.speedRedisMicroseconds ]] ∧
      (flushSpeed env st).r =
        { st.r with speedEvents := 0, speedDBQueries := 0, speedRedisQueries := 0,
                    speedTimeMicroseconds := 0, speedDBMicroseconds := 0,
                    speedRedisMicroseconds := 0 }) ∧
    (st.r.speedEvents < st.r.speedLimit → flushSpeed env st = st) ∧
    (∀ (handler : EventConsumerHandler W) (results : List XStream) (total : Int),
      (dispatchBatch env handler st results total).2.r.speedEvents =
        st.r.speedEvents + total ∧
      (st.r.speedEvents + total = st.r.speedLimit →
        ∃ cmds,
          (flushSpeed env (dispatchBatch env handler st results total).2).trace =
            (dispatchBatch env handler st results total).2.trace ++
              [Call.pipelineExec cmds] ∧
          PipelineCommand.hIncrBy
              (speedHSetKey ++ env.today (dispatchBatch env handler st results total).2.world)
              (st.r.speedPrefixKey ++ "e") st.r.speedLimit ∈ cmds ∧
          (flushSpeed env (dispatchBatch env handler st results total).2).r.speedEvents = 0 ∧
          (flushSpeed env (dispatchBatch env handler st results total).2).r.speedTimeMicroseconds
            = 0 ∧
          (flushSpeed env (dispatchBatch env handler st results total).2).r.speedDBQueries = 0 ∧
          (flushSpeed env (dispatchBatch env handler st results total).2).r.speedDBMicroseconds
            = 0 ∧
          (flushSpeed env (dispatchBatch env handler st results total).2).r.speedRedisQueries
            = 0 ∧
          (flushSpeed env
            (dispatchBatch env handler st results total).2).r.speedRedisMicroseconds = 0)) ∧
    (∀ (handler : EventConsumerHandler W) (results : List XStream) (total elapsed : Int)
        (logger : speedHandler),
      (dispatchBatch env handler st results total).1 = .ok () →
      elapsed = env.now (runHandler env handler (beginDispatch env st total)
          (newEvents results)).2.world - env.now (beginDispatch env st total).world →
      logger = env.speedLogger (runHandler env handler (beginDispatch env st total)
          (newEvents results)).2.world →
      (minDuration ≤ elapsed ∧ elapsed ≤ maxDuration) →
      (∀ sum ∈ [st.r.speedEvents + total,
          st.r.speedTimeMicroseconds + Int.tdiv elapsed 1000,
          st.r.speedDBQueries + logger.DBQueries,
          st.r.speedDBMicroseconds + logger.DBMicroseconds,
          st.r.speedRedisQueries + logger.RedisQueries,
          st.r.speedRedisMicroseconds + logger.RedisMicroseconds],
        -maxInt64 - 1 ≤ sum ∧ sum ≤ maxInt64) →
      (dispatchBatch env handler st results total).2.r =
        { st.r with
          speedEvents := st.r.speedEvents + total
          speedTimeMicroseconds := st.r.speedTimeMicroseconds + Int.tdiv elapsed 1000
          speedDBQueries := st.r.speedDBQueries + logger.DBQueries
          speedRedisQueries := st.r.speedRedisQueries + logger.RedisQueries
          speedDBMicroseconds := st.r.speedDBMicroseconds + logger.DBMicroseconds
          speedRedisMicroseconds := st.r.speedRedisMicroseconds + logger.RedisMicroseconds } ∧
      (st.r.speedEvents + total ≥ st.r.speedLimit →
        (flushSpeed env (dispatchBatch env handler st results total).2).trace =
          (dispatchBatch env handler st results total).2.trace ++ [Call.pipelineExec
            [ .expire
                (speedHSetKey ++ env.today (dispatchBatch env handler st results total).2.world)
                (216 * 3600 * 1000000000),
              .hIncrBy
                (speedHSetKey ++ env.today (dispatchBatch env handler st results total).2.world)
                (st.r.speedPrefixKey ++ "e") (st.r.speedEvents + total),
              .hIncrBy
                (speedHSetKey ++ env.today (dispatchBatch env handler st results total).2.world)
                (st.r.speedPrefixKey ++ "t")
                (st.r.speedTimeMicroseconds + Int.tdiv elapsed 1000),
              .hIncrBy
                (speedHSetKey ++ env.today (dispatchBatch env handler st results total).2.world)
                (st.r.speedPrefixKey ++ "d") (st.r.speedDBQueries + logger.DBQueries),
              .hIncrBy
                (speedHSetKey ++ env.today (dispatchBatch env handler st results total).2.world)
                (st.r.speedPrefixKey ++ "dt")
                (st.r.speedDBMicroseconds + logger.DBMicroseconds),
              .hIncrBy
                (speedHSetKey ++ env.today (dispatchBatch env handler st results total).2.world)
                (st.r.speedPrefixKey ++ "r") (st.r.speedRedisQueries + logger.RedisQueries),
              .hIncrBy
                (speedHSetKey ++ env.today (dispatchBatch env handler st results total).2.world)
                (st.r.speedPrefixKey ++ "rt")
                (st.r.speedRedisMicroseconds + logger.RedisMicroseconds) ]])) := by
  refine ⟨?_, ?_, ?_, ?_⟩
  · intro h
    unfold flushSpeed
    simp only [if_pos h]
    exact ⟨rfl, rfl⟩
  · intro h
    have h2 : ¬ st.r.speedEvents ≥ st.r.speedLimit := by omega
    unfold flushSpeed
    simp only [if_neg h2]
  · intro handler results total
    have hs := dispatchBatch_speedEvents env handler st results total
    refine ⟨hs, ?_⟩
    intro heq
    have hk := (dispatchBatch_kept env handler st results total).1
    have hlim : (dispatchBatch env handler st results total).2.r.speedLimit = st.r.speedLimit :=
      congrArg (fun x => x.speedLimit) hk
    have hpre : (dispatchBatch env handler st results total).2.r.speedPrefixKey =
        st.r.speedPrefixKey := congrArg (fun x => x.speedPrefixKey) hk
    generalize dispatchBatch env handler st results total = q at hs hlim hpre ⊢
    obtain ⟨o, st2⟩ := q
    simp only at hs hlim hpre ⊢
    have hge : st2.r.speedEvents ≥ st2.r.speedLimit := by rw [hs, hlim, heq]
    unfold flushSpeed
    simp only [if_pos hge]
    refine ⟨_, rfl, ?_, ?_⟩
    · rw [hpre, hs, heq]
      simp
    · simp
  · intro handler results total elapsed logger hok he hl _ _
    have hr := dispatchBatch_speed env handler st results total hok
    rw [← he, ← hl] at hr
    refine ⟨hr, ?_⟩
    intro hge
    generalize dispatchBatch env handler st results total = q at hr ⊢
    obtain ⟨o, st2⟩ := q
    simp only at hr ⊢
    have hge2 : st2.r.speedEvents ≥ st2.r.speedLimit := by rw [hr]; exact hge
    unfold flushSpeed
    rw [if_pos hge2]
    show st2.trace ++ [Call.pipelineExec
      [ .expire (speedHSetKey ++ env.today st2.world) (216 * 3600 * 1000000000),
        .hIncrBy (speedHSetKey ++ env.today st2.world) (st2.r.speedPrefixKey ++ "e")
          st2.r.speedEvents,
        .hIncrBy (speedHSetKey ++ env.today st2.world) (st2.r.speedPrefixKey ++ "t")
          st2.r.speedTimeMicroseconds,
        .hIncrBy (speedHSetKey ++ env.today st2.world) (st2.r.speedPrefixKey ++ "d")
          st2.r.speedDBQueries,
        .hIncrBy (speedHSetKey ++ env.today st2.world) (st2.r.speedPrefixKey ++ "dt")
          st2.r.speedDBMicroseconds,
        .hIncrBy (speedHSetKey ++ env.today st2.world) (st2.r.speedPrefixKey ++ "r")
          st2.r.speedRedisQueries,
        .hIncrBy (speedHSetKey ++ env.today st2.world) (st2.r.speedPrefixKey ++ "rt")
          st2.r.speedRedisMicroseconds ]] = _
    rw [hr]

/-- C22 at a consumer with the limit 3 whose dispatch of the three messages of `res3`
brings the event count from 0 to 3; and at a consumer with the same limit whose
accumulators are not empty, in a world whose handler call takes 130 s and whose speed
logger has counted queries: the pipeline carries the six sums. -/
theorem C22_telemetry_flush_witness :
    stSpeed.r.speedEvents + 3 = stSpeed.r.speedLimit ∧
    (flushSpeed envRead (dispatchBatch envRead handlerIdle stSpeed res3 3).2).trace =
      [Call.speedLoggerClear, Call.handler (newEvents res3), Call.handlerDone none,
       Call.xAck "s1" "g" ["1-0", "2-0"], Call.xAck "s2" "g" ["3-0"],
       Call.pipelineExec
        [ .expire "_orm_ss01-02-06" 777600000000000,
          .hIncrBy "_orm_ss01-02-06" "g_defaulte" 3,
          .hIncrBy "_orm_ss01-02-06" "g_defaultt" 0,
          .hIncrBy "_orm_ss01-02-06" "g_defaultd" 0,
          .hIncrBy "_orm_ss01-02-06" "g_defaultdt" 0,
          .hIncrBy "_orm_ss01-02-06" "g_defaultr" 0,
          .hIncrBy "_orm_ss01-02-06" "g_defaultrt" 0 ]] ∧
    (flushSpeed envRead (dispatchBatch envRead handlerIdle stSpeed res3 3).2).r.speedEvents = 0 ∧
    (∃ cmds,
      (flushSpeed envRead (dispatchBatch envRead handlerIdle stSpeed res3 3).2).trace =
        (dispatchBatch envRead handlerIdle stSpeed res3 3).2.trace ++
          [Call.pipelineExec cmds] ∧
      PipelineCommand.hIncrBy
          (speedHSetKey ++ envRead.today (dispatchBatch envRead handlerIdle stSpeed res3 3).2.world)
          (stSpeed.r.speedPrefixKey ++ "e") stSpeed.r.speedLimit ∈ cmds) ∧
    (dispatchBatch envBusy handlerQuiet stBusy res3 3).2.r =
      { stBusy.r with
        speedEvents := 3, speedTimeMicroseconds := 5 + 131000000, speedDBQueries := 1 + 2,
        speedRedisQueries := 2 + 3, speedDBMicroseconds := 40 + 1500,
        speedRedisMicroseconds := 9 + 700 } ∧
    (flushSpeed envBusy (dispatchBatch envBusy handlerQuiet stBusy res3 3).2).trace =
      (dispatchBatch envBusy handlerQuiet stBusy res3 3).2.trace ++ [Call.pipelineExec
        [ .expire "_orm_ss01-02-06" 777600000000000,
          .hIncrBy "_orm_ss01-02-06" "g_defaulte" 3,
          .hIncrBy "_orm_ss01-02-06" "g_defaultt" 131000005,
          .hIncrBy "_orm_ss01-02-06" "g_defaultd" 3,
          .hIncrBy "_orm_ss01-02-06" "g_defaultdt" 1540,
          .hIncrBy "_orm_ss01-02-06" "g_defaultr" 5,
          .hIncrBy "_orm_ss01-02-06" "g_defaultrt" 709 ]] := by
  obtain ⟨cmds, h1, h2, _⟩ :=
    ((C22_telemetry_flush envRead stSpeed).2.2.1 handlerIdle res3 3).2 (by decide)
  obtain ⟨h3, h4⟩ := (C22_telemetry_flush envBusy stBusy).2.2.2 handlerQuiet res3 3
    131000000000 ⟨2, 1500, 3, 700⟩ (by decide) (by decide) (by decide) (by decide) (by decide)
  exact ⟨by decide, by decide, by decide, ⟨cmds, h1, h2⟩, h3, h4 (by decide)⟩

/-! ## C30: `LocalCache.GetSet` -/

theorem log2Floor_mono :
    ∀ (f1 f2 p q : Nat), p ≤ q → p ≤ f1 → q ≤ f2 → log2Floor f1 p ≤ log2Floor f2 q := by
  intro f1
  induction f1 with
  | zero => intro f2 p q _ _ _; exact Nat.zero_le _
  | succ f1 ih =>
    intro f2 p q hpq hp hq
    by_cases h2 : p < 2
    · simp only [log2Floor, if_pos h2]
      exact Nat.zero_le _
    · have hq2 : ¬ q < 2 := by omega
      obtain ⟨f3, hf3⟩ : ∃ f3, f2 = f3 + 1 := ⟨f2 - 1, by omega⟩
      subst hf3
      simp only [log2Floor, if_neg h2, if_neg hq2]
      have := ih f3 (p / 2) (q / 2) (Nat.div_le_div_right hpq) (by omega) (by omega)
      omega

theorem binaryExponent_neg (p q : Nat) (h : p < q) : binaryExponent p q ≤ -1 := by
  have hm := log2Floor_mono p q p q (Nat.le_of_lt h) (Nat.le_refl _) (Nat.le_refl _)
  unfold binaryExponent
  simp only
  by_cases h0 : (log2Floor p p : Int) - (log2Floor q q : Int) = 0
  · have hc : ¬ q * 2 ^ (0 : Int).toNat ≤ p * 2 ^ (-(0 : Int)).toNat := by
      simp only [Int.toNat_zero, neg_zero, pow_zero, Nat.mul_one]
      omega
    rw [h0, if_neg hc]
    omega
  · split <;> omega

theorem roundEven_le (N D B : Nat) (hD : 0 < D) (h : N ≤ B * D) : roundEven N D ≤ B := by
  have ht : N / D ≤ B := Nat.div_le_of_le_mul (by rw [Nat.mul_comm]; exact h)
  by_cases hlt : N / D < B
  · unfold roundEven
    split
    · omega
    · split
      · omega
      · split <;> omega
  · have heq : N / D = B := by omega
    have hge : B * D ≤ N := by
      rw [← heq]
      exact Nat.div_mul_le_self N D
    have hN : N = B * D := Nat.le_antisymm h hge
    have hr : N % D = 0 := by rw [hN]; exact Nat.mul_mod_left B D
    unfold roundEven
    rw [hr, if_pos (by omega)]
    exact ht

theorem Seconds_below_one (ttl : Int) (h1 : -1000000000 < ttl) (h2 : ttl < 1000000000) :
    Seconds ttl = 0 := by
  have ha : ttl.natAbs < 1000000000 := by omega
  have hsec : ttl.natAbs / 1000000000 = 0 := Nat.div_eq_of_lt ha
  have hnsec : ttl.natAbs % 1000000000 = ttl.natAbs := Nat.mod_eq_of_lt ha
  have hwhole : (float64 ttl.natAbs 1000000000).1 *
      2 ^ (float64 ttl.natAbs 1000000000).2.toNat /
        2 ^ (-(float64 ttl.natAbs 1000000000).2).toNat = 0 := by
    by_cases h0 : ttl.natAbs = 0
    · rw [h0]
      rfl
    · have he := binaryExponent_neg ttl.natAbs 1000000000 ha
      simp only [float64, if_neg h0]
      generalize binaryExponent ttl.natAbs 1000000000 = e at he
      obtain ⟨s, hs⟩ : ∃ s : Nat, -(e - 52) = ((s + 53 : Nat) : Int) :=
        ⟨(-(e - 52)).toNat - 53, by omega⟩
      have hk1 : (-(e - 52)).toNat = s + 53 := by omega
      have hk2 : (e - 52).toNat = 0 := by omega
      rw [hk1, hk2]
      simp only [pow_zero, Nat.mul_one]
      apply Nat.div_eq_of_lt
      have hpow : 1000000000 ≤ 2 ^ (s + 53) := by
        have h53 : (2 : Nat) ^ 53 ≤ 2 ^ (s + 53) := Nat.pow_le_pow_right (by decide) (by omega)
        have : (1000000000 : Nat) ≤ 2 ^ 53 := by decide
        omega
      have hpos : 0 < 2 ^ (s + 53) := Nat.pos_of_ne_zero (by positivity)
      have hbound : ttl.natAbs * 2 ^ (s + 53) ≤ (2 ^ (s + 53) - 1) * 1000000000 := by
        have h3 : ttl.natAbs * 2 ^ (s + 53) ≤ (1000000000 - 1) * 2 ^ (s + 53) :=
          Nat.mul_le_mul_right _ (by omega)
        have h4 : (1000000000 - 1) * 2 ^ (s + 53) + 2 ^ (s + 53) = 1000000000 * 2 ^ (s + 53) := by
          rw [Nat.sub_mul, Nat.one_mul]
          exact Nat.sub_add_cancel (Nat.le_mul_of_pos_left _ (by decide))
        have h5 : (2 ^ (s + 53) - 1) * 1000000000 + 1000000000 = 1000000000 * 2 ^ (s + 53) := by
          rw [Nat.sub_mul, Nat.one_mul, Nat.mul_comm]
          exact Nat.sub_add_cancel (Nat.le_mul_of_pos_right _ hpos)
        omega
      have hm := roundEven_le (ttl.natAbs * 2 ^ (s + 53)) 1000000000 (2 ^ (s + 53) - 1)
        (by decide) hbound
      omega
  unfold Seconds
  simp only [hsec, hnsec, if_true, hwhole]
  split <;> rfl

/-- The `float64` of a duration of 16777216.999999999 seconds is 16777217: its whole
seconds are one more than those of the duration. -/
theorem Seconds_rounded_up :
    Seconds 16777216999999999 = 16777217 ∧ Seconds 16777215999999999 = 16777215 ∧
    Seconds 1500000000 = 1 ∧ Seconds (-1500000000) = -1 := by
  decide

/-- C30 (as amended), with `got` what the cache holds under the key and the age of
a value the difference, in `int64`, of the second of the call and the second the value was
stored.  (a) If `got` is a value that `GetSet` stored, and `int64(ttl.Seconds())` is 0 or
the value is at most that many seconds old, `GetSet` returns the cached value and does not
call the provider; (b) if the cache holds nothing under the key, or a value that `GetSet`
stored for which neither holds, `GetSet` calls the provider once, stores its result with
the current time and returns it; (c) if `got` is a value of any other type, `GetSet`
panics with the error of the type assertion and does not call the provider; (d) for
every `ttl` of more than minus one second and less than one second,
`int64(ttl.Seconds())` is 0, so a value that `GetSet` stored is returned however old it
is; (e) the age is the plain difference of the two seconds whenever that difference is
one of `int64`. -/
theorem C30_getset_cache {L V : Type} (lru : Lru L V) (c : L) (key : String) (ttl : Int)
    (provider : V) (nowCheck nowStore : Int) :
    (∀ (value : V) (time : Int), (lru.Get c key).1 = some (cached.ttlValue value time) →
      (Seconds ttl = 0 ∨ wrapInt64 (nowCheck - time) ≤ Seconds ttl) →
      LocalCache.GetSet lru c key ttl provider nowCheck nowStore =
        (.ok value, (lru.Get c key).2, 0)) ∧
    (((lru.Get c key).1 = none ∨
        ∃ (value : V) (time : Int), (lru.Get c key).1 = some (cached.ttlValue value time) ∧
          ¬ (Seconds ttl = 0 ∨ wrapInt64 (nowCheck - time) ≤ Seconds ttl)) →
      LocalCache.GetSet lru c key ttl provider nowCheck nowStore =
        (.ok provider,
          lru.Add (lru.Get c key).2 key (cached.ttlValue provider nowStore), 1)) ∧
    (∀ (typeName : String) (samePackage : Bool) (value : V),
      (lru.Get c key).1 = some (cached.other typeName samePackage value) →
      LocalCache.GetSet lru c key ttl provider nowCheck nowStore =
        (.panicked (typeAssertionError typeName samePackage), (lru.Get c key).2, 0)) ∧
    (-1000000000 < ttl → ttl < 1000000000 →
      Seconds ttl = 0 ∧
      ∀ (value : V) (time : Int), (lru.Get c key).1 = some (cached.ttlValue value time) →
        LocalCache.GetSet lru c key ttl provider nowCheck nowStore =
          (.ok value, (lru.Get c key).2, 0)) ∧
    (∀ time : Int, -9223372036854775808 ≤ nowCheck - time →
      nowCheck - time ≤ 9223372036854775807 →
      wrapInt64 (nowCheck - time) = nowCheck - time) := by
  refine ⟨?_, ?_, ?_, ?_, ?_⟩
  · intro value time hg hc
    simp only [LocalCache.GetSet, hg, if_pos hc]
  · intro h
    rcases h with hg | ⟨value, time, hg, hc⟩
    · simp only [LocalCache.GetSet, hg]
    · simp only [LocalCache.GetSet, hg, if_neg hc]
  · intro typeName samePackage value hg
    simp only [LocalCache.GetSet, hg]
  · intro h1 h2
    refine ⟨Seconds_below_one ttl h1 h2, ?_⟩
    intro value time hg
    have hc : Seconds ttl = 0 ∨ wrapInt64 (nowCheck - time) ≤ Seconds ttl :=
      Or.inl (Seconds_below_one ttl h1 h2)
    simp only [LocalCache.GetSet, hg, if_pos hc]
  · intro time h1 h2
    unfold wrapInt64
    omega

/-- C30 at a cache that holds, under the key `k`, a value stored at the second 100: with a
`ttl` of half a second it is returned at the second 5000; with a `ttl` of 10 s it is
returned at the second 110 and replaced at the second 111; and with a `ttl` of
16777216.999999999 s, whose `float64` is 16777217, it is still returned at the second
16777317. -/
theorem C30_getset_cache_witness :
    LocalCache.GetSet listLru [("k", cached.ttlValue "old" 100)] "k" 500000000 "new" 5000 5000 =
      (.ok "old", [("k", cached.ttlValue "old" 100)], 0) ∧
    LocalCache.GetSet listLru [("k", cached.ttlValue "old" 100)] "k" 10000000000 "new" 110 110 =
      (.ok "old", [("k", cached.ttlValue "old" 100)], 0) ∧
    LocalCache.GetSet listLru [("k", cached.ttlValue "old" 100)] "k" 10000000000 "new" 111 112 =
      (.ok "new", [("k", cached.ttlValue "new" 112)], 1) ∧
    LocalCache.GetSet listLru [] "k" 10000000000 "new" 111 112 =
      (.ok "new", [("k", cached.ttlValue "new" 112)], 1) ∧
    LocalCache.GetSet listLru [("k", cached.ttlValue "old" 100)] "k" 16777216999999999 "new"
        16777317 16777317 =
      (.ok "old", [("k", cached.ttlValue "old" 100)], 0) ∧
    LocalCache.GetSet listLru [("k", cached.other "string" false "plain")] "k" 10000000000
        "new" 110 110 =
      (.panicked (typeAssertionError "string" false),
        [("k", cached.other "string" false "plain")], 0) :=
  ⟨((C30_getset_cache listLru [("k", cached.ttlValue "old" 100)] "k" 500000000 "new" 5000
      5000).2.2.2.1 (by decide) (by decide)).2 "old" 100 rfl,
    (C30_getset_cache listLru [("k", cached.ttlValue "old" 100)] "k" 10000000000 "new" 110
      110).1 "old" 100 rfl (by decide),
    (C30_getset_cache listLru [("k", cached.ttlValue "old" 100)] "k" 10000000000 "new" 111
      112).2.1 (Or.inr ⟨"old", 100, rfl, by decide⟩),
    (C30_getset_cache listLru [] "k" 10000000000 "new" 111 112).2.1 (Or.inl rfl),
    (C30_getset_cache listLru [("k", cached.ttlValue "old" 100)] "k" 16777216999999999 "new"
      16777317 16777317).1 "old" 100 rfl (by decide),
    (C30_getset_cache listLru [("k", cached.other "string" false "plain")] "k" 10000000000
      "new" 110 110).2.2.1 "string" false "plain" rfl⟩

/-- C30 as stated fails in two cases: with a `ttl` of minus five seconds, which is below
one second, a value stored in this very second is not returned but replaced by the
provider's; and under a key that holds a value of another type, as `Set` stores it (here
a string), `GetSet` neither returns the cached value nor calls the provider: it panics
with the error of the type assertion. -/
theorem C30_negative_ttl_and_foreign_value :
    (-5000000000 : Int) < 1000000000 ∧
    Seconds (-5000000000) = -5 ∧
    LocalCache.GetSet listLru [("k", cached.ttlValue "old" 100)] "k" (-5000000000) "new" 100
        100 =
      (.ok "new", [("k", cached.ttlValue "new" 100)], 1) ∧
    LocalCache.GetSet listLru [("k", cached.other "string" false "plain")] "k" 0 "new" 100 100 =
      (.panicked (.error ⟨"interface conversion: interface {} is string, not beeorm.ttlValue"⟩),
        [("k", cached.other "string" false "plain")], 0) := by
  decide

/-! ## C26: `Consumer` -/

theorem poolScan_set (pools : List (String × String)) (streams : List String) :
    ∀ redisPool : String, redisPool ≠ "" →
      (poolScan pools streams redisPool = .ok redisPool ∧
        ∀ s ∈ streams, mapGet pools s = redisPool) ∨
      (poolScan pools streams redisPool =
          .panicked (.error (fmtErrorf "reading from different redis pool not allowed")) ∧
        ∃ s ∈ streams, mapGet pools s ≠ redisPool) := by
  induction streams with
  | nil => intro redisPool _; left; exact ⟨rfl, by intro s hs; simp at hs⟩
  | cons stream rest ih =>
    intro redisPool hne
    simp only [poolScan, if_neg hne]
    by_cases h : redisPool = mapGet pools stream
    · have h2 : ¬ redisPool ≠ mapGet pools stream := fun h3 => h3 h
      rw [if_neg h2]
      rcases ih redisPool hne with ⟨h3, h4⟩ | ⟨h3, s, hs, h4⟩
      · left
        refine ⟨h3, ?_⟩
        intro s hs
        rcases List.mem_cons.1 hs with hs | hs
        · rw [hs]; exact h.symm
        · exact h4 s hs
      · right
        exact ⟨h3, s, List.mem_cons_of_mem _ hs, h4⟩
    · rw [if_pos h]
      right
      exact ⟨rfl, stream, List.mem_cons_self _ _, fun h3 => h h3.symm⟩

theorem mapGet_lookup (pools : List (String × String)) (s : String)
    (h : mapGet pools s ≠ "") : pools.lookup s = some (mapGet pools s) := by
  induction pools with
  | nil => simp [mapGet] at h
  | cons p rest ih =>
    obtain ⟨k, v⟩ := p
    by_cases hk : k = s
    · subst hk
      simp [mapGet, List.lookup]
    · have hk2 : (s == k) = false := by
        simp only [beq_eq_false_iff_ne, ne_eq]
        exact fun h2 => hk h2.symm
      simp only [mapGet, if_neg hk] at h ⊢
      simp only [List.lookup, hk2]
      exact ih h

theorem Consumer_checks (engine : Engine) (group : String)
    (hne : ∀ s ∈ engine.getRedisStreamsForGroup group,
      mapGet engine.redisStreamPools s ≠ "") :
    ((∃ s1 ∈ engine.getRedisStreamsForGroup group,
        ∃ s2 ∈ engine.getRedisStreamsForGroup group,
          mapGet engine.redisStreamPools s1 ≠ mapGet engine.redisStreamPools s2) →
      (Consumer engine group : Outcome (eventsConsumer W)) =
        .panicked (.error (fmtErrorf "reading from different redis pool not allowed"))) ∧
    (∀ r : eventsConsumer W, Consumer engine group = .ok r →
      r.streams = engine.getRedisStreamsForGroup group ∧
      ∀ s ∈ engine.getRedisStreamsForGroup group,
        getRedisForStream engine s = .ok r.poolCode) := by
  unfold Consumer
  simp only
  cases hstreams : engine.getRedisStreamsForGroup group with
  | nil =>
    refine ⟨?_, ?_⟩
    · rintro ⟨s1, h1, _⟩
      simp at h1
    · intro r h
      simp at h
  | cons stream rest =>
    rw [hstreams] at hne
    have h0 : ¬ ((stream :: rest).length = 0) := by simp
    have hp : mapGet engine.redisStreamPools stream ≠ "" := hne stream (List.mem_cons_self _ _)
    simp only [if_neg h0, poolScan, if_true]
    rcases poolScan_set engine.redisStreamPools rest (mapGet engine.redisStreamPools stream) hp
      with ⟨h3, h4⟩ | ⟨h3, s, hs, h4⟩
    · rw [h3]
      have hall : ∀ s ∈ stream :: rest,
          mapGet engine.redisStreamPools s = mapGet engine.redisStreamPools stream := by
        intro s hs
        rcases List.mem_cons.1 hs with hs | hs
        · rw [hs]
        · exact h4 s hs
      refine ⟨?_, ?_⟩
      · rintro ⟨s1, h1, s2, h2, hdiff⟩
        exact absurd ((hall s1 h1).trans (hall s2 h2).symm) hdiff
      · intro r hr
        by_cases hmem : mapGet engine.redisStreamPools stream ∈ engine.redisPools
        · simp only [GetRedis, if_pos hmem, Outcome.ok.injEq] at hr
          subst hr
          refine ⟨rfl, ?_⟩
          intro s hs
          simp only [getRedisForStream]
          rw [mapGet_lookup _ _ (hne s hs), hall s hs]
          simp only [GetRedis, if_pos hmem]
        · simp [GetRedis, if_neg hmem] at hr
    · rw [h3]
      refine ⟨fun _ => rfl, ?_⟩
      intro r hr
      simp at hr

theorem Consumer_no_streams (engine : Engine) (group : String)
    (h : engine.getRedisStreamsForGroup group = []) :
    (Consumer engine group : Outcome (eventsConsumer W)) =
      .panicked (.error (fmtErrorf ("unregistered streams for group " ++ group))) := by
  simp [Consumer, h]

/-- C26: `Consumer` does not reject every group whose streams are on different pools.  In
an engine one of whose pools has the empty text as its code, the group `g` reads the stream
`a` of that pool and the stream `b` of the pool `x`: `Consumer` does not panic, and the
handle it returns reads both streams from the pool `x`, to which the stream `a` does not
resolve.  (The scan of lines 202-209 takes the empty text for "no pool seen yet".) -/
theorem C26_empty_pool_code_not_rejected :
    getRedisForStream engineEmptyCode "a" = .ok "" ∧
    getRedisForStream engineEmptyCode "b" = .ok "x" ∧
    (Consumer engineEmptyCode "g" : Outcome (eventsConsumer Unit)).panic? = none ∧
    (Consumer engineEmptyCode "g" : Outcome (eventsConsumer Unit)).value?.map
      (fun r => (r.poolCode, r.streams)) = some ("x", ["a", "b"]) := by
  decide

/-! ## C25: unregistered streams -/

theorem getRedisForStream_cases (engine : Engine) (stream : String) :
    (∃ r, getRedisForStream engine stream = .ok r) ∨
    (∃ v, getRedisForStream engine stream = .panicked v) := by
  unfold getRedisForStream
  cases engine.redisStreamPools.lookup stream with
  | none => right; exact ⟨_, rfl⟩
  | some pool =>
    simp only [GetRedis]
    by_cases h : pool ∈ engine.redisPools
    · left; exact ⟨pool, by rw [if_pos h]⟩
    · right; exact ⟨_, by rw [if_neg h]⟩

theorem unregistered_texts_differ (stream code : String) :
    "unregistered stream " ++ stream ≠ "unregistered redis cache pool '" ++ code ++ "'" := by
  intro h
  have h2 := congrArg String.data h
  simp only [String.data_append] at h2
  have h3 := congrArg (fun l => l[13]?) h2
  simp at h3

theorem groupStreams_panics (engine : Engine) :
    ∀ (l : List (String × List (List String)))
      (grouped : List (String × List (String × List (List String)))),
      (∃ p ∈ l, engine.redisStreamPools.lookup p.1 = none) →
      ∃ v, groupStreams engine l grouped = .panicked v := by
  intro l
  induction l with
  | nil => intro grouped h; obtain ⟨p, hp, _⟩ := h; simp at hp
  | cons q rest ih =>
    intro grouped h
    obtain ⟨stream, events⟩ := q
    simp only [groupStreams]
    rcases getRedisForStream_cases engine stream with ⟨r, hr⟩ | ⟨v, hv⟩
    · rw [hr]
      obtain ⟨p, hp, hnone⟩ := h
      rcases List.mem_cons.1 hp with hp | hp
      · subst hp
        simp [getRedisForStream, hnone] at hr
      · exact ih _ ⟨p, hp, hnone⟩
    · rw [hv]
      exact ⟨v, rfl⟩

/-- C25: the resolution of a stream to its pool panics with `unregistered stream <name>`
exactly when the stream is not in the map `redisStreamPools`; `Publish` of the broker to
such a stream panics with that error and appends nothing; and a `Flush` whose buffer holds
such a stream panics, in whatever order the buffer is visited, having executed no pipeline
and with the buffer as it was. -/
theorem C25_unregistered_stream (engine : Engine) :
    (∀ stream : String,
      getRedisForStream engine stream =
          .panicked (.error (fmtErrorf ("unregistered stream " ++ stream))) ↔
        engine.redisStreamPools.lookup stream = none) ∧
    (∀ {β : Type} (Marshal : β → Except GoError String) (stream : String) (body : Option β)
        (meta : List String), engine.redisStreamPools.lookup stream = none →
      eventBroker.Publish Marshal engine stream body meta =
        (.panicked (.error (fmtErrorf ("unregistered stream " ++ stream))), [])) ∧
    (∀ (order : RangeOrder) (ef : eventFlusher), (order.streams ef.events).Perm ef.events →
      (∃ p ∈ ef.events, engine.redisStreamPools.lookup p.1 = none) →
      ∃ v, eventFlusher.Flush order engine ef = (.panicked v, [], ef)) := by
  refine ⟨?_, ?_, ?_⟩
  · intro stream
    constructor
    · intro h
      cases hl : engine.redisStreamPools.lookup stream with
      | none => rfl
      | some pool =>
        exfalso
        simp only [getRedisForStream, hl, GetRedis] at h
        by_cases hm : pool ∈ engine.redisPools
        · simp [if_pos hm] at h
        · simp only [if_neg hm, Outcome.panicked.injEq, PanicValue.error.injEq, fmtErrorf,
            GoError.mk.injEq] at h
          exact unregistered_texts_differ stream pool h.symm
    · intro h
      simp [getRedisForStream, h]
  · intro β Marshal stream body meta h
    simp [eventBroker.Publish, getRedisForStream, h]
  · intro order ef hperm ⟨p, hp, hnone⟩
    obtain ⟨v, hv⟩ := groupStreams_panics engine (order.streams ef.events) []
      ⟨p, hperm.mem_iff.2 hp, hnone⟩
    exact ⟨v, by simp only [eventFlusher.Flush, hv]⟩

/-- C25 at the engine `engine0`, which does not know the stream `nowhere`: the broker
appends nothing to it, and the flusher that holds an envelope for it and one for `s1`
executes no pipeline, whether `s1` is visited first or last. -/
theorem C25_unregistered_stream_witness :
    engine0.redisStreamPools.lookup "nowhere" = none ∧
    getRedisForStream engine0 "nowhere" =
      .panicked (.error (fmtErrorf "unregistered stream nowhere")) ∧
    eventBroker.Publish sampleMarshal engine0 "nowhere" (some "order 7") ["k"] =
      (.panicked (.error (fmtErrorf "unregistered stream nowhere")), []) ∧
    (∃ v, eventFlusher.Flush orderPut engine0 flusherLost = (.panicked v, [], flusherLost)) ∧
    (∃ v, eventFlusher.Flush orderReverse engine0 flusherLost =
      (.panicked v, [], flusherLost)) :=
  ⟨by decide,
    ((C25_unregistered_stream engine0).1 "nowhere").2 (by decide),
    (C25_unregistered_stream engine0).2.1 sampleMarshal "nowhere" (some "order 7") ["k"]
      (by decide),
    (C25_unregistered_stream engine0).2.2 orderPut flusherLost (List.Perm.refl _)
      ⟨("nowhere", [["s", "<b>"]]), by decide, by decide⟩,
    (C25_unregistered_stream engine0).2.2 orderReverse flusherLost (List.reverse_perm _)
      ⟨("nowhere", [["s", "<b>"]]), by decide, by decide⟩⟩

/-! ## C24: the flusher -/

theorem nodup_append_singleton (l : List String) (a : String) (h : l.Nodup) (ha : a ∉ l) :
    (l ++ [a]).Nodup := by
  refine List.nodup_append.2 ⟨h, List.nodup_singleton _, ?_⟩
  intro x hx hx2
  rw [List.mem_singleton] at hx2
  subst hx2
  exact ha hx

theorem streamsAdd_fresh (m : List (String × List (List String))) (s : String)
    (l : List (List String)) (h : s ∉ m.map Prod.fst) : streamsAdd m s l = m ++ [(s, l)] := by
  induction m with
  | nil => rfl
  | cons p rest ih =>
    obtain ⟨s1, l1⟩ := p
    simp only [List.map_cons, List.mem_cons, not_or] at h
    have hne : ¬ s1 = s := fun h2 => h.1 h2.symm
    simp only [streamsAdd, if_neg hne, ih h.2, List.cons_append]

theorem streamsAdd_keys (m : List (String × List (List String))) (s : String)
    (l : List (List String)) :
    (streamsAdd m s l).map Prod.fst =
      if s ∈ m.map Prod.fst then m.map Prod.fst else m.map Prod.fst ++ [s] := by
  induction m with
  | nil => simp [streamsAdd]
  | cons p rest ih =>
    obtain ⟨s1, l1⟩ := p
    by_cases h : s1 = s
    · subst h
      simp [streamsAdd]
    · have h2 : ¬ s = s1 := fun h3 => h h3.symm
      simp only [streamsAdd, if_neg h, List.map_cons, ih, List.mem_cons, h2, false_or]
      split <;> simp

theorem streamsAdd_nonempty (m : List (String × List (List String))) (s : String)
    (l : List (List String)) (hl : l ≠ []) (hm : ∀ p ∈ m, p.2 ≠ []) :
    ∀ p ∈ streamsAdd m s l, p.2 ≠ [] := by
  induction m with
  | nil =>
    intro p hp
    simp only [streamsAdd, List.mem_singleton] at hp
    subst hp
    exact hl
  | cons q rest ih =>
    obtain ⟨s1, l1⟩ := q
    intro p hp
    by_cases h : s1 = s
    · simp only [streamsAdd, if_pos h, List.mem_cons] at hp
      rcases hp with hp | hp
      · subst hp
        simp only [ne_eq, List.append_eq_nil, not_and]
        exact fun _ => hl
      · exact hm p (List.mem_cons_of_mem _ hp)
    · simp only [streamsAdd, if_neg h, List.mem_cons] at hp
      rcases hp with hp | hp
      · subst hp
        exact hm _ (List.mem_cons_self _ _)
      · exact ih (fun p hp => hm p (List.mem_cons_of_mem _ hp)) p hp

/-- The buffer of a new flusher is well formed, and `Publish` keeps it so. -/
theorem Publish_wellFormed {β : Type} (Marshal : β → Except GoError String) :
    NewFlusher.wellFormed ∧
    ∀ (ef ef1 : eventFlusher) (stream : String) (body : Option β) (meta : List String),
      ef.wellFormed → eventFlusher.Publish Marshal ef stream body meta = .ok ef1 →
      ef1.wellFormed := by
  refine ⟨⟨by simp [NewFlusher], by simp [NewFlusher]⟩, ?_⟩
  intro ef ef1 stream body meta hwf h
  unfold eventFlusher.Publish at h
  cases hc : createEventSlice Marshal body meta with
  | ok values =>
    simp only [hc, Outcome.ok.injEq] at h
    subst h
    refine ⟨?_, ?_⟩
    · show ((streamsAdd ef.events stream [values]).map Prod.fst).Nodup
      rw [streamsAdd_keys]
      split
      · exact hwf.1
      · rename_i hnot
        exact nodup_append_singleton _ _ hwf.1 hnot
    · exact streamsAdd_nonempty ef.events stream [values] (by simp) hwf.2
  | panicked v => simp [hc] at h
  | outOfFuel => simp [hc] at h

theorem groupedAdd_keys (g : List (String × List (String × List (List String))))
    (r s : String) (l : List (List String)) :
    (groupedAdd g r s l).map Prod.fst =
      if r ∈ g.map Prod.fst then g.map Prod.fst else g.map Prod.fst ++ [r] := by
  induction g with
  | nil => simp [groupedAdd]
  | cons p rest ih =>
    obtain ⟨r1, m1⟩ := p
    by_cases h : r1 = r
    · subst h
      simp [groupedAdd]
    · have h2 : ¬ r = r1 := fun h3 => h h3.symm
      simp only [groupedAdd, if_neg h, List.map_cons, ih, List.mem_cons, h2, false_or]
      split <;> simp

theorem groupedAdd_mem (g : List (String × List (String × List (List String))))
    (r s : String) (l : List (List String)) (hnd : (g.map Prod.fst).Nodup)
    (p : String × List (String × List (List String))) :
    p ∈ groupedAdd g r s l ↔
      (p ∈ g ∧ p.1 ≠ r) ∨
      (p.1 = r ∧ ∃ m, (r, m) ∈ g ∧ p.2 = streamsAdd m s l) ∨
      (p.1 = r ∧ r ∉ g.map Prod.fst ∧ p.2 = [(s, l)]) := by
  induction g with
  | nil =>
    obtain ⟨r2, m2⟩ := p
    simp only [groupedAdd, List.mem_singleton, Prod.mk.injEq, List.not_mem_nil, false_and,
      exists_false, and_false, List.map_nil, not_false_eq_true, true_and, false_or]
  | cons q rest ih =>
    obtain ⟨r1, m1⟩ := q
    obtain ⟨r2, m2⟩ := p
    simp only [List.map_cons, List.nodup_cons] at hnd
    have ih2 := ih hnd.2
    by_cases h : r1 = r
    · subst h
      simp only [groupedAdd, if_true, List.mem_cons, Prod.mk.injEq, List.map_cons, true_or,
        not_true_eq_false, false_and, and_false, or_false]
      constructor
      · rintro (⟨h1, h2⟩ | h1)
        · right
          exact ⟨h1, m1, by simp, h2⟩
        · left
          refine ⟨Or.inr h1, ?_⟩
          intro h2
          subst h2
          exact hnd.1 (List.mem_map.2 ⟨_, h1, rfl⟩)
      · rintro (⟨h1 | h1, h2⟩ | ⟨h1, m, h3 | h3, h4⟩)
        · exact absurd h1.1 h2
        · exact Or.inr h1
        · left
          exact ⟨h1, by rw [h4, h3.2]⟩
        · exact absurd (List.mem_map.2 ⟨_, h3, rfl⟩) hnd.1
    · have h2 : ¬ r = r1 := fun h3 => h h3.symm
      simp only [groupedAdd, if_neg h, List.mem_cons, ih2, Prod.mk.injEq, List.map_cons, h2,
        false_or, false_and]
      constructor
      · rintro (⟨h1, h3⟩ | ⟨h1, h3⟩ | h1 | h1)
        · left
          exact ⟨Or.inl ⟨h1, h3⟩, by rw [h1]; exact h⟩
        · left
          exact ⟨Or.inr h1, h3⟩
        · right; left; exact h1
        · right; right; exact h1
      · rintro (⟨h1 | h1, h3⟩ | h1 | h1)
        · left; exact h1
        · right; left; exact ⟨h1, h3⟩
        · right; right; left; exact h1
        · right; right; right; exact h1

theorem Grouped_step (engine : Engine)
    (g : List (String × List (String × List (List String))))
    (visited : List (String × List (List String))) (r s : String) (l : List (List String))
    (hg : Grouped engine g visited) (hs : s ∉ visited.map Prod.fst)
    (hr : getRedisForStream engine s = .ok r) :
    Grouped engine (groupedAdd g r s l) (visited ++ [(s, l)]) := by
  obtain ⟨h1, h2, h3, h4⟩ := hg
  have hfresh : ∀ m, (r, m) ∈ g → s ∉ m.map Prod.fst := by
    intro m hm hmem
    obtain ⟨q, hq, hq2⟩ := List.mem_map.1 hmem
    exact hs (List.mem_map.2 ⟨q, (h3 _ hm q hq).1, hq2⟩)
  refine ⟨?_, ?_, ?_, ?_⟩
  · rw [groupedAdd_keys]
    split
    · exact h1
    · rename_i hnot
      exact nodup_append_singleton _ _ h1 hnot
  · intro p hp
    rcases (groupedAdd_mem g r s l h1 p).1 hp with ⟨hp1, _⟩ | ⟨_, m, hm, hp2⟩ | ⟨_, _, hp2⟩
    · exact h2 p hp1
    · rw [hp2, streamsAdd_fresh m s l (hfresh m hm)]
      refine ⟨?_, by simp⟩
      rw [List.map_append]
      exact nodup_append_singleton _ _ (h2 _ hm).1 (hfresh m hm)
    · rw [hp2]
      exact ⟨by simp, by simp⟩
  · intro p hp q hq
    rcases (groupedAdd_mem g r s l h1 p).1 hp with ⟨hp1, _⟩ | ⟨hp1, m, hm, hp2⟩ | ⟨hp1, _, hp2⟩
    · exact ⟨List.mem_append_left _ (h3 p hp1 q hq).1, (h3 p hp1 q hq).2⟩
    · rw [hp2, streamsAdd_fresh m s l (hfresh m hm)] at hq
      rcases List.mem_append.1 hq with hq | hq
      · exact ⟨List.mem_append_left _ (h3 _ hm q hq).1, by rw [hp1]; exact (h3 _ hm q hq).2⟩
      · rw [List.mem_singleton] at hq
        subst hq
        exact ⟨by simp, by rw [hp1]; exact hr⟩
    · rw [hp2, List.mem_singleton] at hq
      subst hq
      exact ⟨by simp, by rw [hp1]; exact hr⟩
  · intro q hq
    rcases List.mem_append.1 hq with hq | hq
    · obtain ⟨p, hp, hqp, hres⟩ := h4 q hq
      by_cases hpr : p.1 = r
      · obtain ⟨r1, m⟩ := p
        simp only at hpr
        subst hpr
        refine ⟨(r1, streamsAdd m s l), ?_, ?_, hres⟩
        · exact (groupedAdd_mem g r1 s l h1 _).2 (Or.inr (Or.inl ⟨rfl, m, hp, rfl⟩))
        · rw [streamsAdd_fresh m s l (hfresh m hp)]
          exact List.mem_append_left _ hqp
      · exact ⟨p, (groupedAdd_mem g r s l h1 p).2 (Or.inl ⟨hp, hpr⟩), hqp, hres⟩
    · rw [List.mem_singleton] at hq
      subst hq
      by_cases hin : r ∈ g.map Prod.fst
      · obtain ⟨p, hp, hp2⟩ := List.mem_map.1 hin
        obtain ⟨r1, m⟩ := p
        simp only at hp2
        subst hp2
        refine ⟨(r1, streamsAdd m s l), ?_, ?_, hr⟩
        · exact (groupedAdd_mem g r1 s l h1 _).2 (Or.inr (Or.inl ⟨rfl, m, hp, rfl⟩))
        · rw [streamsAdd_fresh m s l (hfresh m hp)]
          simp
      · refine ⟨(r, [(s, l)]), ?_, by simp, hr⟩
        exact (groupedAdd_mem g r s l h1 _).2 (Or.inr (Or.inr ⟨rfl, hin, rfl⟩))

theorem groupStreams_grouped (engine : Engine) :
    ∀ (l : List (String × List (List String)))
      (g : List (String × List (String × List (List String))))
      (visited : List (String × List (List String))),
      Grouped engine g visited → ((visited ++ l).map Prod.fst).Nodup →
      (∀ p ∈ l, ∃ r, getRedisForStream engine p.1 = .ok r) →
      ∃ g1, groupStreams engine l g = .ok g1 ∧ Grouped engine g1 (visited ++ l) := by
  intro l
  induction l with
  | nil =>
    intro g visited hg _ _
    exact ⟨g, rfl, by rw [List.append_nil]; exact hg⟩
  | cons q rest ih =>
    intro g visited hg hnd hreg
    obtain ⟨s, l⟩ := q
    obtain ⟨r, hr⟩ := hreg (s, l) (List.mem_cons_self _ _)
    simp only at hr
    have hs : s ∉ visited.map Prod.fst := by
      intro hmem
      rw [List.map_append, List.map_cons] at hnd
      exact (List.disjoint_of_nodup_append hnd) hmem (List.mem_cons_self _ _)
    have hnd2 : (((visited ++ [(s, l)]) ++ rest).map Prod.fst).Nodup := by
      rw [List.append_assoc]
      exact hnd
    obtain ⟨g1, hg1, hg2⟩ := ih (groupedAdd g r s l) (visited ++ [(s, l)])
      (Grouped_step engine g visited r s l hg hs hr) hnd2
      (fun p hp => hreg p (List.mem_cons_of_mem _ hp))
    refine ⟨g1, ?_, ?_⟩
    · simp only [groupStreams, hr]
      exact hg1
    · rw [List.append_assoc] at hg2
      exact hg2

theorem flatMap_none {α β : Type} (f : α → List β) (xs : List α)
    (h : ∀ x ∈ xs, f x = []) : xs.flatMap f = [] := by
  induction xs with
  | nil => rfl
  | cons x rest ih =>
    rw [List.flatMap_cons, h x (List.mem_cons_self _ _),
      ih (fun y hy => h y (List.mem_cons_of_mem _ hy))]
    rfl

theorem flatMap_unique {α β : Type} (f : α → List β) (x0 : α) (xs : List α)
    (hnd : xs.Nodup) (hx : x0 ∈ xs) (h : ∀ x ∈ xs, x ≠ x0 → f x = []) :
    xs.flatMap f = f x0 := by
  induction xs with
  | nil => simp at hx
  | cons x rest ih =>
    rw [List.nodup_cons] at hnd
    rw [List.flatMap_cons]
    rcases List.mem_cons.1 hx with hx | hx
    · subst hx
      rw [flatMap_none f rest, List.append_nil]
      intro y hy
      exact h y (List.mem_cons_of_mem _ hy) (fun h2 => hnd.1 (h2 ▸ hy))
    · have hne : x ≠ x0 := fun h2 => hnd.1 (h2 ▸ hx)
      rw [h x (List.mem_cons_self _ _) hne, List.nil_append]
      exact ih hnd.2 hx (fun y hy => h y (List.mem_cons_of_mem _ hy))

theorem appended_pipelines (order : RangeOrder) (stream : String)
    (g : List (String × List (String × List (List String)))) :
    appended (g.map (fun p => (p.1, pipelineOf order p.2))) stream =
      g.flatMap (fun p => (order.streams p.2).flatMap
        (fun q => if q.1 = stream then q.2 else [])) := by
  have hrow : ∀ q : String × List (List String),
      (q.2.map (fun e => PipelineCommand.xAdd q.1 e)).filterMap (fun c =>
        match c with
        | .xAdd s e => if s = stream then some e else none
        | _ => none) = if q.1 = stream then q.2 else [] := by
    intro q
    rw [List.filterMap_map]
    by_cases h : q.1 = stream
    · simp only [if_pos h]
      have : ((fun c => match c with
          | PipelineCommand.xAdd s e => if s = stream then some e else none
          | _ => none) ∘ fun e => PipelineCommand.xAdd q.1 e) = some := by
        funext e
        simp [h]
      rw [this, List.filterMap_some]
    · simp only [if_neg h]
      have : ((fun c => match c with
          | PipelineCommand.xAdd s e => if s = stream then some e else none
          | _ => none) ∘ fun e => PipelineCommand.xAdd q.1 e) = fun _ => none := by
        funext e
        simp [h]
      rw [this]
      simp
  have hpipe : ∀ m : List (String × List (List String)),
      (m.flatMap (fun p => p.2.map (fun e => PipelineCommand.xAdd p.1 e))).filterMap (fun c =>
        match c with
        | .xAdd s e => if s = stream then some e else none
        | _ => none) = m.flatMap (fun q => if q.1 = stream then q.2 else []) := by
    intro m
    induction m with
    | nil => rfl
    | cons q rest ih =>
      rw [List.flatMap_cons, List.filterMap_append, hrow q, ih, List.flatMap_cons]
  unfold appended
  induction g with
  | nil => rfl
  | cons p rest ih =>
    rw [List.map_cons, List.flatMap_cons, List.filterMap_append, ih, List.flatMap_cons]
    simp only [pipelineOf]
    rw [hpipe]

/-- C24: when the buffer of a flusher is well formed and each of its streams resolves to a
pool, `Flush` returns, in whatever order the maps are visited; the envelopes its pipelines
append to a stream are the envelopes buffered for that stream, each once and in the order
of the buffer, and nothing is appended to a stream that is not buffered; every pipeline is
not empty, consists of appends, and is executed on the pool of each stream it appends to;
the pipelines are one per pool to which a buffered stream resolves; the buffer is empty
afterwards, and a `Flush` that follows executes no pipeline. -/
theorem C24_flush (order : RangeOrder) (engine : Engine) (ef : eventFlusher)
    (horder : order.valid) (hwf : ef.wellFormed)
    (hreg : ∀ p ∈ ef.events, ∃ r, getRedisForStream engine p.1 = .ok r) :
    (eventFlusher.Flush order engine ef).1 = .ok () ∧
    (∀ p ∈ ef.events, appended (eventFlusher.Flush order engine ef).2.1 p.1 = p.2) ∧
    (∀ s, s ∉ ef.events.map Prod.fst →
      appended (eventFlusher.Flush order engine ef).2.1 s = []) ∧
    (∀ p ∈ (eventFlusher.Flush order engine ef).2.1, p.2 ≠ [] ∧
      ∀ c ∈ p.2, ∃ s e, c = PipelineCommand.xAdd s e ∧
        getRedisForStream engine s = .ok p.1) ∧
    ((eventFlusher.Flush order engine ef).2.1.map Prod.fst).Nodup ∧
    (∀ r, r ∈ (eventFlusher.Flush order engine ef).2.1.map Prod.fst ↔
      ∃ p ∈ ef.events, getRedisForStream engine p.1 = .ok r) ∧
    (eventFlusher.Flush order engine ef).2.2.events = [] ∧
    eventFlusher.Flush order engine (eventFlusher.Flush order engine ef).2.2 =
      (.ok (), [], (eventFlusher.Flush order engine ef).2.2) := by
  obtain ⟨hstreams, hpools⟩ := horder
  obtain ⟨hnd, hfull⟩ := hwf
  have hperm := hstreams ef.events
  have hmem : ∀ q, q ∈ order.streams ef.events ↔ q ∈ ef.events := fun q => hperm.mem_iff
  obtain ⟨g, hg, h1, h2, h3, h4⟩ := groupStreams_grouped engine (order.streams ef.events) [] []
    ⟨by simp, by simp, by simp, by simp⟩
    (by rw [List.nil_append]; exact (hperm.map Prod.fst).nodup_iff.2 hnd)
    (fun p hp => hreg p ((hmem p).1 hp))
  rw [List.nil_append] at h3 h4
  have hpm : ∀ p, p ∈ order.pools g ↔ p ∈ g := fun p => (hpools g).mem_iff
  have hsm : ∀ (m : List (String × List (List String))) q, q ∈ order.streams m ↔ q ∈ m :=
    fun m q => (hstreams m).mem_iff
  have hnil1 : order.streams [] = [] := List.Perm.eq_nil (hstreams [])
  have hnil2 : order.pools [] = [] := List.Perm.eq_nil (hpools [])
  have hflush : eventFlusher.Flush order engine ef =
      (.ok (), (order.pools g).map (fun p => (p.1, pipelineOf order p.2)), { events := [] }) := by
    simp only [eventFlusher.Flush, hg]
  have hkeys : ((order.pools g).map (fun p => (p.1, pipelineOf order p.2))).map Prod.fst =
      (order.pools g).map Prod.fst := by
    rw [List.map_map]
    rfl
  rw [hflush]
  refine ⟨rfl, ?_, ?_, ?_, ?_, ?_, rfl, ?_⟩
  · intro q hq
    obtain ⟨p, hp, hqp, hres⟩ := h4 q ((hmem q).2 hq)
    show appended ((order.pools g).map (fun p => (p.1, pipelineOf order p.2))) q.1 = q.2
    rw [appended_pipelines, flatMap_unique _ p (order.pools g)
      (((hpools g).nodup_iff).2 (List.Nodup.of_map _ h1)) ((hpm p).2 hp)]
    · rw [flatMap_unique _ q (order.streams p.2)
        (((hstreams p.2).nodup_iff).2 (List.Nodup.of_map _ (h2 p hp).1)) ((hsm p.2 q).2 hqp)]
      · simp
      · intro q1 hq1 hne
        have hne2 : ¬ q1.1 = q.1 := fun h5 =>
          hne (List.inj_on_of_nodup_map (h2 p hp).1 ((hsm p.2 q1).1 hq1) hqp h5)
        simp only [if_neg hne2]
    · intro p1 hp1 hne
      apply flatMap_none
      intro q1 hq1
      have hne2 : ¬ q1.1 = q.1 := by
        intro h5
        have h6 := (h3 p1 ((hpm p1).1 hp1) q1 ((hsm p1.2 q1).1 hq1)).2
        rw [h5, hres] at h6
        simp only [Outcome.ok.injEq] at h6
        exact hne (List.inj_on_of_nodup_map h1 ((hpm p1).1 hp1) hp h6.symm)
      simp only [if_neg hne2]
  · intro s hs
    show appended ((order.pools g).map (fun p => (p.1, pipelineOf order p.2))) s = []
    rw [appended_pipelines]
    apply flatMap_none
    intro p1 hp1
    apply flatMap_none
    intro q1 hq1
    have hne2 : ¬ q1.1 = s := by
      intro h5
      have h6 := (h3 p1 ((hpm p1).1 hp1) q1 ((hsm p1.2 q1).1 hq1)).1
      exact hs (List.mem_map.2 ⟨q1, (hmem q1).1 h6, h5⟩)
    simp only [if_neg hne2]
  · intro pc hpc
    obtain ⟨p, hp, hpc2⟩ := List.mem_map.1 hpc
    subst hpc2
    have hp2 := (hpm p).1 hp
    refine ⟨?_, ?_⟩
    · obtain ⟨q, rest, hm⟩ := List.exists_cons_of_ne_nil (h2 p hp2).2
      have hq : q ∈ p.2 := by rw [hm]; exact List.mem_cons_self _ _
      obtain ⟨e, l, he⟩ := List.exists_cons_of_ne_nil
        (hfull q ((hmem q).1 (h3 p hp2 q hq).1))
      have hin : PipelineCommand.xAdd q.1 e ∈ pipelineOf order p.2 := by
        simp only [pipelineOf, List.mem_flatMap, List.mem_map]
        exact ⟨q, (hsm p.2 q).2 hq, e, by rw [he]; exact List.mem_cons_self _ _, rfl⟩
      exact List.ne_nil_of_mem hin
    · intro c hc
      simp only [pipelineOf, List.mem_flatMap, List.mem_map] at hc
      obtain ⟨q, hq, e, _, hce⟩ := hc
      exact ⟨q.1, e, hce.symm, (h3 p hp2 q ((hsm p.2 q).1 hq)).2⟩
  · show (((order.pools g).map (fun p => (p.1, pipelineOf order p.2))).map Prod.fst).Nodup
    rw [hkeys]
    exact (((hpools g).map Prod.fst).nodup_iff).2 h1
  · intro r
    show r ∈ ((order.pools g).map (fun p => (p.1, pipelineOf order p.2))).map Prod.fst ↔ _
    rw [hkeys]
    constructor
    · intro hr
      obtain ⟨p, hp, hpr⟩ := List.mem_map.1 hr
      have hp2 := (hpm p).1 hp
      obtain ⟨q, rest, hm⟩ := List.exists_cons_of_ne_nil (h2 p hp2).2
      have hq : q ∈ p.2 := by rw [hm]; exact List.mem_cons_self _ _
      exact ⟨q, (hmem q).1 (h3 p hp2 q hq).1, by rw [← hpr]; exact (h3 p hp2 q hq).2⟩
    · rintro ⟨q, hq, hres⟩
      obtain ⟨p, hp, _, hres2⟩ := h4 q ((hmem q).2 hq)
      rw [hres] at hres2
      simp only [Outcome.ok.injEq] at hres2
      exact List.mem_map.2 ⟨p, (hpm p).2 hp, hres2.symm⟩
  · simp only [eventFlusher.Flush, hnil1, groupStreams, hnil2, List.map_nil]

/-- C24 at the flusher `flusher0` on the engine `engine0`, with the maps visited in the
reverse of the order in which their entries were put in: the pipeline of the pool `search`
holds the envelope of `s3`, the pipeline of the pool `default` the two envelopes of `s1`
in the order of the buffer and then the envelope of `s2`. -/
theorem C24_flush_witness :
    orderReverse.valid ∧ flusher0.wellFormed ∧
    (∀ p ∈ flusher0.events, ∃ r, getRedisForStream engine0 p.1 = .ok r) ∧
    eventFlusher.Flush orderReverse engine0 flusher0 =
      (.ok (),
       [("search", [PipelineCommand.xAdd "s3" ["s", "<c>"]]),
        ("default", [PipelineCommand.xAdd "s1" ["s", "<a>"],
                     PipelineCommand.xAdd "s1" ["s", "<b>", "k"],
                     PipelineCommand.xAdd "s2" ["plain"]])],
       NewFlusher) ∧
    appended (eventFlusher.Flush orderReverse engine0 flusher0).2.1 "s1" =
      [["s", "<a>"], ["s", "<b>", "k"]] ∧
    eventFlusher.Flush orderReverse engine0
        (eventFlusher.Flush orderReverse engine0 flusher0).2.2 =
      (.ok (), [], (eventFlusher.Flush orderReverse engine0 flusher0).2.2) :=
  have hvalid : orderReverse.valid := ⟨fun l => List.reverse_perm l, fun l => List.reverse_perm l⟩
  have hwf : flusher0.wellFormed := ⟨by decide, by decide⟩
  have hreg : ∀ p ∈ flusher0.events, ∃ r, getRedisForStream engine0 p.1 = .ok r := by
    intro p hp
    simp only [flusher0, List.mem_cons, List.mem_singleton, List.not_mem_nil, or_false] at hp
    rcases hp with hp | hp | hp <;> subst hp
    · exact ⟨"default", by decide⟩
    · exact ⟨"search", by decide⟩
    · exact ⟨"default", by decide⟩
  ⟨hvalid, hwf, hreg, by decide,
    (C24_flush orderReverse engine0 flusher0 hvalid hwf hreg).2.1
      ("s1", [["s", "<a>"], ["s", "<b>", "k"]]) (by decide),
    (C24_flush orderReverse engine0 flusher0 hvalid hwf hreg).2.2.2.2.2.2.2⟩

/-! ## C29: the balance of the event accumulator -/

theorem sum_map_zero {α : Type} (f : α → Int) (l : List α) (h : ∀ x ∈ l, f x = 0) :
    (l.map f).sum = 0 := by
  induction l with
  | nil => rfl
  | cons x rest ih =>
    rw [List.map_cons, List.sum_cons, h x (List.mem_cons_self _ _),
      ih (fun y hy => h y (List.mem_cons_of_mem _ hy))]
    rfl

theorem append_left_cancel (p a b : String) (h : p ++ a = p ++ b) : a = b := by
  have h2 := congrArg String.data h
  simp only [String.data_append] at h2
  exact String.ext (List.append_cancel_left h2)

theorem idle_refl (st : State W) : Idle st st :=
  ⟨rfl, rfl, rfl, [], by simp, by intro c hc; simp at hc⟩

theorem idle_trans {a b c : State W} (h1 : Idle a b) (h2 : Idle b c) : Idle a c := by
  obtain ⟨e1, l1, p1, n1, t1, q1⟩ := h1
  obtain ⟨e2, l2, p2, n2, t2, q2⟩ := h2
  refine ⟨e2.trans e1, l2.trans l1, p2.trans p1, n1 ++ n2,
    by rw [t2, t1, List.append_assoc], ?_⟩
  intro x hx
  rcases List.mem_append.1 hx with h | h
  · exact q1 x h
  · rw [p1] at q2
    exact q2 x h

theorem idle_of_kept {P : Call → Prop} {st st1 : State W} (h : Kept P st st1)
    (hP : ∀ c, P c → Call.inDispatch c = false)
    (he : st1.r.speedEvents = st.r.speedEvents) : Idle st st1 := by
  obtain ⟨hs, new, ht, hq⟩ := h
  refine ⟨he, congrArg (fun x => x.speedLimit) hs, congrArg (fun x => x.speedPrefixKey) hs,
    new, ht, ?_⟩
  intro c hc
  have h2 := hP c (hq c hc)
  cases c <;> first | exact ⟨rfl, rfl⟩ | simp [Call.inDispatch] at h2

theorem idle_emit (env : Env W) (st : State W) (c : Call) (h : Call.inDispatch c = false) :
    Idle st (emit env st c) :=
  idle_of_kept (kept_emit (fun c => Call.inDispatch c = false) env st c h) (fun _ h => h) rfl

theorem balanced_idle {st st1 : State W} (hb : Balanced st) (h : Idle st st1) :
    Balanced st1 := by
  obtain ⟨he, hl, hp, new, ht, hq⟩ := h
  obtain ⟨b1, b2, b3⟩ := hb
  refine ⟨by rw [he]; exact b1, by rw [he, hl]; exact b2, ?_⟩
  rw [he, hp, ht]
  simp only [flushedEvents, dispatchedEvents, List.map_append, List.sum_append]
  rw [sum_map_zero _ new (fun c hc => (hq c hc).1), sum_map_zero _ new (fun c hc => (hq c hc).2)]
  simp only [flushedEvents, dispatchedEvents] at b3
  omega

theorem pendingPhase_idle (env : Env W) (fuel : Nat) (st : State W) (loc : Locals) :
    Idle st (pendingPhase env fuel st loc).2.1 := by
  refine idle_of_kept (pendingPhase_kept env fuel st loc) ?_ ?_
  · intro c h
    cases c <;> first | rfl | simp [Call.inPending] at h
  · have h2 := claimStreams_r env fuel (scanRunning env st).r.streams (scanRunning env st)
    unfold pendingPhase
    simp only
    split
    · rfl
    · split
      · rfl
      · generalize claimStreams env fuel (scanRunning env st) (scanRunning env st).r.streams = q
          at h2 ⊢
        obtain ⟨o, st3⟩ := q
        simp only at h2
        cases o <;> simp only [h2] <;> rfl

theorem obtainLoop_idle (env : Env W) :
    ∀ (fuel : Nat) (st : State W) (nr : Nat), Idle st (obtainLoop env fuel st nr).2 := by
  intro fuel
  induction fuel with
  | zero => intro st nr; exact idle_refl st
  | succ fuel ih =>
    intro st nr
    have he := idle_emit env st (Call.obtain (lockNameOf st.r (nr + 1)) st.r.lockTTL) rfl
    simp only [obtainLoop]
    split
    · split
      · exact idle_trans he (ih _ _)
      · exact he
    · refine idle_trans he ?_
      refine ⟨rfl, rfl, rfl, [Call.hSet _ _ _], rfl, ?_⟩
      intro c hc
      rw [List.mem_singleton.1 hc]
      exact ⟨rfl, rfl⟩

theorem dispatch_balanced (env : Env W) (handler : EventConsumerHandler W) (st : State W)
    (results : List XStream)
    (hret : (handler (env.step st.world Call.speedLoggerClear) (newEvents results)).panic = none)
    (hb : Balanced st) :
    (dispatchBatch env handler st results (totalMessages results)).1 = .ok () ∧
    Balanced (flushSpeed env (dispatchBatch env handler st results (totalMessages results)).2) := by
  obtain ⟨hok, htr⟩ := dispatchBatch_returned env handler st results (totalMessages results) hret
  have hse := dispatchBatch_speedEvents env handler st results (totalMessages results)
  obtain ⟨hs, _⟩ := dispatchBatch_kept env handler st results (totalMessages results)
  have hl : (dispatchBatch env handler st results (totalMessages results)).2.r.speedLimit =
      st.r.speedLimit := congrArg (fun x => x.speedLimit) hs
  have hp : (dispatchBatch env handler st results (totalMessages results)).2.r.speedPrefixKey =
      st.r.speedPrefixKey := congrArg (fun x => x.speedPrefixKey) hs
  refine ⟨hok, ?_⟩
  generalize (dispatchBatch env handler st results (totalMessages results)).2 = st2
    at htr hse hl hp
  obtain ⟨b1, b2, b3⟩ := hb
  have key : ∃ rest, st2.trace =
      st.trace ++ Call.speedLoggerClear :: Call.handler (newEvents results) :: rest ∧
      ∀ (field : String), ∀ c ∈ rest, Call.flushed field c = 0 ∧ Call.dispatched c = 0 := by
    refine ⟨_, htr, ?_⟩
    intro field c hc
    rcases List.mem_append.1 hc with hc | hc
    · obtain ⟨s, id, h | h⟩ := applyOps_calls _ _ _ c hc <;> rw [h] <;> exact ⟨rfl, rfl⟩
    · rcases List.mem_cons.1 hc with hc | hc
      · rw [hc]; exact ⟨rfl, rfl⟩
      · rcases List.mem_append.1 hc with hc | hc
        · split at hc
          · simp at hc
          · rw [List.mem_singleton.1 hc]; exact ⟨rfl, rfl⟩
        · obtain ⟨p, _, rfl⟩ := List.mem_map.1 hc
          exact ⟨rfl, rfl⟩
  clear htr
  obtain ⟨rest, htr, hzero⟩ := key
  have hlen : ((newEvents results).length : Int) = (totalMessages results : Int) := by
    rw [newEvents_length]
  have hfl : ∀ field, flushedEvents field st2.trace = flushedEvents field st.trace := by
    intro field
    rw [htr]
    unfold flushedEvents
    rw [List.map_append, List.sum_append, List.map_cons, List.sum_cons, List.map_cons,
      List.sum_cons, sum_map_zero (Call.flushed field) rest (fun c hc => (hzero field c hc).1)]
    simp [Call.flushed]
  have hdi : dispatchedEvents st2.trace = dispatchedEvents st.trace + totalMessages results := by
    rw [htr]
    unfold dispatchedEvents
    rw [List.map_append, List.sum_append, List.map_cons, List.sum_cons, List.map_cons,
      List.sum_cons, sum_map_zero Call.dispatched rest (fun c hc => (hzero "" c hc).2)]
    simp [Call.dispatched, hlen]
  have hnn : (0 : Int) ≤ (totalMessages results : Int) := Int.ofNat_nonneg _
  unfold flushSpeed
  by_cases hge : st2.r.speedEvents ≥ st2.r.speedLimit
  · simp only [if_pos hge]
    refine ⟨le_refl _, by show (0 : Int) < st2.r.speedLimit; rw [hl]; omega, ?_⟩
    show flushedEvents (st2.r.speedPrefixKey ++ "e") (st2.trace ++ [_]) + 0 =
      dispatchedEvents (st2.trace ++ [_])
    have hne : ∀ a : String, a ≠ "e" → ¬ st2.r.speedPrefixKey ++ a = st2.r.speedPrefixKey ++ "e" :=
      fun a ha h => ha (append_left_cancel _ _ _ h)
    simp only [flushedEvents, dispatchedEvents, List.map_append, List.sum_append, List.map_cons,
      List.map_nil, List.sum_cons, List.sum_nil, Call.flushed, Call.dispatched, if_true,
      hne "t" (by decide), hne "d" (by decide), hne "dt" (by decide), hne "r" (by decide),
      hne "rt" (by decide), if_false]
    have h1 := hfl (st2.r.speedPrefixKey ++ "e")
    simp only [flushedEvents, dispatchedEvents] at h1 hdi b3
    rw [hp] at h1 ⊢
    rw [h1, hdi, hse]
    omega
  · simp only [if_neg hge]
    refine ⟨by rw [hse]; omega, by omega, ?_⟩
    rw [hp, hfl, hdi, hse]
    omega

theorem readLoop_balanced (env : Env W) (handler : EventConsumerHandler W) (count : Int)
    (invalidCheck : Bool) (hquiet : ∀ w evs, (handler w evs).panic = none) :
    ∀ (fuel : Nat) (st : State W) (loc : Locals), Balanced st →
      Balanced (readLoop env handler count invalidCheck fuel st loc).2.1 := by
  intro fuel
  induction fuel with
  | zero => intro st loc hb; exact hb
  | succ fuel ih =>
    intro st loc hb
    by_cases hc : env.canceled st.world = true
    · rw [readLoop_canceled env handler count invalidCheck fuel st loc hc]
      exact hb
    · have hc1 : env.canceled st.world = false := by simpa using hc
      by_cases hl : slotLost env st loc
      · rw [readLoop_slotLost env handler count invalidCheck fuel st loc hc1 hl]
        exact hb
      · have he : Balanced (afterRead env st loc count invalidCheck) :=
          balanced_idle hb (idle_emit env st _ rfl)
        by_cases hc2 : env.canceled (afterRead env st loc count invalidCheck).world = true
        · rw [readLoop_canceled_after env handler count invalidCheck fuel st loc hc1 hl hc2]
          exact he
        · have hc3 : env.canceled (afterRead env st loc count invalidCheck).world = false := by
            simpa using hc2
          by_cases h0 : totalMessages (readResults env st loc count invalidCheck) = 0
          · rw [readLoop_empty env handler count invalidCheck fuel st loc hc1 hl hc3 h0]
            exact he
          · rw [readLoop_dispatch env handler count invalidCheck fuel st loc hc1 hl hc3 h0]
            have hd := dispatch_balanced env handler (afterRead env st loc count invalidCheck)
              (readResults env st loc count invalidCheck) (hquiet _ _) he
            generalize dispatchBatch env handler (afterRead env st loc count invalidCheck)
              (readResults env st loc count invalidCheck)
              (totalMessages (readResults env st loc count invalidCheck)) = q at hd ⊢
            obtain ⟨o, st2⟩ := q
            obtain ⟨hok, hb2⟩ := hd
            simp only at hok hb2
            subst hok
            simp only
            split
            · exact hb2
            · exact ih _ _ hb2

theorem keysLoop_balanced (env : Env W) (handler : EventConsumerHandler W) (count : Int)
    (fuel : Nat) (hquiet : ∀ w evs, (handler w evs).panic = none) (keys : List String) :
    ∀ (st : State W) (loc : Locals), Balanced st →
      Balanced (keysLoop env handler count fuel keys st loc).2.1 := by
  induction keys with
  | nil => intro st loc hb; exact hb
  | cons key keys ih =>
    intro st loc hb
    simp only [keysLoop]
    split
    · have h := balanced_idle hb (pendingPhase_idle env fuel st loc)
      generalize pendingPhase env fuel st loc = q at h ⊢
      obtain ⟨o, st1, loc1⟩ := q
      cases o with
      | ok u => exact ih st1 loc1 h
      | panicked v => exact h
      | outOfFuel => exact h
    · have h := readLoop_balanced env handler count (decide (key = "0")) hquiet fuel st
        (if key = "0" then { loc with lastIDs := resetLastIDs loc.lastIDs st.r.streams }
          else loc) hb
      generalize readLoop env handler count (decide (key = "0")) fuel st
        (if key = "0" then { loc with lastIDs := resetLastIDs loc.lastIDs st.r.streams }
          else loc) = q at h ⊢
      obtain ⟨o, st1, loc1⟩ := q
      cases o with
      | ok b =>
        cases b with
        | none => exact ih st1 loc1 h
        | some b => exact h
      | panicked v => exact h
      | outOfFuel => exact h

theorem outerLoop_balanced (env : Env W) (handler : EventConsumerHandler W) (count : Int)
    (hquiet : ∀ w evs, (handler w evs).panic = none) :
    ∀ (fuel : Nat) (st : State W) (loc : Locals), Balanced st →
      Balanced (outerLoop env handler count fuel st loc).2 := by
  intro fuel
  induction fuel with
  | zero => intro st loc hb; exact hb
  | succ fuel ih =>
    intro st loc hb
    have h := keysLoop_balanced env handler count fuel hquiet ["pending", "0", ">"] st loc hb
    simp only [outerLoop]
    generalize keysLoop env handler count fuel ["pending", "0", ">"] st loc = q at h ⊢
    obtain ⟨o, st1, loc1⟩ := q
    simp only at h
    cases o with
    | ok b =>
      cases b with
      | none =>
        simp only
        split
        · exact h
        · exact ih st1 loc1 h
      | some valid => exact h
    | panicked v => exact h
    | outOfFuel => exact h

theorem deferred_idle (env : Env W) (st : State W) (lockName : String) :
    Idle st (deferred env st lockName) :=
  ⟨rfl, rfl, rfl, [Call.release lockName], rfl, by
    intro c hc; rw [List.mem_singleton.1 hc]; exact ⟨rfl, rfl⟩⟩

theorem consume_balanced (env : Env W) (handler : EventConsumerHandler W) (count : Int)
    (hquiet : ∀ w evs, (handler w evs).panic = none) (fuel : Nat) (st : State W)
    (hb : Balanced st) : Balanced (consume env handler count fuel st).2 := by
  have ha := balanced_idle hb (obtainLoop_idle env (max st.r.limit 1).toNat st 0)
  unfold consume acquire
  generalize obtainLoop env (max st.r.limit 1).toNat st 0 = q at ha ⊢
  obtain ⟨o, st1⟩ := q
  simp only at ha
  cases o with
  | panicked v => exact ha
  | outOfFuel => exact ha
  | ok lockName =>
    simp only
    have hg : Balanced (emitAll env st1
        (st1.r.streams.map (fun stream => Call.xGroupCreateMkStream stream st1.r.group "0"))) := by
      refine balanced_idle ha ⟨by simp, by simp, by simp, _, emitAll_trace _ _ _, ?_⟩
      intro c hc
      obtain ⟨s, _, rfl⟩ := List.mem_map.1 hc
      exact ⟨rfl, rfl⟩
    have ho := outerLoop_balanced env handler count hquiet fuel _
      { lockName := lockName, lockAcquired := env.now st1.world, lastIDs := [],
        pendingChecked := false, pendingCheckedTime := 0,
        b := if !st1.r.loop then -1 else st1.r.blockTime } hg
    generalize outerLoop env handler count fuel _ _ = q2 at ho ⊢
    obtain ⟨o2, st3⟩ := q2
    simp only at ho
    cases o2 with
    | outOfFuel => exact ho
    | ok valid => exact balanced_idle ho (deferred_idle env st3 lockName)
    | panicked v => exact balanced_idle ho (deferred_idle env st3 lockName)

theorem Consume_balanced (env : Env W) (handler : EventConsumerHandler W) (count : Int)
    (hquiet : ∀ w evs, (handler w evs).panic = none) :
    ∀ (fuel : Nat) (st : State W), Balanced st →
      Balanced (Consume env handler count fuel st).2 := by
  intro fuel
  induction fuel with
  | zero => intro st hb; exact hb
  | succ fuel ih =>
    intro st hb
    have hc := consume_balanced env handler count hquiet fuel st hb
    simp only [Consume]
    generalize consume env handler count fuel st = q at hc ⊢
    obtain ⟨o, st1⟩ := q
    simp only at hc
    cases o with
    | panicked v => exact hc
    | outOfFuel => exact hc
    | ok valid =>
      simp only
      split
      · exact hc
      · exact ih _ (balanced_idle hc (idle_emit env st1 _ rfl))

/-- C29: the event accumulator of a consumer handle is in balance when it is at least 0
and below `speedLimit`, and the event counts flushed so far (the increments of the field
`e` under the prefix of the consumer, over all pipelines executed) plus the accumulator
equal the number of events passed to the handler so far.  (a) A handle that has made no
call and whose accumulator is 0 is in balance, whatever its `speedLimit` of at least 1;
(b) a dispatch iteration (lines 437-523) that starts in balance and whose handler returns
normally completes and ends in balance; (c) with a handler that always returns normally,
`Consume` started in balance ends in balance, however it ends.  (The sums are those of
unbounded integers: the accumulator of a handle in balance is below `speedLimit`.) -/
theorem C29_telemetry_conservation (env : Env W) (handler : EventConsumerHandler W)
    (count : Int) :
    (∀ st : State W, st.trace = [] → st.r.speedEvents = 0 → 1 ≤ st.r.speedLimit →
      Balanced st) ∧
    (∀ (st : State W) (results : List XStream), Balanced st →
      (handler (env.step st.world Call.speedLoggerClear) (newEvents results)).panic = none →
      (dispatchBatch env handler st results (totalMessages results)).1 = .ok () ∧
      Balanced
        (flushSpeed env (dispatchBatch env handler st results (totalMessages results)).2)) ∧
    ((∀ w evs, (handler w evs).panic = none) →
      ∀ (fuel : Nat) (st : State W), Balanced st →
        Balanced (Consume env handler count fuel st).2) := by
  refine ⟨?_, ?_, ?_⟩
  · intro st ht he hl
    refine ⟨by rw [he], by rw [he]; omega, ?_⟩
    rw [ht, he]
    rfl
  · intro st results hb hret
    exact dispatch_balanced env handler st results hret hb
  · intro hquiet fuel st hb
    exact Consume_balanced env handler count hquiet fuel st hb

/-- C29 at a consumer with a speed limit of two events: the dispatch of the three messages
of `res3` flushes three events and leaves the accumulator at 0; and a run of `Consume`
that dispatches the three messages of the backlog and then one live message at a time,
until it is canceled, ends in balance. -/
theorem C29_telemetry_conservation_witness :
    Balanced stClockSpeed ∧
    (flushSpeed (envClock [] 1300) (dispatchBatch (envClock [] 1300) handlerQuiet stClockSpeed
      res3 (totalMessages res3)).2).r.speedEvents = 0 ∧
    flushedEvents "g_defaulte" (flushSpeed (envClock [] 1300) (dispatchBatch (envClock [] 1300)
      handlerQuiet stClockSpeed res3 (totalMessages res3)).2).trace = 3 ∧
    Balanced (flushSpeed (envClock [] 1300) (dispatchBatch (envClock [] 1300) handlerQuiet
      stClockSpeed res3 (totalMessages res3)).2) ∧
    (Consume (envClock [] 1300) handlerQuiet 1 20 stClockSpeed).1 = .ok () ∧
    dispatchedEvents (Consume (envClock [] 1300) handlerQuiet 1 20 stClockSpeed).2.trace = 5 ∧
    (Consume (envClock [] 1300) handlerQuiet 1 20 stClockSpeed).2.r.speedEvents = 0 ∧
    Balanced (Consume (envClock [] 1300) handlerQuiet 1 20 stClockSpeed).2 :=
  have hb : Balanced stClockSpeed :=
    (C29_telemetry_conservation (envClock [] 1300) handlerQuiet 1).1 stClockSpeed rfl rfl
      (by decide)
  ⟨hb, by decide, by decide,
    ((C29_telemetry_conservation (envClock [] 1300) handlerQuiet 1).2.1 stClockSpeed res3 hb
      rfl).2,
    by decide, by decide, by decide,
    (C29_telemetry_conservation (envClock [] 1300) handlerQuiet 1).2.2 (fun _ _ => rfl) 20
      stClockSpeed hb⟩

/-! ## C28: the paging of the claim scan -/

theorem parseDigits_isDigit :
    ∀ (cs : List Char) (acc n : Nat), parseDigits cs acc = some n →
      ∀ c ∈ cs, c.isDigit = true := by
  intro cs
  induction cs with
  | nil => intro acc n _ c hc; simp at hc
  | cons d ds ih =>
    intro acc n h c hc
    simp only [parseDigits] at h
    by_cases hd : d.isDigit = true
    · rw [if_pos hd] at h
      rcases List.mem_cons.1 hc with hc | hc
      · rw [hc]; exact hd
      · exact ih _ _ h c hc
    · rw [if_neg hd] at h
      cases h

theorem Itoa_isDigit (n : Nat) : ∀ c ∈ (Itoa n).data, c.isDigit = true :=
  parseDigits_isDigit _ 0 n (parseDigits_Itoa n)

theorem Itoa_no_dash (n : Nat) : '-' ∉ (Itoa n).data := by
  intro h
  have := Itoa_isDigit n '-' h
  revert this
  decide

theorem splitOnDash_no_dash (cs : List Char) (h : '-' ∉ cs) : splitOnDash cs = [cs] := by
  induction cs with
  | nil => rfl
  | cons c cs ih =>
    simp only [List.mem_cons, not_or] at h
    have hc : ¬ c = '-' := fun h2 => h.1 h2.symm
    simp only [splitOnDash, if_neg hc, ih h.2]

theorem splitOnDash_append (a b : List Char) (h : '-' ∉ a) :
    splitOnDash (a ++ '-' :: b) = a :: splitOnDash b := by
  induction a with
  | nil => simp [splitOnDash]
  | cons c cs ih =>
    simp only [List.mem_cons, not_or] at h
    have hc : ¬ c = '-' := fun h2 => h.1 h2.symm
    show splitOnDash (c :: (cs ++ '-' :: b)) = _
    simp only [splitOnDash, if_neg hc, ih h.2]

theorem ParseInt_Itoa (n : Nat) (h : (n : Int) ≤ maxInt64) : ParseInt (Itoa n) = n := by
  have hp := parseDigits_Itoa n
  have hd := Itoa_isDigit n
  unfold ParseInt
  generalize (Itoa n).data = cs at hp hd
  have hpd : parseDecimal cs = if cs = [] then none else some (n : Int) := by
    cases cs with
    | nil => rfl
    | cons c rest =>
      have hc := hd c (List.mem_cons_self _ _)
      have h1 : c ≠ '-' := by
        intro h2; rw [h2] at hc; revert hc; decide
      have h2 : c ≠ '+' := by
        intro h2; rw [h2] at hc; revert hc; decide
      simp only [reduceCtorEq, if_false]
      unfold parseDecimal
      split
      · rename_i heq; cases heq
      · rename_i heq
        exact absurd (List.cons.inj heq).1 h1
      · rename_i heq
        exact absurd (List.cons.inj heq).1 h2
      · rw [hp]; rfl
  rw [hpd]
  by_cases hn : cs = []
  · subst hn
    simp only [parseDigits, Option.some.injEq] at hp
    simp [← hp]
  · simp only [if_neg hn]
    have hm : maxInt64 = 9223372036854775807 := rfl
    rw [hm] at h ⊢
    have h3 : ¬ ((n : Int) > 9223372036854775807) := by omega
    have h4 : ¬ ((n : Int) < -9223372036854775807 - 1) := by omega
    simp only [if_neg h3, if_neg h4]

theorem incrementID_dash (t : String) (s : Nat) (ht : '-' ∉ t.data)
    (hs : (s : Int) < maxInt64) :
    incrementID (t ++ "-" ++ Itoa s) = some (t ++ "-" ++ Itoa (s + 1)) := by
  have hsplit : splitOnDash (t ++ "-" ++ Itoa s).data = [t.data, (Itoa s).data] := by
    have : (t ++ "-" ++ Itoa s).data = t.data ++ '-' :: (Itoa s).data := by
      simp [String.data_append]
    rw [this, splitOnDash_append _ _ ht, splitOnDash_no_dash _ (Itoa_no_dash s)]
  have hm : maxInt64 = 9223372036854775807 := rfl
  rw [hm] at hs
  have hparse : ParseInt (String.mk (Itoa s).data) = s :=
    ParseInt_Itoa s (by rw [hm]; omega)
  have hwrap : wrapInt64 ((s : Int) + 1) = ((s + 1 : Nat) : Int) := by
    unfold wrapInt64
    push_cast
    omega
  have hfmt : FormatInt ((s + 1 : Nat) : Int) = Itoa (s + 1) := by
    unfold FormatInt Itoa
    have : ¬ (((s + 1 : Nat) : Int) < 0) := by omega
    rw [if_neg this, Int.toNat_ofNat]
  simp only [incrementID, hsplit, hparse, hwrap, hfmt]

theorem render_data (x : StreamID) :
    x.render.data = (Itoa x.ms).data ++ '-' :: (Itoa x.seq).data := by
  simp [StreamID.render, String.data_append]

theorem render_has_dash (x : StreamID) : '-' ∈ x.render.data := by
  rw [render_data]
  simp

theorem render_split (x : StreamID) :
    splitOnDash x.render.data = [(Itoa x.ms).data, (Itoa x.seq).data] := by
  rw [render_data, splitOnDash_append _ _ (Itoa_no_dash _),
    splitOnDash_no_dash _ (Itoa_no_dash _)]

theorem render_injective (x y : StreamID) (h : x.render = y.render) : x = y := by
  have h2 := render_split x
  rw [h, render_split y] at h2
  simp only [List.cons.injEq, and_true] at h2
  obtain ⟨x1, x2⟩ := x
  obtain ⟨y1, y2⟩ := y
  simp only at h2
  have h3 := Itoa_injective _ _ (String.ext h2.1)
  have h4 := Itoa_injective _ _ (String.ext h2.2)
  rw [h3, h4]

theorem render_next (x : StreamID) (h : (x.seq : Int) < maxInt64) :
    incrementID x.render = some x.next.render :=
  incrementID_dash (Itoa x.ms) x.seq (Itoa_no_dash _) h

theorem scanPending_last (name : String) (minIdle : Int) (pending : List XPendingExt)
    (hwf : ∀ row ∈ pending, '-' ∈ row.ID.data) :
    ∀ (ids : List String) (start : String),
      ∃ next, scanPending name minIdle pending ids start =
          .ok (ids ++ claimable name minIdle pending, next) ∧
        ((pending = [] ∧ next = start) ∨
          ∃ last, pending.getLast? = some last ∧ incrementID last.ID = some next) := by
  induction pending with
  | nil => intro ids start; exact ⟨start, by simp [scanPending, claimable], Or.inl ⟨rfl, rfl⟩⟩
  | cons row rest ih =>
    intro ids start
    obtain ⟨next, hnext⟩ := incrementID_isSome row.ID (hwf row (List.mem_cons_self _ _))
    obtain ⟨last, hlast, hcase⟩ := ih (fun r hr => hwf r (List.mem_cons_of_mem _ hr))
      (if row.Consumer ≠ name ∧ row.Idle ≥ minIdle then ids ++ [row.ID] else ids) next
    refine ⟨last, ?_, Or.inr ?_⟩
    · simp only [scanPending, hnext, hlast]
      by_cases hc : row.Consumer ≠ name ∧ row.Idle ≥ minIdle
      · simp [claimable, List.filter_cons, hc]
      · simp [claimable, List.filter_cons, hc]
    · rcases hcase with ⟨hnil, heq⟩ | ⟨l, hl, hinc⟩
      · subst hnil
        exact ⟨row, rfl, by rw [heq]; exact hnext⟩
      · refine ⟨l, ?_, hinc⟩
        cases rest with
        | nil => simp at hl
        | cons r2 rest2 => rw [List.getLast?_cons_cons]; exact hl

theorem claimPage_next (env : Env W) (st : State W) (stream start : String)
    (hwf : ∀ row ∈ env.xPendingExt st.world
        { Stream := stream, Group := st.r.group, Start := start,
          End := FormatInt (Int.tdiv (env.now st.world - st.r.minIdle) 1000000),
          Count := countPending }, '-' ∈ row.ID.data) :
    ((env.xPendingExt st.world
        { Stream := stream, Group := st.r.group, Start := start,
          End := FormatInt (Int.tdiv (env.now st.world - st.r.minIdle) 1000000),
          Count := countPending }).length < countPending →
      (claimPage env st stream start).1 = .ok none) ∧
    (countPending ≤ (env.xPendingExt st.world
        { Stream := stream, Group := st.r.group, Start := start,
          End := FormatInt (Int.tdiv (env.now st.world - st.r.minIdle) 1000000),
          Count := countPending }).length →
      ∃ last next, (env.xPendingExt st.world
        { Stream := stream, Group := st.r.group, Start := start,
          End := FormatInt (Int.tdiv (env.now st.world - st.r.minIdle) 1000000),
          Count := countPending }).getLast? = some last ∧
        incrementID last.ID = some next ∧
        (claimPage env st stream start).1 = .ok (some next)) := by
  generalize hp : env.xPendingExt st.world
        { Stream := stream, Group := st.r.group, Start := start,
          End := FormatInt (Int.tdiv (env.now st.world - st.r.minIdle) 1000000),
          Count := countPending } = page at hwf ⊢
  obtain ⟨next, hscan, hcase⟩ := scanPending_last (getName st.r) st.r.minIdle page hwf [] start
  refine ⟨?_, ?_⟩
  · intro hlt
    unfold claimPage
    simp only [hp, hscan]
    split
    · rfl
    · simp only [if_pos hlt]
  · intro hge
    have hpos : ¬ page.length = 0 := by
      have : countPending = 100 := rfl
      omega
    rcases hcase with ⟨hnil, _⟩ | ⟨last, hlast, hinc⟩
    · rw [hnil] at hpos
      exact absurd rfl hpos
    · refine ⟨last, next, hlast, hinc, ?_⟩
      unfold claimPage
      simp only [hp, hscan, if_neg hpos]
      have hnlt : ¬ page.length < countPending := by omega
      simp only [if_neg hnlt]

theorem lt_next (x : StreamID) : x.lt x.next := Or.inr ⟨rfl, Nat.lt_succ_self _⟩

theorem lt_trans_id {x y z : StreamID} (h1 : x.lt y) (h2 : y.lt z) : x.lt z := by
  unfold StreamID.lt at *
  omega

theorem lt_irrefl_id (x : StreamID) : ¬ x.lt x := by
  unfold StreamID.lt
  omega

theorem fromCursor_lt (c : Option StreamID) {x y : StreamID} (h1 : fromCursor c x = true)
    (h2 : x.lt y) : fromCursor c y = true := by
  cases c with
  | none => rfl
  | some c0 =>
    simp only [fromCursor, decide_eq_true_eq] at h1 ⊢
    rcases h1 with h1 | h1
    · right; rw [h1]; exact h2
    · right; exact lt_trans_id h1 h2

theorem fromCursor_next {x y : StreamID} (h : fromCursor (some x.next) y = true) : x.lt y := by
  simp only [fromCursor, decide_eq_true_eq] at h
  rcases h with h | h
  · rw [← h]; exact lt_next x
  · exact lt_trans_id (lt_next x) h

theorem filter_length_lt {α : Type} (p q : α → Bool) (l : List α)
    (hqp : ∀ x ∈ l, q x = true → p x = true) (hex : ∃ x ∈ l, p x = true ∧ q x = false) :
    (l.filter q).length < (l.filter p).length := by
  induction l with
  | nil => obtain ⟨x, hx, _⟩ := hex; simp at hx
  | cons a rest ih =>
    have hle : (rest.filter q).length ≤ (rest.filter p).length := by
      clear ih hex
      induction rest with
      | nil => simp
      | cons b rest2 ih2 =>
        have hb := hqp b (List.mem_cons_of_mem _ (List.mem_cons_self _ _))
        have ih3 := ih2 (fun x hx h => hqp x (by
          rcases List.mem_cons.1 hx with hx | hx
          · rw [hx]; exact List.mem_cons_self _ _
          · exact List.mem_cons_of_mem _ (List.mem_cons_of_mem _ hx)) h)
        cases hq : q b with
        | true => simp only [List.filter_cons, hq, hb hq, if_true, List.length_cons]; omega
        | false =>
          cases hpb : p b with
          | true => simp [List.filter_cons, hq, hpb]; omega
          | false => simp [List.filter_cons, hq, hpb]; omega
    obtain ⟨x, hx, hpx, hqx⟩ := hex
    rcases List.mem_cons.1 hx with hx | hx
    · subst hx
      simp only [List.filter_cons, hpx, hqx, if_true, List.length_cons]
      simp
      omega
    · have ih2 := ih (fun y hy h => hqp y (List.mem_cons_of_mem _ hy) h) ⟨x, hx, hpx, hqx⟩
      have ha := hqp a (List.mem_cons_self _ _)
      cases hq : q a with
      | true => simp only [List.filter_cons, hq, ha hq, if_true, List.length_cons]; omega
      | false =>
        cases hpa : p a with
        | true => simp [List.filter_cons, hq, hpa]; omega
        | false => simp [List.filter_cons, hq, hpa]; omega

theorem pairwise_last {xs : List StreamID} (h : xs.Pairwise StreamID.lt) {last : StreamID}
    (hl : xs.getLast? = some last) : last ∈ xs ∧ ∀ x ∈ xs, x = last ∨ x.lt last := by
  have hmem : last ∈ xs := List.mem_of_getLast?_eq_some hl
  refine ⟨hmem, ?_⟩
  obtain ⟨ys, hys⟩ : ∃ ys, xs = ys ++ [last] := by
    rcases List.eq_nil_or_concat xs with h0 | ⟨ys, b, hb⟩
    · rw [h0] at hl; simp at hl
    · refine ⟨ys, ?_⟩
      rw [hb] at hl ⊢
      simp only [List.concat_eq_append, List.getLast?_append, List.getLast?_singleton] at hl
      have hbl : b = last := by
        simpa [Option.or] using hl
      rw [List.concat_eq_append, hbl]
  subst hys
  intro x hx
  rcases List.mem_append.1 hx with hx | hx
  · right
    exact (List.pairwise_append.1 h).2.2 x hx last (List.mem_singleton_self _)
  · left
    exact List.mem_singleton.1 hx

theorem claimPage_ordered (env : Env W) (stream : String) (entries : List StreamID)
    (hstore : OrderedStore env stream entries) (st : State W) (c : Option StreamID) :
    ∃ xs : List StreamID,
      (env.xPendingExt st.world
        { Stream := stream, Group := st.r.group, Start := cursor c,
          End := FormatInt (Int.tdiv (env.now st.world - st.r.minIdle) 1000000),
          Count := countPending }).map (fun row => row.ID) = xs.map StreamID.render ∧
      xs.Pairwise StreamID.lt ∧ (∀ x ∈ xs, x ∈ entries ∧ fromCursor c x = true) ∧
      ((claimPage env st stream (cursor c)).1 = .ok none ∨
        ∃ last, xs.getLast? = some last ∧
          (claimPage env st stream (cursor c)).1 = .ok (some (cursor (some last.next)))) := by
  obtain ⟨hseq, hpages⟩ := hstore
  obtain ⟨xs, hmap, hsorted, hin⟩ := hpages st.world
    { Stream := stream, Group := st.r.group, Start := cursor c,
      End := FormatInt (Int.tdiv (env.now st.world - st.r.minIdle) 1000000),
      Count := countPending } c rfl rfl
  refine ⟨xs, hmap, hsorted, hin, ?_⟩
  have hwf : ∀ row ∈ env.xPendingExt st.world
      { Stream := stream, Group := st.r.group, Start := cursor c,
        End := FormatInt (Int.tdiv (env.now st.world - st.r.minIdle) 1000000),
        Count := countPending }, '-' ∈ row.ID.data := by
    intro row hrow
    have h1 : row.ID ∈ xs.map StreamID.render := by
      rw [← hmap]
      exact List.mem_map.2 ⟨row, hrow, rfl⟩
    obtain ⟨x, _, hx⟩ := List.mem_map.1 h1
    rw [← hx]
    exact render_has_dash x
  obtain ⟨hstop, hgo⟩ := claimPage_next env st stream (cursor c) hwf
  by_cases hlt : (env.xPendingExt st.world
      { Stream := stream, Group := st.r.group, Start := cursor c,
        End := FormatInt (Int.tdiv (env.now st.world - st.r.minIdle) 1000000),
        Count := countPending }).length < countPending
  · exact Or.inl (hstop hlt)
  · obtain ⟨last, next, hlast, hinc, hres⟩ := hgo (by omega)
    have h2 := congrArg List.getLast? hmap
    rw [List.getLast?_map, List.getLast?_map, hlast] at h2
    cases hx : xs.getLast? with
    | none => rw [hx] at h2; simp at h2
    | some xl =>
      rw [hx] at h2
      simp only [Option.map_some', Option.some.injEq] at h2
      have hxl : xl ∈ xs := List.mem_of_getLast?_eq_some hx
      rw [h2, render_next xl (hseq xl (hin xl hxl).1)] at hinc
      simp only [Option.some.injEq] at hinc
      exact Or.inr ⟨xl, rfl, by rw [hres, ← hinc]; rfl⟩

theorem claimLoop_ordered (env : Env W) (stream : String) (entries : List StreamID)
    (hstore : OrderedStore env stream entries) :
    ∀ (fuel : Nat) (st : State W) (c : Option StreamID),
      (entries.filter (fromCursor c)).length < fuel →
      (claimLoop env fuel st stream (cursor c)).1 = .ok () ∧
      ∃ ys : List StreamID,
        (scanPages env fuel st stream (cursor c)).flatMap
          (fun page => page.map (fun row => row.ID)) = ys.map StreamID.render ∧
        ys.Pairwise StreamID.lt ∧ ∀ y ∈ ys, y ∈ entries ∧ fromCursor c y = true := by
  intro fuel
  induction fuel with
  | zero => intro st c h; omega
  | succ fuel ih =>
    intro st c hfuel
    obtain ⟨xs, hmap, hsorted, hin, hres⟩ := claimPage_ordered env stream entries hstore st c
    simp only [claimLoop, scanPages]
    generalize claimPage env st stream (cursor c) = q at hres ⊢
    obtain ⟨o, st1⟩ := q
    simp only at hres
    rcases hres with hres | ⟨last, hlast, hres⟩
    · subst hres
      refine ⟨rfl, xs, ?_, hsorted, hin⟩
      simp only [List.flatMap_cons, List.flatMap_nil, List.append_nil]
      exact hmap
    · subst hres
      simp only
      obtain ⟨hlmem, hlmax⟩ := pairwise_last hsorted hlast
      have hmeasure : (entries.filter (fromCursor (some last.next))).length <
          (entries.filter (fromCursor c)).length := by
        apply filter_length_lt
        · intro x _ hx
          exact fromCursor_lt c (hin last hlmem).2 (fromCursor_next hx)
        · refine ⟨last, (hin last hlmem).1, (hin last hlmem).2, ?_⟩
          cases hf : fromCursor (some last.next) last with
          | false => rfl
          | true => exact absurd (fromCursor_next hf) (lt_irrefl_id last)
      obtain ⟨hok, ys, hys, hysorted, hyin⟩ := ih st1 (some last.next) (by omega)
      refine ⟨hok, xs ++ ys, ?_, ?_, ?_⟩
      · simp only [List.flatMap_cons, List.map_append]
        rw [hmap, hys]
      · refine List.pairwise_append.2 ⟨hsorted, hysorted, ?_⟩
        intro x hx y hy
        have hly := fromCursor_next (hyin y hy).2
        rcases hlmax x hx with h | h
        · rw [h]; exact hly
        · exact lt_trans_id h hly
      · intro y hy
        rcases List.mem_append.1 hy with hy | hy
        · exact hin y hy
        · exact ⟨(hyin y hy).1,
            fromCursor_lt c (hin last hlmem).2 (fromCursor_next (hyin y hy).2)⟩

theorem Itoa_ne_nil (n : Nat) : (Itoa n).data ≠ [] := by
  intro h
  have hp := parseDigits_Itoa n
  rw [h] at hp
  simp only [parseDigits, Option.some.injEq] at hp
  subst hp
  revert h
  decide

theorem readCursor_cursor (c : Option StreamID) : readCursor (cursor c) = c := by
  cases c with
  | none => rfl
  | some x =>
    simp only [readCursor, cursor, render_split, if_neg (Itoa_ne_nil x.ms), parseDigits_Itoa]

theorem envStore_ordered (stream : String) (entries : List StreamID)
    (hseq : ∀ x ∈ entries, (x.seq : Int) < maxInt64) (hsorted : entries.Pairwise StreamID.lt) :
    OrderedStore (envStore entries) stream entries := by
  refine ⟨hseq, ?_⟩
  intro w a c _ hstart
  refine ⟨(entries.filter (fromCursor c)).take countPending, ?_, ?_, ?_⟩
  · simp only [envStore, hstart, readCursor_cursor, List.map_map]
    rfl
  · exact List.Pairwise.sublist (List.take_sublist _ _)
      (List.Pairwise.sublist (List.filter_sublist _) hsorted)
  · intro x hx
    have h2 := List.mem_of_mem_take hx
    rw [List.mem_filter] at h2
    exact h2

theorem entries150_sorted : entries150.Pairwise StreamID.lt := by
  unfold entries150
  rw [List.pairwise_map]
  refine (List.pairwise_lt_range 150).imp ?_
  intro a b h
  left
  show a + 1 < b + 1
  omega

/-- C28: (a) the claim scan pages each stream from the start "-": a page with fewer than
`countPending` (100) rows, an empty one included, ends the paging of the stream, and after
any other page the paging goes on from `incrementID` of the ID of the last row of the page
(the IDs of a page being stream IDs, each with its dash); (b) for an ID `<t>-<s>`, with
no dash in `<t>` and `<s>` the decimal text of a number that is at least 0 and below the
largest `int`, `incrementID` returns `<t>-<s+1>`; for a stream ID this is the ID that
follows it in the order of the stream IDs, with no ID in between; (c) when the store
answers the pending queries in ID order from a finite list of pending entries, the paging
of a stream ends, given one round of fuel more than the list has entries, and no ID is
returned twice by the pages of the scan, all of whose rows are entries of the list. -/
theorem C28_claim_paging (env : Env W) :
    (∀ (fuel : Nat) (st : State W) (stream : String) (rest : List String),
      claimStreams env fuel st (stream :: rest) =
        match claimLoop env fuel st stream "-" with
        | (.ok _, st1) => claimStreams env fuel st1 rest
        | (.panicked v, st1) => (.panicked v, st1)
        | (.outOfFuel, st1) => (.outOfFuel, st1)) ∧
    (∀ (fuel : Nat) (st : State W) (stream start : String),
      claimLoop env (fuel + 1) st stream start =
        match claimPage env st stream start with
        | (.ok (some next), st1) => claimLoop env fuel st1 stream next
        | (.ok none, st1) => (.ok (), st1)
        | (.panicked v, st1) => (.panicked v, st1)
        | (.outOfFuel, st1) => (.outOfFuel, st1)) ∧
    (∀ (st : State W) (stream start : String),
      (∀ row ∈ env.xPendingExt st.world
        { Stream := stream, Group := st.r.group, Start := start,
          End := FormatInt (Int.tdiv (env.now st.world - st.r.minIdle) 1000000),
          Count := countPending }, ∃ x : StreamID, row.ID = x.render) →
      ((env.xPendingExt st.world
          { Stream := stream, Group := st.r.group, Start := start,
            End := FormatInt (Int.tdiv (env.now st.world - st.r.minIdle) 1000000),
            Count := countPending }).length < countPending →
        (claimPage env st stream start).1 = .ok none) ∧
      (countPending ≤ (env.xPendingExt st.world
          { Stream := stream, Group := st.r.group, Start := start,
            End := FormatInt (Int.tdiv (env.now st.world - st.r.minIdle) 1000000),
            Count := countPending }).length →
        ∃ last next, (env.xPendingExt st.world
          { Stream := stream, Group := st.r.group, Start := start,
            End := FormatInt (Int.tdiv (env.now st.world - st.r.minIdle) 1000000),
            Count := countPending }).getLast? = some last ∧
          incrementID last.ID = some next ∧
          (claimPage env st stream start).1 = .ok (some next))) ∧
    (∀ (t : String) (s : Nat), '-' ∉ t.data → (s : Int) < maxInt64 →
      incrementID (t ++ "-" ++ Itoa s) = some (t ++ "-" ++ Itoa (s + 1))) ∧
    (∀ x : StreamID, (x.seq : Int) < maxInt64 →
      incrementID x.render = some x.next.render ∧ x.lt x.next ∧
      ∀ y : StreamID, x.lt y → y = x.next ∨ x.next.lt y) ∧
    (∀ (stream : String) (entries : List StreamID), OrderedStore env stream entries →
      ∀ (fuel : Nat) (st : State W), entries.length < fuel →
        (claimLoop env fuel st stream "-").1 = .ok () ∧
        ((scanPages env fuel st stream "-").flatMap
          (fun page => page.map (fun row => row.ID))).Nodup ∧
        ∀ id ∈ (scanPages env fuel st stream "-").flatMap
          (fun page => page.map (fun row => row.ID)), ∃ x ∈ entries, id = x.render) := by
  refine ⟨?_, ?_, ?_, ?_, ?_, ?_⟩
  · intro fuel st stream rest
    rfl
  · intro fuel st stream start
    rfl
  · intro st stream start hids
    apply claimPage_next
    intro row hrow
    obtain ⟨x, hx⟩ := hids row hrow
    rw [hx]
    exact render_has_dash x
  · intro t s ht hs
    exact incrementID_dash t s ht hs
  · intro x hx
    refine ⟨render_next x hx, lt_next x, ?_⟩
    intro y hy
    obtain ⟨a, b⟩ := x
    obtain ⟨c, d⟩ := y
    simp only [StreamID.lt, StreamID.next, StreamID.mk.injEq] at hy ⊢
    omega
  · intro stream entries hstore fuel st hfuel
    have hlen : (entries.filter (fromCursor none)).length < fuel :=
      lt_of_le_of_lt (List.length_filter_le _ _) hfuel
    obtain ⟨hok, ys, hys, hsorted, hin⟩ :=
      claimLoop_ordered env stream entries hstore fuel st none hlen
    refine ⟨hok, ?_, ?_⟩
    · show ((scanPages env fuel st stream (cursor none)).flatMap _).Nodup
      rw [hys]
      refine List.Nodup.map (fun a b h => render_injective a b h) ?_
      refine hsorted.imp ?_
      intro a b h heq
      subst heq
      exact lt_irrefl_id a h
    · intro id hid
      have h2 : id ∈ ys.map StreamID.render := by
        rw [← hys]
        exact hid
      obtain ⟨y, hy, hyid⟩ := List.mem_map.1 h2
      exact ⟨y, (hin y hy).1, hyid.symm⟩

theorem entries150_seq : ∀ x ∈ entries150, (x.seq : Int) < maxInt64 := by
  intro x hx
  obtain ⟨i, _, hi⟩ := List.mem_map.1 hx
  rw [← hi]
  show ((0 : Nat) : Int) < maxInt64
  decide

/-- C28 at a store with the 150 pending entries `1-0` to `150-0` of the stream `s1`: the
scan reads a page of 100 rows from "-" and a page of 50 rows from `100-1`, and ends. -/
theorem C28_claim_paging_witness :
    OrderedStore (envStore entries150) "s1" entries150 ∧
    (claimPage (envStore entries150) stSlotOne "s1" "-").1 = .ok (some "100-1") ∧
    (claimPage (envStore entries150) stSlotOne "s1" "100-1").1 = .ok none ∧
    incrementID ("1526919030474" ++ "-" ++ Itoa 55) =
      some ("1526919030474" ++ "-" ++ Itoa (55 + 1)) ∧
    "1526919030474" ++ "-" ++ Itoa (55 + 1) = "1526919030474-56" ∧
    incrementID (StreamID.render ⟨5, 1⟩) = some (StreamID.render ⟨5, 2⟩) ∧
    (claimLoop (envStore entries150) 151 stSlotOne "s1" "-").1 = .ok () ∧
    (scanPages (envStore entries150) 151 stSlotOne "s1" "-").map List.length = [100, 50] ∧
    ((scanPages (envStore entries150) 151 stSlotOne "s1" "-").flatMap
      (fun page => page.map (fun row => row.ID))).Nodup :=
  have hstore : OrderedStore (envStore entries150) "s1" entries150 :=
    envStore_ordered "s1" entries150 entries150_seq entries150_sorted
  have hids : ∀ (start : String), ∀ row ∈ (envStore entries150).xPendingExt stSlotOne.world
      { Stream := "s1", Group := stSlotOne.r.group, Start := start,
        End := FormatInt (Int.tdiv ((envStore entries150).now stSlotOne.world -
          stSlotOne.r.minIdle) 1000000),
        Count := countPending }, ∃ x : StreamID, row.ID = x.render := by
    intro start row hrow
    obtain ⟨x, _, hx⟩ := List.mem_map.1 hrow
    exact ⟨x, by rw [← hx]⟩
  have hfirst := ((C28_claim_paging (envStore entries150)).2.2.1 stSlotOne "s1" "-"
    (hids "-")).2 (by decide)
  ⟨hstore,
    by
      obtain ⟨last, next, hlast, hinc, hres⟩ := hfirst
      rw [hres]
      have h2 : last.ID = "100-0" := by
        have h3 : ((envStore entries150).xPendingExt stSlotOne.world
          { Stream := "s1", Group := stSlotOne.r.group, Start := "-",
            End := FormatInt (Int.tdiv ((envStore entries150).now stSlotOne.world -
              stSlotOne.r.minIdle) 1000000),
            Count := countPending }).getLast?.map (fun row => row.ID) = some "100-0" := by
          decide
        rw [hlast] at h3
        exact Option.some.inj h3
      rw [h2] at hinc
      have h4 : incrementID "100-0" = some "100-1" := by decide
      rw [h4] at hinc
      rw [← Option.some.inj hinc],
    ((C28_claim_paging (envStore entries150)).2.2.1 stSlotOne "s1" "100-1"
      (hids "100-1")).1 (by decide),
    (C28_claim_paging (envStore entries150)).2.2.2.1 "1526919030474" 55 (by decide) (by decide),
    by decide,
    ((C28_claim_paging (envStore entries150)).2.2.2.2.1 ⟨5, 1⟩ (by decide)).1,
    ((C28_claim_paging (envStore entries150)).2.2.2.2.2 "s1" entries150 hstore 151 stSlotOne
      (by simp [entries150])).1,
    by decide,
    ((C28_claim_paging (envStore entries150)).2.2.2.2.2 "s1" entries150 hstore 151 stSlotOne
      (by simp [entries150])).2.1⟩

end Beeorm
